import Mathlib

/-!
# ARToolKit5 `AR2/featureMap.c`: a verification development

Shallow embedding of `lib/SRC/AR2/featureMap.c`.

* C `int` values are `Int`; the places where the width of `int` matters
  (the element count `xsize*ysize` handed to `fwrite`/`fread`, the bytes of an
  `int` in the file) reduce explicitly modulo `2^32`.
* `ARUint8` pixels are `Nat`; a memory block addressed through a pointer is a
  function from the index to the element (`Int → _`), a pointer into it is an
  index. The `map` of a feature map, whose length matters, is a list.
* `float` arithmetic is exact: the functions are generic in a linearly ordered
  field `K`, the library function `sqrtf` is a parameter. Loops that need not
  end take the number of iterations they may run and return an `Option`.
* In the persistence functions a `float` is the 32-bit pattern that is stored
  in the file, a `Nat` below `2^32`.
-/

namespace AR2

/-! ## Data model -/

/-- The struct `AR2FeatureMapT`: the block `map` of floats and the two
dimensions. -/
structure AR2FeatureMapT (α : Type) where
  map : List α
  xsize : Int
  ysize : Int
deriving DecidableEq, Repr

/-! ## Binary persistence: `ar2SaveFeatureMap`, `ar2ReadFeatureMap` -/

/-- The four bytes of a 32-bit word, least significant first. -/
def word32Bytes (u : Nat) : List Nat :=
  [u % 256, u / 256 % 256, u / 65536 % 256, u / 16777216 % 256]

/-- The object representation of a native `int` (32 bit, two's complement,
little endian), as `fwrite(&x, sizeof(x), 1, fp)` emits it. -/
def intBytes (v : Int) : List Nat :=
  word32Bytes (v % 4294967296).toNat

/-- The 32-bit word stored in four bytes, least significant first. -/
def bytesWord32 (b0 b1 b2 b3 : Nat) : Nat :=
  b0 + 256 * b1 + 65536 * b2 + 16777216 * b3

/-- The native `int` whose object representation is the four bytes. -/
def bytesInt (b0 b1 b2 b3 : Nat) : Int :=
  if bytesWord32 b0 b1 b2 b3 < 2147483648 then (bytesWord32 b0 b1 b2 b3 : Int)
  else (bytesWord32 b0 b1 b2 b3 : Int) - 4294967296

/-- The value of the C `int` product `a*b` on a two's complement target. -/
def intMul (a b : Int) : Int :=
  (a * b + 2147483648) % 4294967296 - 2147483648

/-- The element count `(featureMap->xsize)*(featureMap->ysize)` as `fwrite`,
`fread` and `arMalloc` receive it: the `int` product converted to `size_t`. -/
def mapCount (xsize ysize : Int) : Nat :=
  (intMul xsize ysize % 18446744073709551616).toNat

/-- The bytes of `n` floats taken from the front of a block;
`none` when the block holds fewer than `n` floats. -/
def writeFloats : Nat → List Nat → Option (List Nat)
  | 0, _ => some []
  | _ + 1, [] => none
  | n + 1, v :: vs => (writeFloats n vs).map (fun bs => word32Bytes v ++ bs)

/-- The call `fread(map, sizeof(float), n, fp)`: `n` floats read from the
front of the remaining bytes; `none` when fewer than `n` complete items are
left. -/
def readFloats : Nat → List Nat → Option (List Nat)
  | 0, _ => some []
  | n + 1, b0 :: b1 :: b2 :: b3 :: rest =>
      (readFloats n rest).map (fun vs => bytesWord32 b0 b1 b2 b3 :: vs)
  | _ + 1, _ => none

/-- The function `ar2SaveFeatureMap`: the content of the file it leaves on
return value `0` (`xsize`, `ysize`, then `xsize*ysize` floats); `none` is
the return value `-1`. The file is assumed to open and to take every
byte. -/
def ar2SaveFeatureMap (featureMap : AR2FeatureMapT Nat) : Option (List Nat) :=
  (writeFloats (mapCount featureMap.xsize featureMap.ysize) featureMap.map).map
    (fun bs => intBytes featureMap.xsize ++ (intBytes featureMap.ysize ++ bs))

/-- The function `ar2ReadFeatureMap` on the content of the file; `none` is
the return value `NULL`. -/
def ar2ReadFeatureMap : List Nat → Option (AR2FeatureMapT Nat)
  | x0 :: x1 :: x2 :: x3 :: y0 :: y1 :: y2 :: y3 :: rest =>
      let xsize := bytesInt x0 x1 x2 x3
      let ysize := bytesInt y0 y1 y2 y3
      (readFloats (mapCount xsize ysize) rest).map
        (fun vs => { map := vs, xsize := xsize, ysize := ysize })
  | _ => none

/-! ## Loop combinators -/

/-- The loop `for (v = lo; v <= hi; v++) s = body(v, s);`. -/
def forLoop {σ : Type} (lo hi : Int) (body : Int → σ → σ) (s : σ) : σ :=
  if lo ≤ hi then forLoop (lo + 1) hi body (body lo s) else s
termination_by (hi + 1 - lo).toNat
decreasing_by omega

/-- The loop `for (; i <= n - 4; i += 4) s = body4(i, s);`, returning the
final `i` together with the state. -/
def forStep4 {σ : Type} (n : Int) (body4 : Int → σ → σ) (i : Int) (s : σ) : Int × σ :=
  if i ≤ n - 4 then forStep4 n body4 (i + 4) (body4 i s) else (i, s)
termination_by (n - i).toNat
decreasing_by omega

/-- A loop `for (v = lo; v <= hi; v++)` whose body may `break`: the body
returns the new state and whether it left the loop. -/
def forBreak {σ : Type} (lo hi : Int) (body : Int → σ → σ × Bool) (s : σ) : σ :=
  if lo ≤ hi then
    if (body lo s).2 then (body lo s).1 else forBreak (lo + 1) hi body (body lo s).1
  else s
termination_by (hi + 1 - lo).toNat
decreasing_by omega

/-! ## Patch template and similarity: `make_template`, `get_similarity`,
`get_similarity_tile` -/

section Similarity

variable {K : Type} [LinearOrderedField K]

/-- The bounds test shared by `make_template` and `get_similarity`:
`cy - ts1 < 0 || cy + ts2 >= ysize || cx - ts1 < 0 || cx + ts2 >= xsize`. -/
def patchOutside (xsize ysize cx cy ts1 ts2 : Int) : Prop :=
  cy - ts1 < 0 ∨ cy + ts2 ≥ ysize ∨ cx - ts1 < 0 ∨ cx + ts2 ≥ xsize

instance (xsize ysize cx cy ts1 ts2 : Int) :
    Decidable (patchOutside xsize ysize cx cy ts1 ts2) := by
  unfold patchOutside
  infer_instance

/-- One row of the first pass of `make_template`: the loop unrolled four
times followed by the remainder loop, both adding `ip[i]` to `ave`. -/
def aveRow (ip : Int → Nat) (n : Int) (ave : K) : K :=
  let r := forStep4 n
    (fun i a => a + (ip i : K) + (ip (i + 1) : K) + (ip (i + 2) : K) + (ip (i + 3) : K)) 0 ave
  forLoop r.1 n (fun i a => a + (ip i : K)) r.2

/-- The first pass of `make_template`: the sum of the patch pixels that is
left in `ave` before the division. -/
def templateSum (imageBW : Int → Nat) (xsize cx cy ts1 ts2 : Int) : K :=
  forLoop (-ts1) ts2
    (fun j ave => aveRow (fun i => imageBW ((cy + j) * xsize + (cx - ts1) + i)) (ts1 + ts2) ave) 0

/-- The second pass of `make_template`: each entry
`tp[i+(j+ts1)*(ts1+ts2+1)]` is set to the pixel minus `ave` and its square
added to `vlen1`. The result is the buffer and `vlen1`. -/
def templateFill (imageBW : Int → Nat) (xsize cx cy ts1 ts2 : Int) (ave : K)
    (template : Int → K) : (Int → K) × K :=
  forLoop (-ts1) ts2
    (fun j s => forLoop 0 (ts1 + ts2)
      (fun i s =>
        (Function.update s.1 (i + (j + ts1) * (ts1 + ts2 + 1))
            ((imageBW ((cy + j) * xsize + (cx - ts1) + i) : K) - ave),
         s.2 + Function.update s.1 (i + (j + ts1) * (ts1 + ts2 + 1))
            ((imageBW ((cy + j) * xsize + (cx - ts1) + i) : K) - ave)
              (i + (j + ts1) * (ts1 + ts2 + 1))
          * Function.update s.1 (i + (j + ts1) * (ts1 + ts2 + 1))
            ((imageBW ((cy + j) * xsize + (cx - ts1) + i) : K) - ave)
              (i + (j + ts1) * (ts1 + ts2 + 1))))
      s)
    (template, 0)

/-- The function `make_template`. `template` is the content of the caller's
buffer on entry. `none` is the return value `-1`; `some (template, vlen)` is
the return value `0` with the buffer as written and `*vlen`. -/
def make_template (sqrtf : K → K) (imageBW : Int → Nat) (xsize ysize cx cy ts1 ts2 : Int)
    (sd_thresh : K) (template : Int → K) : Option ((Int → K) × K) :=
  if patchOutside xsize ysize cx cy ts1 ts2 then none
  else
    let ave : K := templateSum imageBW xsize cx cy ts1 ts2
      / (((ts1 + ts2 + 1) * (ts1 + ts2 + 1) : Int) : K)
    let r : (Int → K) × K := templateFill imageBW xsize cx cy ts1 ts2 ave template
    if r.2 = 0 then none
    else if r.2 / (((ts1 + ts2 + 1) * (ts1 + ts2 + 1) : Int) : K) < sd_thresh * sd_thresh then none
    else some (r.1, sqrtf r.2)

/-- One row of the accumulation of `get_similarity` and `get_similarity_tile`
on the running sums `(sx, sxx, sxy)`: the loop unrolled four times followed by
the remainder loop. `ip` is the image row, `tp` the template row. -/
def simRow (ip : Int → Nat) (tp : Int → K) (n : Int) (s : K × K × K) : K × K × K :=
  let r := forStep4 n
    (fun i s =>
      (s.1 + ((ip i + ip (i + 1) + ip (i + 2) + ip (i + 3) : Nat) : K),
       s.2.1 + ((ip i * ip i + ip (i + 1) * ip (i + 1) + ip (i + 2) * ip (i + 2)
          + ip (i + 3) * ip (i + 3) : Nat) : K),
       s.2.2 + ((ip i : K) * tp i + (ip (i + 1) : K) * tp (i + 1)
          + (ip (i + 2) : K) * tp (i + 2) + (ip (i + 3) : K) * tp (i + 3))))
    0 s
  forLoop r.1 n
    (fun i s => (s.1 + (ip i : K), s.2.1 + ((ip i * ip i : Nat) : K), s.2.2 + (ip i : K) * tp i))
    r.2

/-- The running sums `(sx, sxx, sxy)` of `get_similarity` after its loop over
`j = -ts1 .. ts2`. -/
def simSums (imageBW : Int → Nat) (xsize : Int) (template : Int → K)
    (ts1 ts2 cx cy : Int) : K × K × K :=
  forLoop (-ts1) ts2
    (fun j s => simRow (fun i => imageBW ((cy + j) * xsize + (cx - ts1) + i))
      (fun i => template (i + (j + ts1) * (ts1 + ts2 + 1))) (ts1 + ts2) s)
    (0, 0, 0)

/-- The function `get_similarity` (the active `#else` branch): the return
value and the value stored in `*sim`. -/
def get_similarity (sqrtf : K → K) (imageBW : Int → Nat) (xsize ysize : Int)
    (template : Int → K) (vlen : K) (ts1 ts2 cx cy : Int) : Int × K :=
  if patchOutside xsize ysize cx cy ts1 ts2 then (-1, -1)
  else
    let s : K × K × K := simSums imageBW xsize template ts1 ts2 cx cy
    let vlen2 : K := s.2.1 - s.1 * s.1 / (((ts1 + ts2 + 1) * (ts1 + ts2 + 1) : Int) : K)
    if vlen2 = 0 then (-1, -1)
    else (0, s.2.2 / (vlen * sqrtf vlen2))

/-- The running sums `(sx, sxx, sxy)` of one slot of `get_similarity_tile`
after its loop over `j = 0 .. ts1+ts2`, the anchor of the slot being
`(ccx, cy)`. -/
def simSumsTile (imageBW : Int → Nat) (xsize : Int) (template : Int → K)
    (ts1 ts2 ccx cy : Int) : K × K × K :=
  forLoop 0 (ts1 + ts2)
    (fun j s => simRow (fun i => imageBW ((cy + j - ts1) * xsize + (ccx - ts1) + i))
      (fun i => template (i + j * (ts1 + ts2 + 1))) (ts1 + ts2) s)
    (0, 0, 0)

/-- The value one slot of `get_similarity_tile` receives, the anchor of the
slot being `(ccx, cy)`. -/
def tileValue (sqrtf : K → K) (imageBW : Int → Nat) (xsize : Int) (template : Int → K)
    (vlen : K) (ts1 ts2 ccx cy : Int) : K :=
  let s : K × K × K := simSumsTile imageBW xsize template ts1 ts2 ccx cy
  let vlen2 : K := s.2.1 - s.1 * s.1 / (((ts1 + ts2 + 1) * (ts1 + ts2 + 1) : Int) : K)
  if vlen2 = 0 then -1
  else s.2.2 / (vlen * sqrtf vlen2)

/-- The function `get_similarity_tile` (the active `#else` branch). `sim` is
the content of the caller's block on entry, the result its content on return:
slot `tile` receives the similarity at anchor `(cx + tile, cy)` for
`0 ≤ tile < size_sim`. The function has no bounds test. -/
def get_similarity_tile (sqrtf : K → K) (imageBW : Int → Nat) (xsize : Int)
    (template : Int → K) (vlen : K) (ts1 ts2 cx cy : Int) (sim : Int → K) (size_sim : Int) :
    Int → K :=
  forLoop 0 (size_sim - 1)
    (fun tile sim =>
      Function.update sim tile (tileValue sqrtf imageBW xsize template vlen ts1 ts2 (cx + tile) cy))
    sim

/-- The first pass of the legacy branch of `get_similarity` (the branch under
`#if 0`): the sum left in `ave2` before the division. The inner state is the
read pointer `ip` (an index into `imageBW`) and `ave2`. -/
def legacySum (imageBW : Int → Nat) (xsize cx cy ts1 ts2 : Int) : K :=
  forLoop (-ts1) ts2
    (fun j ave2 =>
      (forLoop (-ts1) ts2 (fun _ s => (s.1 + 1, s.2 + (imageBW s.1 : K)))
        ((cy + j) * xsize + (cx - ts1), ave2)).2)
    0

/-- The second pass of the legacy branch on the triple `(tp, w1, vlen2)`, `tp`
being the read pointer into `template`; the inner state has the read pointer
`ip` in front. Each step computes `w2 = *(ip++) - ave2`, adds `w2*w2` to
`vlen2` and `*(tp++) * w2` to `w1`. -/
def legacyPass (imageBW : Int → Nat) (xsize : Int) (template : Int → K) (ave2 : K)
    (ts1 ts2 cx cy : Int) : Int × K × K :=
  forLoop (-ts1) ts2
    (fun j s =>
      (forLoop (-ts1) ts2
        (fun _ q =>
          (q.1 + 1, q.2.1 + 1,
            q.2.2.1 + template q.2.1 * ((imageBW q.1 : K) - ave2),
            q.2.2.2 + ((imageBW q.1 : K) - ave2) * ((imageBW q.1 : K) - ave2)))
        ((cy + j) * xsize + (cx - ts1), s)).2)
    (0, 0, 0)

/-- The legacy branch of `get_similarity` (the branch under `#if 0`): `none`
is the return value `-1` (`*sim` is not written), `some sim` the return value
`0` with the value stored in `*sim`. -/
def get_similarity_legacy (sqrtf : K → K) (imageBW : Int → Nat) (xsize ysize : Int)
    (template : Int → K) (vlen : K) (ts1 ts2 cx cy : Int) : Option K :=
  if patchOutside xsize ysize cx cy ts1 ts2 then none
  else
    let ave2 : K := legacySum imageBW xsize cx cy ts1 ts2
      / (((ts1 + ts2 + 1) * (ts1 + ts2 + 1) : Int) : K)
    let r : Int × K × K := legacyPass imageBW xsize template ave2 ts1 ts2 cx cy
    if r.2.2 = 0 then none
    else some (r.2.1 / (vlen * sqrtf r.2.2))

/-! ### The patch in the words of the specification -/

/-- The pixel at row `r`, column `c` of the patch anchored at `(cx, cy)`:
the image pixel at `(cx - ts1 + c, cy - ts1 + r)`. -/
def patchPixel (imageBW : Int → Nat) (xsize cx cy ts1 : Int) (r c : Nat) : Nat :=
  imageBW ((cy - ts1 + r) * xsize + (cx - ts1 + c))

/-- The mean of the `(ts1+ts2+1)²` pixels of the patch. -/
def patchMean (imageBW : Int → Nat) (xsize cx cy ts1 ts2 : Int) : K :=
  (∑ r ∈ Finset.range (ts1 + ts2 + 1).toNat, ∑ c ∈ Finset.range (ts1 + ts2 + 1).toNat,
      (patchPixel imageBW xsize cx cy ts1 r c : K))
    / (((ts1 + ts2 + 1) * (ts1 + ts2 + 1) : Int) : K)

/-- The sum of the squared deviations of the patch pixels from the patch
mean (the quantity `vlen1` of the specification). -/
def patchSqDev (imageBW : Int → Nat) (xsize cx cy ts1 ts2 : Int) : K :=
  ∑ r ∈ Finset.range (ts1 + ts2 + 1).toNat, ∑ c ∈ Finset.range (ts1 + ts2 + 1).toNat,
    ((patchPixel imageBW xsize cx cy ts1 r c : K) - patchMean imageBW xsize cx cy ts1 ts2)
      * ((patchPixel imageBW xsize cx cy ts1 r c : K) - patchMean imageBW xsize cx cy ts1 ts2)

/-- A template as a successful `make_template` leaves it under exact
arithmetic: the side of the patch is positive, the entries sum to zero, and
`vlen` is positive with `vlen*vlen` the sum of the squared entries. -/
def templateNormal (template : Int → K) (vlen : K) (ts1 ts2 : Int) : Prop :=
  0 < ts1 + ts2 + 1 ∧
  (∑ r ∈ Finset.range (ts1 + ts2 + 1).toNat, ∑ c ∈ Finset.range (ts1 + ts2 + 1).toNat,
    template ((c : Int) + r * (ts1 + ts2 + 1))) = 0 ∧
  0 < vlen ∧
  vlen * vlen = ∑ r ∈ Finset.range (ts1 + ts2 + 1).toNat,
    ∑ c ∈ Finset.range (ts1 + ts2 + 1).toNat,
      template ((c : Int) + r * (ts1 + ts2 + 1)) * template ((c : Int) + r * (ts1 + ts2 + 1))

end Similarity

/-! ## Feature selection: `ar2SelectFeature` -/

/-- The fields of `AR2ImageT` the functions read: the dimensions, the
resolution and the grey plane `imgBW` (the file is taken with
`AR2_CAPABLE_ADAPTIVE_TEMPLATE` at `0`, the setting its tile code is written
for). -/
structure AR2ImageT (K : Type) where
  xsize : Int
  ysize : Int
  dpi : K
  imgBW : Int → Nat

/-- The struct `AR2FeatureCoordT`. -/
structure AR2FeatureCoordT (K : Type) where
  x : Int
  y : Int
  mx : K
  my : K
  maxSim : K

/-- The variables of the minimum scan of `ar2SelectFeature`: the read pointer
`fp2` (as an index into `fimage2`), `min_sim`, `cx`, `cy`. -/
structure ScanState (K : Type) where
  fp2 : Int
  min_sim : K
  cx : Int
  cy : Int

/-- The variables that live across the iterations of the `while` loop of
`ar2SelectFeature`: the working copy `fimage2`, the `template` buffer, the
records written to `coord` (in order) and `*num`. -/
structure SelectState (K : Type) where
  fimage2 : Int → K
  template : Int → K
  coord : List (AR2FeatureCoordT K)
  num : Int

section Select

variable {K : Type} [LinearOrderedField K]

/-- The content of the `template` buffer after a call of `make_template`,
whatever the return value. -/
def make_template_buffer (imageBW : Int → Nat) (xsize ysize cx cy ts1 ts2 : Int)
    (template : Int → K) : Int → K :=
  if patchOutside xsize ysize cx cy ts1 ts2 then template
  else (templateFill imageBW xsize cx cy ts1 ts2
    (templateSum imageBW xsize cx cy ts1 ts2 / (((ts1 + ts2 + 1) * (ts1 + ts2 + 1) : Int) : K))
    template).1

/-- The copy loop `for (i = 0; i < xsize*ysize; i++) *(fp2++) = *(fp1++);`. -/
def copyMap (map : List K) (xsize ysize : Int) : Int → K :=
  fun i => if 0 ≤ i ∧ i < xsize * ysize then map.getD i.toNat 0 else 0

/-- The value `max_feature_num`: `(xsize/occ_size)*(ysize/occ_size)` with the
truncating division of C, raised to `10`. -/
def maxFeatureNum (xsize ysize occ_size : Int) : Int :=
  if (xsize.tdiv occ_size) * (ysize.tdiv occ_size) < 10 then 10
  else (xsize.tdiv occ_size) * (ysize.tdiv occ_size)

/-- The minimum scan at the head of the `while` loop. -/
def selectScan (fimage2 : Int → K) (xsize ysize : Int) (max_sim_thresh : K) : ScanState K :=
  forLoop 0 (ysize - 1)
    (fun j s => forLoop 0 (xsize - 1)
      (fun i s =>
        if fimage2 s.fp2 < s.min_sim then
          { fp2 := s.fp2 + 1, min_sim := fimage2 s.fp2, cx := i, cy := j }
        else { s with fp2 := s.fp2 + 1 })
      s)
    { fp2 := 0, min_sim := max_sim_thresh, cx := -1, cy := -1 }

/-- The exit test of the re-verification loops:
`(min < min_sim_thresh && min < min_sim) || max > 0.99f`. -/
def verifyStop (min_sim_thresh min_sim : K) (mm : K × K) : Bool :=
  decide ((mm.1 < min_sim_thresh ∧ mm.1 < min_sim) ∨ mm.2 > 99 / 100)

/-- The body of the inner re-verification loop at offset `(i, j)`, on the pair
`(min, max)`; the flag tells whether the body left the loop by `break`. -/
def verifyBody (sqrtf : K → K) (imageBW : Int → Nat) (xsize ysize : Int) (template : Int → K)
    (vlen : K) (ts1 ts2 search_size2 cx cy : Int) (min_sim_thresh min_sim : K)
    (j i : Int) (mm : K × K) : (K × K) × Bool :=
  if i * i + j * j > search_size2 * search_size2 then (mm, false)
  else if i = 0 ∧ j = 0 then (mm, false)
  else if (get_similarity sqrtf imageBW xsize ysize template vlen ts1 ts2 (cx + i) (cy + j)).1 < 0
  then (mm, false)
  else
    let sim := (get_similarity sqrtf imageBW xsize ysize template vlen ts1 ts2 (cx + i) (cy + j)).2
    let min1 := if sim < mm.1 then sim else mm.1
    if sim < mm.1 ∧ (min1 < min_sim_thresh ∧ min1 < min_sim) then ((min1, mm.2), true)
    else
      let max1 := if sim > mm.2 then sim else mm.2
      if sim > mm.2 ∧ max1 > 99 / 100 then ((min1, max1), true)
      else ((min1, max1), false)

/-- The re-verification loops of `ar2SelectFeature` over the disk of radius
`search_size2`: the final `(min, max)`. -/
def selectVerify (sqrtf : K → K) (imageBW : Int → Nat) (xsize ysize : Int) (template : Int → K)
    (vlen : K) (ts1 ts2 search_size2 cx cy : Int) (min_sim_thresh min_sim : K) : K × K :=
  forBreak (-search_size2) search_size2
    (fun j mm =>
      let mm1 := forBreak (-search_size2) search_size2
        (verifyBody sqrtf imageBW xsize ysize template vlen ts1 ts2 search_size2 cx cy
          min_sim_thresh min_sim j) mm
      (mm1, verifyStop min_sim_thresh min_sim mm1))
    (1, -1)

/-- The occlusion loops: every cell of the image within `occ_size` of
`(cx, cy)` in both directions is set to `1.0f`. -/
def occlude (fimage2 : Int → K) (xsize ysize cx cy occ_size : Int) : Int → K :=
  forLoop (-occ_size) occ_size
    (fun j f => forLoop (-occ_size) occ_size
      (fun i f =>
        if cy + j < 0 ∨ cy + j ≥ ysize ∨ cx + i < 0 ∨ cx + i ≥ xsize then f
        else Function.update f ((cy + j) * xsize + (cx + i)) 1)
      f)
    fimage2

/-- One iteration of the `while` loop of `ar2SelectFeature`; `none` when the
loop is left (by its condition or by `break`). -/
def selectStep (sqrtf : K → K) (image : AR2ImageT K) (ts1 ts2 search_size2 occ_size : Int)
    (max_sim_thresh min_sim_thresh sd_thresh : K) (st : SelectState K) : Option (SelectState K) :=
  if ¬ st.num < maxFeatureNum image.xsize image.ysize occ_size then none
  else
    let sc := selectScan st.fimage2 image.xsize image.ysize max_sim_thresh
    if sc.cx = -1 then none
    else
      let buf := make_template_buffer image.imgBW image.xsize image.ysize sc.cx sc.cy ts1 ts2
        st.template
      match make_template sqrtf image.imgBW image.xsize image.ysize sc.cx sc.cy ts1 ts2 0
        st.template with
      | none =>
          some { st with fimage2 := Function.update st.fimage2 (sc.cy * image.xsize + sc.cx) 1,
                         template := buf }
      | some (tp, vlen) =>
          if vlen / ((ts1 + ts2 + 1 : Int) : K) < sd_thresh then
            some { st with fimage2 := Function.update st.fimage2 (sc.cy * image.xsize + sc.cx) 1,
                           template := tp }
          else if verifyStop min_sim_thresh sc.min_sim
              (selectVerify sqrtf image.imgBW image.xsize image.ysize tp vlen ts1 ts2 search_size2
                sc.cx sc.cy min_sim_thresh sc.min_sim) = true then
            some { st with fimage2 := Function.update st.fimage2 (sc.cy * image.xsize + sc.cx) 1,
                           template := tp }
          else
            some { fimage2 := occlude st.fimage2 image.xsize image.ysize sc.cx sc.cy occ_size,
                   template := tp,
                   coord := st.coord ++ [{ x := sc.cx, y := sc.cy,
                                           mx := (sc.cx : K) / image.dpi * (254 / 10),
                                           my := ((image.ysize - sc.cy : Int) : K) / image.dpi
                                             * (254 / 10),
                                           maxSim := sc.min_sim }],
                   num := st.num + 1 }

/-- The state after `n` complete iterations of the `while` loop; `none` when
the loop is left earlier. -/
def selectIter (sqrtf : K → K) (image : AR2ImageT K) (ts1 ts2 search_size2 occ_size : Int)
    (max_sim_thresh min_sim_thresh sd_thresh : K) : Nat → SelectState K → Option (SelectState K)
  | 0, st => some st
  | n + 1, st =>
      (selectIter sqrtf image ts1 ts2 search_size2 occ_size max_sim_thresh min_sim_thresh
        sd_thresh n st).bind
        (selectStep sqrtf image ts1 ts2 search_size2 occ_size max_sim_thresh min_sim_thresh
          sd_thresh)

/-- The `while` loop of `ar2SelectFeature` run for at most `fuel` iterations:
the state in which the loop is left, `none` when it is still running. -/
def selectLoop (sqrtf : K → K) (image : AR2ImageT K) (ts1 ts2 search_size2 occ_size : Int)
    (max_sim_thresh min_sim_thresh sd_thresh : K) : Nat → SelectState K → Option (SelectState K)
  | 0, _ => none
  | fuel + 1, st =>
      match selectStep sqrtf image ts1 ts2 search_size2 occ_size max_sim_thresh min_sim_thresh
          sd_thresh st with
      | none => some st
      | some st1 =>
          selectLoop sqrtf image ts1 ts2 search_size2 occ_size max_sim_thresh min_sim_thresh
            sd_thresh fuel st1

/-- The state on entry to the `while` loop of `ar2SelectFeature`. -/
def selectInit (image : AR2ImageT K) (featureMap : AR2FeatureMapT K) : SelectState K :=
  { fimage2 := copyMap featureMap.map image.xsize image.ysize,
    template := fun _ => 0,
    coord := [],
    num := 0 }

/-- The function `ar2SelectFeature`, its `while` loop run for at most `fuel`
iterations. `some none` is the return value `NULL`; `some (some (coord, num))`
is the returned block (its first `*num` records) with the final `*num`;
`none` means that the call has not returned: the loop is still running after
`fuel` iterations, or `occ_size` is `0` and the division `xsize/occ_size` has
no defined result. -/
def ar2SelectFeature (sqrtf : K → K) (fuel : Nat) (image : AR2ImageT K)
    (featureMap : AR2FeatureMapT K) (ts1 ts2 search_size2 occ_size : Int)
    (max_sim_thresh min_sim_thresh sd_thresh : K) :
    Option (Option (List (AR2FeatureCoordT K) × Int)) :=
  if image.xsize ≠ featureMap.xsize ∨ image.ysize ≠ featureMap.ysize then some none
  else if occ_size = 0 then none
  else
    (selectLoop sqrtf image ts1 ts2 search_size2 occ_size max_sim_thresh min_sim_thresh sd_thresh
      fuel (selectInit image featureMap)).map (fun st => some (st.coord, st.num))

/-- The number of cells of the working map whose value is below
`max_sim_thresh`. -/
def belowCount (fimage2 : Int → K) (xsize ysize : Int) (max_sim_thresh : K) : Nat :=
  ((Finset.range (xsize * ysize).toNat).filter
    (fun n : Nat => fimage2 (n : Int) < max_sim_thresh)).card

/-- The Chebyshev distance of two records: `max(|x1 - x2|, |y1 - y2|)`. -/
def chebyshev (a b : AR2FeatureCoordT K) : Int :=
  max |a.x - b.x| |a.y - b.y|

/-- The property the occlusion loops maintain: every cell of the grid within
`occ_size` of a recorded coordinate (in both directions) holds `1.0f`, and
any two recorded coordinates are more than `occ_size` apart. -/
def selectSeparated (xsize ysize occ_size : Int) (st : SelectState K) : Prop :=
  (∀ c ∈ st.coord, ∀ x y : Int, 0 ≤ x → x < xsize → 0 ≤ y → y < ysize →
    |x - c.x| ≤ occ_size → |y - c.y| ≤ occ_size → st.fimage2 (y * xsize + x) = 1) ∧
  st.coord.Pairwise (fun a b => occ_size < chebyshev a b)

end Select

/-! ## Feature selection, parallel variant: `ar2SelectFeature2` -/

/-- The entries of `min_tab`, `i_tab` and `j_tab` that belong to one thread of
the minimum search of `ar2SelectFeature2`. -/
structure ThreadMin (K : Type) where
  min_tab : K
  i_tab : Int
  j_tab : Int

section Select2

variable {K : Type} [LinearOrderedField K]

/-- The value `max_feature_num` of `ar2SelectFeature2`, `occ_size` being the
doubled value: `(xsize/occ_size)*(ysize/occ_size) + xdiv*ydiv` with
`div_size = (ts1+ts2+1)*3` and the truncating division of C. -/
def maxFeatureNum2 (xsize ysize occ_size ts1 ts2 : Int) : Int :=
  (xsize.tdiv occ_size) * (ysize.tdiv occ_size)
    + (xsize.tdiv ((ts1 + ts2 + 1) * 3)) * (ysize.tdiv ((ts1 + ts2 + 1) * 3))

/-- The work of thread `t` in the parallel region: its slots start at
`(max_sim_thresh, -1, -1)`, and the `omp for` over `j_t` lets it run the rows
it is given, in increasing order. `owner j_t` is the thread that is given row
`j_t`. -/
def threadScan (fp2 : Int → K) (xsize ysize : Int) (max_sim_thresh : K) (owner : Int → Int)
    (t : Int) : ThreadMin K :=
  forLoop 0 (ysize - 1)
    (fun j_t s =>
      if owner j_t = t then
        forLoop 0 (xsize - 1)
          (fun i_t s =>
            if fp2 (i_t + j_t * xsize) < s.min_tab then
              { min_tab := fp2 (i_t + j_t * xsize), i_tab := i_t, j_tab := j_t }
            else s)
          s
      else s)
    { min_tab := max_sim_thresh, i_tab := -1, j_tab := -1 }

/-- The reduction over the `nb_threads = 4` threads:
`if (min_tab[nthread] < min_tab[min_thread]) min_thread = nthread;`. -/
def minThread (tab : Int → ThreadMin K) : Int :=
  forLoop 0 3 (fun nthread min_thread =>
    if (tab nthread).min_tab < (tab min_thread).min_tab then nthread else min_thread) 0

/-- The minimum search at the head of the `while` loop of
`ar2SelectFeature2`: the slots of the thread the reduction picks, that is
`(min_sim, cx, cy)`. -/
def select2Scan (fp2 : Int → K) (xsize ysize : Int) (max_sim_thresh : K) (owner : Int → Int) :
    ThreadMin K :=
  threadScan fp2 xsize ysize max_sim_thresh owner
    (minThread (threadScan fp2 xsize ysize max_sim_thresh owner))

/-- The run detection of the re-verification of `ar2SelectFeature2`: the loop
`for (; i_iter <= search_size2 && i_iter < TILE+i; ++i_iter)` with its three
`break`s, `TILE` being `512`; the result is the final `i_iter`. -/
def verifyRun (xsize ysize cx cy ts1 ts2 search_size2 j i : Int) (i_iter : Int) : Int :=
  if h : i_iter ≤ search_size2 ∧ i_iter < 512 + i then
    if i_iter * i_iter + j * j > search_size2 * search_size2 then i_iter
    else if i_iter = 0 ∧ j = 0 then i_iter
    else if patchOutside xsize ysize (cx + i_iter) (cy + j) ts1 ts2 then i_iter
    else verifyRun xsize ysize cx cy ts1 ts2 search_size2 j i (i_iter + 1)
  else i_iter
termination_by (512 + i - i_iter).toNat
decreasing_by omega

/-- The loop `for (abc = i; abc < i_iter; ++abc)` of the re-verification of
`ar2SelectFeature2`, which folds the slots of `tile_storage` into the pair
`(min, max)` and leaves at the first `min` below both thresholds or `max`
above `0.99f`. -/
def verifyFold (tile : Int → K) (min_sim_thresh min_sim : K) (i i_iter : Int) (mm : K × K) :
    K × K :=
  forBreak i (i_iter - 1)
    (fun abc mm =>
      let min1 := if tile (abc - i) < mm.1 then tile (abc - i) else mm.1
      if tile (abc - i) < mm.1 ∧ (min1 < min_sim_thresh ∧ min1 < min_sim) then ((min1, mm.2), true)
      else
        let max1 := if tile (abc - i) > mm.2 then tile (abc - i) else mm.2
        if tile (abc - i) > mm.2 ∧ max1 > 99 / 100 then ((min1, max1), true)
        else ((min1, max1), false))
    mm

/-- The loop `for (i = -search_size2; i <= search_size2; i++)` of the
re-verification of `ar2SelectFeature2` for one `j`, entered at `i` with the
pair `(min, max)` and `tile_storage`. The loop variable only grows
(`i += dst - 1` with `dst = abs(i - i_iter)`), so the loop ends. -/
def verifyRow2 (sqrtf : K → K) (imageBW : Int → Nat) (xsize ysize : Int) (template : Int → K)
    (vlen : K) (ts1 ts2 search_size2 cx cy : Int) (min_sim_thresh min_sim : K) (j : Int)
    (i : Int) (s : (K × K) × (Int → K)) : (K × K) × (Int → K) :=
  if h : i ≤ search_size2 then
    -- `if (i_iter == i) continue;`
    if verifyRun xsize ysize cx cy ts1 ts2 search_size2 j i i = i then
      verifyRow2 sqrtf imageBW xsize ysize template vlen ts1 ts2 search_size2 cx cy
        min_sim_thresh min_sim j (i + 1) s
    else
      let tile := get_similarity_tile sqrtf imageBW xsize template vlen ts1 ts2 (cx + i) (cy + j)
        s.2 |i - verifyRun xsize ysize cx cy ts1 ts2 search_size2 j i i|
      let mm := verifyFold tile min_sim_thresh min_sim i
        (verifyRun xsize ysize cx cy ts1 ts2 search_size2 j i i) s.1
      -- `if (dst > 1) i += dst - 1; if (...) break;`
      if verifyStop min_sim_thresh min_sim mm = true then (mm, tile)
      else
        verifyRow2 sqrtf imageBW xsize ysize template vlen ts1 ts2 search_size2 cx cy
          min_sim_thresh min_sim j
          ((if |i - verifyRun xsize ysize cx cy ts1 ts2 search_size2 j i i| > 1
            then i + (|i - verifyRun xsize ysize cx cy ts1 ts2 search_size2 j i i| - 1)
            else i) + 1)
          (mm, tile)
  else s
termination_by (search_size2 + 1 - i).toNat
decreasing_by
  · omega
  · split_ifs <;> omega

/-- The re-verification loops of `ar2SelectFeature2`: the final `(min, max)`
and `tile_storage`. -/
def selectVerify2 (sqrtf : K → K) (imageBW : Int → Nat) (xsize ysize : Int) (template : Int → K)
    (vlen : K) (ts1 ts2 search_size2 cx cy : Int) (min_sim_thresh min_sim : K)
    (tile : Int → K) : (K × K) × (Int → K) :=
  forBreak (-search_size2) search_size2
    (fun j s =>
      let s1 := verifyRow2 sqrtf imageBW xsize ysize template vlen ts1 ts2 search_size2 cx cy
        min_sim_thresh min_sim j (-search_size2) s
      (s1, verifyStop min_sim_thresh min_sim s1.1))
    ((1, -1), tile)

/-- One iteration of the `while` loop of `ar2SelectFeature2`, on the
variables of `SelectState` and `tile_storage`; `occ_size` is the doubled
value. `none` when the loop is left (by its condition or by `break`). -/
def select2Step (sqrtf : K → K) (owner : Int → Int) (image : AR2ImageT K)
    (ts1 ts2 search_size2 occ_size : Int) (max_sim_thresh min_sim_thresh sd_thresh : K)
    (st : SelectState K × (Int → K)) : Option (SelectState K × (Int → K)) :=
  if ¬ st.1.num < maxFeatureNum2 image.xsize image.ysize occ_size ts1 ts2 then none
  else
    let sc := select2Scan st.1.fimage2 image.xsize image.ysize max_sim_thresh owner
    if sc.i_tab = -1 then none
    else
      let buf := make_template_buffer image.imgBW image.xsize image.ysize sc.i_tab sc.j_tab ts1 ts2
        st.1.template
      match make_template sqrtf image.imgBW image.xsize image.ysize sc.i_tab sc.j_tab ts1 ts2 0
        st.1.template with
      | none =>
          some ({ st.1 with
                    fimage2 := Function.update st.1.fimage2 (sc.j_tab * image.xsize + sc.i_tab) 1,
                    template := buf }, st.2)
      | some (tp, vlen) =>
          if vlen / ((ts1 + ts2 + 1 : Int) : K) < sd_thresh then
            some ({ st.1 with
                      fimage2 := Function.update st.1.fimage2 (sc.j_tab * image.xsize + sc.i_tab) 1,
                      template := tp }, st.2)
          else
            let v := selectVerify2 sqrtf image.imgBW image.xsize image.ysize tp vlen ts1 ts2
              search_size2 sc.i_tab sc.j_tab min_sim_thresh sc.min_tab st.2
            if verifyStop min_sim_thresh sc.min_tab v.1 = true then
              some ({ st.1 with
                        fimage2 :=
                          Function.update st.1.fimage2 (sc.j_tab * image.xsize + sc.i_tab) 1,
                        template := tp }, v.2)
            else
              some ({ fimage2 := occlude st.1.fimage2 image.xsize image.ysize sc.i_tab sc.j_tab
                        occ_size,
                      template := tp,
                      coord := st.1.coord ++ [{ x := sc.i_tab, y := sc.j_tab,
                                                mx := (sc.i_tab : K) / image.dpi * (254 / 10),
                                                my := ((image.ysize - sc.j_tab : Int) : K)
                                                  / image.dpi * (254 / 10),
                                                maxSim := sc.min_tab }],
                      num := st.1.num + 1 }, v.2)

/-- The `while` loop of `ar2SelectFeature2` run for at most `fuel`
iterations: the state in which the loop is left, `none` when it is still
running. -/
def select2Loop (sqrtf : K → K) (owner : Int → Int) (image : AR2ImageT K)
    (ts1 ts2 search_size2 occ_size : Int) (max_sim_thresh min_sim_thresh sd_thresh : K) :
    Nat → SelectState K × (Int → K) → Option (SelectState K × (Int → K))
  | 0, _ => none
  | fuel + 1, st =>
      match select2Step sqrtf owner image ts1 ts2 search_size2 occ_size max_sim_thresh
          min_sim_thresh sd_thresh st with
      | none => some st
      | some st1 =>
          select2Loop sqrtf owner image ts1 ts2 search_size2 occ_size max_sim_thresh
            min_sim_thresh sd_thresh fuel st1

/-- The state of `ar2SelectFeature2` after `n` complete iterations of its
`while` loop; `none` when the loop is left earlier. -/
def select2Iter (sqrtf : K → K) (owner : Int → Int) (image : AR2ImageT K)
    (ts1 ts2 search_size2 occ_size : Int) (max_sim_thresh min_sim_thresh sd_thresh : K) :
    Nat → SelectState K × (Int → K) → Option (SelectState K × (Int → K))
  | 0, st => some st
  | n + 1, st =>
      (select2Iter sqrtf owner image ts1 ts2 search_size2 occ_size max_sim_thresh min_sim_thresh
        sd_thresh n st).bind
        (select2Step sqrtf owner image ts1 ts2 search_size2 occ_size max_sim_thresh min_sim_thresh
          sd_thresh)

/-- The function `ar2SelectFeature2`, its `while` loop run for at most `fuel`
iterations, `owner` giving the thread each row of the minimum search is
assigned to. The results are read as for `ar2SelectFeature`; `none` also
covers the undefined divisions by `occ_size` (doubled) and `div_size`. The
copy of the map and the occlusion loops that follow the `while` loop write
only `fimage2`, which is freed, and are left out; `tile_storage` is taken to
start at zero (every slot is written before it is read). -/
def ar2SelectFeature2 (sqrtf : K → K) (owner : Int → Int) (fuel : Nat) (image : AR2ImageT K)
    (featureMap : AR2FeatureMapT K) (ts1 ts2 search_size2 occ_size : Int)
    (max_sim_thresh min_sim_thresh sd_thresh : K) :
    Option (Option (List (AR2FeatureCoordT K) × Int)) :=
  if image.xsize ≠ featureMap.xsize ∨ image.ysize ≠ featureMap.ysize then some none
  else if occ_size * 2 = 0 ∨ (ts1 + ts2 + 1) * 3 = 0 then none
  else
    (select2Loop sqrtf owner image ts1 ts2 search_size2 (occ_size * 2) max_sim_thresh
      min_sim_thresh sd_thresh fuel (selectInit image featureMap, fun _ => 0)).map
      (fun st => some (st.1.coord, st.1.num))

end Select2

/-! ## Feature map generation: `ar2GenFeatureMap` -/

/-- The variables of the first pass of `ar2GenFeatureMap`: the block
`fimage2`, the write pointer `fp2` (an index into `fimage2`) and the read
pointer `p` (an index into the image plane). -/
structure GradState (K : Type) where
  fimage2 : Int → K
  fp2 : Int
  p : Int

/-- The variables of the histogram pass: `hist` and the read pointer `fp2`
(the counter `sum` is only logged). -/
structure HistState where
  hist : Int → Int
  fp2 : Int

/-- The variables of the scoring pass of `ar2GenFeatureMap`: the block
`fimage`, the write pointer `fp`, the read pointer `fp2` (both as indices),
the `template` buffer and `tile_storage`. -/
structure GenState (K : Type) where
  fimage : Int → K
  fp : Int
  fp2 : Int
  template : Int → K
  tile : Int → K

section Gen

variable {K : Type} [LinearOrderedField K] [FloorRing K]

/-- The conversion `(int)x` of a float: truncation toward zero. -/
def truncInt (x : K) : Int :=
  if 0 ≤ x then ⌊x⌋ else ⌈x⌉

/-- The gradient magnitude `sqrtf((dx*dx+dy*dy)/2)` at the pixel `p` points
to. -/
def gradientAt (sqrtf : K → K) (img : Int → Nat) (xsize p : Int) : K :=
  let dx : K := (((img (p - xsize + 1) : Int) - (img (p - xsize - 1) : Int)
      + (img (p + 1) : Int) - (img (p - 1) : Int)
      + (img (p + xsize + 1) : Int) - (img (p + xsize - 1) : Int) : Int) : K) / (3 * 256)
  let dy : K := (((img (p + xsize + 1) : Int) - (img (p - xsize + 1) : Int)
      + (img (p + xsize) : Int) - (img (p - xsize) : Int)
      + (img (p + xsize - 1) : Int) - (img (p - xsize - 1) : Int) : Int) : K) / (3 * 256)
  sqrtf ((dx * dx + dy * dy) / 2)

/-- The statement `*(fp2++) = v; p++;` of the first pass. -/
def gradPut (v : K) (s : GradState K) : GradState K :=
  { fimage2 := Function.update s.fimage2 s.fp2 v, fp2 := s.fp2 + 1, p := s.p + 1 }

/-- The first pass of `ar2GenFeatureMap`: the block `fimage2` of gradient
magnitudes, `-1` on the border. -/
def genGradient (sqrtf : K → K) (img : Int → Nat) (xsize ysize : Int) : Int → K :=
  (forLoop 0 (xsize - 1) (fun _ s => gradPut (-1) s)
    (forLoop 1 (ysize - 2)
      (fun _ s =>
        gradPut (-1)
          (forLoop 1 (xsize - 2) (fun _ s => gradPut (gradientAt sqrtf img xsize s.p) s)
            (gradPut (-1) s)))
      (forLoop 0 (xsize - 1) (fun _ s => gradPut (-1) s)
        { fimage2 := fun _ => 0, fp2 := 0, p := 0 }))).fimage2

/-- The histogram bucket of a magnitude: `(int)(x * 1000.0f)` clamped to
`0 .. 999`. -/
def histBucket (x : K) : Int :=
  if truncInt (x * 1000) > 999 then 999
  else if truncInt (x * 1000) < 0 then 0
  else truncInt (x * 1000)

/-- The body of the loop over `i` of the histogram pass. -/
def histPixel (fimage2 : Int → K) (xsize : Int) (s : HistState) : HistState :=
  if fimage2 s.fp2 > fimage2 (s.fp2 - 1) ∧ fimage2 s.fp2 > fimage2 (s.fp2 + 1)
      ∧ fimage2 s.fp2 > fimage2 (s.fp2 - xsize) ∧ fimage2 s.fp2 > fimage2 (s.fp2 + xsize) then
    { hist := Function.update s.hist (histBucket (fimage2 s.fp2))
        (s.hist (histBucket (fimage2 s.fp2)) + 1),
      fp2 := s.fp2 + 1 }
  else { s with fp2 := s.fp2 + 1 }

/-- The histogram pass of `ar2GenFeatureMap`: `hist` after the loops. -/
def genHist (fimage2 : Int → K) (xsize ysize : Int) : Int → Int :=
  (forLoop 1 (ysize - 2)
    (fun _ s =>
      { hist := (forLoop 1 (xsize - 2) (fun _ s => histPixel fimage2 xsize s) s).hist,
        fp2 := (forLoop 1 (xsize - 2) (fun _ s => histPixel fimage2 xsize s) s).fp2 + 2 })
    ({ hist := fun _ => 0, fp2 := xsize + 1 } : HistState)).hist

/-- The loop `for (i = 999; i >= 0; i--) { j += hist[i]; if (...) break; }`
with `n = i + 1` iterations left: the final `i` (`-1` when the loop runs
out). -/
def genThreshLoop (hist : Int → Int) (total : K) : Nat → Int → Int
  | 0, _ => -1
  | n + 1, j =>
      if ((j + hist n : Int) : K) / total ≥ 2 / 100 then n
      else genThreshLoop hist total n (j + hist n)

/-- The threshold `k` of `ar2GenFeatureMap`. -/
def genThreshold (hist : Int → Int) (xsize ysize : Int) : Int :=
  genThreshLoop hist (((xsize * ysize : Int)) : K) 1000 0

/-- The run detection of the window scan: the loop
`for (; ii_iter <= search_size1 && ii_iter < TILE+ii; ++ii_iter)` with its two
`break`s, `TILE` being `512`; the result is the final `ii_iter`. -/
def genRun (xsize ysize i j ts1 ts2 search_size1 search_size2 jj ii : Int) (ii_iter : Int) : Int :=
  if h : ii_iter ≤ search_size1 ∧ ii_iter < 512 + ii then
    if ii_iter * ii_iter + jj * jj ≤ search_size2 * search_size2 then ii_iter
    else if patchOutside xsize ysize (i + ii_iter) (j + jj) ts1 ts2 then ii_iter
    else genRun xsize ysize i j ts1 ts2 search_size1 search_size2 jj ii (ii_iter + 1)
  else ii_iter
termination_by (512 + ii - ii_iter).toNat
decreasing_by omega

/-- The loop `for (abc = ii; abc < ii_iter; ++abc)` that folds the slots of
`tile_storage` into `max`, leaving at the first `max > max_sim_thresh`. -/
def genMaxLoop (tile : Int → K) (max_sim_thresh : K) (ii ii_iter : Int) (max : K) : K :=
  forBreak ii (ii_iter - 1)
    (fun abc max =>
      if tile (abc - ii) > max then (tile (abc - ii), decide (tile (abc - ii) > max_sim_thresh))
      else (max, false))
    max

/-- The tile call of the window scan and the fold of its slots: from the run
`ii .. ii_iter - 1` and the pair `(max, tile_storage)` to the new pair. -/
def genTile (sqrtf : K → K) (img : Int → Nat) (xsize : Int) (template : Int → K)
    (vlen : K) (ts1 ts2 : Int) (max_sim_thresh : K) (i j jj ii ii_iter : Int)
    (s : K × (Int → K)) : K × (Int → K) :=
  (genMaxLoop
      (get_similarity_tile sqrtf img xsize template vlen ts1 ts2 (i + ii) (j + jj) s.2
        |ii - ii_iter|)
      max_sim_thresh ii ii_iter s.1,
    get_similarity_tile sqrtf img xsize template vlen ts1 ts2 (i + ii) (j + jj) s.2
      |ii - ii_iter|)

/-- The loop `for (ii = -search_size1; ii <= search_size1; ii++)` of the
window scan for one `jj`, entered at `ii` with the pair
`(max, tile_storage)` and run for at most `fuel` iterations. The result is the
pair on leaving the loop; `none` when the loop is still running. -/
def genScanRow (sqrtf : K → K) (img : Int → Nat) (xsize ysize : Int) (template : Int → K)
    (vlen : K) (ts1 ts2 search_size1 search_size2 : Int) (max_sim_thresh : K) (i j jj : Int) :
    Nat → Int → K × (Int → K) → Option (K × (Int → K))
  | 0, _, _ => none
  | fuel + 1, ii, s =>
      if ¬ ii ≤ search_size1 then some s
      else
        -- `if (ii*ii + jj*jj <= search_size2*search_size2) ii = -ii + 1;`
        let ii1 := if ii * ii + jj * jj ≤ search_size2 * search_size2 then -ii + 1 else ii
        let ii_iter := genRun xsize ysize i j ts1 ts2 search_size1 search_size2 jj ii1 ii1
        -- `if (ii_iter == ii) continue;`
        if ii_iter = ii1 then
          genScanRow sqrtf img xsize ysize template vlen ts1 ts2 search_size1 search_size2
            max_sim_thresh i j jj fuel (ii1 + 1) s
        else
          let s1 := genTile sqrtf img xsize template vlen ts1 ts2 max_sim_thresh i j jj ii1
            ii_iter s
          -- `if (dst > 1) ii += dst - 1; if (max > max_sim_thresh) break;`
          if s1.1 > max_sim_thresh then some s1
          else
            genScanRow sqrtf img xsize ysize template vlen ts1 ts2 search_size1 search_size2
              max_sim_thresh i j jj fuel
              ((if |ii1 - ii_iter| > 1 then ii1 + (|ii1 - ii_iter| - 1) else ii1) + 1) s1

/-- The window scan of one candidate pixel `(i, j)`: the loop over `jj` around
`genScanRow`, started with `max = -1.0f`. The result is the final
`(max, tile_storage)`; `none` when an inner loop is still running after `fuel`
iterations. -/
def genSearch (sqrtf : K → K) (img : Int → Nat) (xsize ysize : Int) (template : Int → K)
    (vlen : K) (ts1 ts2 search_size1 search_size2 : Int) (max_sim_thresh : K) (fuel : Nat)
    (i j : Int) (tile : Int → K) : Option (K × (Int → K)) :=
  forBreak (-search_size1) search_size1
    (fun jj s =>
      match s with
      | none => (none, true)
      | some s =>
          match genScanRow sqrtf img xsize ysize template vlen ts1 ts2 search_size1 search_size2
              max_sim_thresh i j jj fuel (-search_size1) s with
          | none => (none, true)
          | some s1 => (some s1, decide (s1.1 > max_sim_thresh)))
    (some (-1, tile))

/-- The statement `*(fp++) = v; fp2++;` of the scoring pass. -/
def genPut (v : K) (s : GenState K) : GenState K :=
  { s with fimage := Function.update s.fimage s.fp v, fp := s.fp + 1, fp2 := s.fp2 + 1 }

/-- The body of the loop over `i` of the scoring pass: the value stored for
the interior pixel `(i, j)`. -/
def genPixel (sqrtf : K → K) (img : Int → Nat) (xsize ysize : Int)
    (ts1 ts2 search_size1 search_size2 : Int) (max_sim_thresh sd_thresh : K) (fuel : Nat)
    (fimage2 : Int → K) (k : Int) (j i : Int) (s : GenState K) : Option (GenState K) :=
  if fimage2 s.fp2 ≤ fimage2 (s.fp2 - 1) ∨ fimage2 s.fp2 ≤ fimage2 (s.fp2 + 1)
      ∨ fimage2 s.fp2 ≤ fimage2 (s.fp2 - xsize) ∨ fimage2 s.fp2 ≤ fimage2 (s.fp2 + xsize) then
    some (genPut 1 s)
  else if truncInt (fimage2 s.fp2 * 1000) < k then some (genPut 1 s)
  else
    match make_template sqrtf img xsize ysize i j ts1 ts2 sd_thresh s.template with
    | none =>
        some (genPut 1
          { s with template := make_template_buffer img xsize ysize i j ts1 ts2 s.template })
    | some (tp, vlen) =>
        (genSearch sqrtf img xsize ysize tp vlen ts1 ts2 search_size1 search_size2 max_sim_thresh
          fuel i j s.tile).map
          (fun r => genPut r.1 { s with template := tp, tile := r.2 })

/-- The body of the loop over `j` of the scoring pass: one image row. -/
def genRow (sqrtf : K → K) (img : Int → Nat) (xsize ysize : Int)
    (ts1 ts2 search_size1 search_size2 : Int) (max_sim_thresh sd_thresh : K) (fuel : Nat)
    (fimage2 : Int → K) (k : Int) (j : Int) (s : Option (GenState K)) : Option (GenState K) :=
  (forLoop 1 (xsize - 2)
    (fun i s => s.bind (genPixel sqrtf img xsize ysize ts1 ts2 search_size1 search_size2
      max_sim_thresh sd_thresh fuel fimage2 k j i))
    (s.map (genPut 1))).map (genPut 1)

/-- The loop `for (i = 0; i < xsize; i++) fp[i] = 1.0f;`. -/
def genFillRow (fimage : Int → K) (fp xsize : Int) : Int → K :=
  forLoop 0 (xsize - 1) (fun i f => Function.update f (fp + i) 1) fimage

/-- The scoring pass of `ar2GenFeatureMap`: the block `fimage` on return. -/
def genScore (sqrtf : K → K) (img : Int → Nat) (xsize ysize : Int)
    (ts1 ts2 search_size1 search_size2 : Int) (max_sim_thresh sd_thresh : K) (fuel : Nat)
    (fimage2 : Int → K) (k : Int) : Option (Int → K) :=
  (forLoop 1 (ysize - 2)
    (genRow sqrtf img xsize ysize ts1 ts2 search_size1 search_size2 max_sim_thresh sd_thresh fuel
      fimage2 k)
    (some { fimage := genFillRow (fun _ => 0) 0 xsize, fp := 0 + xsize, fp2 := 0 + xsize,
            template := fun _ => 0, tile := fun _ => 0 })).map
    (fun s => genFillRow s.fimage s.fp xsize)

/-- The function `ar2GenFeatureMap`, every loop over `ii` of its window scan
run for at most `fuel` iterations; `none` when one of them is still running.
The map of the result is the block `fimage` of `xsize*ysize` floats. -/
def ar2GenFeatureMap (sqrtf : K → K) (fuel : Nat) (image : AR2ImageT K)
    (ts1 ts2 search_size1 search_size2 : Int) (max_sim_thresh sd_thresh : K) :
    Option (AR2FeatureMapT K) :=
  (genScore sqrtf image.imgBW image.xsize image.ysize ts1 ts2 search_size1 search_size2
    max_sim_thresh sd_thresh fuel
    (genGradient sqrtf image.imgBW image.xsize image.ysize)
    (genThreshold (K := K)
      (genHist (genGradient sqrtf image.imgBW image.xsize image.ysize) image.xsize image.ysize)
      image.xsize image.ysize)).map
    (fun fimage =>
      { map := (List.range (image.xsize * image.ysize).toNat).map (fun n => fimage (n : Int)),
        xsize := image.xsize,
        ysize := image.ysize })

/-- The threshold `k` that `ar2GenFeatureMap` computes for an image. -/
def genK (sqrtf : K → K) (image : AR2ImageT K) : Int :=
  genThreshold (K := K)
    (genHist (genGradient sqrtf image.imgBW image.xsize image.ysize) image.xsize image.ysize)
    image.xsize image.ysize

/-- The gradient magnitude field in the words of the specification: `-1` at
the border pixels, `sqrt((dx²+dy²)/2)` at the interior pixel `(i, j)`. -/
def gradMag (sqrtf : K → K) (img : Int → Nat) (xsize ysize i j : Int) : K :=
  if i = 0 ∨ i = xsize - 1 ∨ j = 0 ∨ j = ysize - 1 then -1
  else gradientAt sqrtf img xsize (j * xsize + i)

/-- The sum `hist[i] + ... + hist[n-1]`: what the threshold loop has added to
`j` when it has gone down from `n - 1` to `i`. -/
def histTop (hist : Int → Int) (n i : Nat) : Int :=
  ∑ b ∈ Finset.Ico i n, hist (b : Int)

/-- The test of the histogram pass and of the scoring pass on the pixel `p`
points to: a strict maximum of `fimage2` among its four neighbours. -/
def localMax (fimage2 : Int → K) (xsize p : Int) : Prop :=
  fimage2 p > fimage2 (p - 1) ∧ fimage2 p > fimage2 (p + 1)
    ∧ fimage2 p > fimage2 (p - xsize) ∧ fimage2 p > fimage2 (p + xsize)

instance (fimage2 : Int → K) (xsize p : Int) : Decidable (localMax fimage2 xsize p) := by
  unfold localMax
  infer_instance

/-- The number of pixels the histogram pass counts in the buckets `lo` and
above: the interior pixels `(c + 1, r + 1)` that are strict maxima of
`fimage2` among their four neighbours and whose bucket is at least `lo`. -/
def histCount (fimage2 : Int → K) (xsize ysize lo : Int) : Int :=
  ∑ r ∈ Finset.range (ysize - 2).toNat, ∑ c ∈ Finset.range (xsize - 2).toNat,
    if localMax fimage2 xsize (((r : Int) + 1) * xsize + ((c : Int) + 1))
      ∧ lo ≤ histBucket (fimage2 (((r : Int) + 1) * xsize + ((c : Int) + 1)))
    then 1 else 0

end Gen

/-! ### The window scan in the words of the specification -/

section NaiveScan

variable {K : Type} [LinearOrderedField K]

/-- One offset `(ii, jj)` of the naive window scan of the candidate `(i, j)`,
on the running maximum: an offset with `ii² + jj² ≤ search_size2²`, or whose
patch is out of bounds or has zero variance (where `get_similarity` fails), is
skipped; otherwise the maximum takes in the similarity, and the scan stops
when the maximum exceeds `max_sim_thresh`. The flag tells whether the scan
stops. -/
def naiveBody (sqrtf : K → K) (img : Int → Nat) (xsize ysize : Int) (template : Int → K)
    (vlen : K) (ts1 ts2 search_size2 : Int) (max_sim_thresh : K) (i j jj ii : Int) (max : K) :
    K × Bool :=
  if ii * ii + jj * jj ≤ search_size2 * search_size2 then (max, false)
  else if (get_similarity sqrtf img xsize ysize template vlen ts1 ts2 (i + ii) (j + jj)).1 < 0
  then (max, false)
  else
    let sim := (get_similarity sqrtf img xsize ysize template vlen ts1 ts2 (i + ii) (j + jj)).2
    let max1 := if sim > max then sim else max
    (max1, decide (max1 > max_sim_thresh))

/-- The naive window scan of the candidate `(i, j)`: the offsets `(ii, jj)` of
`[-search_size1, search_size1]²` are visited row by row, one `get_similarity`
call each, with the running maximum starting at `-1`; the scan stops at the
first offset that makes the maximum exceed `max_sim_thresh`. The result is the
final maximum. -/
def naiveScan (sqrtf : K → K) (img : Int → Nat) (xsize ysize : Int) (template : Int → K)
    (vlen : K) (ts1 ts2 search_size1 search_size2 : Int) (max_sim_thresh : K) (i j : Int) : K :=
  forBreak (-search_size1) search_size1
    (fun jj max =>
      let max1 := forBreak (-search_size1) search_size1
        (naiveBody sqrtf img xsize ysize template vlen ts1 ts2 search_size2 max_sim_thresh i j jj)
        max
      (max1, decide (max1 > max_sim_thresh)))
    (-1)

end NaiveScan

/-! ## Sample data -/

/-- A 2×2 image with one bright pixel at the origin. -/
def sampleImage : Int → Nat := fun i => if i = 0 then 4 else 0

/-- The 2×2 sample image as an `AR2ImageT` at 72 dpi. -/
def sampleImageT : AR2ImageT ℚ := ⟨2, 2, 72, sampleImage⟩

/-- A 2×2 feature map whose only candidate is the origin. -/
def sampleMap : AR2FeatureMapT ℚ := ⟨[1 / 2, 1, 1, 1], 2, 2⟩

/-- A 3×3 image whose only bright pixel is the corner `(2, 2)`. -/
def edgeImage : Int → Nat := fun i => if i = 8 then 255 else 0

/-- A 20×2 image with two bright pairs of pixels in its top row, at the
columns `1, 2` and `5, 6`. -/
def pairImage : Int → Nat := fun i => if i = 1 ∨ i = 2 ∨ i = 5 ∨ i = 6 then 1 else 0

/-- The 20×2 image `pairImage` as an `AR2ImageT` at 72 dpi. -/
def pairImageT : AR2ImageT ℚ := ⟨20, 2, 72, pairImage⟩

/-- A 20×2 feature map with two candidates: the value `1/2` at `(1, 0)` and
the value `3/4` at `(5, 0)`, every other cell holding `1`. -/
def pairMap : AR2FeatureMapT ℚ :=
  ⟨(List.range 40).map (fun n => if n = 1 then 1 / 2 else if n = 5 then 3 / 4 else 1), 20, 2⟩

/-- A 20×2 feature map whose only candidate is the origin, with the value
`1/2`. -/
def cornerMap : AR2FeatureMapT ℚ :=
  ⟨(List.range 40).map (fun n => if n = 0 then 1 / 2 else 1), 20, 2⟩

/-- A working map on the 20×2 grid that holds `a` at `(1, 0)`, `b` at `(5, 0)`
and `1` in every other cell. -/
def pairCells (f : Int → ℚ) (a b : ℚ) : Prop :=
  ∀ x y : Int, 0 ≤ x → x < 20 → 0 ≤ y → y < 2 →
    f (y * 20 + x) = if x = 1 ∧ y = 0 then a else if x = 5 ∧ y = 0 then b else 1

/-- A 20×2 image whose only bright pixel is the origin, as an `AR2ImageT` at
72 dpi. -/
def cornerImageT : AR2ImageT ℚ := ⟨20, 2, 72, sampleImage⟩

/-- A working map on the 20×2 grid that holds `a` at the origin and `1` in
every other cell. -/
def cornerCells (f : Int → ℚ) (a : ℚ) : Prop :=
  ∀ x y : Int, 0 ≤ x → x < 20 → 0 ≤ y → y < 2 →
    f (y * 20 + x) = if x = 0 ∧ y = 0 then a else 1

/-! ## Theorems -/

theorem bytesWord32_word32Bytes (u : Nat) (hu : u < 4294967296) :
    bytesWord32 (u % 256) (u / 256 % 256) (u / 65536 % 256) (u / 16777216 % 256) = u := by
  unfold bytesWord32
  omega

theorem bytesInt_intBytes (v : Int) (h0 : 0 ≤ v) (h1 : v < 2147483648) :
    bytesInt ((v % 4294967296).toNat % 256) ((v % 4294967296).toNat / 256 % 256)
      ((v % 4294967296).toNat / 65536 % 256) ((v % 4294967296).toNat / 16777216 % 256) = v := by
  have hv : (v % 4294967296).toNat = v.toNat := by
    rw [Int.emod_eq_of_lt h0 (by omega)]
  rw [hv]
  unfold bytesInt
  rw [bytesWord32_word32Bytes v.toNat (by omega)]
  have : v.toNat < 2147483648 := by omega
  simp only [this, if_true]
  omega

/-- When the exact product `xsize*ysize` fits a non-negative `int`, the count
the code computes is that product. -/
theorem mapCount_eq_mul (xsize ysize : Int) (h0 : 0 ≤ xsize * ysize)
    (h1 : xsize * ysize < 2147483648) : mapCount xsize ysize = (xsize * ysize).toNat := by
  unfold mapCount intMul
  generalize xsize * ysize = m at h0 h1
  omega

theorem readFloats_writeFloats (n : Nat) :
    ∀ (vs : List Nat), vs.length = n → (∀ v ∈ vs, v < 4294967296) →
      ∃ bs, writeFloats n vs = some bs ∧ readFloats n bs = some vs := by
  induction n with
  | zero =>
      intro vs hlen _
      have : vs = [] := List.length_eq_zero.mp hlen
      subst this
      exact ⟨[], rfl, rfl⟩
  | succ n ih =>
      intro vs hlen hb
      cases vs with
      | nil => simp at hlen
      | cons v vs =>
          have hlen2 : vs.length = n := by simpa using hlen
          obtain ⟨bs, hw, hr⟩ := ih vs hlen2 (fun w hw => hb w (List.mem_cons_of_mem _ hw))
          refine ⟨word32Bytes v ++ bs, ?_, ?_⟩
          · simp [writeFloats, hw]
          · have hv : v < 4294967296 := hb v (List.mem_cons_self _ _)
            have hcat : word32Bytes v ++ bs =
                v % 256 :: v / 256 % 256 :: v / 65536 % 256 :: v / 16777216 % 256 :: bs := rfl
            rw [hcat, readFloats, hr, bytesWord32_word32Bytes v hv]
            rfl

/-- C1: for a feature map with `0 ≤ xsize`, `0 ≤ ysize` (native `int`s) whose
block holds the `xsize*ysize` floats the code counts, each a 32-bit pattern,
`ar2SaveFeatureMap` succeeds and `ar2ReadFeatureMap` on the bytes it wrote
returns the same feature map: same `xsize`, same `ysize`, the same bit
pattern at every index. -/
theorem save_then_read_roundtrip (fm : AR2FeatureMapT Nat)
    (hx0 : 0 ≤ fm.xsize) (hx1 : fm.xsize < 2147483648)
    (hy0 : 0 ≤ fm.ysize) (hy1 : fm.ysize < 2147483648)
    (hlen : fm.map.length = mapCount fm.xsize fm.ysize)
    (hbits : ∀ v ∈ fm.map, v < 4294967296) :
    ∃ bytes, ar2SaveFeatureMap fm = some bytes ∧ ar2ReadFeatureMap bytes = some fm := by
  obtain ⟨bs, hw, hr⟩ := readFloats_writeFloats _ fm.map hlen hbits
  refine ⟨intBytes fm.xsize ++ (intBytes fm.ysize ++ bs), ?_, ?_⟩
  · simp [ar2SaveFeatureMap, hw]
  · simp only [intBytes, word32Bytes, List.cons_append, List.nil_append, ar2ReadFeatureMap]
    rw [bytesInt_intBytes fm.xsize hx0 hx1, bytesInt_intBytes fm.ysize hy0 hy1, hr]
    rfl

/-- C1, witness: a 2×1 feature map holding the patterns of `1.0f` and
`-1.0f`. -/
theorem save_then_read_roundtrip_witness :
    ∃ bytes, ar2SaveFeatureMap ⟨[1065353216, 3212836864], 2, 1⟩ = some bytes ∧
      ar2ReadFeatureMap bytes = some ⟨[1065353216, 3212836864], 2, 1⟩ :=
  save_then_read_roundtrip ⟨[1065353216, 3212836864], 2, 1⟩ (by decide) (by decide)
    (by decide) (by decide) (by decide) (by decide)

section LoopLemmas

variable {σ : Type}

theorem forLoop_step (lo hi : Int) (body : Int → σ → σ) (s : σ) (h : lo ≤ hi) :
    forLoop lo hi body s = forLoop (lo + 1) hi body (body lo s) := by
  rw [forLoop, if_pos h]

theorem forLoop_done (lo hi : Int) (body : Int → σ → σ) (s : σ) (h : hi < lo) :
    forLoop lo hi body s = s := by
  rw [forLoop, if_neg (not_le.mpr h)]

/-- Invariant rule for `forLoop`, the invariant indexed by the number of
iterations done. -/
theorem forLoop_inv (body : Int → σ → σ) (P : Nat → σ → Prop) :
    ∀ (n : Nat) (lo hi : Int) (s : σ), n = (hi + 1 - lo).toNat → P 0 s →
      (∀ (k : Nat) (t : σ), k < n → P k t → P (k + 1) (body (lo + k) t)) →
      P n (forLoop lo hi body s) := by
  intro n
  induction n generalizing P with
  | zero =>
      intro lo hi s hn h0 _
      rw [forLoop_done lo hi body s (by omega)]
      exact h0
  | succ m ih =>
      intro lo hi s hn h0 hstep
      rw [forLoop_step lo hi body s (by omega)]
      refine ih (fun k t => P (k + 1) t) (lo + 1) hi (body lo s) (by omega) ?_ ?_
      · have := hstep 0 s (Nat.succ_pos m) h0
        simpa using this
      · intro k t hk hP
        have := hstep (k + 1) t (by omega) hP
        have e : lo + 1 + (k : Int) = lo + ((k + 1 : Nat) : Int) := by push_cast; ring
        rw [e]
        exact this

theorem forLoop_shift (d lo hi : Int) (body : Int → σ → σ) (s : σ) :
    forLoop (lo + d) (hi + d) body s = forLoop lo hi (fun v => body (v + d)) s := by
  generalize hn : (hi + 1 - lo).toNat = n
  induction n generalizing lo s with
  | zero =>
      rw [forLoop_done _ _ _ _ (by omega), forLoop_done _ _ _ _ (by omega)]
  | succ m ih =>
      rw [forLoop_step _ _ _ _ (by omega), forLoop_step lo hi _ _ (by omega)]
      have e : lo + d + 1 = lo + 1 + d := by ring
      rw [e]
      exact ih (lo + 1) _ (by omega)

theorem forLoop_congr (lo hi : Int) (body body2 : Int → σ → σ) (s : σ)
    (h : ∀ v t, lo ≤ v → v ≤ hi → body v t = body2 v t) :
    forLoop lo hi body s = forLoop lo hi body2 s := by
  generalize hn : (hi + 1 - lo).toNat = n
  induction n generalizing lo s with
  | zero =>
      rw [forLoop_done _ _ _ _ (by omega), forLoop_done _ _ _ _ (by omega)]
  | succ m ih =>
      rw [forLoop_step _ _ _ _ (by omega), forLoop_step lo hi body2 _ (by omega)]
      rw [h lo s (le_refl _) (by omega)]
      exact ih (lo + 1) _ (fun v t h1 h2 => h v t (by omega) h2) (by omega)

/-- The loop unrolled four times followed by the remainder loop runs the
plain loop. -/
theorem forStep4_forLoop (n : Int) (b4 b1 : Int → σ → σ)
    (hb : ∀ i s, b4 i s = b1 (i + 3) (b1 (i + 2) (b1 (i + 1) (b1 i s)))) :
    ∀ (m : Nat) (i : Int) (s : σ), (n - i).toNat ≤ m →
      forLoop (forStep4 n b4 i s).1 n b1 (forStep4 n b4 i s).2 = forLoop i n b1 s := by
  intro m
  induction m with
  | zero =>
      intro i s hm
      rw [forStep4, if_neg (by omega)]
  | succ m ih =>
      intro i s hm
      rw [forStep4]
      by_cases h : i ≤ n - 4
      · rw [if_pos h, ih (i + 4) (b4 i s) (by omega), hb]
        rw [forLoop_step i n b1 s (by omega), forLoop_step (i + 1) n b1 _ (by omega),
          forLoop_step (i + 1 + 1) n b1 _ (by omega),
          forLoop_step (i + 1 + 1 + 1) n b1 _ (by omega)]
        have e1 : i + 1 + 1 = i + 2 := by ring
        have e2 : i + 2 + 1 = i + 3 := by ring
        have e3 : i + 3 + 1 = i + 4 := by ring
        rw [e1, e2, e3]
      · rw [if_neg h]

end LoopLemmas

section SimilarityLemmas

variable {K : Type} [LinearOrderedField K]

theorem forLoop_sum (f : Int → K) (lo hi : Int) (a : K) :
    forLoop lo hi (fun v s => s + f v) a
      = a + ∑ k ∈ Finset.range (hi + 1 - lo).toNat, f (lo + k) := by
  refine forLoop_inv (fun v s => s + f v)
    (fun n s => s = a + ∑ k ∈ Finset.range n, f (lo + k)) _ lo hi a rfl (by simp) ?_
  intro k t _ ht
  simp only [ht, Finset.sum_range_succ, add_assoc]

theorem aveRow_eq (ip : Int → Nat) (n : Int) (ave : K) :
    aveRow ip n ave = ave + ∑ k ∈ Finset.range (n + 1).toNat, (ip k : K) := by
  unfold aveRow
  rw [forStep4_forLoop n _ (fun i a => a + (ip i : K)) (fun i s => by ring_nf) _ 0 ave (le_refl _)]
  rw [forLoop_sum (fun i => (ip i : K))]
  simp

theorem simRow_eq_forLoop (ip : Int → Nat) (tp : Int → K) (n : Int) (s : K × K × K) :
    simRow ip tp n s = forLoop 0 n
      (fun i s => (s.1 + (ip i : K), s.2.1 + ((ip i * ip i : Nat) : K), s.2.2 + (ip i : K) * tp i))
      s := by
  unfold simRow
  refine forStep4_forLoop n _ _ (fun i s => ?_) _ 0 s (le_refl _)
  refine Prod.ext ?_ (Prod.ext ?_ ?_)
  · simp only; push_cast; ring
  · simp only; push_cast; ring
  · simp only; ring

theorem simRow_eq (ip : Int → Nat) (tp : Int → K) (n : Int) (s : K × K × K) :
    simRow ip tp n s =
      (s.1 + ∑ k ∈ Finset.range (n + 1).toNat, (ip k : K),
       s.2.1 + ∑ k ∈ Finset.range (n + 1).toNat, (ip k : K) * (ip k : K),
       s.2.2 + ∑ k ∈ Finset.range (n + 1).toNat, (ip k : K) * tp k) := by
  rw [simRow_eq_forLoop]
  have := forLoop_inv
    (fun i (s : K × K × K) =>
      (s.1 + (ip i : K), s.2.1 + ((ip i * ip i : Nat) : K), s.2.2 + (ip i : K) * tp i))
    (fun m t => t = (s.1 + ∑ k ∈ Finset.range m, (ip k : K),
       s.2.1 + ∑ k ∈ Finset.range m, (ip k : K) * (ip k : K),
       s.2.2 + ∑ k ∈ Finset.range m, (ip k : K) * tp k))
    (n + 1).toNat 0 n s (by simp) (by simp) ?_
  · exact this
  · intro k t _ ht
    rw [ht]
    simp only [Finset.sum_range_succ, zero_add, Nat.cast_mul]
    refine Prod.ext ?_ (Prod.ext ?_ ?_) <;> simp only <;> ring

theorem simSumsTile_eq_simSums (imageBW : Int → Nat) (xsize : Int) (template : Int → K)
    (ts1 ts2 cx cy : Int) :
    simSumsTile imageBW xsize template ts1 ts2 cx cy
      = simSums imageBW xsize template ts1 ts2 cx cy := by
  unfold simSumsTile simSums
  have h := forLoop_shift ts1 (-ts1) ts2
    (fun j s => simRow (fun i => imageBW ((cy + j - ts1) * xsize + (cx - ts1) + i))
        (fun i => template (i + j * (ts1 + ts2 + 1))) (ts1 + ts2) s) ((0 : K), (0 : K), (0 : K))
  have e1 : -ts1 + ts1 = 0 := by ring
  have e2 : ts2 + ts1 = ts1 + ts2 := by ring
  rw [e1, e2] at h
  rw [h]
  refine forLoop_congr _ _ _ _ _ (fun v t _ _ => ?_)
  have e3 : cy + (v + ts1) - ts1 = cy + v := by ring
  simp only [e3]

/-- The content of the block after `get_similarity_tile`: the slots
`0 ≤ t < size_sim` hold the values of their anchors, the others are kept. -/
theorem get_similarity_tile_slot (sqrtf : K → K) (imageBW : Int → Nat) (xsize : Int)
    (template : Int → K) (vlen : K) (ts1 ts2 cx cy : Int) (sim : Int → K) (size_sim t : Int) :
    get_similarity_tile sqrtf imageBW xsize template vlen ts1 ts2 cx cy sim size_sim t
      = if 0 ≤ t ∧ t < size_sim then tileValue sqrtf imageBW xsize template vlen ts1 ts2 (cx + t) cy
        else sim t := by
  unfold get_similarity_tile
  have h := forLoop_inv
    (fun tile (sim : Int → K) =>
      Function.update sim tile (tileValue sqrtf imageBW xsize template vlen ts1 ts2 (cx + tile) cy))
    (fun n f => ∀ t : Int, f t = if 0 ≤ t ∧ t < n
        then tileValue sqrtf imageBW xsize template vlen ts1 ts2 (cx + t) cy else sim t)
    (size_sim - 1 + 1 - 0).toNat 0 (size_sim - 1) sim rfl ?_ ?_
  · rw [h t]
    by_cases ht : 0 ≤ t ∧ t < size_sim
    · rw [if_pos ht, if_pos ⟨ht.1, by omega⟩]
    · rw [if_neg ht, if_neg (by omega)]
  · intro t
    rw [if_neg (by omega)]
  · intro k f _ hf t
    beta_reduce
    by_cases htk : t = 0 + (k : Int)
    · subst htk
      rw [Function.update_same, if_pos ⟨by omega, by push_cast; omega⟩]
    · rw [Function.update_noteq htk, hf t]
      by_cases ht : 0 ≤ t ∧ t < k
      · rw [if_pos ht, if_pos ⟨ht.1, by push_cast; omega⟩]
      · rw [if_neg ht, if_neg (by push_cast; omega)]

/-- C5: at every anchor whose patch lies inside the image, `get_similarity_tile`
called with `size_sim = 1` stores in `sim[0]` the value `get_similarity`
stores in `*sim`, the value `-1` of a patch of zero variance included. -/
theorem tile_of_size_one_eq_get_similarity (sqrtf : K → K) (imageBW : Int → Nat)
    (xsize ysize : Int) (template : Int → K) (vlen : K) (ts1 ts2 cx cy : Int) (sim : Int → K)
    (hin : ¬ patchOutside xsize ysize cx cy ts1 ts2) :
    get_similarity_tile sqrtf imageBW xsize template vlen ts1 ts2 cx cy sim 1 0
      = (get_similarity sqrtf imageBW xsize ysize template vlen ts1 ts2 cx cy).2 := by
  rw [get_similarity_tile_slot, if_pos (by norm_num)]
  unfold tileValue get_similarity
  rw [if_neg hin, add_zero, simSumsTile_eq_simSums]
  dsimp only
  split_ifs <;> rfl

end SimilarityLemmas

section TemplateLemmas

variable {K : Type} [LinearOrderedField K]

theorem templateSum_eq (imageBW : Int → Nat) (xsize cx cy ts1 ts2 : Int) :
    (templateSum imageBW xsize cx cy ts1 ts2 : K)
      = ∑ r ∈ Finset.range (ts1 + ts2 + 1).toNat, ∑ c ∈ Finset.range (ts1 + ts2 + 1).toNat,
          (patchPixel imageBW xsize cx cy ts1 r c : K) := by
  unfold templateSum
  have hb : (fun (j : Int) (ave : K) =>
        aveRow (fun i => imageBW ((cy + j) * xsize + (cx - ts1) + i)) (ts1 + ts2) ave)
      = fun (j : Int) (ave : K) => ave + ∑ c ∈ Finset.range (ts1 + ts2 + 1).toNat,
          (imageBW ((cy + j) * xsize + (cx - ts1) + c) : K) := by
    funext j ave
    rw [aveRow_eq]
  rw [hb, forLoop_sum, zero_add]
  have e : (ts2 + 1 - -ts1).toNat = (ts1 + ts2 + 1).toNat := by congr 1; ring
  rw [e]
  refine Finset.sum_congr rfl (fun r _ => Finset.sum_congr rfl (fun c _ => ?_))
  unfold patchPixel
  congr 2
  ring

theorem rowMajor_inj (w : Int) (c r c2 r2 : Nat) (hc : (c : Int) < w) (hc2 : (c2 : Int) < w)
    (h : (c : Int) + r * w = c2 + r2 * w) : c = c2 ∧ r = r2 := by
  have hw : 0 < w := by omega
  have h1 : ((c : Int) + r * w) % w = c := by
    rw [Int.add_mul_emod_self, Int.emod_eq_of_lt (by omega) hc]
  have h2 : ((c2 : Int) + r2 * w) % w = c2 := by
    rw [Int.add_mul_emod_self, Int.emod_eq_of_lt (by omega) hc2]
  rw [h, h2] at h1
  have hcc : c2 = c := by exact_mod_cast h1
  subst hcc
  have h3 : (r : Int) * w = r2 * w := by omega
  have h4 : (r : Int) = r2 := Int.eq_of_mul_eq_mul_right (by omega) h3
  exact ⟨rfl, by exact_mod_cast h4⟩

/-- What the second pass of `make_template` leaves: entry `c + r*(ts1+ts2+1)`
is the pixel of row `r`, column `c` minus `ave`, and `vlen1` is the sum of the
squares of these entries. -/
theorem templateFill_spec (imageBW : Int → Nat) (xsize cx cy ts1 ts2 : Int) (ave : K)
    (template : Int → K) :
    (∀ r c : Nat, r < (ts1 + ts2 + 1).toNat → c < (ts1 + ts2 + 1).toNat →
      (templateFill imageBW xsize cx cy ts1 ts2 ave template).1 ((c : Int) + r * (ts1 + ts2 + 1))
        = (patchPixel imageBW xsize cx cy ts1 r c : K) - ave) ∧
    (templateFill imageBW xsize cx cy ts1 ts2 ave template).2
      = ∑ r ∈ Finset.range (ts1 + ts2 + 1).toNat, ∑ c ∈ Finset.range (ts1 + ts2 + 1).toNat,
          ((patchPixel imageBW xsize cx cy ts1 r c : K) - ave)
            * ((patchPixel imageBW xsize cx cy ts1 r c : K) - ave) := by
  unfold templateFill
  refine forLoop_inv _
    (fun R s => (∀ r c : Nat, r < R → c < (ts1 + ts2 + 1).toNat →
        s.1 ((c : Int) + r * (ts1 + ts2 + 1)) = (patchPixel imageBW xsize cx cy ts1 r c : K) - ave) ∧
      s.2 = ∑ r ∈ Finset.range R, ∑ c ∈ Finset.range (ts1 + ts2 + 1).toNat,
          ((patchPixel imageBW xsize cx cy ts1 r c : K) - ave)
            * ((patchPixel imageBW xsize cx cy ts1 r c : K) - ave))
    (ts1 + ts2 + 1).toNat (-ts1) ts2 (template, 0) (by congr 1; ring) ?_ ?_
  · exact ⟨fun r c hr _ => absurd hr (Nat.not_lt_zero r), by simp⟩
  · intro R t hR hQ
    beta_reduce
    have hI := forLoop_inv
      (fun i (s : (Int → K) × K) =>
        (Function.update s.1 (i + (-ts1 + (R : Int) + ts1) * (ts1 + ts2 + 1))
            ((imageBW ((cy + (-ts1 + (R : Int))) * xsize + (cx - ts1) + i) : K) - ave),
         s.2 + Function.update s.1 (i + (-ts1 + (R : Int) + ts1) * (ts1 + ts2 + 1))
            ((imageBW ((cy + (-ts1 + (R : Int))) * xsize + (cx - ts1) + i) : K) - ave)
              (i + (-ts1 + (R : Int) + ts1) * (ts1 + ts2 + 1))
          * Function.update s.1 (i + (-ts1 + (R : Int) + ts1) * (ts1 + ts2 + 1))
            ((imageBW ((cy + (-ts1 + (R : Int))) * xsize + (cx - ts1) + i) : K) - ave)
              (i + (-ts1 + (R : Int) + ts1) * (ts1 + ts2 + 1))))
      (fun C s => (∀ r c : Nat, (r < R ∧ c < (ts1 + ts2 + 1).toNat) ∨ (r = R ∧ c < C) →
          s.1 ((c : Int) + r * (ts1 + ts2 + 1))
            = (patchPixel imageBW xsize cx cy ts1 r c : K) - ave) ∧
        s.2 = (∑ r ∈ Finset.range R, ∑ c ∈ Finset.range (ts1 + ts2 + 1).toNat,
            ((patchPixel imageBW xsize cx cy ts1 r c : K) - ave)
              * ((patchPixel imageBW xsize cx cy ts1 r c : K) - ave))
          + ∑ c ∈ Finset.range C, ((patchPixel imageBW xsize cx cy ts1 R c : K) - ave)
              * ((patchPixel imageBW xsize cx cy ts1 R c : K) - ave))
      (ts1 + ts2 + 1).toNat 0 (ts1 + ts2) t (by rw [sub_zero]) ?_ ?_
    · refine ⟨fun r c hr hc => hI.1 r c ?_, ?_⟩
      · rcases Nat.lt_succ_iff_lt_or_eq.mp hr with h | h
        · exact Or.inl ⟨h, hc⟩
        · exact Or.inr ⟨h, hc⟩
      · rw [hI.2, Finset.sum_range_succ]
    · refine ⟨fun r c h => ?_, by rw [hQ.2]; simp⟩
      rcases h with h | h
      · exact hQ.1 r c h.1 h.2
      · exact absurd h.2 (Nat.not_lt_zero c)
    · intro C s hC hs
      beta_reduce
      have hidx : (0 : Int) + (C : Int) + (-ts1 + (R : Int) + ts1) * (ts1 + ts2 + 1)
          = (C : Int) + R * (ts1 + ts2 + 1) := by ring
      have hpix : ((imageBW ((cy + (-ts1 + (R : Int))) * xsize + (cx - ts1) + (0 + (C : Int))) : Nat) : K)
          = (patchPixel imageBW xsize cx cy ts1 R C : K) := by
        unfold patchPixel
        congr 2
        ring
      rw [hidx, hpix]
      dsimp only
      refine ⟨fun r c h => ?_, ?_⟩
      · by_cases hrc : c = C ∧ r = R
        · rw [hrc.1, hrc.2, Function.update_same]
        · have hne : (c : Int) + r * (ts1 + ts2 + 1) ≠ (C : Int) + R * (ts1 + ts2 + 1) := by
            intro heq
            have hcw : (c : Int) < ts1 + ts2 + 1 := by
              rcases h with h | h <;> omega
            exact hrc (rowMajor_inj (ts1 + ts2 + 1) c r C R hcw (by omega) heq)
          rw [Function.update_noteq hne]
          refine hs.1 r c ?_
          rcases h with h | h
          · exact Or.inl h
          · refine Or.inr ⟨h.1, ?_⟩
            rcases Nat.lt_succ_iff_lt_or_eq.mp h.2 with h2 | h2
            · exact h2
            · exact absurd ⟨h2, h.1⟩ hrc
      · rw [Function.update_same, hs.2, Finset.sum_range_succ, add_assoc]

end TemplateLemmas

section TemplateTheorems

variable {K : Type} [LinearOrderedField K]

theorem templateSum_div_eq_patchMean (imageBW : Int → Nat) (xsize cx cy ts1 ts2 : Int) :
    (templateSum imageBW xsize cx cy ts1 ts2 : K) / (((ts1 + ts2 + 1) * (ts1 + ts2 + 1) : Int) : K)
      = patchMean imageBW xsize cx cy ts1 ts2 := by
  rw [templateSum_eq]
  rfl

theorem templateFill_snd_eq_patchSqDev (imageBW : Int → Nat) (xsize cx cy ts1 ts2 : Int)
    (template : Int → K) :
    (templateFill imageBW xsize cx cy ts1 ts2 (patchMean imageBW xsize cx cy ts1 ts2) template).2
      = patchSqDev imageBW xsize cx cy ts1 ts2 := by
  rw [(templateFill_spec imageBW xsize cx cy ts1 ts2 _ template).2]
  rfl

/-- The function `make_template` with its two passes replaced by what they
compute. -/
theorem make_template_eq (sqrtf : K → K) (imageBW : Int → Nat) (xsize ysize cx cy ts1 ts2 : Int)
    (sd_thresh : K) (template : Int → K) :
    make_template sqrtf imageBW xsize ysize cx cy ts1 ts2 sd_thresh template
      = if patchOutside xsize ysize cx cy ts1 ts2 then none
        else if patchSqDev imageBW xsize cx cy ts1 ts2 = (0 : K) then none
        else if patchSqDev imageBW xsize cx cy ts1 ts2
            / (((ts1 + ts2 + 1) * (ts1 + ts2 + 1) : Int) : K) < sd_thresh * sd_thresh then none
        else some ((templateFill imageBW xsize cx cy ts1 ts2
            (patchMean imageBW xsize cx cy ts1 ts2) template).1,
          sqrtf (patchSqDev imageBW xsize cx cy ts1 ts2)) := by
  unfold make_template
  dsimp only
  rw [templateSum_div_eq_patchMean, templateFill_snd_eq_patchSqDev]

theorem patchSqDev_nonneg (imageBW : Int → Nat) (xsize cx cy ts1 ts2 : Int) :
    (0 : K) ≤ patchSqDev imageBW xsize cx cy ts1 ts2 := by
  unfold patchSqDev
  exact Finset.sum_nonneg (fun r _ => Finset.sum_nonneg (fun c _ => mul_self_nonneg _))

theorem patchSide_cast (ts1 ts2 : Int) (h : 0 ≤ ts1 + ts2 + 1) :
    ((((ts1 + ts2 + 1) * (ts1 + ts2 + 1) : Int)) : K)
      = ((ts1 + ts2 + 1).toNat : K) * ((ts1 + ts2 + 1).toNat : K) := by
  have e : (ts1 + ts2 + 1) = (((ts1 + ts2 + 1).toNat : Nat) : Int) := (Int.toNat_of_nonneg h).symm
  rw [Int.cast_mul]
  have e2 : ((ts1 + ts2 + 1 : Int) : K) = ((ts1 + ts2 + 1).toNat : K) := by
    conv_lhs => rw [e]
    exact Int.cast_natCast _
  rw [e2]

/-- C7: `make_template` returns `-1` exactly when the patch crosses the image
bounds, or the sum `vlen1` of the squared deviations of the patch pixels from
the patch mean is zero, or `vlen1/((ts1+ts2+1)^2) < sd_thresh^2`; in every
other case it returns `0`. -/
theorem make_template_fails_iff (sqrtf : K → K) (imageBW : Int → Nat)
    (xsize ysize cx cy ts1 ts2 : Int) (sd_thresh : K) (template : Int → K) :
    (make_template sqrtf imageBW xsize ysize cx cy ts1 ts2 sd_thresh template = none ↔
      ((cy - ts1 < 0 ∨ cy + ts2 ≥ ysize ∨ cx - ts1 < 0 ∨ cx + ts2 ≥ xsize) ∨
        patchSqDev imageBW xsize cx cy ts1 ts2 = (0 : K) ∨
        patchSqDev imageBW xsize cx cy ts1 ts2 / (((ts1 + ts2 + 1) ^ 2 : Int) : K)
          < sd_thresh ^ 2)) ∧
    ((make_template sqrtf imageBW xsize ysize cx cy ts1 ts2 sd_thresh template).isSome = true ↔
      ¬ ((cy - ts1 < 0 ∨ cy + ts2 ≥ ysize ∨ cx - ts1 < 0 ∨ cx + ts2 ≥ xsize) ∨
        patchSqDev imageBW xsize cx cy ts1 ts2 = (0 : K) ∨
        patchSqDev imageBW xsize cx cy ts1 ts2 / (((ts1 + ts2 + 1) ^ 2 : Int) : K)
          < sd_thresh ^ 2)) := by
  rw [make_template_eq]
  have e1 : ((ts1 + ts2 + 1) ^ 2 : Int) = (ts1 + ts2 + 1) * (ts1 + ts2 + 1) := by ring
  have e2 : sd_thresh ^ 2 = sd_thresh * sd_thresh := by ring
  rw [e1, e2]
  change (_ ↔ (patchOutside xsize ysize cx cy ts1 ts2 ∨ _)) ∧
    (_ ↔ ¬ (patchOutside xsize ysize cx cy ts1 ts2 ∨ _))
  by_cases h1 : patchOutside xsize ysize cx cy ts1 ts2
  · simp [h1]
  · by_cases h2 : patchSqDev imageBW xsize cx cy ts1 ts2 = (0 : K)
    · simp [h1, h2]
    · by_cases h3 : patchSqDev imageBW xsize cx cy ts1 ts2
          / (((ts1 + ts2 + 1) * (ts1 + ts2 + 1) : Int) : K) < sd_thresh * sd_thresh
      · simp [h1, h2, h3]
      · simp [h1, h2, h3]

theorem patchSqDev_uniform (imageBW : Int → Nat) (xsize cx cy ts1 ts2 : Int) (v : Nat)
    (hu : ∀ r c : Nat, (r : Int) ≤ ts1 + ts2 → (c : Int) ≤ ts1 + ts2 →
      patchPixel imageBW xsize cx cy ts1 r c = v) :
    patchSqDev imageBW xsize cx cy ts1 ts2 = (0 : K) := by
  by_cases hw : 0 < ts1 + ts2 + 1
  · have hmean : patchMean imageBW xsize cx cy ts1 ts2 = (v : K) := by
      unfold patchMean
      rw [patchSide_cast ts1 ts2 hw.le]
      have hsum : (∑ r ∈ Finset.range (ts1 + ts2 + 1).toNat,
          ∑ c ∈ Finset.range (ts1 + ts2 + 1).toNat, (patchPixel imageBW xsize cx cy ts1 r c : K))
          = ∑ r ∈ Finset.range (ts1 + ts2 + 1).toNat,
              ∑ c ∈ Finset.range (ts1 + ts2 + 1).toNat, (v : K) := by
        refine Finset.sum_congr rfl (fun r hr => Finset.sum_congr rfl (fun c hc => ?_))
        rw [hu r c (by have := Finset.mem_range.mp hr; omega)
          (by have := Finset.mem_range.mp hc; omega)]
      rw [hsum]
      simp only [Finset.sum_const, Finset.card_range, nsmul_eq_mul]
      have hne : ((ts1 + ts2 + 1).toNat : K) ≠ 0 := by
        have : (ts1 + ts2 + 1).toNat ≠ 0 := by omega
        exact_mod_cast this
      field_simp
      ring
    unfold patchSqDev
    refine Finset.sum_eq_zero (fun r hr => Finset.sum_eq_zero (fun c hc => ?_))
    rw [hmean, hu r c (by have := Finset.mem_range.mp hr; omega)
      (by have := Finset.mem_range.mp hc; omega), sub_self, mul_zero]
  · unfold patchSqDev
    have : (ts1 + ts2 + 1).toNat = 0 := by omega
    rw [this]
    simp

/-- C6: for all radii (`ts1, ts2 ≥ 0` included) and every `sd_thresh`,
`make_template` returns `-1` when the patch does not fit in the image, and
returns `-1` when all pixels of the `(ts1+ts2+1)`-sided patch at the anchor
have the same intensity `v`, whatever the anchor. -/
theorem make_template_uniform_rejected (sqrtf : K → K) (imageBW : Int → Nat)
    (xsize ysize cx cy ts1 ts2 : Int) (sd_thresh : K) (template : Int → K) (v : Nat) :
    ((cy - ts1 < 0 ∨ cy + ts2 ≥ ysize ∨ cx - ts1 < 0 ∨ cx + ts2 ≥ xsize) →
      make_template sqrtf imageBW xsize ysize cx cy ts1 ts2 sd_thresh template = none) ∧
    ((∀ r c : Nat, (r : Int) ≤ ts1 + ts2 → (c : Int) ≤ ts1 + ts2 →
        imageBW ((cy - ts1 + r) * xsize + (cx - ts1 + c)) = v) →
      make_template sqrtf imageBW xsize ysize cx cy ts1 ts2 sd_thresh template = none) := by
  constructor
  · intro ho
    have ho2 : patchOutside xsize ysize cx cy ts1 ts2 := ho
    rw [make_template_eq, if_pos ho2]
  · intro hu
    rw [make_template_eq]
    by_cases ho : patchOutside xsize ysize cx cy ts1 ts2
    · rw [if_pos ho]
    · rw [if_neg ho, if_pos (patchSqDev_uniform imageBW xsize cx cy ts1 ts2 v hu)]

theorem patchPixel_sum_sub_mean (imageBW : Int → Nat) (xsize cx cy ts1 ts2 : Int)
    (hw : 0 < ts1 + ts2 + 1) :
    ∑ r ∈ Finset.range (ts1 + ts2 + 1).toNat, ∑ c ∈ Finset.range (ts1 + ts2 + 1).toNat,
      ((patchPixel imageBW xsize cx cy ts1 r c : K) - patchMean imageBW xsize cx cy ts1 ts2)
      = 0 := by
  simp only [Finset.sum_sub_distrib, Finset.sum_const, Finset.card_range, nsmul_eq_mul]
  unfold patchMean
  rw [patchSide_cast ts1 ts2 hw.le]
  have hne : ((ts1 + ts2 + 1).toNat : K) ≠ 0 := by
    have : (ts1 + ts2 + 1).toNat ≠ 0 := by omega
    exact_mod_cast this
  field_simp
  ring

/-- What a successful `make_template` leaves: the side of the patch is
positive, `vlen1` is positive, `*vlen` is `sqrtf(vlen1)` and the entry at row
`r`, column `c` is the pixel minus the patch mean. -/
theorem make_template_some (sqrtf : K → K) (imageBW : Int → Nat)
    (xsize ysize cx cy ts1 ts2 : Int) (sd_thresh : K) (template tp : Int → K) (vlen : K)
    (h : make_template sqrtf imageBW xsize ysize cx cy ts1 ts2 sd_thresh template
      = some (tp, vlen)) :
    0 < ts1 + ts2 + 1 ∧ (0 : K) < patchSqDev imageBW xsize cx cy ts1 ts2 ∧
    vlen = sqrtf (patchSqDev imageBW xsize cx cy ts1 ts2) ∧
    ∀ r c : Nat, r < (ts1 + ts2 + 1).toNat → c < (ts1 + ts2 + 1).toNat →
      tp ((c : Int) + r * (ts1 + ts2 + 1))
        = (patchPixel imageBW xsize cx cy ts1 r c : K)
          - patchMean imageBW xsize cx cy ts1 ts2 := by
  rw [make_template_eq] at h
  split_ifs at h with h1 h2 h3
  have hspec := templateFill_spec imageBW xsize cx cy ts1 ts2
    (patchMean imageBW xsize cx cy ts1 ts2 : K) template
  have htp : tp = (templateFill imageBW xsize cx cy ts1 ts2
      (patchMean imageBW xsize cx cy ts1 ts2) template).1 := by
    have := Option.some.inj h
    exact (congrArg Prod.fst this).symm
  have hvl : vlen = sqrtf (patchSqDev imageBW xsize cx cy ts1 ts2) := by
    have := Option.some.inj h
    exact (congrArg Prod.snd this).symm
  have hw : 0 < ts1 + ts2 + 1 := by
    by_contra hcon
    apply h2
    unfold patchSqDev
    have : (ts1 + ts2 + 1).toNat = 0 := by omega
    rw [this]
    simp
  refine ⟨hw, lt_of_le_of_ne (patchSqDev_nonneg imageBW xsize cx cy ts1 ts2) (Ne.symm h2), hvl,
    fun r c hr hc => ?_⟩
  rw [htp]
  exact hspec.1 r c hr hc

/-- With the exact square root a successful `make_template` leaves a template
whose entries sum to zero and whose norm `vlen` is positive with `vlen*vlen`
the sum of the squared entries. -/
theorem make_template_some_sums (sqrtf : K → K) (imageBW : Int → Nat)
    (xsize ysize cx cy ts1 ts2 : Int) (sd_thresh : K) (template tp : Int → K) (vlen : K)
    (hsqrt : ∀ x : K, 0 ≤ x → 0 ≤ sqrtf x ∧ sqrtf x * sqrtf x = x)
    (h : make_template sqrtf imageBW xsize ysize cx cy ts1 ts2 sd_thresh template
      = some (tp, vlen)) :
    (∑ r ∈ Finset.range (ts1 + ts2 + 1).toNat, ∑ c ∈ Finset.range (ts1 + ts2 + 1).toNat,
      tp ((c : Int) + r * (ts1 + ts2 + 1))) = 0 ∧
    0 < vlen ∧
    vlen * vlen = ∑ r ∈ Finset.range (ts1 + ts2 + 1).toNat,
      ∑ c ∈ Finset.range (ts1 + ts2 + 1).toNat,
        tp ((c : Int) + r * (ts1 + ts2 + 1)) * tp ((c : Int) + r * (ts1 + ts2 + 1)) := by
  obtain ⟨hw, hpos, hvl, hentry⟩ := make_template_some sqrtf imageBW xsize ysize cx cy ts1 ts2
    sd_thresh template tp vlen h
  obtain ⟨hs0, hs1⟩ := hsqrt _ hpos.le
  refine ⟨?_, ?_, ?_⟩
  · rw [← patchPixel_sum_sub_mean (K := K) imageBW xsize cx cy ts1 ts2 hw]
    exact Finset.sum_congr rfl (fun r hr => Finset.sum_congr rfl (fun c hc =>
      hentry r c (Finset.mem_range.mp hr) (Finset.mem_range.mp hc)))
  · rw [hvl]
    refine lt_of_le_of_ne hs0 (fun h0 => ?_)
    rw [← h0, mul_zero] at hs1
    exact (ne_of_gt hpos) hs1.symm
  · rw [hvl, hs1]
    unfold patchSqDev
    refine Finset.sum_congr rfl (fun r hr => Finset.sum_congr rfl (fun c hc => ?_))
    rw [hentry r c (Finset.mem_range.mp hr) (Finset.mem_range.mp hc)]

/-- C8: when `make_template` returns `0` and `sqrtf` is the exact square root,
the template entry at row `r`, column `c` (index `c + r*(ts1+ts2+1)`) is the
pixel at `(cx-ts1+c, cy-ts1+r)` minus the mean of the patch, the entries sum
to zero, and the norm satisfies `vlen > 0` and `vlen^2` = the sum of the
squared entries. -/
theorem make_template_result (sqrtf : K → K) (imageBW : Int → Nat)
    (xsize ysize cx cy ts1 ts2 : Int) (sd_thresh : K) (template tp : Int → K) (vlen : K)
    (hsqrt : ∀ x : K, 0 ≤ x → 0 ≤ sqrtf x ∧ sqrtf x * sqrtf x = x)
    (h : make_template sqrtf imageBW xsize ysize cx cy ts1 ts2 sd_thresh template
      = some (tp, vlen)) :
    (∀ r c : Nat, (r : Int) ≤ ts1 + ts2 → (c : Int) ≤ ts1 + ts2 →
      tp ((c : Int) + r * (ts1 + ts2 + 1))
        = (imageBW ((cy - ts1 + r) * xsize + (cx - ts1 + c)) : K)
          - patchMean imageBW xsize cx cy ts1 ts2) ∧
    (∑ r ∈ Finset.range (ts1 + ts2 + 1).toNat, ∑ c ∈ Finset.range (ts1 + ts2 + 1).toNat,
      tp ((c : Int) + r * (ts1 + ts2 + 1))) = 0 ∧
    0 < vlen ∧
    vlen ^ 2 = ∑ r ∈ Finset.range (ts1 + ts2 + 1).toNat,
      ∑ c ∈ Finset.range (ts1 + ts2 + 1).toNat, tp ((c : Int) + r * (ts1 + ts2 + 1)) ^ 2 := by
  obtain ⟨_, _, _, hentry⟩ := make_template_some sqrtf imageBW xsize ysize cx cy ts1 ts2
    sd_thresh template tp vlen h
  obtain ⟨hsum, hpos, hsq⟩ := make_template_some_sums sqrtf imageBW xsize ysize cx cy ts1 ts2
    sd_thresh template tp vlen hsqrt h
  refine ⟨fun r c hr hc => ?_, hsum, hpos, ?_⟩
  · have := hentry r c (by omega) (by omega)
    unfold patchPixel at this
    exact this
  · rw [pow_two, hsq]
    exact Finset.sum_congr rfl (fun r _ => Finset.sum_congr rfl (fun c _ => (pow_two _).symm))

end TemplateTheorems

/-- C5, witness: the 2×2 sample image with `ts1 = 0`, `ts2 = 1`, anchor `(0,0)`. -/
theorem tile_of_size_one_eq_get_similarity_witness :
    ¬ patchOutside 2 2 0 0 0 1 ∧
    get_similarity_tile (fun x : ℚ => x) sampleImage 2 (fun _ => 1) 1 0 1 0 0 (fun _ => 0) 1 0
      = (get_similarity (fun x : ℚ => x) sampleImage 2 2 (fun _ => 1) 1 0 1 0 0).2 :=
  ⟨by decide, tile_of_size_one_eq_get_similarity (fun x : ℚ => x) sampleImage 2 2 (fun _ => 1) 1
    0 1 0 0 (fun _ => 0) (by decide)⟩

theorem sample_patchSqDev : patchSqDev sampleImage 2 0 0 0 1 = (12 : ℝ) := by
  simp [patchSqDev, patchMean, patchPixel, sampleImage, Finset.sum_range_succ]
  norm_num

/-- C8, witness: over the reals with `Real.sqrt`, the 2×2 sample image with
`ts1 = 0`, `ts2 = 1`, anchor `(0,0)` and threshold `0`. -/
theorem make_template_result_witness :
    ∃ (tp : Int → ℝ) (vlen : ℝ),
      make_template Real.sqrt sampleImage 2 2 0 0 0 1 0 (fun _ => 0) = some (tp, vlen) ∧
      (∀ r c : Nat, (r : Int) ≤ 0 + 1 → (c : Int) ≤ 0 + 1 →
        tp ((c : Int) + r * (0 + 1 + 1))
          = (sampleImage ((0 - 0 + r) * 2 + (0 - 0 + c)) : ℝ) - patchMean sampleImage 2 0 0 0 1) ∧
      (∑ r ∈ Finset.range ((0 : Int) + 1 + 1).toNat, ∑ c ∈ Finset.range ((0 : Int) + 1 + 1).toNat,
        tp ((c : Int) + r * (0 + 1 + 1))) = 0 ∧
      0 < vlen ∧
      vlen ^ 2 = ∑ r ∈ Finset.range ((0 : Int) + 1 + 1).toNat,
        ∑ c ∈ Finset.range ((0 : Int) + 1 + 1).toNat, tp ((c : Int) + r * (0 + 1 + 1)) ^ 2 := by
  have hsome : make_template Real.sqrt sampleImage 2 2 0 0 0 1 0 (fun _ => 0)
      = some ((templateFill sampleImage 2 0 0 0 1 (patchMean sampleImage 2 0 0 0 1)
          (fun _ => (0 : ℝ))).1, Real.sqrt (patchSqDev sampleImage 2 0 0 0 1)) := by
    rw [make_template_eq, if_neg (by decide), sample_patchSqDev, if_neg (by norm_num),
      if_neg (by norm_num)]
  exact ⟨_, _, hsome, make_template_result Real.sqrt sampleImage 2 2 0 0 0 1 0 (fun _ => 0) _ _
    (fun x hx => ⟨Real.sqrt_nonneg x, Real.mul_self_sqrt hx⟩) hsome⟩

section SelectLemmas

variable {K : Type} [LinearOrderedField K]

/-- What the minimum scan returns: either nothing was found (`cx = -1`), or
`(cx, cy)` is a cell of the grid whose value is `min_sim`, below
`max_sim_thresh`. -/
theorem selectScan_spec (fimage2 : Int → K) (xsize ysize : Int) (max_sim_thresh : K) :
    (selectScan fimage2 xsize ysize max_sim_thresh).cx = -1 ∨
    (0 ≤ (selectScan fimage2 xsize ysize max_sim_thresh).cx ∧
      (selectScan fimage2 xsize ysize max_sim_thresh).cx < xsize ∧
      0 ≤ (selectScan fimage2 xsize ysize max_sim_thresh).cy ∧
      (selectScan fimage2 xsize ysize max_sim_thresh).cy < ysize ∧
      fimage2 ((selectScan fimage2 xsize ysize max_sim_thresh).cy * xsize
        + (selectScan fimage2 xsize ysize max_sim_thresh).cx)
        = (selectScan fimage2 xsize ysize max_sim_thresh).min_sim ∧
      (selectScan fimage2 xsize ysize max_sim_thresh).min_sim < max_sim_thresh) := by
  have hinv := forLoop_inv
    (fun j (s : ScanState K) => forLoop 0 (xsize - 1)
      (fun i s =>
        if fimage2 s.fp2 < s.min_sim then
          { fp2 := s.fp2 + 1, min_sim := fimage2 s.fp2, cx := i, cy := j }
        else { s with fp2 := s.fp2 + 1 })
      s)
    (fun J s => s.fp2 = (J : Int) * (xsize.toNat : Int) ∧ s.min_sim ≤ max_sim_thresh ∧
      (s.cx = -1 ∨ (0 ≤ s.cx ∧ s.cx < xsize ∧ 0 ≤ s.cy ∧ s.cy < ysize ∧
        fimage2 (s.cy * xsize + s.cx) = s.min_sim ∧ s.min_sim < max_sim_thresh)))
    (ysize - 1 + 1 - 0).toNat 0 (ysize - 1)
    { fp2 := 0, min_sim := max_sim_thresh, cx := -1, cy := -1 } rfl
    ⟨by simp, le_refl _, Or.inl rfl⟩ ?_
  · exact hinv.2.2
  · intro J t hJ ht
    beta_reduce
    have hin := forLoop_inv
      (fun i (s : ScanState K) =>
        if fimage2 s.fp2 < s.min_sim then
          ({ fp2 := s.fp2 + 1, min_sim := fimage2 s.fp2, cx := i, cy := 0 + (J : Int) } : ScanState K)
        else { s with fp2 := s.fp2 + 1 })
      (fun C s => s.fp2 = (J : Int) * (xsize.toNat : Int) + C ∧ s.min_sim ≤ max_sim_thresh ∧
        (s.cx = -1 ∨ (0 ≤ s.cx ∧ s.cx < xsize ∧ 0 ≤ s.cy ∧ s.cy < ysize ∧
          fimage2 (s.cy * xsize + s.cx) = s.min_sim ∧ s.min_sim < max_sim_thresh)))
      (xsize - 1 + 1 - 0).toNat 0 (xsize - 1) t rfl
      ⟨by simp [ht.1], ht.2.1, ht.2.2⟩ ?_
    · refine ⟨?_, hin.2.1, hin.2.2⟩
      rw [hin.1]
      have : ((xsize - 1 + 1 - 0).toNat : Int) = (xsize.toNat : Int) := by
        congr 2; ring
      rw [this]
      push_cast
      ring
    · intro C s hC hs
      beta_reduce
      by_cases hlt : fimage2 s.fp2 < s.min_sim
      · rw [if_pos hlt]
        refine ⟨by simp only [hs.1]; push_cast; ring, (lt_of_lt_of_le hlt hs.2.1).le, Or.inr ?_⟩
        have hx : (xsize.toNat : Int) = xsize := Int.toNat_of_nonneg (by omega)
        dsimp only
        refine ⟨by omega, by omega, by omega, by omega, ?_, lt_of_lt_of_le hlt hs.2.1⟩
        rw [hs.1, hx]
        congr 1
        ring
      · rw [if_neg hlt]
        exact ⟨by simp only [hs.1]; push_cast; ring, hs.2.1, hs.2.2⟩

/-- What the occlusion loops leave: every cell is either untouched or `1`,
and every cell of the grid within `occ_size` of `(cx, cy)` in both directions
is `1`. -/
theorem occlude_spec (fimage2 : Int → K) (xsize ysize cx cy occ_size : Int) :
    (∀ idx : Int, occlude fimage2 xsize ysize cx cy occ_size idx = 1 ∨
      occlude fimage2 xsize ysize cx cy occ_size idx = fimage2 idx) ∧
    (∀ x y : Int, 0 ≤ x → x < xsize → 0 ≤ y → y < ysize → |x - cx| ≤ occ_size →
      |y - cy| ≤ occ_size → occlude fimage2 xsize ysize cx cy occ_size (y * xsize + x) = 1) := by
  have hinv := forLoop_inv
    (fun j (f : Int → K) => forLoop (-occ_size) occ_size
      (fun i f =>
        if cy + j < 0 ∨ cy + j ≥ ysize ∨ cx + i < 0 ∨ cx + i ≥ xsize then f
        else Function.update f ((cy + j) * xsize + (cx + i)) 1)
      f)
    (fun J g => (∀ idx : Int, g idx = 1 ∨ g idx = fimage2 idx) ∧
      (∀ x y : Int, 0 ≤ x → x < xsize → 0 ≤ y → y < ysize → |x - cx| ≤ occ_size →
        -occ_size ≤ y - cy → y - cy < -occ_size + J → g (y * xsize + x) = 1))
    (occ_size + 1 - -occ_size).toNat (-occ_size) occ_size fimage2 rfl
    ⟨fun idx => Or.inr rfl, fun x y _ _ _ _ _ h1 h2 => by
      exfalso; push_cast at h2; omega⟩ ?_
  · refine ⟨hinv.1, fun x y hx0 hx1 hy0 hy1 hax hay => hinv.2 x y hx0 hx1 hy0 hy1 hax ?_ ?_⟩
    · have := abs_le.mp hay; omega
    · have := abs_le.mp hay
      have ho : 0 ≤ occ_size := le_trans (abs_nonneg _) hay
      rw [Int.toNat_of_nonneg (by omega)]
      omega
  · intro J g hJ hg
    beta_reduce
    have hin := forLoop_inv
      (fun i (f : Int → K) =>
        if cy + (-occ_size + (J : Int)) < 0 ∨ cy + (-occ_size + (J : Int)) ≥ ysize ∨ cx + i < 0
            ∨ cx + i ≥ xsize then f
        else Function.update f ((cy + (-occ_size + (J : Int))) * xsize + (cx + i)) 1)
      (fun C h => (∀ idx : Int, h idx = 1 ∨ h idx = fimage2 idx) ∧
        (∀ x y : Int, 0 ≤ x → x < xsize → 0 ≤ y → y < ysize → |x - cx| ≤ occ_size →
          -occ_size ≤ y - cy →
          (y - cy < -occ_size + J ∨ (y - cy = -occ_size + J ∧ x - cx < -occ_size + C)) →
          h (y * xsize + x) = 1))
      (occ_size + 1 - -occ_size).toNat (-occ_size) occ_size g rfl
      ⟨hg.1, fun x y hx0 hx1 hy0 hy1 hax h1 h2 => by
        rcases h2 with h2 | h2
        · exact hg.2 x y hx0 hx1 hy0 hy1 hax h1 h2
        · exfalso
          have := abs_le.mp hax
          push_cast at h2
          omega⟩ ?_
    · refine ⟨hin.1, fun x y hx0 hx1 hy0 hy1 hax h1 h2 => hin.2 x y hx0 hx1 hy0 hy1 hax h1 ?_⟩
      have ha := abs_le.mp hax
      have ho : 0 ≤ occ_size := le_trans (abs_nonneg _) hax
      rw [Int.toNat_of_nonneg (by omega)]
      push_cast at h2
      rcases (show y - cy < -occ_size + J ∨ y - cy = -occ_size + J by omega) with h3 | h3
      · exact Or.inl h3
      · exact Or.inr ⟨h3, by omega⟩
    · intro C h hC hh
      beta_reduce
      split_ifs with hout
      · refine ⟨hh.1, fun x y hx0 hx1 hy0 hy1 hax h1 h2 => hh.2 x y hx0 hx1 hy0 hy1 hax h1 ?_⟩
        rcases h2 with h2 | h2
        · exact Or.inl h2
        · refine Or.inr ⟨h2.1, ?_⟩
          have h3 := h2.2
          push_cast at h3
          omega
      · refine ⟨fun idx => ?_, fun x y hx0 hx1 hy0 hy1 hax h1 h2 => ?_⟩
        · by_cases hidx : idx = (cy + (-occ_size + (J : Int))) * xsize + (cx + (-occ_size + (C : Int)))
          · rw [hidx, Function.update_same]; exact Or.inl rfl
          · rw [Function.update_noteq hidx]; exact hh.1 idx
        · by_cases hidx : y * xsize + x
              = (cy + (-occ_size + (J : Int))) * xsize + (cx + (-occ_size + (C : Int)))
          · rw [hidx, Function.update_same]
          · rw [Function.update_noteq hidx]
            refine hh.2 x y hx0 hx1 hy0 hy1 hax h1 ?_
            rcases h2 with h2 | h2
            · exact Or.inl h2
            · refine Or.inr ⟨h2.1, ?_⟩
              have h3 := h2.2
              push_cast at h3
              rcases (show x - cx < -occ_size + C ∨ x - cx = -occ_size + C by omega) with h4 | h4
              · exact h4
              · exfalso
                apply hidx
                have e1 : y = cy + (-occ_size + (J : Int)) := by omega
                have e2 : x = cx + (-occ_size + (C : Int)) := by omega
                rw [← e1, ← e2]

end SelectLemmas

section SelectStepLemmas

variable {K : Type} [LinearOrderedField K]

/-- The two ways an iteration of the `while` loop continues: a rejection sets
the selected cell to `1.0f` and leaves `coord` and `*num`; an acceptance
appends one record at the selected cell, increments `*num` and runs the
occlusion loops. -/
theorem selectStep_some (sqrtf : K → K) (image : AR2ImageT K)
    (ts1 ts2 search_size2 occ_size : Int) (max_sim_thresh min_sim_thresh sd_thresh : K)
    (st st1 : SelectState K)
    (h : selectStep sqrtf image ts1 ts2 search_size2 occ_size max_sim_thresh min_sim_thresh
      sd_thresh st = some st1) :
    st.num < maxFeatureNum image.xsize image.ysize occ_size ∧
    (selectScan st.fimage2 image.xsize image.ysize max_sim_thresh).cx ≠ -1 ∧
    ((st1.fimage2 = Function.update st.fimage2
          ((selectScan st.fimage2 image.xsize image.ysize max_sim_thresh).cy * image.xsize
            + (selectScan st.fimage2 image.xsize image.ysize max_sim_thresh).cx) 1 ∧
        st1.coord = st.coord ∧ st1.num = st.num) ∨
      (st1.fimage2 = occlude st.fimage2 image.xsize image.ysize
          (selectScan st.fimage2 image.xsize image.ysize max_sim_thresh).cx
          (selectScan st.fimage2 image.xsize image.ysize max_sim_thresh).cy occ_size ∧
        (∃ c : AR2FeatureCoordT K,
          c.x = (selectScan st.fimage2 image.xsize image.ysize max_sim_thresh).cx ∧
          c.y = (selectScan st.fimage2 image.xsize image.ysize max_sim_thresh).cy ∧
          c.maxSim = (selectScan st.fimage2 image.xsize image.ysize max_sim_thresh).min_sim ∧
          st1.coord = st.coord ++ [c]) ∧
        st1.num = st.num + 1)) := by
  unfold selectStep at h
  by_cases h1 : st.num < maxFeatureNum image.xsize image.ysize occ_size
  · rw [if_neg (not_not.mpr h1)] at h
    dsimp only at h
    by_cases h2 : (selectScan st.fimage2 image.xsize image.ysize max_sim_thresh).cx = -1
    · rw [if_pos h2] at h
      cases h
    · rw [if_neg h2] at h
      refine ⟨h1, h2, ?_⟩
      split at h
      · have := Option.some.inj h
        subst this
        exact Or.inl ⟨rfl, rfl, rfl⟩
      · split_ifs at h with h3 h4
        · have := Option.some.inj h
          subst this
          exact Or.inl ⟨rfl, rfl, rfl⟩
        · have := Option.some.inj h
          subst this
          exact Or.inl ⟨rfl, rfl, rfl⟩
        · have := Option.some.inj h
          subst this
          exact Or.inr ⟨rfl, ⟨_, rfl, rfl, rfl, rfl⟩, rfl⟩
  · rw [if_pos h1] at h
    cases h

theorem cell_index_range (xsize ysize cx cy : Int) (hx0 : 0 ≤ cx) (hx1 : cx < xsize)
    (hy0 : 0 ≤ cy) (hy1 : cy < ysize) :
    0 ≤ cy * xsize + cx ∧ cy * xsize + cx < xsize * ysize := by
  constructor
  · have : 0 ≤ cy * xsize := mul_nonneg hy0 (by omega)
    omega
  · have h1 : 0 ≤ (ysize - 1 - cy) * xsize := mul_nonneg (by omega) (by omega)
    nlinarith

theorem belowCount_le (f g : Int → K) (xsize ysize : Int) (max_sim_thresh : K)
    (hmax : max_sim_thresh ≤ 1) (hfg : ∀ idx : Int, g idx = 1 ∨ g idx = f idx) :
    belowCount g xsize ysize max_sim_thresh ≤ belowCount f xsize ysize max_sim_thresh := by
  unfold belowCount
  refine Finset.card_le_card (fun n hn => ?_)
  rw [Finset.mem_filter] at hn ⊢
  refine ⟨hn.1, ?_⟩
  rcases hfg n with h | h
  · rw [h] at hn
    exact absurd (lt_of_lt_of_le hn.2 hmax) (lt_irrefl _)
  · rw [← h]
    exact hn.2

theorem belowCount_lt (f g : Int → K) (xsize ysize : Int) (max_sim_thresh : K)
    (hmax : max_sim_thresh ≤ 1) (hfg : ∀ idx : Int, g idx = 1 ∨ g idx = f idx)
    (idx : Int) (h0 : 0 ≤ idx) (h1 : idx < xsize * ysize) (hf : f idx < max_sim_thresh)
    (hg : g idx = 1) :
    belowCount g xsize ysize max_sim_thresh < belowCount f xsize ysize max_sim_thresh := by
  unfold belowCount
  refine Finset.card_lt_card ?_
  rw [Finset.ssubset_iff_of_subset]
  · refine ⟨idx.toNat, ?_, ?_⟩
    · rw [Finset.mem_filter, Finset.mem_range, Int.toNat_of_nonneg h0]
      exact ⟨by omega, hf⟩
    · rw [Finset.mem_filter, Int.toNat_of_nonneg h0, hg]
      exact fun h => absurd (lt_of_lt_of_le h.2 hmax) (lt_irrefl _)
  · intro n hn
    rw [Finset.mem_filter] at hn ⊢
    refine ⟨hn.1, ?_⟩
    rcases hfg n with h | h
    · rw [h] at hn
      exact absurd (lt_of_lt_of_le hn.2 hmax) (lt_irrefl _)
    · rw [← h]
      exact hn.2

theorem update_one_or (f : Int → K) (k idx : Int) :
    Function.update f k 1 idx = 1 ∨ Function.update f k 1 idx = f idx := by
  by_cases h : idx = k
  · rw [h, Function.update_same]; exact Or.inl rfl
  · rw [Function.update_noteq h]; exact Or.inr rfl

/-- With `max_sim_thresh ≤ 1` every iteration that continues the loop lowers
`(max_feature_num - *num) + (number of cells below max_sim_thresh)`. -/
theorem selectStep_measure (sqrtf : K → K) (image : AR2ImageT K)
    (ts1 ts2 search_size2 occ_size : Int) (max_sim_thresh min_sim_thresh sd_thresh : K)
    (hmax : max_sim_thresh ≤ 1) (st st1 : SelectState K)
    (h : selectStep sqrtf image ts1 ts2 search_size2 occ_size max_sim_thresh min_sim_thresh
      sd_thresh st = some st1) :
    (maxFeatureNum image.xsize image.ysize occ_size - st1.num).toNat
        + belowCount st1.fimage2 image.xsize image.ysize max_sim_thresh
      < (maxFeatureNum image.xsize image.ysize occ_size - st.num).toNat
        + belowCount st.fimage2 image.xsize image.ysize max_sim_thresh := by
  obtain ⟨hnum, hcx, hcase⟩ := selectStep_some sqrtf image ts1 ts2 search_size2 occ_size
    max_sim_thresh min_sim_thresh sd_thresh st st1 h
  rcases selectScan_spec st.fimage2 image.xsize image.ysize max_sim_thresh with hsc | hsc
  · exact absurd hsc hcx
  · obtain ⟨hx0, hx1, hy0, hy1, hval, hlt⟩ := hsc
    have hrange := cell_index_range image.xsize image.ysize _ _ hx0 hx1 hy0 hy1
    rcases hcase with ⟨hf, _, hn⟩ | ⟨hf, _, hn⟩
    · have := belowCount_lt st.fimage2 st1.fimage2 image.xsize image.ysize max_sim_thresh hmax
        (fun idx => by rw [hf]; exact update_one_or _ _ _) _ hrange.1 hrange.2
        (by rw [hval]; exact hlt) (by rw [hf, Function.update_same])
      rw [hn]
      omega
    · have := belowCount_le st.fimage2 st1.fimage2 image.xsize image.ysize max_sim_thresh hmax
        (fun idx => by rw [hf]; exact (occlude_spec _ _ _ _ _ _).1 idx)
      rw [hn]
      omega

/-- With `max_sim_thresh ≤ 1` the `while` loop is left after finitely many
iterations. -/
theorem selectLoop_terminates (sqrtf : K → K) (image : AR2ImageT K)
    (ts1 ts2 search_size2 occ_size : Int) (max_sim_thresh min_sim_thresh sd_thresh : K)
    (hmax : max_sim_thresh ≤ 1) :
    ∀ (fuel : Nat) (st : SelectState K),
      (maxFeatureNum image.xsize image.ysize occ_size - st.num).toNat
        + belowCount st.fimage2 image.xsize image.ysize max_sim_thresh < fuel →
      ∃ st1, selectLoop sqrtf image ts1 ts2 search_size2 occ_size max_sim_thresh min_sim_thresh
        sd_thresh fuel st = some st1 := by
  intro fuel
  induction fuel with
  | zero => intro st h; exact absurd h (Nat.not_lt_zero _)
  | succ m ih =>
      intro st hm
      rw [selectLoop]
      cases hstep : selectStep sqrtf image ts1 ts2 search_size2 occ_size max_sim_thresh
          min_sim_thresh sd_thresh st with
      | none => exact ⟨st, rfl⟩
      | some st1 =>
          have := selectStep_measure sqrtf image ts1 ts2 search_size2 occ_size max_sim_thresh
            min_sim_thresh sd_thresh hmax st st1 hstep
          exact ih st1 (by omega)

/-- A property kept by every iteration holds in the state in which the loop
is left. -/
theorem selectLoop_inv (sqrtf : K → K) (image : AR2ImageT K)
    (ts1 ts2 search_size2 occ_size : Int) (max_sim_thresh min_sim_thresh sd_thresh : K)
    (P : SelectState K → Prop)
    (hstep : ∀ s s1, P s → selectStep sqrtf image ts1 ts2 search_size2 occ_size max_sim_thresh
      min_sim_thresh sd_thresh s = some s1 → P s1) :
    ∀ (fuel : Nat) (st st1 : SelectState K), P st →
      selectLoop sqrtf image ts1 ts2 search_size2 occ_size max_sim_thresh min_sim_thresh
        sd_thresh fuel st = some st1 → P st1 := by
  intro fuel
  induction fuel with
  | zero => intro st st1 _ h; simp [selectLoop] at h
  | succ m ih =>
      intro st st1 hP h
      rw [selectLoop] at h
      cases hs : selectStep sqrtf image ts1 ts2 search_size2 occ_size max_sim_thresh
          min_sim_thresh sd_thresh st with
      | none =>
          rw [hs] at h
          have := Option.some.inj h
          rw [← this]
          exact hP
      | some s1 =>
          rw [hs] at h
          exact ih s1 st1 (hstep st s1 hP hs) h

/-- A property kept by every iteration holds after any number of
iterations. -/
theorem selectIter_inv (sqrtf : K → K) (image : AR2ImageT K)
    (ts1 ts2 search_size2 occ_size : Int) (max_sim_thresh min_sim_thresh sd_thresh : K)
    (P : SelectState K → Prop)
    (hstep : ∀ s s1, P s → selectStep sqrtf image ts1 ts2 search_size2 occ_size max_sim_thresh
      min_sim_thresh sd_thresh s = some s1 → P s1) :
    ∀ (n : Nat) (st st1 : SelectState K), P st →
      selectIter sqrtf image ts1 ts2 search_size2 occ_size max_sim_thresh min_sim_thresh
        sd_thresh n st = some st1 → P st1 := by
  intro n
  induction n with
  | zero =>
      intro st st1 hP h
      have := Option.some.inj h
      rw [← this]
      exact hP
  | succ m ih =>
      intro st st1 hP h
      rw [selectIter] at h
      cases hs : selectIter sqrtf image ts1 ts2 search_size2 occ_size max_sim_thresh
          min_sim_thresh sd_thresh m st with
      | none => rw [hs] at h; simp at h
      | some s1 =>
          rw [hs] at h
          exact hstep s1 st1 (ih st s1 hP hs) h

end SelectStepLemmas

section SelectTheorems

variable {K : Type} [LinearOrderedField K]

theorem selectSeparated_step (sqrtf : K → K) (image : AR2ImageT K)
    (ts1 ts2 search_size2 occ_size : Int) (max_sim_thresh min_sim_thresh sd_thresh : K)
    (hmax : max_sim_thresh ≤ 1) (st st1 : SelectState K)
    (hP : selectSeparated image.xsize image.ysize occ_size st)
    (h : selectStep sqrtf image ts1 ts2 search_size2 occ_size max_sim_thresh min_sim_thresh
      sd_thresh st = some st1) :
    selectSeparated image.xsize image.ysize occ_size st1 := by
  obtain ⟨_, hcx, hcase⟩ := selectStep_some sqrtf image ts1 ts2 search_size2 occ_size
    max_sim_thresh min_sim_thresh sd_thresh st st1 h
  rcases selectScan_spec st.fimage2 image.xsize image.ysize max_sim_thresh with hsc | hsc
  · exact absurd hsc hcx
  · obtain ⟨hx0, hx1, hy0, hy1, hval, hlt⟩ := hsc
    rcases hcase with ⟨hf, hc, _⟩ | ⟨hf, ⟨c, hcx2, hcy2, _, hc⟩, _⟩
    · refine ⟨fun c hcm x y a1 a2 a3 a4 a5 a6 => ?_, by rw [hc]; exact hP.2⟩
      rw [hc] at hcm
      rw [hf]
      rcases update_one_or st.fimage2 _ (y * image.xsize + x) with h1 | h1
      · exact h1
      · rw [h1]; exact hP.1 c hcm x y a1 a2 a3 a4 a5 a6
    · refine ⟨fun c2 hcm x y a1 a2 a3 a4 a5 a6 => ?_, ?_⟩
      · rw [hf]
        rw [hc, List.mem_append, List.mem_singleton] at hcm
        rcases hcm with hcm | hcm
        · rcases (occlude_spec st.fimage2 image.xsize image.ysize _ _ occ_size).1
            (y * image.xsize + x) with h1 | h1
          · exact h1
          · rw [h1]; exact hP.1 c2 hcm x y a1 a2 a3 a4 a5 a6
        · rw [hcm, hcx2] at a5
          rw [hcm, hcy2] at a6
          exact (occlude_spec st.fimage2 image.xsize image.ysize _ _ occ_size).2 x y a1 a2 a3 a4
            a5 a6
      · rw [hc, List.pairwise_append]
        refine ⟨hP.2, List.pairwise_singleton _ _, fun a ha b hb => ?_⟩
        rw [List.mem_singleton] at hb
        by_contra hnot
        have hle : chebyshev a b ≤ occ_size := not_lt.mp hnot
        unfold chebyshev at hle
        rw [hb, hcx2, hcy2] at hle
        have h1 := hP.1 a ha _ _ hx0 hx1 hy0 hy1
          (by rw [abs_sub_comm]; exact le_trans (le_max_left _ _) hle)
          (by rw [abs_sub_comm]; exact le_trans (le_max_right _ _) hle)
        rw [hval] at h1
        rw [h1] at hlt
        exact absurd (lt_of_lt_of_le hlt hmax) (lt_irrefl _)

/-- The result of `ar2SelectFeature`, when there is one and it is not `NULL`,
is read off the state in which the loop is left. -/
theorem ar2SelectFeature_some (sqrtf : K → K) (fuel : Nat) (image : AR2ImageT K)
    (featureMap : AR2FeatureMapT K) (ts1 ts2 search_size2 occ_size : Int)
    (max_sim_thresh min_sim_thresh sd_thresh : K) (coords : List (AR2FeatureCoordT K)) (num : Int)
    (h : ar2SelectFeature sqrtf fuel image featureMap ts1 ts2 search_size2 occ_size
      max_sim_thresh min_sim_thresh sd_thresh = some (some (coords, num))) :
    ∃ st, selectLoop sqrtf image ts1 ts2 search_size2 occ_size max_sim_thresh min_sim_thresh
      sd_thresh fuel (selectInit image featureMap) = some st ∧ st.coord = coords ∧ st.num = num := by
  unfold ar2SelectFeature at h
  split_ifs at h with h1 h2
  · cases h
  · cases hl : selectLoop sqrtf image ts1 ts2 search_size2 occ_size max_sim_thresh min_sim_thresh
      sd_thresh fuel (selectInit image featureMap) with
    | none => rw [hl] at h; cases h
    | some st =>
        rw [hl] at h
        have h3 := Option.some.inj (Option.some.inj h)
        exact ⟨st, rfl, congrArg Prod.fst h3, congrArg Prod.snd h3⟩

/-- With matching dimensions, `occ_size ≠ 0` and `max_sim_thresh ≤ 1` the
call of `ar2SelectFeature` returns a block. -/
theorem ar2SelectFeature_returns (sqrtf : K → K) (image : AR2ImageT K)
    (featureMap : AR2FeatureMapT K) (ts1 ts2 search_size2 occ_size : Int)
    (max_sim_thresh min_sim_thresh sd_thresh : K)
    (hdim : image.xsize = featureMap.xsize ∧ image.ysize = featureMap.ysize)
    (hocc : occ_size ≠ 0) (hmax : max_sim_thresh ≤ 1) :
    ∃ fuel coords num, ar2SelectFeature sqrtf fuel image featureMap ts1 ts2 search_size2 occ_size
      max_sim_thresh min_sim_thresh sd_thresh = some (some (coords, num)) := by
  obtain ⟨st, hst⟩ := selectLoop_terminates sqrtf image ts1 ts2 search_size2 occ_size
    max_sim_thresh min_sim_thresh sd_thresh hmax _ (selectInit image featureMap) (Nat.lt_succ_self _)
  refine ⟨((maxFeatureNum image.xsize image.ysize occ_size
      - (selectInit image featureMap).num).toNat
    + belowCount (selectInit image featureMap).fimage2 image.xsize image.ysize
      max_sim_thresh).succ, st.coord, st.num, ?_⟩
  unfold ar2SelectFeature
  rw [if_neg (by rw [not_or, not_not, not_not]; exact hdim), if_neg hocc, hst]
  rfl

/-- C2: for an image and a feature map of matching dimensions, `occ_size ≥ 1`
and `max_sim_thresh ≤ 1`, `ar2SelectFeature` returns a sequence, and any two
distinct entries of the returned sequence satisfy
`max(|x1 - x2|, |y1 - y2|) > occ_size`. -/
theorem select_coords_separated (sqrtf : K → K) (image : AR2ImageT K)
    (featureMap : AR2FeatureMapT K) (ts1 ts2 search_size2 occ_size : Int)
    (max_sim_thresh min_sim_thresh sd_thresh : K)
    (hdim : image.xsize = featureMap.xsize ∧ image.ysize = featureMap.ysize)
    (hocc : 1 ≤ occ_size) (hmax : max_sim_thresh ≤ 1) :
    (∃ fuel coords num, ar2SelectFeature sqrtf fuel image featureMap ts1 ts2 search_size2 occ_size
      max_sim_thresh min_sim_thresh sd_thresh = some (some (coords, num))) ∧
    ∀ fuel coords num, ar2SelectFeature sqrtf fuel image featureMap ts1 ts2 search_size2 occ_size
      max_sim_thresh min_sim_thresh sd_thresh = some (some (coords, num)) →
      ∀ (i j : Nat) (hi : i < coords.length) (hj : j < coords.length), i ≠ j →
        occ_size < max |(coords[i]).x - (coords[j]).x| |(coords[i]).y - (coords[j]).y| := by
  refine ⟨ar2SelectFeature_returns sqrtf image featureMap ts1 ts2 search_size2 occ_size
    max_sim_thresh min_sim_thresh sd_thresh hdim (by omega) hmax, ?_⟩
  intro fuel coords num h i j hi hj hij
  obtain ⟨st, hl, hc, _⟩ := ar2SelectFeature_some sqrtf fuel image featureMap ts1 ts2 search_size2
    occ_size max_sim_thresh min_sim_thresh sd_thresh coords num h
  have hinv := selectLoop_inv sqrtf image ts1 ts2 search_size2 occ_size max_sim_thresh
    min_sim_thresh sd_thresh (selectSeparated image.xsize image.ysize occ_size)
    (fun s s1 hP hs => selectSeparated_step sqrtf image ts1 ts2 search_size2 occ_size
      max_sim_thresh min_sim_thresh sd_thresh hmax s s1 hP hs)
    fuel (selectInit image featureMap) st
    ⟨fun c hc => absurd hc (List.not_mem_nil c), List.Pairwise.nil⟩ hl
  have hpw := hinv.2
  rw [hc, List.pairwise_iff_getElem] at hpw
  rcases Nat.lt_or_gt_of_ne hij with hlt | hgt
  · exact hpw i j hi hj hlt
  · have := hpw j i hj hi hgt
    unfold chebyshev at this
    rw [abs_sub_comm (coords[i]).x, abs_sub_comm (coords[i]).y]
    exact this

end SelectTheorems

section SelectCount

variable {K : Type} [LinearOrderedField K]

theorem maxFeatureNum_eq (xsize ysize occ_size : Int) :
    maxFeatureNum xsize ysize occ_size
      = max 10 (xsize.tdiv occ_size * ysize.tdiv occ_size) := by
  unfold maxFeatureNum
  split_ifs with h
  · exact (max_eq_left h.le).symm
  · exact (max_eq_right (not_lt.mp h)).symm

theorem selectNum_step (sqrtf : K → K) (image : AR2ImageT K)
    (ts1 ts2 search_size2 occ_size : Int) (max_sim_thresh min_sim_thresh sd_thresh : K)
    (st st1 : SelectState K)
    (hP : 0 ≤ st.num ∧ st.num ≤ maxFeatureNum image.xsize image.ysize occ_size ∧
      st.num = st.coord.length)
    (h : selectStep sqrtf image ts1 ts2 search_size2 occ_size max_sim_thresh min_sim_thresh
      sd_thresh st = some st1) :
    0 ≤ st1.num ∧ st1.num ≤ maxFeatureNum image.xsize image.ysize occ_size ∧
      st1.num = st1.coord.length := by
  obtain ⟨hnum, _, hcase⟩ := selectStep_some sqrtf image ts1 ts2 search_size2 occ_size
    max_sim_thresh min_sim_thresh sd_thresh st st1 h
  rcases hcase with ⟨_, hc, hn⟩ | ⟨_, ⟨c, _, _, _, hc⟩, hn⟩
  · rw [hn, hc]; exact hP
  · rw [hn, hc, List.length_append, List.length_singleton]
    refine ⟨by omega, by omega, ?_⟩
    rw [hP.2.2]
    push_cast
    rfl

/-- C3: for `occ_size ≥ 1` the count `*num` satisfies
`0 ≤ *num ≤ max(10, (xsize/occ_size)*(ysize/occ_size))` (truncating division)
after every iteration of the loop of `ar2SelectFeature` and in every returned
result, where it is the number of returned records. -/
theorem select_num_bounded (sqrtf : K → K) (image : AR2ImageT K)
    (featureMap : AR2FeatureMapT K) (ts1 ts2 search_size2 occ_size : Int)
    (max_sim_thresh min_sim_thresh sd_thresh : K) (_hocc : 1 ≤ occ_size) :
    (∀ n st, selectIter sqrtf image ts1 ts2 search_size2 occ_size max_sim_thresh min_sim_thresh
        sd_thresh n (selectInit image featureMap) = some st →
      0 ≤ st.num ∧ st.num ≤ max 10 (image.xsize.tdiv occ_size * image.ysize.tdiv occ_size)) ∧
    (∀ fuel coords num, ar2SelectFeature sqrtf fuel image featureMap ts1 ts2 search_size2 occ_size
        max_sim_thresh min_sim_thresh sd_thresh = some (some (coords, num)) →
      0 ≤ num ∧ num ≤ max 10 (image.xsize.tdiv occ_size * image.ysize.tdiv occ_size) ∧
        num = coords.length) := by
  have h10 : (0 : Int) ≤ maxFeatureNum image.xsize image.ysize occ_size := by
    rw [maxFeatureNum_eq]
    exact le_trans (by norm_num) (le_max_left _ _)
  have hinit : 0 ≤ (selectInit image featureMap).num ∧
      (selectInit image featureMap).num ≤ maxFeatureNum image.xsize image.ysize occ_size ∧
      (selectInit image featureMap).num = (selectInit image featureMap).coord.length :=
    ⟨le_refl _, h10, rfl⟩
  constructor
  · intro n st h
    have := selectIter_inv sqrtf image ts1 ts2 search_size2 occ_size max_sim_thresh
      min_sim_thresh sd_thresh
      (fun s => 0 ≤ s.num ∧ s.num ≤ maxFeatureNum image.xsize image.ysize occ_size ∧
        s.num = s.coord.length)
      (fun s s1 hP hs => selectNum_step sqrtf image ts1 ts2 search_size2 occ_size
        max_sim_thresh min_sim_thresh sd_thresh s s1 hP hs)
      n (selectInit image featureMap) st hinit h
    rw [maxFeatureNum_eq] at this
    exact ⟨this.1, this.2.1⟩
  · intro fuel coords num h
    obtain ⟨st, hl, hc, hn⟩ := ar2SelectFeature_some sqrtf fuel image featureMap ts1 ts2
      search_size2 occ_size max_sim_thresh min_sim_thresh sd_thresh coords num h
    have := selectLoop_inv sqrtf image ts1 ts2 search_size2 occ_size max_sim_thresh
      min_sim_thresh sd_thresh
      (fun s => 0 ≤ s.num ∧ s.num ≤ maxFeatureNum image.xsize image.ysize occ_size ∧
        s.num = s.coord.length)
      (fun s s1 hP hs => selectNum_step sqrtf image ts1 ts2 search_size2 occ_size
        max_sim_thresh min_sim_thresh sd_thresh s s1 hP hs)
      fuel (selectInit image featureMap) st hinit hl
    rw [maxFeatureNum_eq, hc, hn] at this
    exact this

/-- C4, as amended: for matching dimensions, `occ_size ≠ 0` and
`max_sim_thresh ≤ 1` the call of `ar2SelectFeature` returns, and every
iteration of its loop that continues without accepting a point (`*num`
unchanged) strictly lowers the number of cells below `max_sim_thresh`. -/
theorem select_terminates_of_thresh_le_one (sqrtf : K → K) (image : AR2ImageT K)
    (featureMap : AR2FeatureMapT K) (ts1 ts2 search_size2 occ_size : Int)
    (max_sim_thresh min_sim_thresh sd_thresh : K)
    (hdim : image.xsize = featureMap.xsize ∧ image.ysize = featureMap.ysize)
    (hocc : occ_size ≠ 0) (hmax : max_sim_thresh ≤ 1) :
    (∃ fuel coords num, ar2SelectFeature sqrtf fuel image featureMap ts1 ts2 search_size2 occ_size
      max_sim_thresh min_sim_thresh sd_thresh = some (some (coords, num))) ∧
    (∀ st st1, selectStep sqrtf image ts1 ts2 search_size2 occ_size max_sim_thresh min_sim_thresh
        sd_thresh st = some st1 → st1.num = st.num →
      belowCount st1.fimage2 image.xsize image.ysize max_sim_thresh
        < belowCount st.fimage2 image.xsize image.ysize max_sim_thresh) := by
  refine ⟨ar2SelectFeature_returns sqrtf image featureMap ts1 ts2 search_size2 occ_size
    max_sim_thresh min_sim_thresh sd_thresh hdim hocc hmax, ?_⟩
  intro st st1 h hn
  have := selectStep_measure sqrtf image ts1 ts2 search_size2 occ_size max_sim_thresh
    min_sim_thresh sd_thresh hmax st st1 h
  rw [hn] at this
  omega

end SelectCount

theorem sample_scan (f : Int → ℚ) (hf : f 0 < 2) :
    selectScan f 1 1 2 = { fp2 := 1, min_sim := f 0, cx := 0, cy := 0 } := by
  unfold selectScan
  rw [forLoop_step _ _ _ _ (by norm_num), forLoop_done _ _ _ _ (by norm_num),
    forLoop_step _ _ _ _ (by norm_num), forLoop_done _ _ _ _ (by norm_num)]
  simp [hf]

theorem sample_step (st : SelectState ℚ) (hn : st.num = 0) (hf : st.fimage2 0 < 2) :
    ∃ st1, selectStep (fun x : ℚ => x) ⟨1, 1, 72, fun _ => 0⟩ 0 0 0 1 2 0 0 st = some st1 ∧
      st1.num = 0 ∧ st1.fimage2 0 < 2 := by
  have hmt : make_template (fun x : ℚ => x) (fun _ => 0) 1 1 0 0 0 0 0 st.template = none := by
    rw [make_template_eq, if_neg (by decide),
      if_pos (patchSqDev_uniform (fun _ => 0) 1 0 0 0 0 0 (fun _ _ _ _ => rfl))]
  unfold selectStep
  rw [if_neg (by rw [hn]; decide)]
  dsimp only
  rw [sample_scan st.fimage2 hf]
  dsimp only
  rw [if_neg (by decide), hmt]
  refine ⟨_, rfl, hn, ?_⟩
  dsimp only
  have e : (0 : Int) * 1 + 0 = 0 := by norm_num
  rw [e, Function.update_same]
  norm_num

/-- C4, counterexample: with `max_sim_thresh = 2` the loop of
`ar2SelectFeature` on a 1×1 black image with map value `0`, `ts1 = ts2 = 0`
and `occ_size = 1` never ends: no number of iterations yields a result. -/
theorem select_diverges_thresh_two :
    ¬ ∃ fuel, (ar2SelectFeature (fun x : ℚ => x) fuel ⟨1, 1, 72, fun _ => 0⟩ ⟨[0], 1, 1⟩
      0 0 0 1 2 0 0).isSome = true := by
  have hloop : ∀ (fuel : Nat) (st : SelectState ℚ), st.num = 0 → st.fimage2 0 < 2 →
      selectLoop (fun x : ℚ => x) ⟨1, 1, 72, fun _ => 0⟩ 0 0 0 1 2 0 0 fuel st = none := by
    intro fuel
    induction fuel with
    | zero => intro st _ _; rfl
    | succ m ih =>
        intro st hn hf
        obtain ⟨st1, hs, hn1, hf1⟩ := sample_step st hn hf
        rw [selectLoop, hs]
        exact ih st1 hn1 hf1
  rintro ⟨fuel, h⟩
  unfold ar2SelectFeature at h
  rw [if_neg (by decide), if_neg (by decide), hloop fuel _ rfl (by simp [selectInit, copyMap])]
    at h
  cases h

/-- C3, witness: on the 2×2 sample image and map with `occ_size = 1` the call
returns, and the returned count is within the bounds. -/
theorem select_num_bounded_witness :
    ∃ fuel coords num, ar2SelectFeature (fun x : ℚ => x) fuel sampleImageT sampleMap 0 1 1 1
        (9 / 10) (3 / 10) 0 = some (some (coords, num)) ∧
      0 ≤ num ∧ num ≤ max 10 (sampleImageT.xsize.tdiv 1 * sampleImageT.ysize.tdiv 1) ∧
      num = coords.length := by
  obtain ⟨fuel, coords, num, h⟩ := ar2SelectFeature_returns (fun x : ℚ => x) sampleImageT
    sampleMap 0 1 1 1 (9 / 10) (3 / 10) 0 ⟨rfl, rfl⟩ (by decide) (by norm_num)
  exact ⟨fuel, coords, num, h, (select_num_bounded (fun x : ℚ => x) sampleImageT sampleMap 0 1 1 1
    (9 / 10) (3 / 10) 0 (by decide)).2 fuel coords num h⟩

/-- C4 as amended, witness: the 2×2 sample image and map with `occ_size = 1`
and `max_sim_thresh = 9/10`. -/
theorem select_terminates_of_thresh_le_one_witness :
    (∃ fuel coords num, ar2SelectFeature (fun x : ℚ => x) fuel sampleImageT sampleMap 0 1 1 1
      (9 / 10) (3 / 10) 0 = some (some (coords, num))) ∧
    (∀ st st1, selectStep (fun x : ℚ => x) sampleImageT 0 1 1 1 (9 / 10) (3 / 10) 0 st = some st1 →
      st1.num = st.num →
      belowCount st1.fimage2 sampleImageT.xsize sampleImageT.ysize (9 / 10)
        < belowCount st.fimage2 sampleImageT.xsize sampleImageT.ysize (9 / 10)) :=
  select_terminates_of_thresh_le_one (fun x : ℚ => x) sampleImageT sampleMap 0 1 1 1 (9 / 10)
    (3 / 10) 0 ⟨rfl, rfl⟩ (by decide) (by norm_num)

section GenLoopLemmas

variable {σ : Type}

/-- Invariant rule for `forBreak`: a property kept by the body holds when the
loop is left, by `break` or by its condition. -/
theorem forBreak_inv (body : Int → σ → σ × Bool) (P : σ → Prop) (hi : Int)
    (hstep : ∀ v s, v ≤ hi → P s → P (body v s).1) :
    ∀ (n : Nat) (lo : Int) (s : σ), (hi + 1 - lo).toNat ≤ n → P s →
      P (forBreak lo hi body s) := by
  intro n
  induction n with
  | zero =>
      intro lo s hn hP
      rw [forBreak, if_neg (by omega)]
      exact hP
  | succ m ih =>
      intro lo s hn hP
      rw [forBreak]
      by_cases hlo : lo ≤ hi
      · rw [if_pos hlo]
        by_cases hb : (body lo s).2 = true
        · rw [if_pos hb]
          exact hstep lo s hlo hP
        · rw [if_neg hb]
          exact ih (lo + 1) _ (by omega) (hstep lo s hlo hP)
      · rw [if_neg hlo]
        exact hP

theorem genRun_spec (xsize ysize i j ts1 ts2 search_size1 search_size2 jj ii : Int) :
    ∀ (n : Nat) (it : Int), (512 + ii - it).toNat ≤ n →
      it ≤ genRun xsize ysize i j ts1 ts2 search_size1 search_size2 jj ii it ∧
      (∀ x, it ≤ x → x < genRun xsize ysize i j ts1 ts2 search_size1 search_size2 jj ii it →
        ¬ (x * x + jj * jj ≤ search_size2 * search_size2) ∧
        ¬ patchOutside xsize ysize (i + x) (j + jj) ts1 ts2 ∧ x ≤ search_size1 ∧ x < 512 + ii) := by
  intro n
  induction n with
  | zero =>
      intro it hn
      rw [genRun, dif_neg (by omega)]
      exact ⟨le_refl _, fun x h1 h2 => by omega⟩
  | succ m ih =>
      intro it hn
      rw [genRun]
      by_cases hc : it ≤ search_size1 ∧ it < 512 + ii
      · rw [dif_pos hc]
        by_cases hd : it * it + jj * jj ≤ search_size2 * search_size2
        · rw [if_pos hd]
          exact ⟨le_refl _, fun x h1 h2 => by omega⟩
        · rw [if_neg hd]
          by_cases ho : patchOutside xsize ysize (i + it) (j + jj) ts1 ts2
          · rw [if_pos ho]
            exact ⟨le_refl _, fun x h1 h2 => by omega⟩
          · rw [if_neg ho]
            obtain ⟨h1, h2⟩ := ih (it + 1) (by omega)
            refine ⟨by omega, fun x hx1 hx2 => ?_⟩
            by_cases hx : x = it
            · rw [hx]
              exact ⟨hd, ho, hc.1, hc.2⟩
            · exact h2 x (by omega) hx2
      · rw [dif_neg hc]
        exact ⟨le_refl _, fun x h1 h2 => by omega⟩

theorem disk_mono (jj s x y : Int) (hxy : |x| ≤ |y|) (hx : ¬ (x * x + jj * jj ≤ s)) :
    ¬ (y * y + jj * jj ≤ s) := by
  have h := abs_le_iff_mul_self_le.mp hxy
  intro hy
  exact hx (by linarith)

end GenLoopLemmas

section GenScanLemmas

variable {K : Type} [LinearOrderedField K]

theorem genAdvance_eq (ii1 r : Int) (h : ii1 < r) :
    (if |ii1 - r| > 1 then ii1 + (|ii1 - r| - 1) else ii1) + 1 = r := by
  have habs : |ii1 - r| = r - ii1 := by
    rw [abs_sub_comm, abs_of_nonneg (by omega)]
  rw [habs]
  split_ifs <;> omega

/-- One iteration of the loop over `ii`, with the position after the
iteration made explicit. -/
theorem genScanRow_succ (sqrtf : K → K) (img : Int → Nat) (xsize ysize : Int)
    (template : Int → K) (vlen : K) (ts1 ts2 search_size1 search_size2 : Int)
    (max_sim_thresh : K) (i j jj : Int) (fuel : Nat) (ii : Int) (s : K × (Int → K))
    (ii1 : Int)
    (hii1 : ii1 = if ii * ii + jj * jj ≤ search_size2 * search_size2 then -ii + 1 else ii) :
    genScanRow sqrtf img xsize ysize template vlen ts1 ts2 search_size1 search_size2
        max_sim_thresh i j jj (fuel + 1) ii s
      = if ¬ ii ≤ search_size1 then some s
        else if genRun xsize ysize i j ts1 ts2 search_size1 search_size2 jj ii1 ii1 = ii1 then
          genScanRow sqrtf img xsize ysize template vlen ts1 ts2 search_size1 search_size2
            max_sim_thresh i j jj fuel (ii1 + 1) s
        else if (genTile sqrtf img xsize template vlen ts1 ts2 max_sim_thresh i j jj ii1
            (genRun xsize ysize i j ts1 ts2 search_size1 search_size2 jj ii1 ii1) s).1
            > max_sim_thresh then
          some (genTile sqrtf img xsize template vlen ts1 ts2 max_sim_thresh i j jj ii1
            (genRun xsize ysize i j ts1 ts2 search_size1 search_size2 jj ii1 ii1) s)
        else
          genScanRow sqrtf img xsize ysize template vlen ts1 ts2 search_size1 search_size2
            max_sim_thresh i j jj fuel
            (genRun xsize ysize i j ts1 ts2 search_size1 search_size2 jj ii1 ii1)
            (genTile sqrtf img xsize template vlen ts1 ts2 max_sim_thresh i j jj ii1
              (genRun xsize ysize i j ts1 ts2 search_size1 search_size2 jj ii1 ii1) s) := by
  rw [genScanRow]
  dsimp only
  rw [← hii1]
  by_cases h1 : ¬ ii ≤ search_size1
  · rw [if_pos h1, if_pos h1]
  · rw [if_neg h1, if_neg h1]
    by_cases h2 : genRun xsize ysize i j ts1 ts2 search_size1 search_size2 jj ii1 ii1 = ii1
    · rw [if_pos h2, if_pos h2]
    · rw [if_neg h2, if_neg h2]
      have hlt : ii1 < genRun xsize ysize i j ts1 ts2 search_size1 search_size2 jj ii1 ii1 := by
        have := (genRun_spec xsize ysize i j ts1 ts2 search_size1 search_size2 jj ii1 _ ii1
          (le_refl _)).1
        omega
      rw [genAdvance_eq ii1 _ hlt]

/-- The positions the loop over `ii` visits: a position is never a positive
one inside the exclusion disk, and a position `≤ 0` is the start or is
preceded by a position outside the disk. The position after an iteration is
larger and has the property again. -/
theorem genScan_next (search_size1 search_size2 jj ii ii1 r : Int)
    (hii1 : ii1 = if ii * ii + jj * jj ≤ search_size2 * search_size2 then -ii + 1 else ii)
    (hcond : ii ≤ search_size1)
    (hpos : 0 < ii → ¬ (ii * ii + jj * jj ≤ search_size2 * search_size2))
    (hneg : ii ≤ 0 → ii = -search_size1 ∨
      ¬ ((ii - 1) * (ii - 1) + jj * jj ≤ search_size2 * search_size2))
    (hr1 : ii1 ≤ r)
    (hr2 : ∀ x, ii1 ≤ x → x < r → ¬ (x * x + jj * jj ≤ search_size2 * search_size2))
    (nxt : Int) (hnxt : nxt = (if r = ii1 then ii1 + 1 else r)) :
    ii < nxt ∧
    (nxt ≤ search_size1 → 0 < nxt →
      ¬ (nxt * nxt + jj * jj ≤ search_size2 * search_size2)) ∧
    (nxt ≤ 0 → nxt = -search_size1 ∨
      ¬ ((nxt - 1) * (nxt - 1) + jj * jj ≤ search_size2 * search_size2)) := by
  by_cases hd : ii * ii + jj * jj ≤ search_size2 * search_size2
  · rw [if_pos hd] at hii1
    have hii : ii ≤ 0 := by
      by_contra hc
      exact hpos (by omega) hd
    have hn1 : ii1 < nxt := by
      rw [hnxt]; split_ifs <;> omega
    refine ⟨by omega, fun hle h0 => ?_, fun h0 => by omega⟩
    rcases hneg hii with h | h
    · omega
    · have hland : ¬ (ii1 * ii1 + jj * jj ≤ search_size2 * search_size2) := by
        refine disk_mono jj _ (ii - 1) ii1 ?_ h
        rw [hii1, show -ii + 1 = -(ii - 1) by ring, abs_neg]
      refine disk_mono jj _ ii1 nxt ?_ hland
      rw [abs_of_nonneg (by omega), abs_of_nonneg (by omega)]
      omega
  · rw [if_neg hd] at hii1
    subst hii1
    by_cases hrr : r = ii1
    · rw [if_pos hrr] at hnxt
      subst hnxt
      refine ⟨by omega, fun _ h0 => ?_, fun h0 => Or.inr ?_⟩
      · by_cases hz : ii1 = 0
        · refine disk_mono jj _ ii1 (ii1 + 1) ?_ hd
          rw [hz]; norm_num
        · refine disk_mono jj _ ii1 (ii1 + 1) ?_ hd
          rw [abs_of_nonneg (by omega), abs_of_nonneg (by omega)]
          omega
      · rw [show ii1 + 1 - 1 = ii1 by ring]
        exact hd
    · rw [if_neg hrr] at hnxt
      subst hnxt
      have hlast := hr2 (nxt - 1) (by omega) (by omega)
      refine ⟨by omega, fun _ h0 => ?_, fun h0 => Or.inr hlast⟩
      refine disk_mono jj _ (nxt - 1) nxt ?_ hlast
      rw [abs_of_nonneg (by omega), abs_of_nonneg (by omega)]
      omega

/-- Rule for the loop over `ii` of the window scan: from a start position
with the property of `genScan_next`, enough fuel yields a result, and a
property of the pair `(max, tile_storage)` that every tile call keeps holds
for the result. -/
theorem genScanRow_rule (sqrtf : K → K) (img : Int → Nat) (xsize ysize : Int)
    (template : Int → K) (vlen : K) (ts1 ts2 search_size1 search_size2 : Int)
    (max_sim_thresh : K) (i j jj : Int) (P : K × (Int → K) → Prop)
    (hP : ∀ ii1 s, P s → P (genTile sqrtf img xsize template vlen ts1 ts2 max_sim_thresh i j jj
      ii1 (genRun xsize ysize i j ts1 ts2 search_size1 search_size2 jj ii1 ii1) s)) :
    ∀ (fuel : Nat) (ii : Int) (s : K × (Int → K)),
      (search_size1 + 1 - ii).toNat < fuel →
      (ii ≤ search_size1 → 0 < ii → ¬ (ii * ii + jj * jj ≤ search_size2 * search_size2)) →
      (ii ≤ 0 → ii = -search_size1 ∨
        ¬ ((ii - 1) * (ii - 1) + jj * jj ≤ search_size2 * search_size2)) →
      P s →
      ∃ r, genScanRow sqrtf img xsize ysize template vlen ts1 ts2 search_size1 search_size2
        max_sim_thresh i j jj fuel ii s = some r ∧ P r := by
  intro fuel
  induction fuel with
  | zero => intro ii s h; exact absurd h (Nat.not_lt_zero _)
  | succ m ih =>
      intro ii s hfuel hpos hneg hs
      obtain ⟨ii1, hii1⟩ : ∃ x : Int,
          x = if ii * ii + jj * jj ≤ search_size2 * search_size2 then -ii + 1 else ii := ⟨_, rfl⟩
      rw [genScanRow_succ sqrtf img xsize ysize template vlen ts1 ts2 search_size1 search_size2
        max_sim_thresh i j jj m ii s ii1 hii1]
      by_cases hcond : ii ≤ search_size1
      · rw [if_neg (not_not.mpr hcond)]
        obtain ⟨hr1, hr2⟩ := genRun_spec xsize ysize i j ts1 ts2 search_size1 search_size2 jj
          ii1 _ ii1 (le_refl _)
        obtain ⟨hn1, hn2, hn3⟩ := genScan_next search_size1 search_size2 jj ii ii1 _ hii1 hcond
          (hpos hcond) hneg hr1 (fun x h1 h2 => (hr2 x h1 h2).1) _ rfl
        by_cases hrun : genRun xsize ysize i j ts1 ts2 search_size1 search_size2 jj ii1 ii1 = ii1
        · rw [if_pos hrun]
          rw [if_pos hrun] at hn1 hn2 hn3
          exact ih _ s (by omega) hn2 hn3 hs
        · rw [if_neg hrun]
          rw [if_neg hrun] at hn1 hn2 hn3
          have hs1 := hP ii1 s hs
          by_cases hbrk : (genTile sqrtf img xsize template vlen ts1 ts2 max_sim_thresh i j jj ii1
              (genRun xsize ysize i j ts1 ts2 search_size1 search_size2 jj ii1 ii1) s).1
              > max_sim_thresh
          · rw [if_pos hbrk]
            exact ⟨_, rfl, hs1⟩
          · rw [if_neg hbrk]
            exact ih _ _ (by omega) hn2 hn3 hs1
      · rw [if_pos hcond]
        exact ⟨s, rfl, hs⟩

end GenScanLemmas

section GenBoundLemmas

variable {K : Type} [LinearOrderedField K]

/-- Invariant rule for `forBreak` with the range of the loop variable. -/
theorem forBreak_inv_range {σ : Type} (body : Int → σ → σ × Bool) (P : σ → Prop) (lo0 hi : Int)
    (hstep : ∀ v s, lo0 ≤ v → v ≤ hi → P s → P (body v s).1) :
    ∀ (n : Nat) (lo : Int) (s : σ), lo0 ≤ lo → (hi + 1 - lo).toNat ≤ n → P s →
      P (forBreak lo hi body s) := by
  intro n
  induction n with
  | zero =>
      intro lo s _ hn hP
      rw [forBreak, if_neg (by omega)]
      exact hP
  | succ m ih =>
      intro lo s hlo0 hn hP
      rw [forBreak]
      by_cases hlo : lo ≤ hi
      · rw [if_pos hlo]
        by_cases hb : (body lo s).2 = true
        · rw [if_pos hb]
          exact hstep lo s hlo0 hlo hP
        · rw [if_neg hb]
          exact ih (lo + 1) _ (by omega) (by omega) (hstep lo s hlo0 hlo hP)
      · rw [if_neg hlo]
        exact hP

/-- The running sums of `get_similarity` as sums over the patch. -/
theorem simSums_eq (imageBW : Int → Nat) (xsize : Int) (template : Int → K)
    (ts1 ts2 cx cy : Int) :
    simSums imageBW xsize template ts1 ts2 cx cy =
      (∑ r ∈ Finset.range (ts1 + ts2 + 1).toNat, ∑ c ∈ Finset.range (ts1 + ts2 + 1).toNat,
          (patchPixel imageBW xsize cx cy ts1 r c : K),
       ∑ r ∈ Finset.range (ts1 + ts2 + 1).toNat, ∑ c ∈ Finset.range (ts1 + ts2 + 1).toNat,
          (patchPixel imageBW xsize cx cy ts1 r c : K) * (patchPixel imageBW xsize cx cy ts1 r c : K),
       ∑ r ∈ Finset.range (ts1 + ts2 + 1).toNat, ∑ c ∈ Finset.range (ts1 + ts2 + 1).toNat,
          (patchPixel imageBW xsize cx cy ts1 r c : K)
            * template ((c : Int) + r * (ts1 + ts2 + 1))) := by
  unfold simSums
  have h := forLoop_inv
    (fun j (s : K × K × K) => simRow (fun i => imageBW ((cy + j) * xsize + (cx - ts1) + i))
      (fun i => template (i + (j + ts1) * (ts1 + ts2 + 1))) (ts1 + ts2) s)
    (fun R s => s =
      (∑ r ∈ Finset.range R, ∑ c ∈ Finset.range (ts1 + ts2 + 1).toNat,
          (patchPixel imageBW xsize cx cy ts1 r c : K),
       ∑ r ∈ Finset.range R, ∑ c ∈ Finset.range (ts1 + ts2 + 1).toNat,
          (patchPixel imageBW xsize cx cy ts1 r c : K) * (patchPixel imageBW xsize cx cy ts1 r c : K),
       ∑ r ∈ Finset.range R, ∑ c ∈ Finset.range (ts1 + ts2 + 1).toNat,
          (patchPixel imageBW xsize cx cy ts1 r c : K)
            * template ((c : Int) + r * (ts1 + ts2 + 1))))
    (ts1 + ts2 + 1).toNat (-ts1) ts2 (0, 0, 0) (by congr 1; ring) (by simp) ?_
  · exact h
  · intro R t _ ht
    beta_reduce
    rw [simRow_eq, ht]
    simp only [Finset.sum_range_succ]
    have hp : ∀ c : Nat, imageBW ((cy + (-ts1 + (R : Int))) * xsize + (cx - ts1) + (c : Int))
        = patchPixel imageBW xsize cx cy ts1 R c := by
      intro c
      unfold patchPixel
      congr 1
      ring
    have ht2 : ∀ c : Nat, template ((c : Int) + (-ts1 + (R : Int) + ts1) * (ts1 + ts2 + 1))
        = template ((c : Int) + R * (ts1 + ts2 + 1)) := by
      intro c
      congr 1
      ring
    simp only [hp, ht2]

/-- Cauchy–Schwarz for the similarity: with a template whose entries sum to
zero and whose norm is `vlen > 0`, and the exact square root, the value of a
tile slot is at most `1`. -/
theorem tileValue_le_one (sqrtf : K → K) (imageBW : Int → Nat) (xsize : Int)
    (template : Int → K) (vlen : K) (ts1 ts2 ccx cy : Int)
    (hsqrt : ∀ x : K, 0 ≤ x → 0 ≤ sqrtf x ∧ sqrtf x * sqrtf x = x)
    (hw : 0 < ts1 + ts2 + 1)
    (hsum : (∑ r ∈ Finset.range (ts1 + ts2 + 1).toNat, ∑ c ∈ Finset.range (ts1 + ts2 + 1).toNat,
      template ((c : Int) + r * (ts1 + ts2 + 1))) = 0)
    (hpos : 0 < vlen)
    (hsq : vlen * vlen = ∑ r ∈ Finset.range (ts1 + ts2 + 1).toNat,
      ∑ c ∈ Finset.range (ts1 + ts2 + 1).toNat,
        template ((c : Int) + r * (ts1 + ts2 + 1)) * template ((c : Int) + r * (ts1 + ts2 + 1))) :
    tileValue sqrtf imageBW xsize template vlen ts1 ts2 ccx cy ≤ 1 := by
  unfold tileValue
  rw [simSumsTile_eq_simSums, simSums_eq]
  dsimp only
  rw [patchSide_cast ts1 ts2 hw.le]
  split_ifs with hz
  · norm_num
  · -- abbreviations
    set w := (ts1 + ts2 + 1).toNat with hwdef
    set S := Finset.range w ×ˢ Finset.range w with hS
    set x : Nat × Nat → K := fun q => (patchPixel imageBW xsize ccx cy ts1 q.1 q.2 : K) with hx
    set t : Nat × Nat → K := fun q => template ((q.2 : Int) + q.1 * (ts1 + ts2 + 1)) with ht
    have e1 : (∑ r ∈ Finset.range w, ∑ c ∈ Finset.range w,
        (patchPixel imageBW xsize ccx cy ts1 r c : K)) = ∑ q ∈ S, x q := by
      rw [hS, Finset.sum_product]
    have e2 : (∑ r ∈ Finset.range w, ∑ c ∈ Finset.range w,
        (patchPixel imageBW xsize ccx cy ts1 r c : K) * (patchPixel imageBW xsize ccx cy ts1 r c : K))
        = ∑ q ∈ S, x q * x q := by
      rw [hS, Finset.sum_product]
    have e3 : (∑ r ∈ Finset.range w, ∑ c ∈ Finset.range w,
        (patchPixel imageBW xsize ccx cy ts1 r c : K) * template ((c : Int) + r * (ts1 + ts2 + 1)))
        = ∑ q ∈ S, x q * t q := by
      rw [hS, Finset.sum_product]
    have e4 : (∑ r ∈ Finset.range w, ∑ c ∈ Finset.range w,
        template ((c : Int) + r * (ts1 + ts2 + 1))) = ∑ q ∈ S, t q := by
      rw [hS, Finset.sum_product]
    have e5 : (∑ r ∈ Finset.range w, ∑ c ∈ Finset.range w,
        template ((c : Int) + r * (ts1 + ts2 + 1)) * template ((c : Int) + r * (ts1 + ts2 + 1)))
        = ∑ q ∈ S, t q * t q := by
      rw [hS, Finset.sum_product]
    rw [e1, e2] at hz
    rw [e1, e2, e3]
    rw [e4] at hsum
    rw [e5] at hsq
    have hcard : (S.card : K) = (w : K) * (w : K) := by
      rw [hS, Finset.card_product, Finset.card_range]
      push_cast
      rfl
    have hwne : (w : K) ≠ 0 := by
      have : w ≠ 0 := by omega
      exact_mod_cast this
    set sx := ∑ q ∈ S, x q with hsx
    set m := sx / ((w : K) * (w : K)) with hm
    have hdev : ∑ q ∈ S, (x q - m) * (x q - m)
        = (∑ q ∈ S, x q * x q) - sx * sx / ((w : K) * (w : K)) := by
      have : ∀ q ∈ S, (x q - m) * (x q - m) = x q * x q - 2 * m * x q + m * m := by
        intro q _; ring
      rw [Finset.sum_congr rfl this, Finset.sum_add_distrib, Finset.sum_sub_distrib,
        ← Finset.mul_sum, Finset.sum_const, nsmul_eq_mul, hcard, ← hsx, hm]
      field_simp
      ring
    have hcov : ∑ q ∈ S, (x q - m) * t q = ∑ q ∈ S, x q * t q := by
      have : ∀ q ∈ S, (x q - m) * t q = x q * t q - m * t q := by
        intro q _; ring
      rw [Finset.sum_congr rfl this, Finset.sum_sub_distrib, ← Finset.mul_sum, hsum, mul_zero,
        sub_zero]
    have hcs := Finset.sum_mul_sq_le_sq_mul_sq S (fun q => x q - m) t
    simp only [pow_two] at hcs
    rw [hcov, hdev, ← hsq] at hcs
    have hv2nn : 0 ≤ (∑ q ∈ S, x q * x q) - sx * sx / ((w : K) * (w : K)) := by
      rw [← hdev]
      exact Finset.sum_nonneg (fun q _ => mul_self_nonneg _)
    obtain ⟨hs0, hs1⟩ := hsqrt _ hv2nn
    have hspos : 0 < sqrtf ((∑ q ∈ S, x q * x q) - sx * sx / ((w : K) * (w : K))) := by
      refine lt_of_le_of_ne hs0 (fun h0 => ?_)
      rw [← h0, mul_zero] at hs1
      exact hz hs1.symm
    have hD : 0 < vlen * sqrtf ((∑ q ∈ S, x q * x q) - sx * sx / ((w : K) * (w : K))) :=
      mul_pos hpos hspos
    rw [div_le_one hD]
    by_contra hlt
    have hlt2 := not_le.mp hlt
    have := mul_self_lt_mul_self hD.le hlt2
    have e : vlen * sqrtf ((∑ q ∈ S, x q * x q) - sx * sx / ((w : K) * (w : K)))
        * (vlen * sqrtf ((∑ q ∈ S, x q * x q) - sx * sx / ((w : K) * (w : K))))
        = ((∑ q ∈ S, x q * x q) - sx * sx / ((w : K) * (w : K))) * (vlen * vlen) := by
      calc vlen * sqrtf ((∑ q ∈ S, x q * x q) - sx * sx / ((w : K) * (w : K)))
            * (vlen * sqrtf ((∑ q ∈ S, x q * x q) - sx * sx / ((w : K) * (w : K))))
          = (sqrtf ((∑ q ∈ S, x q * x q) - sx * sx / ((w : K) * (w : K)))
              * sqrtf ((∑ q ∈ S, x q * x q) - sx * sx / ((w : K) * (w : K)))) * (vlen * vlen) := by
            ring
        _ = ((∑ q ∈ S, x q * x q) - sx * sx / ((w : K) * (w : K))) * (vlen * vlen) := by
            rw [hs1]
    rw [e] at this
    exact absurd hcs (not_le.mpr this)

end GenBoundLemmas

section GenSearchLemmas

variable {K : Type} [LinearOrderedField K]

theorem genMaxLoop_bound (tile : Int → K) (max_sim_thresh : K) (ii ii_iter : Int) (max : K)
    (htile : ∀ t, 0 ≤ t → t < ii_iter - ii → tile t ≤ 1) (hmax : -1 ≤ max ∧ max ≤ 1) :
    -1 ≤ genMaxLoop tile max_sim_thresh ii ii_iter max ∧
      genMaxLoop tile max_sim_thresh ii ii_iter max ≤ 1 := by
  unfold genMaxLoop
  refine forBreak_inv_range _ (fun m => -1 ≤ m ∧ m ≤ 1) ii (ii_iter - 1) ?_ _ ii max (le_refl _)
    (le_refl _) hmax
  intro v m hv1 hv2 hm
  beta_reduce
  split_ifs with h
  · exact ⟨le_trans hm.1 h.le, htile (v - ii) (by omega) (by omega)⟩
  · exact hm

theorem genTile_bound (sqrtf : K → K) (img : Int → Nat) (xsize : Int) (template : Int → K)
    (vlen : K) (ts1 ts2 : Int) (max_sim_thresh : K) (i j jj ii ii_iter : Int)
    (s : K × (Int → K))
    (hsqrt : ∀ x : K, 0 ≤ x → 0 ≤ sqrtf x ∧ sqrtf x * sqrtf x = x)
    (hT : templateNormal template vlen ts1 ts2) (hs : -1 ≤ s.1 ∧ s.1 ≤ 1) :
    -1 ≤ (genTile sqrtf img xsize template vlen ts1 ts2 max_sim_thresh i j jj ii ii_iter s).1 ∧
      (genTile sqrtf img xsize template vlen ts1 ts2 max_sim_thresh i j jj ii ii_iter s).1 ≤ 1 := by
  unfold genTile
  refine genMaxLoop_bound _ max_sim_thresh ii ii_iter s.1 (fun t h0 h1 => ?_) hs
  rw [get_similarity_tile_slot, if_pos ⟨h0, by rw [abs_sub_comm, abs_of_nonneg (by omega)]; exact h1⟩]
  exact tileValue_le_one sqrtf img xsize template vlen ts1 ts2 _ _ hsqrt hT.1 hT.2.1 hT.2.2.1
    hT.2.2.2

/-- A property of `(max, tile_storage)` that every tile call keeps holds for
the result of the loop over `ii`, whatever the fuel. -/
theorem genScanRow_partial (sqrtf : K → K) (img : Int → Nat) (xsize ysize : Int)
    (template : Int → K) (vlen : K) (ts1 ts2 search_size1 search_size2 : Int)
    (max_sim_thresh : K) (i j jj : Int) (P : K × (Int → K) → Prop)
    (hP : ∀ ii1 s, P s → P (genTile sqrtf img xsize template vlen ts1 ts2 max_sim_thresh i j jj
      ii1 (genRun xsize ysize i j ts1 ts2 search_size1 search_size2 jj ii1 ii1) s)) :
    ∀ (fuel : Nat) (ii : Int) (s r : K × (Int → K)),
      genScanRow sqrtf img xsize ysize template vlen ts1 ts2 search_size1 search_size2
        max_sim_thresh i j jj fuel ii s = some r → P s → P r := by
  intro fuel
  induction fuel with
  | zero => intro ii s r h; simp [genScanRow] at h
  | succ m ih =>
      intro ii s r h hs
      obtain ⟨ii1, hii1⟩ : ∃ x : Int,
          x = if ii * ii + jj * jj ≤ search_size2 * search_size2 then -ii + 1 else ii := ⟨_, rfl⟩
      rw [genScanRow_succ sqrtf img xsize ysize template vlen ts1 ts2 search_size1 search_size2
        max_sim_thresh i j jj m ii s ii1 hii1] at h
      by_cases hcond : ¬ ii ≤ search_size1
      · rw [if_pos hcond] at h
        rw [← Option.some.inj h]
        exact hs
      · rw [if_neg hcond] at h
        by_cases hrun : genRun xsize ysize i j ts1 ts2 search_size1 search_size2 jj ii1 ii1 = ii1
        · rw [if_pos hrun] at h
          exact ih _ s r h hs
        · rw [if_neg hrun] at h
          by_cases hbrk : (genTile sqrtf img xsize template vlen ts1 ts2 max_sim_thresh i j jj ii1
              (genRun xsize ysize i j ts1 ts2 search_size1 search_size2 jj ii1 ii1) s).1
              > max_sim_thresh
          · rw [if_pos hbrk] at h
            rw [← Option.some.inj h]
            exact hP ii1 s hs
          · rw [if_neg hbrk] at h
            exact ih _ _ r h (hP ii1 s hs)

/-- The window scan of a pixel returns a maximum in `[-1, 1]` when the
template is normal and the square root exact. -/
theorem genSearch_bound (sqrtf : K → K) (img : Int → Nat) (xsize ysize : Int)
    (template : Int → K) (vlen : K) (ts1 ts2 search_size1 search_size2 : Int)
    (max_sim_thresh : K) (fuel : Nat) (i j : Int) (tile : Int → K) (r : K × (Int → K))
    (hsqrt : ∀ x : K, 0 ≤ x → 0 ≤ sqrtf x ∧ sqrtf x * sqrtf x = x)
    (hT : templateNormal template vlen ts1 ts2)
    (h : genSearch sqrtf img xsize ysize template vlen ts1 ts2 search_size1 search_size2
      max_sim_thresh fuel i j tile = some r) :
    -1 ≤ r.1 ∧ r.1 ≤ 1 := by
  unfold genSearch at h
  have hinv := forBreak_inv
    (fun jj (s : Option (K × (Int → K))) =>
      match s with
      | none => ((none : Option (K × (Int → K))), true)
      | some s =>
          match genScanRow sqrtf img xsize ysize template vlen ts1 ts2 search_size1 search_size2
              max_sim_thresh i j jj fuel (-search_size1) s with
          | none => (none, true)
          | some s1 => (some s1, decide (s1.1 > max_sim_thresh)))
    (fun so => ∀ r, so = some r → -1 ≤ r.1 ∧ r.1 ≤ 1) search_size1 ?_ _ (-search_size1)
    (some (-1, tile)) (le_refl _) ?_
  · exact hinv r h
  · intro jj so _ hso
    cases so with
    | none => intro r hr; cases hr
    | some s0 =>
        dsimp only
        cases hrow : genScanRow sqrtf img xsize ysize template vlen ts1 ts2 search_size1
            search_size2 max_sim_thresh i j jj fuel (-search_size1) s0 with
        | none => intro r hr; cases hr
        | some s1 =>
            intro r hr
            dsimp only at hr
            rw [← Option.some.inj hr]
            exact genScanRow_partial sqrtf img xsize ysize template vlen ts1 ts2 search_size1
              search_size2 max_sim_thresh i j jj (fun s => -1 ≤ s.1 ∧ s.1 ≤ 1)
              (fun ii1 s hs => genTile_bound sqrtf img xsize template vlen ts1 ts2 max_sim_thresh
                i j jj ii1 _ s hsqrt hT hs)
              fuel (-search_size1) s0 s1 hrow (hso s0 rfl)
  · intro r hr
    rw [← Option.some.inj hr]
    norm_num

/-- With more than `2*search_size1 + 1` iterations allowed per loop over `ii`
the window scan of a pixel returns. -/
theorem genSearch_total (sqrtf : K → K) (img : Int → Nat) (xsize ysize : Int)
    (template : Int → K) (vlen : K) (ts1 ts2 search_size1 search_size2 : Int)
    (max_sim_thresh : K) (fuel : Nat) (i j : Int) (tile : Int → K)
    (hfuel : (2 * search_size1 + 1).toNat < fuel) :
    ∃ r, genSearch sqrtf img xsize ysize template vlen ts1 ts2 search_size1 search_size2
      max_sim_thresh fuel i j tile = some r := by
  unfold genSearch
  refine forBreak_inv
    (fun jj (s : Option (K × (Int → K))) =>
      match s with
      | none => ((none : Option (K × (Int → K))), true)
      | some s =>
          match genScanRow sqrtf img xsize ysize template vlen ts1 ts2 search_size1 search_size2
              max_sim_thresh i j jj fuel (-search_size1) s with
          | none => (none, true)
          | some s1 => (some s1, decide (s1.1 > max_sim_thresh)))
    (fun so => ∃ r, so = some r) search_size1 ?_ _ (-search_size1)
    (some (-1, tile)) (le_refl _) ⟨_, rfl⟩
  intro jj so _ hso
  obtain ⟨s0, rfl⟩ := hso
  dsimp only
  obtain ⟨s1, hs1, _⟩ := genScanRow_rule sqrtf img xsize ysize template vlen ts1 ts2 search_size1
    search_size2 max_sim_thresh i j jj (fun _ => True) (fun _ _ _ => trivial) fuel
    (-search_size1) s0 (by omega) (fun h1 h2 => by omega) (fun _ => Or.inl rfl) trivial
  rw [hs1]
  exact ⟨s1, rfl⟩

end GenSearchLemmas

section GenFillLemmas

variable {K : Type} [LinearOrderedField K]

theorem make_template_none_indep (sqrtf : K → K) (imageBW : Int → Nat)
    (xsize ysize cx cy ts1 ts2 : Int) (sd_thresh : K) (t1 t2 : Int → K)
    (h : make_template sqrtf imageBW xsize ysize cx cy ts1 ts2 sd_thresh t1 = none) :
    make_template sqrtf imageBW xsize ysize cx cy ts1 ts2 sd_thresh t2 = none := by
  rw [make_template_eq] at h ⊢
  split_ifs at h ⊢ <;> rfl

theorem genFillRow_spec (fimage : Int → K) (fp xsize idx : Int) :
    genFillRow fimage fp xsize idx = if fp ≤ idx ∧ idx < fp + xsize then 1 else fimage idx := by
  unfold genFillRow
  have h := forLoop_inv (fun i (f : Int → K) => Function.update f (fp + i) 1)
    (fun n f => ∀ idx : Int, f idx = if fp ≤ idx ∧ idx < fp + n then 1 else fimage idx)
    (xsize - 1 + 1 - 0).toNat 0 (xsize - 1) fimage rfl ?_ ?_
  · rw [h idx]
    by_cases hc : fp ≤ idx ∧ idx < fp + xsize
    · rw [if_pos hc, if_pos ⟨hc.1, by omega⟩]
    · rw [if_neg hc, if_neg (by omega)]
  · intro idx
    rw [if_neg (by omega)]
  · intro n f _ hf idx
    beta_reduce
    by_cases hi : idx = fp + (0 + (n : Int))
    · rw [hi, Function.update_same, if_pos ⟨by omega, by push_cast; omega⟩]
    · rw [Function.update_noteq hi, hf idx]
      by_cases hc : fp ≤ idx ∧ idx < fp + n
      · rw [if_pos hc, if_pos ⟨hc.1, by push_cast; omega⟩]
      · rw [if_neg hc, if_neg (by push_cast; omega)]

theorem cell_divmod (xsize i j : Int) (h0 : 0 ≤ i) (h1 : i < xsize) :
    (j * xsize + i) % xsize = i ∧ (j * xsize + i) / xsize = j := by
  constructor
  · rw [add_comm, Int.add_mul_emod_self, Int.emod_eq_of_lt h0 h1]
  · rw [add_comm, Int.add_mul_ediv_right _ _ (by omega), Int.ediv_eq_zero_of_lt h0 h1, zero_add]

end GenFillLemmas

section GenScoreLemmas

variable {K : Type} [LinearOrderedField K] [FloorRing K]

/-- The cases of the body of the scoring loop: both pointers advance by one,
and the value stored at `fp` is `1` (not a strict local maximum, bucket below
`k`, or `make_template` failed) or the maximum of the window scan. -/
theorem genPixel_some (sqrtf : K → K) (img : Int → Nat) (xsize ysize : Int)
    (ts1 ts2 search_size1 search_size2 : Int) (max_sim_thresh sd_thresh : K) (fuel : Nat)
    (fimage2 : Int → K) (k : Int) (j i : Int) (s s1 : GenState K)
    (h : genPixel sqrtf img xsize ysize ts1 ts2 search_size1 search_size2 max_sim_thresh sd_thresh
      fuel fimage2 k j i s = some s1) :
    s1.fp = s.fp + 1 ∧ s1.fp2 = s.fp2 + 1 ∧
    ((((fimage2 s.fp2 ≤ fimage2 (s.fp2 - 1) ∨ fimage2 s.fp2 ≤ fimage2 (s.fp2 + 1)
          ∨ fimage2 s.fp2 ≤ fimage2 (s.fp2 - xsize) ∨ fimage2 s.fp2 ≤ fimage2 (s.fp2 + xsize))
        ∨ truncInt (fimage2 s.fp2 * 1000) < k
        ∨ make_template sqrtf img xsize ysize i j ts1 ts2 sd_thresh s.template = none) ∧
        s1.fimage = Function.update s.fimage s.fp 1) ∨
      (¬ (fimage2 s.fp2 ≤ fimage2 (s.fp2 - 1) ∨ fimage2 s.fp2 ≤ fimage2 (s.fp2 + 1)
          ∨ fimage2 s.fp2 ≤ fimage2 (s.fp2 - xsize) ∨ fimage2 s.fp2 ≤ fimage2 (s.fp2 + xsize)) ∧
        ¬ truncInt (fimage2 s.fp2 * 1000) < k ∧
        ∃ tp vlen r, make_template sqrtf img xsize ysize i j ts1 ts2 sd_thresh s.template
            = some (tp, vlen) ∧
          genSearch sqrtf img xsize ysize tp vlen ts1 ts2 search_size1 search_size2 max_sim_thresh
            fuel i j s.tile = some r ∧
          s1.fimage = Function.update s.fimage s.fp r.1)) := by
  unfold genPixel at h
  by_cases h1 : fimage2 s.fp2 ≤ fimage2 (s.fp2 - 1) ∨ fimage2 s.fp2 ≤ fimage2 (s.fp2 + 1)
      ∨ fimage2 s.fp2 ≤ fimage2 (s.fp2 - xsize) ∨ fimage2 s.fp2 ≤ fimage2 (s.fp2 + xsize)
  · rw [if_pos h1] at h
    rw [← Option.some.inj h]
    exact ⟨rfl, rfl, Or.inl ⟨Or.inl h1, rfl⟩⟩
  · rw [if_neg h1] at h
    by_cases h2 : truncInt (fimage2 s.fp2 * 1000) < k
    · rw [if_pos h2] at h
      rw [← Option.some.inj h]
      exact ⟨rfl, rfl, Or.inl ⟨Or.inr (Or.inl h2), rfl⟩⟩
    · rw [if_neg h2] at h
      cases hm : make_template sqrtf img xsize ysize i j ts1 ts2 sd_thresh s.template with
      | none =>
          rw [hm] at h
          dsimp only at h
          rw [← Option.some.inj h]
          exact ⟨rfl, rfl, Or.inl ⟨Or.inr (Or.inr rfl), rfl⟩⟩
      | some p =>
          obtain ⟨tp, vlen⟩ := p
          rw [hm] at h
          dsimp only at h
          cases hg : genSearch sqrtf img xsize ysize tp vlen ts1 ts2 search_size1 search_size2
              max_sim_thresh fuel i j s.tile with
          | none => rw [hg] at h; cases h
          | some r =>
              rw [hg] at h
              rw [← Option.some.inj h]
              exact ⟨rfl, rfl, Or.inr ⟨h1, h2, tp, vlen, r, rfl, hg, rfl⟩⟩

/-- With more than `2*search_size1 + 1` iterations allowed per loop over `ii`
the body of the scoring loop yields a state. -/
theorem genPixel_total (sqrtf : K → K) (img : Int → Nat) (xsize ysize : Int)
    (ts1 ts2 search_size1 search_size2 : Int) (max_sim_thresh sd_thresh : K) (fuel : Nat)
    (fimage2 : Int → K) (k : Int) (j i : Int) (s : GenState K)
    (hfuel : (2 * search_size1 + 1).toNat < fuel) :
    ∃ s1, genPixel sqrtf img xsize ysize ts1 ts2 search_size1 search_size2 max_sim_thresh
      sd_thresh fuel fimage2 k j i s = some s1 := by
  unfold genPixel
  split_ifs
  · exact ⟨_, rfl⟩
  · exact ⟨_, rfl⟩
  · cases hm : make_template sqrtf img xsize ysize i j ts1 ts2 sd_thresh s.template with
    | none => exact ⟨_, rfl⟩
    | some p =>
        obtain ⟨tp, vlen⟩ := p
        dsimp only
        obtain ⟨r, hr⟩ := genSearch_total sqrtf img xsize ysize tp vlen ts1 ts2 search_size1
          search_size2 max_sim_thresh fuel i j s.tile hfuel
        rw [hr]
        exact ⟨_, rfl⟩

end GenScoreLemmas

section GenCellsPut

variable {K : Type}

/-- One store `*(fp++) = v` at the cell `(i, j)` keeps the property that every
cell below `fp` holds an admissible value. -/
theorem genCells_put (C : Int → Int → K → Prop) (xsize i j : Int) (v : K) (s s1 : GenState K)
    (hi0 : 0 ≤ i) (hi1 : i < xsize)
    (hW : s.fp2 = s.fp ∧ ∀ idx, 0 ≤ idx → idx < s.fp →
      C (idx % xsize) (idx / xsize) (s.fimage idx))
    (hfp : s.fp = j * xsize + i) (hC : C i j v)
    (h1 : s1.fimage = Function.update s.fimage s.fp v) (h2 : s1.fp = s.fp + 1)
    (h3 : s1.fp2 = s.fp2 + 1) :
    s1.fp2 = s1.fp ∧ ∀ idx, 0 ≤ idx → idx < s1.fp →
      C (idx % xsize) (idx / xsize) (s1.fimage idx) := by
  refine ⟨by rw [h2, h3, hW.1], fun idx h0 hlt => ?_⟩
  rw [h1]
  by_cases hidx : idx = s.fp
  · rw [hidx, Function.update_same, hfp, (cell_divmod xsize i j hi0 hi1).1,
      (cell_divmod xsize i j hi0 hi1).2]
    exact hC
  · rw [Function.update_noteq hidx]
    exact hW.2 idx h0 (by omega)

end GenCellsPut

section GenScoreCells

variable {K : Type} [LinearOrderedField K] [FloorRing K]

/-- One row of the scoring pass: from a state with `fp` at the start of row
`j` to a state with `fp` at the start of row `j + 1`, every cell below `fp`
holding an admissible value. -/
theorem genRow_cells (sqrtf : K → K) (img : Int → Nat) (xsize ysize : Int)
    (ts1 ts2 search_size1 search_size2 : Int) (max_sim_thresh sd_thresh : K) (fuel : Nat)
    (fimage2 : Int → K) (k : Int) (C : Int → Int → K → Prop) (hx : 2 ≤ xsize)
    (j : Int)
    (hb0 : C 0 j 1) (hb1 : C (xsize - 1) j 1)
    (hpix : ∀ i s s1, 1 ≤ i → i ≤ xsize - 2 → s.fp2 = j * xsize + i →
      genPixel sqrtf img xsize ysize ts1 ts2 search_size1 search_size2 max_sim_thresh sd_thresh
        fuel fimage2 k j i s = some s1 →
      ∃ v, s1.fimage = Function.update s.fimage s.fp v ∧ C i j v)
    (so : Option (GenState K))
    (hso : ∀ s, so = some s → (s.fp2 = s.fp ∧ ∀ idx, 0 ≤ idx → idx < s.fp →
      C (idx % xsize) (idx / xsize) (s.fimage idx)) ∧ s.fp = j * xsize)
    (s1 : GenState K)
    (h : genRow sqrtf img xsize ysize ts1 ts2 search_size1 search_size2 max_sim_thresh sd_thresh
      fuel fimage2 k j so = some s1) :
    (s1.fp2 = s1.fp ∧ ∀ idx, 0 ≤ idx → idx < s1.fp →
      C (idx % xsize) (idx / xsize) (s1.fimage idx)) ∧ s1.fp = (j + 1) * xsize := by
  unfold genRow at h
  have hin := forLoop_inv
    (fun i (s : Option (GenState K)) =>
      s.bind (genPixel sqrtf img xsize ysize ts1 ts2 search_size1 search_size2
        max_sim_thresh sd_thresh fuel fimage2 k j i))
    (fun I so1 => ∀ s, so1 = some s → (s.fp2 = s.fp ∧ ∀ idx, 0 ≤ idx → idx < s.fp →
      C (idx % xsize) (idx / xsize) (s.fimage idx)) ∧ s.fp = j * xsize + 1 + I)
    (xsize - 2 + 1 - 1).toNat 1 (xsize - 2) (so.map (genPut 1)) rfl ?_ ?_
  · cases hl : forLoop 1 (xsize - 2)
        (fun i (s : Option (GenState K)) =>
          s.bind (genPixel sqrtf img xsize ysize ts1 ts2 search_size1 search_size2
            max_sim_thresh sd_thresh fuel fimage2 k j i))
        (so.map (genPut 1)) with
    | none => rw [hl] at h; cases h
    | some s =>
        rw [hl] at h
        have hs1 : s1 = genPut 1 s := (Option.some.inj h).symm
        obtain ⟨hW, hfp⟩ := hin s hl
        have hfp2 : s.fp = j * xsize + (xsize - 1) := by
          rw [hfp, Int.toNat_of_nonneg (by omega)]
          ring
        refine ⟨genCells_put C xsize (xsize - 1) j 1 s s1 (by omega) (by omega) hW hfp2 hb1
          (by rw [hs1]; rfl) (by rw [hs1]; rfl) (by rw [hs1]; rfl), ?_⟩
        rw [hs1]
        show s.fp + 1 = (j + 1) * xsize
        rw [hfp2]
        ring
  · intro s hs
    cases so with
    | none => cases hs
    | some s0 =>
        have hs' : s = genPut 1 s0 := (Option.some.inj hs).symm
        obtain ⟨hW, hfp⟩ := hso s0 rfl
        refine ⟨genCells_put C xsize 0 j 1 s0 s (le_refl _) (by omega) hW (by rw [hfp]; ring) hb0
          (by rw [hs']; rfl) (by rw [hs']; rfl) (by rw [hs']; rfl), ?_⟩
        rw [hs']
        show s0.fp + 1 = j * xsize + 1 + ((0 : Nat) : Int)
        rw [hfp]
        simp
  · intro I so1 hI hso1 s hs
    beta_reduce at hs
    cases so1 with
    | none => cases hs
    | some s0 =>
        have hs' : genPixel sqrtf img xsize ysize ts1 ts2 search_size1 search_size2
            max_sim_thresh sd_thresh fuel fimage2 k j (1 + (I : Int)) s0 = some s := hs
        obtain ⟨hW, hfp⟩ := hso1 s0 rfl
        obtain ⟨hp1, hp2, _⟩ := genPixel_some sqrtf img xsize ysize ts1 ts2 search_size1
          search_size2 max_sim_thresh sd_thresh fuel fimage2 k j (1 + (I : Int)) s0 s hs'
        obtain ⟨v, hv1, hv2⟩ := hpix (1 + (I : Int)) s0 s (by omega) (by omega)
          (by rw [hW.1, hfp]; ring) hs'
        refine ⟨genCells_put C xsize (1 + (I : Int)) j v s0 s (by omega) (by omega) hW
          (by rw [hfp]; ring) hv2 hv1 hp1 hp2, ?_⟩
        rw [hp1, hfp]
        push_cast
        ring

/-- The scoring pass, cell by cell: if `1` is admissible at every border cell
and every value the loop body stores for an interior pixel is admissible
there, then every cell of the returned block holds an admissible value. -/
theorem genScore_cells (sqrtf : K → K) (img : Int → Nat) (xsize ysize : Int)
    (ts1 ts2 search_size1 search_size2 : Int) (max_sim_thresh sd_thresh : K) (fuel : Nat)
    (fimage2 : Int → K) (k : Int) (C : Int → Int → K → Prop) (hx : 2 ≤ xsize) (hy : 2 ≤ ysize)
    (hborder : ∀ i j, 0 ≤ i → i < xsize → 0 ≤ j → j < ysize →
      (i = 0 ∨ i = xsize - 1 ∨ j = 0 ∨ j = ysize - 1) → C i j 1)
    (hpix : ∀ i j s s1, 1 ≤ i → i ≤ xsize - 2 → 1 ≤ j → j ≤ ysize - 2 → s.fp2 = j * xsize + i →
      genPixel sqrtf img xsize ysize ts1 ts2 search_size1 search_size2 max_sim_thresh sd_thresh
        fuel fimage2 k j i s = some s1 →
      ∃ v, s1.fimage = Function.update s.fimage s.fp v ∧ C i j v)
    (f : Int → K)
    (h : genScore sqrtf img xsize ysize ts1 ts2 search_size1 search_size2 max_sim_thresh sd_thresh
      fuel fimage2 k = some f) :
    ∀ i j, 0 ≤ i → i < xsize → 0 ≤ j → j < ysize → C i j (f (j * xsize + i)) := by
  unfold genScore at h
  have hout := forLoop_inv
    (genRow sqrtf img xsize ysize ts1 ts2 search_size1 search_size2 max_sim_thresh sd_thresh fuel
      fimage2 k)
    (fun J so => ∀ s, so = some s → (s.fp2 = s.fp ∧ ∀ idx, 0 ≤ idx → idx < s.fp →
      C (idx % xsize) (idx / xsize) (s.fimage idx)) ∧ s.fp = ((J : Int) + 1) * xsize)
    (ysize - 2 + 1 - 1).toNat 1 (ysize - 2)
    (some { fimage := genFillRow (fun _ => 0) 0 xsize, fp := 0 + xsize, fp2 := 0 + xsize,
            template := fun _ => 0, tile := fun _ => 0 }) rfl ?_ ?_
  · cases hl : forLoop 1 (ysize - 2)
        (genRow sqrtf img xsize ysize ts1 ts2 search_size1 search_size2 max_sim_thresh sd_thresh
          fuel fimage2 k)
        (some { fimage := genFillRow (fun _ => 0) 0 xsize, fp := 0 + xsize, fp2 := 0 + xsize,
                template := fun _ => 0, tile := fun _ => 0 }) with
    | none => rw [hl] at h; cases h
    | some s =>
        rw [hl] at h
        have hf : f = genFillRow s.fimage s.fp xsize := (Option.some.inj h).symm
        obtain ⟨hW, hfp⟩ := hout s hl
        have hfp2 : s.fp = (ysize - 1) * xsize := by
          rw [hfp, Int.toNat_of_nonneg (by omega)]
          ring
        intro i j hi0 hi1 hj0 hj1
        rw [hf, genFillRow_spec]
        by_cases hlast : j = ysize - 1
        · rw [if_pos (by rw [hfp2, hlast]; constructor <;> omega)]
          exact hborder i j hi0 hi1 hj0 hj1 (Or.inr (Or.inr (Or.inr hlast)))
        · have hlt : j * xsize + i < s.fp := by
            rw [hfp2]
            have := mul_nonneg (show (0 : Int) ≤ ysize - 2 - j by omega) (show (0 : Int) ≤ xsize by omega)
            nlinarith
          rw [if_neg (by omega)]
          have := hW.2 (j * xsize + i) (by
            have := mul_nonneg hj0 (show (0 : Int) ≤ xsize by omega)
            omega) hlt
          rw [(cell_divmod xsize i j hi0 hi1).1, (cell_divmod xsize i j hi0 hi1).2] at this
          exact this
  · intro s hs
    rw [← Option.some.inj hs]
    refine ⟨⟨rfl, fun idx h0 h1 => ?_⟩, by simp⟩
    have h1' : idx < xsize := by simpa using h1
    show C (idx % xsize) (idx / xsize) (genFillRow (fun _ => 0) 0 xsize idx)
    rw [genFillRow_spec, if_pos ⟨h0, by omega⟩, Int.emod_eq_of_lt h0 h1',
      Int.ediv_eq_zero_of_lt h0 h1']
    exact hborder idx 0 h0 h1' (le_refl _) (by omega) (Or.inr (Or.inr (Or.inl rfl)))
  · intro J so hJ hso s hs
    have hj1 : (1 : Int) ≤ 1 + J := by omega
    have hj2 : (1 : Int) + J ≤ ysize - 2 := by omega
    have := genRow_cells sqrtf img xsize ysize ts1 ts2 search_size1 search_size2 max_sim_thresh
      sd_thresh fuel fimage2 k C hx (1 + (J : Int))
      (hborder 0 _ (le_refl _) (by omega) (by omega) (by omega) (Or.inl rfl))
      (hborder (xsize - 1) _ (by omega) (by omega) (by omega) (by omega) (Or.inr (Or.inl rfl)))
      (fun i s s1 h1 h2 h3 h4 => hpix i (1 + (J : Int)) s s1 h1 h2 hj1 hj2 h3 h4)
      so (fun s hs => ⟨(hso s hs).1, by rw [(hso s hs).2]; ring⟩) s hs
    refine ⟨this.1, ?_⟩
    rw [this.2]
    push_cast
    ring

/-- When the body of the scoring loop always yields a state, the scoring pass
returns a block. -/
theorem genScore_total (sqrtf : K → K) (img : Int → Nat) (xsize ysize : Int)
    (ts1 ts2 search_size1 search_size2 : Int) (max_sim_thresh sd_thresh : K) (fuel : Nat)
    (fimage2 : Int → K) (k : Int)
    (hpix : ∀ i j s, ∃ s1, genPixel sqrtf img xsize ysize ts1 ts2 search_size1 search_size2
      max_sim_thresh sd_thresh fuel fimage2 k j i s = some s1) :
    ∃ f, genScore sqrtf img xsize ysize ts1 ts2 search_size1 search_size2 max_sim_thresh
      sd_thresh fuel fimage2 k = some f := by
  unfold genScore
  have hout := forLoop_inv
    (genRow sqrtf img xsize ysize ts1 ts2 search_size1 search_size2 max_sim_thresh sd_thresh fuel
      fimage2 k)
    (fun _ so => ∃ s, so = some s)
    (ysize - 2 + 1 - 1).toNat 1 (ysize - 2)
    (some { fimage := genFillRow (fun _ => 0) 0 xsize, fp := 0 + xsize, fp2 := 0 + xsize,
            template := fun _ => 0, tile := fun _ => 0 }) rfl ⟨_, rfl⟩ ?_
  · obtain ⟨s, hs⟩ := hout
    rw [hs]
    exact ⟨_, rfl⟩
  · intro J so _ hso
    obtain ⟨s, rfl⟩ := hso
    unfold genRow
    have hin := forLoop_inv
      (fun i (s : Option (GenState K)) =>
        s.bind (genPixel sqrtf img xsize ysize ts1 ts2 search_size1 search_size2
          max_sim_thresh sd_thresh fuel fimage2 k (1 + (J : Int)) i))
      (fun _ so1 => ∃ s, so1 = some s)
      (xsize - 2 + 1 - 1).toNat 1 (xsize - 2) ((some s).map (genPut 1)) rfl ⟨_, rfl⟩ ?_
    · obtain ⟨s2, hs2⟩ := hin
      rw [hs2]
      exact ⟨_, rfl⟩
    · intro I so1 _ hso1
      obtain ⟨s3, rfl⟩ := hso1
      exact hpix _ _ s3

end GenScoreCells

section GenTheorems

variable {K : Type} [LinearOrderedField K] [FloorRing K]

/-- With more than `2*search_size1 + 1` iterations allowed per loop over `ii`
the call of `ar2GenFeatureMap` returns. -/
theorem ar2GenFeatureMap_returns (sqrtf : K → K) (image : AR2ImageT K)
    (ts1 ts2 search_size1 search_size2 : Int) (max_sim_thresh sd_thresh : K) :
    ∃ fuel fm, ar2GenFeatureMap sqrtf fuel image ts1 ts2 search_size1 search_size2
      max_sim_thresh sd_thresh = some fm := by
  obtain ⟨f, hf⟩ := genScore_total sqrtf image.imgBW image.xsize image.ysize ts1 ts2
    search_size1 search_size2 max_sim_thresh sd_thresh ((2 * search_size1 + 1).toNat + 1)
    (genGradient sqrtf image.imgBW image.xsize image.ysize)
    (genThreshold (K := K)
      (genHist (genGradient sqrtf image.imgBW image.xsize image.ysize) image.xsize image.ysize)
      image.xsize image.ysize)
    (fun i j s => genPixel_total sqrtf image.imgBW image.xsize image.ysize ts1 ts2 search_size1
      search_size2 max_sim_thresh sd_thresh _ _ _ j i s (Nat.lt_succ_self _))
  refine ⟨(2 * search_size1 + 1).toNat + 1,
    { map := (List.range (image.xsize * image.ysize).toNat).map (fun n : Nat => f (n : Int)),
      xsize := image.xsize, ysize := image.ysize }, ?_⟩
  unfold ar2GenFeatureMap
  rw [hf]
  rfl

/-- The result of `ar2GenFeatureMap` is read off the block the scoring pass
returns. -/
theorem ar2GenFeatureMap_some (sqrtf : K → K) (fuel : Nat) (image : AR2ImageT K)
    (ts1 ts2 search_size1 search_size2 : Int) (max_sim_thresh sd_thresh : K)
    (fm : AR2FeatureMapT K)
    (h : ar2GenFeatureMap sqrtf fuel image ts1 ts2 search_size1 search_size2 max_sim_thresh
      sd_thresh = some fm) :
    ∃ f, genScore sqrtf image.imgBW image.xsize image.ysize ts1 ts2 search_size1 search_size2
        max_sim_thresh sd_thresh fuel (genGradient sqrtf image.imgBW image.xsize image.ysize)
        (genThreshold (K := K)
          (genHist (genGradient sqrtf image.imgBW image.xsize image.ysize) image.xsize
            image.ysize) image.xsize image.ysize) = some f ∧
      fm = { map := (List.range (image.xsize * image.ysize).toNat).map (fun n : Nat => f (n : Int)),
             xsize := image.xsize, ysize := image.ysize } := by
  unfold ar2GenFeatureMap at h
  cases hs : genScore sqrtf image.imgBW image.xsize image.ysize ts1 ts2 search_size1 search_size2
      max_sim_thresh sd_thresh fuel (genGradient sqrtf image.imgBW image.xsize image.ysize)
      (genThreshold (K := K)
        (genHist (genGradient sqrtf image.imgBW image.xsize image.ysize) image.xsize
          image.ysize) image.xsize image.ysize) with
  | none => rw [hs] at h; cases h
  | some f =>
      rw [hs] at h
      exact ⟨f, rfl, (Option.some.inj h).symm⟩

theorem cell_of_index (xsize ysize : Int) (n : Nat) (hx : 0 < xsize)
    (hn : n < (xsize * ysize).toNat) :
    0 ≤ (n : Int) % xsize ∧ (n : Int) % xsize < xsize ∧ 0 ≤ (n : Int) / xsize ∧
      (n : Int) / xsize < ysize ∧ ((n : Int) / xsize) * xsize + (n : Int) % xsize = n := by
  have hn' : (n : Int) < xsize * ysize := by omega
  refine ⟨Int.emod_nonneg _ (by omega), Int.emod_lt_of_pos _ hx,
    Int.ediv_nonneg (by omega) (by omega), Int.ediv_lt_of_lt_mul hx (by rw [mul_comm]; exact hn'),
    ?_⟩
  rw [mul_comm]
  exact Int.ediv_add_emod _ _

/-- C9: for an image with `xsize ≥ 2` and `ysize ≥ 2` and every choice of the
parameters, with exact arithmetic (`sqrtf` the exact square root)
`ar2GenFeatureMap` returns a map, and every value of a returned map lies in
`[-1, 1]`. -/
theorem gen_map_values_in_range (sqrtf : K → K) (image : AR2ImageT K)
    (ts1 ts2 search_size1 search_size2 : Int) (max_sim_thresh sd_thresh : K)
    (hsqrt : ∀ x : K, 0 ≤ x → 0 ≤ sqrtf x ∧ sqrtf x * sqrtf x = x)
    (hx : 2 ≤ image.xsize) (hy : 2 ≤ image.ysize) :
    (∃ fuel fm, ar2GenFeatureMap sqrtf fuel image ts1 ts2 search_size1 search_size2
      max_sim_thresh sd_thresh = some fm) ∧
    ∀ fuel fm, ar2GenFeatureMap sqrtf fuel image ts1 ts2 search_size1 search_size2
      max_sim_thresh sd_thresh = some fm →
      fm.map.length = (image.xsize * image.ysize).toNat ∧ ∀ v ∈ fm.map, -1 ≤ v ∧ v ≤ 1 := by
  refine ⟨ar2GenFeatureMap_returns sqrtf image ts1 ts2 search_size1 search_size2 max_sim_thresh
    sd_thresh, ?_⟩
  intro fuel fm h
  obtain ⟨f, hf, hfm⟩ := ar2GenFeatureMap_some sqrtf fuel image ts1 ts2 search_size1 search_size2
    max_sim_thresh sd_thresh fm h
  have hcells := genScore_cells sqrtf image.imgBW image.xsize image.ysize ts1 ts2 search_size1
    search_size2 max_sim_thresh sd_thresh fuel _ _ (fun _ _ v => -1 ≤ v ∧ v ≤ 1) hx hy
    (fun _ _ _ _ _ _ _ => by norm_num)
    (fun i j s s1 _ _ _ _ _ hp => by
      obtain ⟨_, _, hcase⟩ := genPixel_some sqrtf image.imgBW image.xsize image.ysize ts1 ts2
        search_size1 search_size2 max_sim_thresh sd_thresh fuel _ _ j i s s1 hp
      rcases hcase with ⟨_, hv⟩ | ⟨_, _, tp, vlen, r, hmt, hgs, hv⟩
      · exact ⟨1, hv, by norm_num⟩
      · refine ⟨r.1, hv, ?_⟩
        obtain ⟨hw, _, _, _⟩ := make_template_some sqrtf image.imgBW image.xsize image.ysize i j
          ts1 ts2 sd_thresh s.template tp vlen hmt
        obtain ⟨hsum, hpos, hsq⟩ := make_template_some_sums sqrtf image.imgBW image.xsize
          image.ysize i j ts1 ts2 sd_thresh s.template tp vlen hsqrt hmt
        exact genSearch_bound sqrtf image.imgBW image.xsize image.ysize tp vlen ts1 ts2
          search_size1 search_size2 max_sim_thresh fuel i j s.tile r hsqrt
          ⟨hw, hsum, hpos, hsq⟩ hgs)
    f hf
  rw [hfm]
  refine ⟨by simp, fun v hv => ?_⟩
  rw [List.mem_map] at hv
  obtain ⟨n, hn, rfl⟩ := hv
  rw [List.mem_range] at hn
  obtain ⟨c1, c2, c3, c4, c5⟩ := cell_of_index image.xsize image.ysize n (by omega) hn
  have := hcells _ _ c1 c2 c3 c4
  rw [c5] at this
  exact this

end GenTheorems

section GradCellsPut

variable {K : Type}

/-- One store `*(fp2++) = v; p++` of the first pass at the cell `(i, j)`. -/
theorem gradCells_put (G : Int → K) (v : K) (s : GradState K)
    (hW : s.p = s.fp2 ∧ ∀ idx, 0 ≤ idx → idx < s.fp2 → s.fimage2 idx = G idx)
    (hv : v = G s.fp2) :
    (gradPut v s).p = (gradPut v s).fp2 ∧
      ∀ idx, 0 ≤ idx → idx < (gradPut v s).fp2 → (gradPut v s).fimage2 idx = G idx := by
  unfold gradPut
  dsimp only
  refine ⟨by rw [hW.1], fun idx h0 h1 => ?_⟩
  by_cases hidx : idx = s.fp2
  · rw [hidx, Function.update_same, hv]
  · rw [Function.update_noteq hidx]
    exact hW.2 idx h0 (by omega)

end GradCellsPut

section GenGradientLemmas

variable {K : Type} [LinearOrderedField K]

/-- A row of `-1` stores of the first pass (the first and the last row). -/
theorem gradRow_border (G : Int → K) (xsize : Int) (s : GradState K)
    (hW : s.p = s.fp2 ∧ ∀ idx, 0 ≤ idx → idx < s.fp2 → s.fimage2 idx = G idx)
    (hG : ∀ idx, s.fp2 ≤ idx → idx < s.fp2 + xsize → G idx = -1) :
    ((forLoop 0 (xsize - 1) (fun _ s => gradPut (-1) s) s).p
        = (forLoop 0 (xsize - 1) (fun _ s => gradPut (-1) s) s).fp2 ∧
      ∀ idx, 0 ≤ idx → idx < (forLoop 0 (xsize - 1) (fun _ s => gradPut (-1) s) s).fp2 →
        (forLoop 0 (xsize - 1) (fun _ s => gradPut (-1) s) s).fimage2 idx = G idx) ∧
    (forLoop 0 (xsize - 1) (fun _ s => gradPut (-1) s) s).fp2
      = s.fp2 + ((xsize - 1 + 1 - 0).toNat : Int) := by
  refine forLoop_inv (fun _ (s : GradState K) => gradPut (-1) s)
    (fun n t => (t.p = t.fp2 ∧ ∀ idx, 0 ≤ idx → idx < t.fp2 → t.fimage2 idx = G idx) ∧
      t.fp2 = s.fp2 + (n : Int))
    (xsize - 1 + 1 - 0).toNat 0 (xsize - 1) s rfl ⟨hW, by simp⟩ ?_
  intro n t hn ht
  beta_reduce
  refine ⟨gradCells_put G (-1) t ht.1 (hG t.fp2 (by rw [ht.2]; omega) (by rw [ht.2]; omega)).symm,
    ?_⟩
  show t.fp2 + 1 = s.fp2 + ((n + 1 : Nat) : Int)
  rw [ht.2]
  push_cast
  ring

/-- The first pass of `ar2GenFeatureMap` computes the gradient magnitude
field: `-1` on the border, the magnitude at the interior pixels. -/
theorem genGradient_spec (sqrtf : K → K) (img : Int → Nat) (xsize ysize : Int)
    (hx : 2 ≤ xsize) (hy : 2 ≤ ysize) (i j : Int) (hi0 : 0 ≤ i) (hi1 : i < xsize)
    (hj0 : 0 ≤ j) (hj1 : j < ysize) :
    genGradient sqrtf img xsize ysize (j * xsize + i) = gradMag sqrtf img xsize ysize i j := by
  -- the value every cell is to receive, by linear index
  obtain ⟨G, hG⟩ : ∃ G : Int → K, G = fun idx =>
      gradMag sqrtf img xsize ysize (idx % xsize) (idx / xsize) := ⟨_, rfl⟩
  have hGcell : ∀ i j : Int, 0 ≤ i → i < xsize →
      G (j * xsize + i) = gradMag sqrtf img xsize ysize i j := by
    intro i j h0 h1
    rw [hG]
    dsimp only
    rw [(cell_divmod xsize i j h0 h1).1, (cell_divmod xsize i j h0 h1).2]
  -- first row
  have h1 := gradRow_border G xsize ({ fimage2 := fun _ => 0, fp2 := 0, p := 0 } : GradState K)
    ⟨rfl, fun idx h0 h1 => by exfalso; exact absurd h1 (not_lt.mpr h0)⟩
    (fun idx h0 h1 => by
      have e := hGcell idx 0 h0 (by simpa using h1)
      rw [zero_mul, zero_add] at e
      rw [e]
      unfold gradMag
      rw [if_pos (Or.inr (Or.inr (Or.inl rfl)))])
  -- interior rows
  have h2 := forLoop_inv
    (fun _ (s : GradState K) =>
      gradPut (-1)
        (forLoop 1 (xsize - 2) (fun _ s => gradPut (gradientAt sqrtf img xsize s.p) s)
          (gradPut (-1) s)))
    (fun J t => (t.p = t.fp2 ∧ ∀ idx, 0 ≤ idx → idx < t.fp2 → t.fimage2 idx = G idx) ∧
      t.fp2 = ((J : Int) + 1) * xsize)
    (ysize - 2 + 1 - 1).toNat 1 (ysize - 2)
    (forLoop 0 (xsize - 1) (fun _ s => gradPut (-1) s)
      ({ fimage2 := fun _ => 0, fp2 := 0, p := 0 } : GradState K)) rfl
    ⟨h1.1, by rw [h1.2, Int.toNat_of_nonneg (by omega)]; simp⟩ ?_
  · -- last row
    have h3 := gradRow_border G xsize _ h2.1
      (fun idx h0 h1 => by
        rw [h2.2, Int.toNat_of_nonneg (by omega)] at h0 h1
        have e := hGcell (idx - (ysize - 1) * xsize) (ysize - 1) (by
          have : ysize - 2 + 1 - 1 + 1 = ysize - 1 := by ring
          rw [this] at h0
          omega) (by
          have : ysize - 2 + 1 - 1 + 1 = ysize - 1 := by ring
          rw [this] at h1
          omega)
        rw [show (ysize - 1) * xsize + (idx - (ysize - 1) * xsize) = idx by ring] at e
        rw [e]
        unfold gradMag
        rw [if_pos (Or.inr (Or.inr (Or.inr rfl)))])
    unfold genGradient
    rw [h3.1.2 (j * xsize + i), hGcell i j hi0 hi1]
    · have := mul_nonneg hj0 (show (0 : Int) ≤ xsize by omega)
      omega
    · rw [h3.2, h2.2, Int.toNat_of_nonneg (by omega), Int.toNat_of_nonneg (by omega)]
      have := mul_nonneg (show (0 : Int) ≤ ysize - 1 - j by omega) (show (0 : Int) ≤ xsize by omega)
      nlinarith
  · intro J t hJ ht
    beta_reduce
    have hjj : (0 : Int) ≤ J ∧ (J : Int) + 1 ≤ ysize - 2 := by omega
    -- first column
    have ha := gradCells_put G (-1) t ht.1 (by
      have e := hGcell 0 ((J : Int) + 1) (le_refl _) (by omega)
      rw [add_zero] at e
      rw [ht.2, e]
      unfold gradMag
      rw [if_pos (Or.inl rfl)])
    have hafp : (gradPut (-1) t).fp2 = ((J : Int) + 1) * xsize + 1 := by
      show t.fp2 + 1 = _
      rw [ht.2]
    -- interior columns
    have hb := forLoop_inv
      (fun _ (s : GradState K) => gradPut (gradientAt sqrtf img xsize s.p) s)
      (fun I u => (u.p = u.fp2 ∧ ∀ idx, 0 ≤ idx → idx < u.fp2 → u.fimage2 idx = G idx) ∧
        u.fp2 = ((J : Int) + 1) * xsize + 1 + I)
      (xsize - 2 + 1 - 1).toNat 1 (xsize - 2) (gradPut (-1) t) rfl
      ⟨ha, by rw [hafp]; simp⟩ ?_
    · -- last column
      have hbfp := hb.2
      rw [Int.toNat_of_nonneg (by omega)] at hbfp
      have hc := gradCells_put G (-1) _ hb.1 (by
        have e := hGcell (xsize - 1) ((J : Int) + 1) (by omega) (by omega)
        rw [hbfp, show ((J : Int) + 1) * xsize + 1 + (xsize - 2 + 1 - 1)
          = ((J : Int) + 1) * xsize + (xsize - 1) by ring, e]
        unfold gradMag
        rw [if_pos (Or.inr (Or.inl rfl))])
      refine ⟨hc, ?_⟩
      show (forLoop 1 (xsize - 2) (fun _ s => gradPut (gradientAt sqrtf img xsize s.p) s)
        (gradPut (-1) t)).fp2 + 1 = _
      rw [hbfp]
      push_cast
      ring
    · intro I u hI hu
      beta_reduce
      refine ⟨gradCells_put G _ u hu.1 ?_, ?_⟩
      · have e := hGcell (1 + (I : Int)) ((J : Int) + 1) (by omega) (by omega)
        rw [hu.1.1, hu.2, show ((J : Int) + 1) * xsize + 1 + (I : Int)
          = ((J : Int) + 1) * xsize + (1 + (I : Int)) by ring, e]
        unfold gradMag
        rw [if_neg (by omega)]
      · show u.fp2 + 1 = _
        rw [hu.2]
        push_cast
        ring

end GenGradientLemmas

section GenSentinelTheorems

variable {K : Type} [LinearOrderedField K] [FloorRing K]

/-- C10: for an image with `xsize ≥ 2` and `ysize ≥ 2`, `ar2GenFeatureMap`
returns a map; a returned map has the image's dimensions and holds exactly
`1.0` at every pixel of the first and last row and column, at every interior
pixel whose gradient magnitude is not strictly greater than all four of its
horizontal and vertical neighbours, at every interior pixel whose bucket
`(int)(magnitude*1000)` is below the threshold `k`, and at every pixel for
which `make_template` fails. -/
theorem gen_map_sentinels (sqrtf : K → K) (image : AR2ImageT K)
    (ts1 ts2 search_size1 search_size2 : Int) (max_sim_thresh sd_thresh : K)
    (hx : 2 ≤ image.xsize) (hy : 2 ≤ image.ysize) :
    (∃ fuel fm, ar2GenFeatureMap sqrtf fuel image ts1 ts2 search_size1 search_size2
      max_sim_thresh sd_thresh = some fm) ∧
    ∀ fuel fm, ar2GenFeatureMap sqrtf fuel image ts1 ts2 search_size1 search_size2
      max_sim_thresh sd_thresh = some fm →
      fm.xsize = image.xsize ∧ fm.ysize = image.ysize ∧
      fm.map.length = (image.xsize * image.ysize).toNat ∧
      ∀ i j : Int, 0 ≤ i → i < image.xsize → 0 ≤ j → j < image.ysize →
        ((i = 0 ∨ i = image.xsize - 1 ∨ j = 0 ∨ j = image.ysize - 1) ∨
          ¬ (gradMag sqrtf image.imgBW image.xsize image.ysize i j
                > gradMag sqrtf image.imgBW image.xsize image.ysize (i - 1) j ∧
              gradMag sqrtf image.imgBW image.xsize image.ysize i j
                > gradMag sqrtf image.imgBW image.xsize image.ysize (i + 1) j ∧
              gradMag sqrtf image.imgBW image.xsize image.ysize i j
                > gradMag sqrtf image.imgBW image.xsize image.ysize i (j - 1) ∧
              gradMag sqrtf image.imgBW image.xsize image.ysize i j
                > gradMag sqrtf image.imgBW image.xsize image.ysize i (j + 1)) ∨
          truncInt (gradMag sqrtf image.imgBW image.xsize image.ysize i j * 1000)
            < genK sqrtf image ∨
          (∃ t, make_template sqrtf image.imgBW image.xsize image.ysize i j ts1 ts2 sd_thresh t
            = none)) →
        fm.map[(j * image.xsize + i).toNat]? = some 1 := by
  refine ⟨ar2GenFeatureMap_returns sqrtf image ts1 ts2 search_size1 search_size2 max_sim_thresh
    sd_thresh, ?_⟩
  intro fuel fm h
  obtain ⟨f, hf, hfm⟩ := ar2GenFeatureMap_some sqrtf fuel image ts1 ts2 search_size1 search_size2
    max_sim_thresh sd_thresh fm h
  have hcells := genScore_cells sqrtf image.imgBW image.xsize image.ysize ts1 ts2 search_size1
    search_size2 max_sim_thresh sd_thresh fuel _ _
    (fun i j v =>
      ((i = 0 ∨ i = image.xsize - 1 ∨ j = 0 ∨ j = image.ysize - 1) ∨
          ¬ (gradMag sqrtf image.imgBW image.xsize image.ysize i j
                > gradMag sqrtf image.imgBW image.xsize image.ysize (i - 1) j ∧
              gradMag sqrtf image.imgBW image.xsize image.ysize i j
                > gradMag sqrtf image.imgBW image.xsize image.ysize (i + 1) j ∧
              gradMag sqrtf image.imgBW image.xsize image.ysize i j
                > gradMag sqrtf image.imgBW image.xsize image.ysize i (j - 1) ∧
              gradMag sqrtf image.imgBW image.xsize image.ysize i j
                > gradMag sqrtf image.imgBW image.xsize image.ysize i (j + 1)) ∨
          truncInt (gradMag sqrtf image.imgBW image.xsize image.ysize i j * 1000)
            < genK sqrtf image ∨
          (∃ t, make_template sqrtf image.imgBW image.xsize image.ysize i j ts1 ts2 sd_thresh t
            = none)) → v = 1) hx hy
    (fun _ _ _ _ _ _ _ _ => rfl)
    (fun i j s s1 hi1 hi2 hj1 hj2 hfp hp => by
      obtain ⟨_, _, hcase⟩ := genPixel_some sqrtf image.imgBW image.xsize image.ysize ts1 ts2
        search_size1 search_size2 max_sim_thresh sd_thresh fuel _ _ j i s s1 hp
      rcases hcase with ⟨_, hv⟩ | ⟨hn1, hn2, tp, vlen, r, hmt, _, hv⟩
      · exact ⟨1, hv, fun _ => rfl⟩
      · refine ⟨r.1, hv, fun hcond => ?_⟩
        exfalso
        -- the gradient field at the pixel and at its four neighbours
        have g0 := genGradient_spec sqrtf image.imgBW image.xsize image.ysize hx hy i j
          (by omega) (by omega) (by omega) (by omega)
        have gl := genGradient_spec sqrtf image.imgBW image.xsize image.ysize hx hy (i - 1) j
          (by omega) (by omega) (by omega) (by omega)
        have gr := genGradient_spec sqrtf image.imgBW image.xsize image.ysize hx hy (i + 1) j
          (by omega) (by omega) (by omega) (by omega)
        have gu := genGradient_spec sqrtf image.imgBW image.xsize image.ysize hx hy i (j - 1)
          (by omega) (by omega) (by omega) (by omega)
        have gd := genGradient_spec sqrtf image.imgBW image.xsize image.ysize hx hy i (j + 1)
          (by omega) (by omega) (by omega) (by omega)
        rw [show j * image.xsize + (i - 1) = j * image.xsize + i - 1 by ring] at gl
        rw [show j * image.xsize + (i + 1) = j * image.xsize + i + 1 by ring] at gr
        rw [show (j - 1) * image.xsize + i = j * image.xsize + i - image.xsize by ring] at gu
        rw [show (j + 1) * image.xsize + i = j * image.xsize + i + image.xsize by ring] at gd
        rw [hfp, g0, gl, gr, gu, gd] at hn1
        rw [hfp, g0] at hn2
        rcases hcond with hb | hl | hk | ⟨t, ht⟩
        · omega
        · apply hl
          simp only [not_or, not_le] at hn1
          exact ⟨hn1.1, hn1.2.1, hn1.2.2.1, hn1.2.2.2⟩
        · exact hn2 hk
        · have := make_template_none_indep sqrtf image.imgBW image.xsize image.ysize i j ts1 ts2
            sd_thresh t s.template ht
          rw [this] at hmt
          cases hmt)
    f hf
  rw [hfm]
  refine ⟨rfl, rfl, by simp, fun i j hi0 hi1 hj0 hj1 hcond => ?_⟩
  have hidx := cell_index_range image.xsize image.ysize i j hi0 hi1 hj0 hj1
  have hv := hcells i j hi0 hi1 hj0 hj1 hcond
  dsimp only
  rw [List.getElem?_map, List.getElem?_range (by omega)]
  simp only [Option.map_some']
  rw [Int.toNat_of_nonneg hidx.1, hv]

end GenSentinelTheorems

/-- C9, witness: the 2×2 sample image over the reals with `Real.sqrt`. -/
theorem gen_map_values_in_range_witness :
    (∃ fuel fm, ar2GenFeatureMap Real.sqrt fuel ⟨2, 2, 72, sampleImage⟩ 0 1 1 0 (9 / 10) 0
      = some fm) ∧
    ∀ fuel fm, ar2GenFeatureMap Real.sqrt fuel ⟨2, 2, 72, sampleImage⟩ 0 1 1 0 (9 / 10) 0
      = some fm →
      fm.map.length = ((2 : Int) * 2).toNat ∧ ∀ v ∈ fm.map, -1 ≤ v ∧ v ≤ 1 :=
  gen_map_values_in_range Real.sqrt ⟨2, 2, 72, sampleImage⟩ 0 1 1 0 (9 / 10) 0
    (fun x hx => ⟨Real.sqrt_nonneg x, Real.mul_self_sqrt hx⟩) (by decide) (by decide)

/-- C10, witness: on a 3×3 black image with `ts1 = ts2 = 0` the template of
the interior pixel `(1, 1)` is rejected, so the returned map holds `1.0` at
index `1*3 + 1`. -/
theorem gen_map_sentinels_witness :
    ∃ fuel fm, ar2GenFeatureMap (fun x : ℚ => x) fuel ⟨3, 3, 72, fun _ => 0⟩ 0 0 1 0 (9 / 10) 0
        = some fm ∧
      fm.xsize = 3 ∧ fm.ysize = 3 ∧ fm.map.length = 9 ∧ fm.map[4]? = some 1 := by
  obtain ⟨hret, hall⟩ := gen_map_sentinels (fun x : ℚ => x) ⟨3, 3, 72, fun _ => 0⟩ 0 0 1 0
    (9 / 10) 0 (by decide) (by decide)
  obtain ⟨fuel, fm, h⟩ := hret
  obtain ⟨h1, h2, h3, h4⟩ := hall fuel fm h
  have hmt : make_template (fun x : ℚ => x) (fun _ => 0) 3 3 1 1 0 0 0 (fun _ => 0) = none := by
    rw [make_template_eq, if_neg (by decide),
      if_pos (patchSqDev_uniform (fun _ => 0) 3 1 1 0 0 0 (fun _ _ _ _ => rfl))]
  exact ⟨fuel, fm, h, h1, h2, h3, h4 1 1 (by decide) (by decide) (by decide) (by decide)
    (Or.inr (Or.inr (Or.inr ⟨_, hmt⟩)))⟩

section SelectMinLemmas

variable {K : Type} [LinearOrderedField K]

/-- The minimum scan in terms of the linear index `y*xsize + x`: `min_sim` is
at most every cell of the grid; when nothing is found every cell is at least
`max_sim_thresh`; when `(cx, cy)` is found, every cell before it is strictly
larger than `min_sim`. -/
theorem selectScan_linear (fimage2 : Int → K) (xsize ysize : Int) (max_sim_thresh : K) :
    (∀ idx, 0 ≤ idx → idx < (ysize.toNat : Int) * (xsize.toNat : Int) →
      (selectScan fimage2 xsize ysize max_sim_thresh).min_sim ≤ fimage2 idx) ∧
    ((selectScan fimage2 xsize ysize max_sim_thresh).cx = -1 →
      (selectScan fimage2 xsize ysize max_sim_thresh).min_sim = max_sim_thresh) ∧
    ((selectScan fimage2 xsize ysize max_sim_thresh).cx ≠ -1 →
      ∀ idx, 0 ≤ idx → idx < (selectScan fimage2 xsize ysize max_sim_thresh).cy * xsize
          + (selectScan fimage2 xsize ysize max_sim_thresh).cx →
        (selectScan fimage2 xsize ysize max_sim_thresh).min_sim < fimage2 idx) := by
  have hinv := forLoop_inv
    (fun j (s : ScanState K) => forLoop 0 (xsize - 1)
      (fun i s =>
        if fimage2 s.fp2 < s.min_sim then
          { fp2 := s.fp2 + 1, min_sim := fimage2 s.fp2, cx := i, cy := j }
        else { s with fp2 := s.fp2 + 1 })
      s)
    (fun J s => s.fp2 = (J : Int) * (xsize.toNat : Int) ∧
      (∀ idx, 0 ≤ idx → idx < s.fp2 → s.min_sim ≤ fimage2 idx) ∧
      (s.cx = -1 → s.min_sim = max_sim_thresh) ∧
      (s.cx ≠ -1 → ∀ idx, 0 ≤ idx → idx < s.cy * xsize + s.cx → s.min_sim < fimage2 idx))
    (ysize - 1 + 1 - 0).toNat 0 (ysize - 1)
    { fp2 := 0, min_sim := max_sim_thresh, cx := -1, cy := -1 } rfl
    ⟨by simp, fun idx h0 h1 => absurd h1 (not_lt.mpr h0), fun _ => rfl,
      fun h => absurd rfl h⟩ ?_
  · have hy : (ysize - 1 + 1 - 0).toNat = ysize.toNat := by congr 1; ring
    rw [hy] at hinv
    refine ⟨fun idx h0 h1 => hinv.2.1 idx h0 (by rw [hinv.1]; exact h1), hinv.2.2.1, hinv.2.2.2⟩
  · intro J t hJ ht
    beta_reduce
    have hin := forLoop_inv
      (fun i (s : ScanState K) =>
        if fimage2 s.fp2 < s.min_sim then
          ({ fp2 := s.fp2 + 1, min_sim := fimage2 s.fp2, cx := i, cy := 0 + (J : Int) } : ScanState K)
        else { s with fp2 := s.fp2 + 1 })
      (fun C s => s.fp2 = (J : Int) * (xsize.toNat : Int) + C ∧
        (∀ idx, 0 ≤ idx → idx < s.fp2 → s.min_sim ≤ fimage2 idx) ∧
        (s.cx = -1 → s.min_sim = max_sim_thresh) ∧
        (s.cx ≠ -1 → ∀ idx, 0 ≤ idx → idx < s.cy * xsize + s.cx → s.min_sim < fimage2 idx))
      (xsize - 1 + 1 - 0).toNat 0 (xsize - 1) t rfl
      ⟨by simp [ht.1], ht.2.1, ht.2.2.1, ht.2.2.2⟩ ?_
    · refine ⟨?_, hin.2.1, hin.2.2.1, hin.2.2.2⟩
      rw [hin.1]
      have : ((xsize - 1 + 1 - 0).toNat : Int) = (xsize.toNat : Int) := by
        congr 2; ring
      rw [this]
      push_cast
      ring
    · intro C s hC hs
      beta_reduce
      have hx : (xsize.toNat : Int) = xsize := Int.toNat_of_nonneg (by omega)
      by_cases hlt : fimage2 s.fp2 < s.min_sim
      · rw [if_pos hlt]
        dsimp only
        refine ⟨by rw [hs.1]; push_cast; ring, fun idx h0 h1 => ?_, fun h => by omega,
          fun _ idx h0 h1 => ?_⟩
        · by_cases he : idx = s.fp2
          · rw [he]
          · exact le_trans hlt.le (hs.2.1 idx h0 (by omega))
        · refine lt_of_lt_of_le hlt (hs.2.1 idx h0 ?_)
          rw [hs.1, hx]
          have e : (0 + (J : Int)) * xsize + (0 + (C : Int)) = (J : Int) * xsize + C := by ring
          rw [e] at h1
          exact h1
      · rw [if_neg hlt]
        dsimp only
        refine ⟨by rw [hs.1]; push_cast; ring, fun idx h0 h1 => ?_, hs.2.2.1, hs.2.2.2⟩
        by_cases he : idx = s.fp2
        · rw [he]; exact not_lt.mp hlt
        · exact hs.2.1 idx h0 (by omega)

theorem cell_index_lt (xsize x y x2 y2 : Int) (hx0 : 0 ≤ x) (hx1 : x < xsize)
    (hx2 : 0 ≤ x2) (h : y < y2 ∨ (y = y2 ∧ x < x2)) :
    y * xsize + x < y2 * xsize + x2 := by
  rcases h with h | ⟨h1, h2⟩
  · have := mul_nonneg (show (0 : Int) ≤ y2 - (y + 1) by omega) (show (0 : Int) ≤ xsize by omega)
    nlinarith
  · rw [h1]; omega

/-- The minimum scan on the grid: when no cell is found, no cell is below
`max_sim_thresh`; when `(cx, cy)` is found it holds the minimum of the grid
and is the first cell in row-major order that holds it. -/
theorem selectScan_min (fimage2 : Int → K) (xsize ysize : Int) (max_sim_thresh : K) :
    ((selectScan fimage2 xsize ysize max_sim_thresh).cx = -1 →
      ∀ x y : Int, 0 ≤ x → x < xsize → 0 ≤ y → y < ysize →
        ¬ fimage2 (y * xsize + x) < max_sim_thresh) ∧
    ((selectScan fimage2 xsize ysize max_sim_thresh).cx ≠ -1 →
      ∀ x y : Int, 0 ≤ x → x < xsize → 0 ≤ y → y < ysize →
        (selectScan fimage2 xsize ysize max_sim_thresh).min_sim ≤ fimage2 (y * xsize + x) ∧
        ((y < (selectScan fimage2 xsize ysize max_sim_thresh).cy ∨
            (y = (selectScan fimage2 xsize ysize max_sim_thresh).cy ∧
              x < (selectScan fimage2 xsize ysize max_sim_thresh).cx)) →
          (selectScan fimage2 xsize ysize max_sim_thresh).min_sim < fimage2 (y * xsize + x))) := by
  obtain ⟨h1, h2, h3⟩ := selectScan_linear fimage2 xsize ysize max_sim_thresh
  have hrange : ∀ x y : Int, 0 ≤ x → x < xsize → 0 ≤ y → y < ysize →
      0 ≤ y * xsize + x ∧ y * xsize + x < (ysize.toNat : Int) * (xsize.toNat : Int) := by
    intro x y hx0 hx1 hy0 hy1
    rw [Int.toNat_of_nonneg (by omega), Int.toNat_of_nonneg (by omega), mul_comm ysize xsize]
    exact cell_index_range xsize ysize x y hx0 hx1 hy0 hy1
  constructor
  · intro hc x y hx0 hx1 hy0 hy1
    have := h1 _ (hrange x y hx0 hx1 hy0 hy1).1 (hrange x y hx0 hx1 hy0 hy1).2
    rw [h2 hc] at this
    exact not_lt.mpr this
  · intro hc x y hx0 hx1 hy0 hy1
    refine ⟨h1 _ (hrange x y hx0 hx1 hy0 hy1).1 (hrange x y hx0 hx1 hy0 hy1).2, fun hb => ?_⟩
    rcases selectScan_spec fimage2 xsize ysize max_sim_thresh with hs | hs
    · exact absurd hs hc
    · exact h3 hc _ (hrange x y hx0 hx1 hy0 hy1).1
        (cell_index_lt xsize x y _ _ hx0 hx1 hs.1 hb)

end SelectMinLemmas

theorem sample_patchSqDev_rat : patchSqDev sampleImage 2 0 0 0 1 = (12 : ℚ) := by
  simp [patchSqDev, patchMean, patchPixel, sampleImage, Finset.sum_range_succ]
  norm_num

theorem selectScan_two_by_two (f : Int → ℚ) (t : ℚ) (h0 : f 0 < t) (h1 : ¬ f 1 < f 0)
    (h2 : ¬ f 2 < f 0) (h3 : ¬ f 3 < f 0) :
    selectScan f 2 2 t = { fp2 := 4, min_sim := f 0, cx := 0, cy := 0 } := by
  simp [selectScan, forLoop, h0, h1, h2, h3]

theorem sample_copyMap :
    copyMap sampleMap.map 2 2 0 = (1 / 2 : ℚ) ∧ copyMap sampleMap.map 2 2 1 = (1 : ℚ) ∧
      copyMap sampleMap.map 2 2 2 = (1 : ℚ) ∧ copyMap sampleMap.map 2 2 3 = (1 : ℚ) := by
  refine ⟨?_, ?_, ?_, ?_⟩ <;> simp [copyMap, sampleMap]

theorem sample_select_scan :
    selectScan (copyMap sampleMap.map 2 2) 2 2 (9 / 10 : ℚ)
      = { fp2 := 4, min_sim := 1 / 2, cx := 0, cy := 0 } := by
  obtain ⟨c0, c1, c2, c3⟩ := sample_copyMap
  have := selectScan_two_by_two (copyMap sampleMap.map 2 2) (9 / 10)
    (by rw [c0]; norm_num) (by rw [c0, c1]; norm_num) (by rw [c0, c2]; norm_num)
    (by rw [c0, c3]; norm_num)
  rw [c0] at this
  exact this

theorem sample_select_verify (tp : Int → ℚ) (vlen : ℚ) :
    selectVerify (fun x : ℚ => x) sampleImage 2 2 tp vlen 0 1 1 0 0 (3 / 10) (1 / 2) = (1, -1) := by
  simp [selectVerify, forBreak, verifyBody, verifyStop, get_similarity, patchOutside]

theorem sample_select_accepts :
    ∃ st1, selectStep (fun x : ℚ => x) sampleImageT 0 1 1 1 (9 / 10) (3 / 10) 0
        (selectInit sampleImageT sampleMap) = some st1 ∧
      st1.num = (selectInit sampleImageT sampleMap).num + 1 := by
  have hmt : make_template (fun x : ℚ => x) sampleImage 2 2 0 0 0 1 0 (fun _ => 0)
      = some ((templateFill sampleImage 2 0 0 0 1 (patchMean sampleImage 2 0 0 0 1)
          (fun _ => (0 : ℚ))).1, 12) := by
    rw [make_template_eq, if_neg (by decide), sample_patchSqDev_rat, if_neg (by norm_num),
      if_neg (by norm_num)]
  unfold selectStep
  rw [if_neg (by simp [selectInit, maxFeatureNum, sampleImageT])]
  have hs : selectScan (selectInit sampleImageT sampleMap).fimage2 sampleImageT.xsize
      sampleImageT.ysize (9 / 10 : ℚ) = { fp2 := 4, min_sim := 1 / 2, cx := 0, cy := 0 } :=
    sample_select_scan
  dsimp only
  rw [hs]
  dsimp only
  rw [if_neg (by decide)]
  have hmt2 : make_template (fun x : ℚ => x) sampleImageT.imgBW sampleImageT.xsize
      sampleImageT.ysize 0 0 0 1 0 (selectInit sampleImageT sampleMap).template
      = some ((templateFill sampleImage 2 0 0 0 1 (patchMean sampleImage 2 0 0 0 1)
          (fun _ => (0 : ℚ))).1, 12) := hmt
  rw [hmt2]
  dsimp only
  rw [if_neg (by norm_num)]
  have hv := sample_select_verify (templateFill sampleImage 2 0 0 0 1
    (patchMean sampleImage 2 0 0 0 1) (fun _ => (0 : ℚ))).1 12
  have hv2 : selectVerify (fun x : ℚ => x) sampleImageT.imgBW sampleImageT.xsize
      sampleImageT.ysize (templateFill sampleImage 2 0 0 0 1 (patchMean sampleImage 2 0 0 0 1)
        (fun _ => (0 : ℚ))).1 12 0 1 1 0 0 (3 / 10) (1 / 2) = (1, -1) := hv
  rw [hv2, if_neg (by simp [verifyStop]; norm_num)]
  exact ⟨_, rfl, rfl⟩

section SelectAcceptLemmas

variable {K : Type} [LinearOrderedField K]

/-- An iteration that increments `*num` is an acceptance: `make_template`
succeeded at the selected cell, the contrast and the re-verification tests
passed, and the new state is the old one with the record appended and the
occlusion square consumed. -/
theorem selectStep_accept (sqrtf : K → K) (image : AR2ImageT K)
    (ts1 ts2 search_size2 occ_size : Int) (max_sim_thresh min_sim_thresh sd_thresh : K)
    (st st1 : SelectState K)
    (h : selectStep sqrtf image ts1 ts2 search_size2 occ_size max_sim_thresh min_sim_thresh
      sd_thresh st = some st1)
    (hacc : st1.num = st.num + 1) :
    ∃ tp vlen,
      make_template sqrtf image.imgBW image.xsize image.ysize
        (selectScan st.fimage2 image.xsize image.ysize max_sim_thresh).cx
        (selectScan st.fimage2 image.xsize image.ysize max_sim_thresh).cy ts1 ts2 0 st.template
        = some (tp, vlen) ∧
      ¬ vlen / ((ts1 + ts2 + 1 : Int) : K) < sd_thresh ∧
      ¬ verifyStop min_sim_thresh
          (selectScan st.fimage2 image.xsize image.ysize max_sim_thresh).min_sim
          (selectVerify sqrtf image.imgBW image.xsize image.ysize tp vlen ts1 ts2 search_size2
            (selectScan st.fimage2 image.xsize image.ysize max_sim_thresh).cx
            (selectScan st.fimage2 image.xsize image.ysize max_sim_thresh).cy min_sim_thresh
            (selectScan st.fimage2 image.xsize image.ysize max_sim_thresh).min_sim) = true ∧
      st1 = { fimage2 := occlude st.fimage2 image.xsize image.ysize
                (selectScan st.fimage2 image.xsize image.ysize max_sim_thresh).cx
                (selectScan st.fimage2 image.xsize image.ysize max_sim_thresh).cy occ_size,
              template := tp,
              coord := st.coord ++
                [{ x := (selectScan st.fimage2 image.xsize image.ysize max_sim_thresh).cx,
                   y := (selectScan st.fimage2 image.xsize image.ysize max_sim_thresh).cy,
                   mx := ((selectScan st.fimage2 image.xsize image.ysize max_sim_thresh).cx : K)
                     / image.dpi * (254 / 10),
                   my := ((image.ysize
                       - (selectScan st.fimage2 image.xsize image.ysize max_sim_thresh).cy : Int) : K)
                     / image.dpi * (254 / 10),
                   maxSim := (selectScan st.fimage2 image.xsize image.ysize max_sim_thresh).min_sim }],
              num := st.num + 1 } := by
  unfold selectStep at h
  by_cases h1 : st.num < maxFeatureNum image.xsize image.ysize occ_size
  · rw [if_neg (not_not.mpr h1)] at h
    dsimp only at h
    by_cases h2 : (selectScan st.fimage2 image.xsize image.ysize max_sim_thresh).cx = -1
    · rw [if_pos h2] at h
      cases h
    · rw [if_neg h2] at h
      cases hm : make_template sqrtf image.imgBW image.xsize image.ysize
          (selectScan st.fimage2 image.xsize image.ysize max_sim_thresh).cx
          (selectScan st.fimage2 image.xsize image.ysize max_sim_thresh).cy ts1 ts2 0
          st.template with
      | none =>
          rw [hm] at h
          dsimp only at h
          rw [← Option.some.inj h] at hacc
          dsimp only at hacc
          omega
      | some p =>
          obtain ⟨tp, vlen⟩ := p
          rw [hm] at h
          dsimp only at h
          by_cases h3 : vlen / ((ts1 + ts2 + 1 : Int) : K) < sd_thresh
          · rw [if_pos h3] at h
            rw [← Option.some.inj h] at hacc
            dsimp only at hacc
            omega
          · rw [if_neg h3] at h
            by_cases h4 : verifyStop min_sim_thresh
                (selectScan st.fimage2 image.xsize image.ysize max_sim_thresh).min_sim
                (selectVerify sqrtf image.imgBW image.xsize image.ysize tp vlen ts1 ts2
                  search_size2 (selectScan st.fimage2 image.xsize image.ysize max_sim_thresh).cx
                  (selectScan st.fimage2 image.xsize image.ysize max_sim_thresh).cy min_sim_thresh
                  (selectScan st.fimage2 image.xsize image.ysize max_sim_thresh).min_sim) = true
            · rw [if_pos h4] at h
              rw [← Option.some.inj h] at hacc
              dsimp only at hacc
              omega
            · rw [if_neg h4] at h
              exact ⟨tp, vlen, rfl, h3, h4, (Option.some.inj h).symm⟩
  · rw [if_pos h1] at h
    cases h

/-- C18: at every acceptance in `ar2SelectFeature` the accepted cell
`(cx, cy)` is a cell of the grid that holds the minimum of the whole working
map at that moment, that value is strictly below `max_sim_thresh`, and among
the cells holding that value it is the first in row-major order (smallest
`y`, then smallest `x`). -/
theorem select_accepts_first_minimum (sqrtf : K → K) (image : AR2ImageT K)
    (ts1 ts2 search_size2 occ_size : Int) (max_sim_thresh min_sim_thresh sd_thresh : K)
    (st st1 : SelectState K)
    (h : selectStep sqrtf image ts1 ts2 search_size2 occ_size max_sim_thresh min_sim_thresh
      sd_thresh st = some st1)
    (hacc : st1.num = st.num + 1) :
    ∃ c : AR2FeatureCoordT K, st1.coord = st.coord ++ [c] ∧
      (0 ≤ c.x ∧ c.x < image.xsize ∧ 0 ≤ c.y ∧ c.y < image.ysize) ∧
      c.maxSim = st.fimage2 (c.y * image.xsize + c.x) ∧
      st.fimage2 (c.y * image.xsize + c.x) < max_sim_thresh ∧
      ∀ x y : Int, 0 ≤ x → x < image.xsize → 0 ≤ y → y < image.ysize →
        st.fimage2 (c.y * image.xsize + c.x) ≤ st.fimage2 (y * image.xsize + x) ∧
        (st.fimage2 (y * image.xsize + x) = st.fimage2 (c.y * image.xsize + c.x) →
          c.y < y ∨ (c.y = y ∧ c.x ≤ x)) := by
  obtain ⟨tp, vlen, _, _, _, hst1⟩ := selectStep_accept sqrtf image ts1 ts2 search_size2 occ_size
    max_sim_thresh min_sim_thresh sd_thresh st st1 h hacc
  obtain ⟨_, hcx, _⟩ := selectStep_some sqrtf image ts1 ts2 search_size2 occ_size
    max_sim_thresh min_sim_thresh sd_thresh st st1 h
  rcases selectScan_spec st.fimage2 image.xsize image.ysize max_sim_thresh with hsc | hsc
  · exact absurd hsc hcx
  · obtain ⟨hx0, hx1, hy0, hy1, hval, hlt⟩ := hsc
    have hmin := (selectScan_min st.fimage2 image.xsize image.ysize max_sim_thresh).2 hcx
    refine ⟨_, by rw [hst1], ⟨hx0, hx1, hy0, hy1⟩, hval.symm, by rw [hval]; exact hlt, ?_⟩
    intro x y a1 a2 a3 a4
    dsimp only
    rw [hval]
    refine ⟨(hmin x y a1 a2 a3 a4).1, fun heq => ?_⟩
    by_contra hcon
    have hb : y < (selectScan st.fimage2 image.xsize image.ysize max_sim_thresh).cy ∨
        (y = (selectScan st.fimage2 image.xsize image.ysize max_sim_thresh).cy ∧
          x < (selectScan st.fimage2 image.xsize image.ysize max_sim_thresh).cx) := by
      omega
    have := (hmin x y a1 a2 a3 a4).2 hb
    rw [heq] at this
    exact absurd this (lt_irrefl _)

end SelectAcceptLemmas

theorem select_accepts_first_minimum_witness :
    ∃ st1 : SelectState ℚ,
      selectStep (fun x : ℚ => x) sampleImageT 0 1 1 1 (9/10) (3/10) 0
        (selectInit sampleImageT sampleMap) = some st1 ∧
      st1.num = (selectInit sampleImageT sampleMap).num + 1 ∧
      ∃ c : AR2FeatureCoordT ℚ,
        st1.coord = (selectInit sampleImageT sampleMap).coord ++ [c] ∧
        (0 ≤ c.x ∧ c.x < sampleImageT.xsize ∧ 0 ≤ c.y ∧ c.y < sampleImageT.ysize) ∧
        c.maxSim = (selectInit sampleImageT sampleMap).fimage2 (c.y * sampleImageT.xsize + c.x) ∧
        (selectInit sampleImageT sampleMap).fimage2 (c.y * sampleImageT.xsize + c.x) < 9/10 ∧
        ∀ x y : Int, 0 ≤ x → x < sampleImageT.xsize → 0 ≤ y → y < sampleImageT.ysize →
          (selectInit sampleImageT sampleMap).fimage2 (c.y * sampleImageT.xsize + c.x)
            ≤ (selectInit sampleImageT sampleMap).fimage2 (y * sampleImageT.xsize + x) ∧
          ((selectInit sampleImageT sampleMap).fimage2 (y * sampleImageT.xsize + x)
              = (selectInit sampleImageT sampleMap).fimage2 (c.y * sampleImageT.xsize + c.x) →
            c.y < y ∨ (c.y = y ∧ c.x ≤ x)) := by
  obtain ⟨st1, h, hacc⟩ := sample_select_accepts
  exact ⟨st1, h, hacc, select_accepts_first_minimum (fun x : ℚ => x) sampleImageT 0 1 1 1
    (9/10) (3/10) 0 (selectInit sampleImageT sampleMap) st1 h hacc⟩

section SelectOrderLemmas

variable {K : Type} [LinearOrderedField K]

/-- With `max_sim_thresh ≤ 1` an iteration keeps: every recorded score is
below `max_sim_thresh` and at most every cell of the working map, and the
recorded scores are in non-decreasing order. -/
theorem selectOrdered_step (sqrtf : K → K) (image : AR2ImageT K)
    (ts1 ts2 search_size2 occ_size : Int) (max_sim_thresh min_sim_thresh sd_thresh : K)
    (hmax : max_sim_thresh ≤ 1) (st st1 : SelectState K)
    (hP : (∀ c ∈ st.coord, c.maxSim < max_sim_thresh ∧
        ∀ x y : Int, 0 ≤ x → x < image.xsize → 0 ≤ y → y < image.ysize →
          c.maxSim ≤ st.fimage2 (y * image.xsize + x)) ∧
      st.coord.Pairwise (fun a b => a.maxSim ≤ b.maxSim))
    (h : selectStep sqrtf image ts1 ts2 search_size2 occ_size max_sim_thresh min_sim_thresh
      sd_thresh st = some st1) :
    (∀ c ∈ st1.coord, c.maxSim < max_sim_thresh ∧
        ∀ x y : Int, 0 ≤ x → x < image.xsize → 0 ≤ y → y < image.ysize →
          c.maxSim ≤ st1.fimage2 (y * image.xsize + x)) ∧
      st1.coord.Pairwise (fun a b => a.maxSim ≤ b.maxSim) := by
  obtain ⟨_, hcx, hcase⟩ := selectStep_some sqrtf image ts1 ts2 search_size2 occ_size
    max_sim_thresh min_sim_thresh sd_thresh st st1 h
  rcases selectScan_spec st.fimage2 image.xsize image.ysize max_sim_thresh with hsc | hsc
  · exact absurd hsc hcx
  · obtain ⟨hx0, hx1, hy0, hy1, hval, hlt⟩ := hsc
    have hmin := (selectScan_min st.fimage2 image.xsize image.ysize max_sim_thresh).2 hcx
    rcases hcase with ⟨hf, hc, _⟩ | ⟨hf, ⟨c, _, _, hms, hc⟩, _⟩
    · refine ⟨fun c hcm => ⟨(hP.1 c (by rw [← hc]; exact hcm)).1,
        fun x y a1 a2 a3 a4 => ?_⟩, by rw [hc]; exact hP.2⟩
      rw [hc] at hcm
      rw [hf]
      rcases update_one_or st.fimage2 _ (y * image.xsize + x) with h1 | h1
      · rw [h1]; exact le_trans (hP.1 c hcm).1.le hmax
      · rw [h1]; exact (hP.1 c hcm).2 x y a1 a2 a3 a4
    · refine ⟨fun c2 hcm => ?_, ?_⟩
      · rw [hc, List.mem_append, List.mem_singleton] at hcm
        have hb : c2.maxSim < max_sim_thresh ∧
            ∀ x y : Int, 0 ≤ x → x < image.xsize → 0 ≤ y → y < image.ysize →
              c2.maxSim ≤ st.fimage2 (y * image.xsize + x) := by
          rcases hcm with hcm | hcm
          · exact hP.1 c2 hcm
          · rw [hcm, hms]
            exact ⟨hlt, fun x y a1 a2 a3 a4 => (hmin x y a1 a2 a3 a4).1⟩
        refine ⟨hb.1, fun x y a1 a2 a3 a4 => ?_⟩
        rw [hf]
        rcases (occlude_spec st.fimage2 image.xsize image.ysize _ _ occ_size).1
          (y * image.xsize + x) with h1 | h1
        · rw [h1]; exact le_trans hb.1.le hmax
        · rw [h1]; exact hb.2 x y a1 a2 a3 a4
      · rw [hc, List.pairwise_append]
        refine ⟨hP.2, List.pairwise_singleton _ _, fun a ha b hb => ?_⟩
        rw [List.mem_singleton] at hb
        rw [hb, hms, ← hval]
        exact (hP.1 a ha).2 _ _ hx0 hx1 hy0 hy1

/-- With `max_sim_thresh ≤ 1` an iteration keeps: every cell of the working
map holds `1.0f` or the value of the input map, and every record lies in the
grid, carries the millimetre coordinates of its cell and the input map's
value at its cell, which is below `max_sim_thresh`. -/
theorem selectRecord_step (sqrtf : K → K) (image : AR2ImageT K) (map : List K)
    (ts1 ts2 search_size2 occ_size : Int) (max_sim_thresh min_sim_thresh sd_thresh : K)
    (hmax : max_sim_thresh ≤ 1) (st st1 : SelectState K)
    (hP : (∀ idx : Int, st.fimage2 idx = 1 ∨
        st.fimage2 idx = copyMap map image.xsize image.ysize idx) ∧
      ∀ c ∈ st.coord, 0 ≤ c.x ∧ c.x < image.xsize ∧ 0 ≤ c.y ∧ c.y < image.ysize ∧
        c.mx = (c.x : K) / image.dpi * (254 / 10) ∧
        c.my = ((image.ysize - c.y : Int) : K) / image.dpi * (254 / 10) ∧
        c.maxSim = copyMap map image.xsize image.ysize (c.y * image.xsize + c.x) ∧
        c.maxSim < max_sim_thresh)
    (h : selectStep sqrtf image ts1 ts2 search_size2 occ_size max_sim_thresh min_sim_thresh
      sd_thresh st = some st1) :
    (∀ idx : Int, st1.fimage2 idx = 1 ∨
        st1.fimage2 idx = copyMap map image.xsize image.ysize idx) ∧
      ∀ c ∈ st1.coord, 0 ≤ c.x ∧ c.x < image.xsize ∧ 0 ≤ c.y ∧ c.y < image.ysize ∧
        c.mx = (c.x : K) / image.dpi * (254 / 10) ∧
        c.my = ((image.ysize - c.y : Int) : K) / image.dpi * (254 / 10) ∧
        c.maxSim = copyMap map image.xsize image.ysize (c.y * image.xsize + c.x) ∧
        c.maxSim < max_sim_thresh := by
  obtain ⟨_, hcx, hcase⟩ := selectStep_some sqrtf image ts1 ts2 search_size2 occ_size
    max_sim_thresh min_sim_thresh sd_thresh st st1 h
  rcases selectScan_spec st.fimage2 image.xsize image.ysize max_sim_thresh with hsc | hsc
  · exact absurd hsc hcx
  · obtain ⟨hx0, hx1, hy0, hy1, hval, hlt⟩ := hsc
    rcases hcase with ⟨hf, hc, _⟩ | ⟨hf, _, hn⟩
    · refine ⟨fun idx => ?_, by rw [hc]; exact hP.2⟩
      rw [hf]
      rcases update_one_or st.fimage2 _ idx with h1 | h1
      · exact Or.inl h1
      · rw [h1]; exact hP.1 idx
    · obtain ⟨tp, vlen, _, _, _, hst1⟩ := selectStep_accept sqrtf image ts1 ts2 search_size2
        occ_size max_sim_thresh min_sim_thresh sd_thresh st st1 h hn
      refine ⟨fun idx => ?_, fun c2 hcm => ?_⟩
      · rw [hf]
        rcases (occlude_spec st.fimage2 image.xsize image.ysize _ _ occ_size).1 idx with h1 | h1
        · exact Or.inl h1
        · rw [h1]; exact hP.1 idx
      · rw [hst1] at hcm
        dsimp only at hcm
        rw [List.mem_append, List.mem_singleton] at hcm
        rcases hcm with hcm | hcm
        · exact hP.2 c2 hcm
        · rw [hcm]
          refine ⟨hx0, hx1, hy0, hy1, rfl, rfl, ?_, hlt⟩
          dsimp only
          rw [← hval]
          rcases hP.1 ((selectScan st.fimage2 image.xsize image.ysize max_sim_thresh).cy
            * image.xsize + (selectScan st.fimage2 image.xsize image.ysize max_sim_thresh).cx)
            with h1 | h1
          · exfalso
            rw [h1] at hval
            rw [← hval] at hlt
            exact absurd (lt_of_lt_of_le hlt hmax) (lt_irrefl _)
          · exact h1

/-- The working copy reads the input map inside the grid. -/
theorem copyMap_getElem (map : List K) (xsize ysize x y : Int)
    (hlen : map.length = (xsize * ysize).toNat)
    (hx0 : 0 ≤ x) (hx1 : x < xsize) (hy0 : 0 ≤ y) (hy1 : y < ysize) :
    map[(y * xsize + x).toNat]? = some (copyMap map xsize ysize (y * xsize + x)) := by
  obtain ⟨h0, h1⟩ := cell_index_range xsize ysize x y hx0 hx1 hy0 hy1
  have hlt : (y * xsize + x).toNat < map.length := by
    rw [hlen]
    omega
  unfold copyMap
  rw [if_pos ⟨h0, h1⟩, List.getD_eq_getElem?_getD, List.getElem?_eq_getElem hlt]
  rfl

end SelectOrderLemmas

section SelectOrderTheorems

variable {K : Type} [LinearOrderedField K]

/-- C19: for `max_sim_thresh ≤ 1` the sequence returned by `ar2SelectFeature`
is ordered by decreasing distinctiveness: for `i < j`,
`coord[i].maxSim ≤ coord[j].maxSim`; and for matching dimensions and
`occ_size ≠ 0` the call does return a sequence. -/
theorem select_scores_nondecreasing (sqrtf : K → K) (image : AR2ImageT K)
    (featureMap : AR2FeatureMapT K) (ts1 ts2 search_size2 occ_size : Int)
    (max_sim_thresh min_sim_thresh sd_thresh : K) (hmax : max_sim_thresh ≤ 1) :
    (image.xsize = featureMap.xsize ∧ image.ysize = featureMap.ysize → occ_size ≠ 0 →
      ∃ fuel coords num, ar2SelectFeature sqrtf fuel image featureMap ts1 ts2 search_size2
        occ_size max_sim_thresh min_sim_thresh sd_thresh = some (some (coords, num))) ∧
    ∀ fuel coords num, ar2SelectFeature sqrtf fuel image featureMap ts1 ts2 search_size2 occ_size
      max_sim_thresh min_sim_thresh sd_thresh = some (some (coords, num)) →
      ∀ (i j : Nat) (hi : i < coords.length) (hj : j < coords.length), i < j →
        (coords[i]).maxSim ≤ (coords[j]).maxSim := by
  refine ⟨fun hdim hocc => ar2SelectFeature_returns sqrtf image featureMap ts1 ts2 search_size2
    occ_size max_sim_thresh min_sim_thresh sd_thresh hdim hocc hmax, ?_⟩
  intro fuel coords num h i j hi hj hij
  obtain ⟨st, hl, hc, _⟩ := ar2SelectFeature_some sqrtf fuel image featureMap ts1 ts2 search_size2
    occ_size max_sim_thresh min_sim_thresh sd_thresh coords num h
  have hinv := selectLoop_inv sqrtf image ts1 ts2 search_size2 occ_size max_sim_thresh
    min_sim_thresh sd_thresh
    (fun s => (∀ c ∈ s.coord, c.maxSim < max_sim_thresh ∧
        ∀ x y : Int, 0 ≤ x → x < image.xsize → 0 ≤ y → y < image.ysize →
          c.maxSim ≤ s.fimage2 (y * image.xsize + x)) ∧
      s.coord.Pairwise (fun a b => a.maxSim ≤ b.maxSim))
    (fun s s1 hP hs => selectOrdered_step sqrtf image ts1 ts2 search_size2 occ_size
      max_sim_thresh min_sim_thresh sd_thresh hmax s s1 hP hs)
    fuel (selectInit image featureMap) st
    ⟨fun c hc => absurd hc (List.not_mem_nil c), List.Pairwise.nil⟩ hl
  have hpw := hinv.2
  rw [hc, List.pairwise_iff_getElem] at hpw
  exact hpw i j hi hj hij

/-- C14: for `max_sim_thresh ≤ 1` (dimensions matching, the map holding its
`xsize*ysize` values) every record of the sequence returned by
`ar2SelectFeature` has `0 ≤ x < xsize`, `0 ≤ y < ysize`,
`mx = x / dpi * 25.4`, `my = (ysize - y) / dpi * 25.4`, and `maxSim` equal to
the input feature map's value at `(x, y)`, which is strictly below
`max_sim_thresh`; and for `occ_size ≠ 0` the call does return a sequence. -/
theorem select_record_fields (sqrtf : K → K) (image : AR2ImageT K)
    (featureMap : AR2FeatureMapT K) (ts1 ts2 search_size2 occ_size : Int)
    (max_sim_thresh min_sim_thresh sd_thresh : K) (hmax : max_sim_thresh ≤ 1)
    (hdim : image.xsize = featureMap.xsize ∧ image.ysize = featureMap.ysize)
    (hlen : featureMap.map.length = (featureMap.xsize * featureMap.ysize).toNat) :
    (occ_size ≠ 0 →
      ∃ fuel coords num, ar2SelectFeature sqrtf fuel image featureMap ts1 ts2 search_size2
        occ_size max_sim_thresh min_sim_thresh sd_thresh = some (some (coords, num))) ∧
    ∀ fuel coords num, ar2SelectFeature sqrtf fuel image featureMap ts1 ts2 search_size2 occ_size
      max_sim_thresh min_sim_thresh sd_thresh = some (some (coords, num)) →
      ∀ c ∈ coords, 0 ≤ c.x ∧ c.x < featureMap.xsize ∧ 0 ≤ c.y ∧ c.y < featureMap.ysize ∧
        c.mx = (c.x : K) / image.dpi * (254 / 10) ∧
        c.my = ((featureMap.ysize - c.y : Int) : K) / image.dpi * (254 / 10) ∧
        featureMap.map[(c.y * featureMap.xsize + c.x).toNat]? = some c.maxSim ∧
        c.maxSim < max_sim_thresh := by
  refine ⟨fun hocc => ar2SelectFeature_returns sqrtf image featureMap ts1 ts2 search_size2
    occ_size max_sim_thresh min_sim_thresh sd_thresh hdim hocc hmax, ?_⟩
  intro fuel coords num h c hcm
  obtain ⟨st, hl, hc, _⟩ := ar2SelectFeature_some sqrtf fuel image featureMap ts1 ts2 search_size2
    occ_size max_sim_thresh min_sim_thresh sd_thresh coords num h
  have hinv := selectLoop_inv sqrtf image ts1 ts2 search_size2 occ_size max_sim_thresh
    min_sim_thresh sd_thresh
    (fun s => (∀ idx : Int, s.fimage2 idx = 1 ∨
        s.fimage2 idx = copyMap featureMap.map image.xsize image.ysize idx) ∧
      ∀ c ∈ s.coord, 0 ≤ c.x ∧ c.x < image.xsize ∧ 0 ≤ c.y ∧ c.y < image.ysize ∧
        c.mx = (c.x : K) / image.dpi * (254 / 10) ∧
        c.my = ((image.ysize - c.y : Int) : K) / image.dpi * (254 / 10) ∧
        c.maxSim = copyMap featureMap.map image.xsize image.ysize (c.y * image.xsize + c.x) ∧
        c.maxSim < max_sim_thresh)
    (fun s s1 hP hs => selectRecord_step sqrtf image featureMap.map ts1 ts2 search_size2 occ_size
      max_sim_thresh min_sim_thresh sd_thresh hmax s s1 hP hs)
    fuel (selectInit image featureMap) st
    ⟨fun idx => Or.inr rfl, fun c hc => absurd hc (List.not_mem_nil c)⟩ hl
  rw [← hc] at hcm
  obtain ⟨b1, b2, b3, b4, b5, b6, b7, b8⟩ := hinv.2 c hcm
  rw [← hdim.1, ← hdim.2]
  rw [← hdim.1, ← hdim.2] at hlen
  refine ⟨b1, b2, b3, b4, b5, b6, ?_, b8⟩
  rw [copyMap_getElem featureMap.map image.xsize image.ysize c.x c.y hlen b1 b2 b3 b4, b7]

end SelectOrderTheorems

/-- C14, witness: the 2×2 sample image and map with `occ_size = 1` and
`max_sim_thresh = 9/10`. -/
theorem select_record_fields_witness :
    ((1 : Int) ≠ 0 →
      ∃ fuel coords num, ar2SelectFeature (fun x : ℚ => x) fuel sampleImageT sampleMap 0 1 1 1
        (9 / 10) (3 / 10) 0 = some (some (coords, num))) ∧
    ∀ fuel coords num, ar2SelectFeature (fun x : ℚ => x) fuel sampleImageT sampleMap 0 1 1 1
      (9 / 10) (3 / 10) 0 = some (some (coords, num)) →
      ∀ c ∈ coords, 0 ≤ c.x ∧ c.x < sampleMap.xsize ∧ 0 ≤ c.y ∧ c.y < sampleMap.ysize ∧
        c.mx = (c.x : ℚ) / sampleImageT.dpi * (254 / 10) ∧
        c.my = ((sampleMap.ysize - c.y : Int) : ℚ) / sampleImageT.dpi * (254 / 10) ∧
        sampleMap.map[(c.y * sampleMap.xsize + c.x).toNat]? = some c.maxSim ∧
        c.maxSim < 9 / 10 :=
  select_record_fields (fun x : ℚ => x) sampleImageT sampleMap 0 1 1 1 (9 / 10) (3 / 10) 0
    (by norm_num) ⟨rfl, rfl⟩ rfl

section SelectZeroImage

variable {K : Type} [LinearOrderedField K]

/-- On an all-zero image `make_template` returns `-1` at every anchor. -/
theorem make_template_zero_image (sqrtf : K → K) (imageBW : Int → Nat)
    (hz : ∀ idx : Int, imageBW idx = 0)
    (xsize ysize cx cy ts1 ts2 : Int) (sd_thresh : K) (template : Int → K) :
    make_template sqrtf imageBW xsize ysize cx cy ts1 ts2 sd_thresh template = none := by
  rw [make_template_eq]
  by_cases ho : patchOutside xsize ysize cx cy ts1 ts2
  · rw [if_pos ho]
  · rw [if_neg ho, if_pos (patchSqDev_uniform imageBW xsize cx cy ts1 ts2 0
      (fun r c _ _ => hz _))]

/-- On an all-zero image no iteration of the loop accepts a point. -/
theorem selectStep_zero_image (sqrtf : K → K) (image : AR2ImageT K)
    (hz : ∀ idx : Int, image.imgBW idx = 0)
    (ts1 ts2 search_size2 occ_size : Int) (max_sim_thresh min_sim_thresh sd_thresh : K)
    (st st1 : SelectState K)
    (h : selectStep sqrtf image ts1 ts2 search_size2 occ_size max_sim_thresh min_sim_thresh
      sd_thresh st = some st1) :
    st1.coord = st.coord ∧ st1.num = st.num := by
  obtain ⟨_, _, hcase⟩ := selectStep_some sqrtf image ts1 ts2 search_size2 occ_size
    max_sim_thresh min_sim_thresh sd_thresh st st1 h
  rcases hcase with ⟨_, hc, hn⟩ | ⟨_, _, hn⟩
  · exact ⟨hc, hn⟩
  · obtain ⟨tp, vlen, hm, _⟩ := selectStep_accept sqrtf image ts1 ts2 search_size2
      occ_size max_sim_thresh min_sim_thresh sd_thresh st st1 h hn
    rw [make_template_zero_image sqrtf image.imgBW hz] at hm
    cases hm

/-- A loop whose every iteration continues is never left. -/
theorem selectLoop_none (sqrtf : K → K) (image : AR2ImageT K)
    (ts1 ts2 search_size2 occ_size : Int) (max_sim_thresh min_sim_thresh sd_thresh : K)
    (P : SelectState K → Prop)
    (hstep : ∀ s, P s → ∃ s1, selectStep sqrtf image ts1 ts2 search_size2 occ_size max_sim_thresh
      min_sim_thresh sd_thresh s = some s1 ∧ P s1) :
    ∀ (fuel : Nat) (st : SelectState K), P st →
      selectLoop sqrtf image ts1 ts2 search_size2 occ_size max_sim_thresh min_sim_thresh
        sd_thresh fuel st = none := by
  intro fuel
  induction fuel with
  | zero => intro st _; rfl
  | succ m ih =>
      intro st hP
      obtain ⟨s1, hs, hP1⟩ := hstep st hP
      rw [selectLoop, hs]
      exact ih s1 hP1

/-- The minimum scan of a 1×1 map whose cell is below the threshold. -/
theorem selectScan_one_by_one (f : Int → K) (t : K) (hf : f 0 < t) :
    selectScan f 1 1 t = { fp2 := 1, min_sim := f 0, cx := 0, cy := 0 } := by
  unfold selectScan
  rw [forLoop_step _ _ _ _ (by norm_num), forLoop_done _ _ _ _ (by norm_num),
    forLoop_step _ _ _ _ (by norm_num), forLoop_done _ _ _ _ (by norm_num)]
  simp [hf]

/-- C11, as amended: on an all-zero image `make_template` fails at every
position for every parameter choice, so every result `ar2SelectFeature`
returns has no record and `*num = 0`; and for a feature map of the same
dimensions, `occ_size ≠ 0` and `max_sim_thresh ≤ 1` the call does return,
with `*num = 0`. -/
theorem select_zero_image_no_feature (sqrtf : K → K) (image : AR2ImageT K)
    (featureMap : AR2FeatureMapT K) (ts1 ts2 search_size2 occ_size : Int)
    (max_sim_thresh min_sim_thresh sd_thresh : K)
    (hz : ∀ idx : Int, image.imgBW idx = 0) :
    (∀ (cx cy : Int) (sd : K) (template : Int → K),
      make_template sqrtf image.imgBW image.xsize image.ysize cx cy ts1 ts2 sd template = none) ∧
    (∀ fuel coords num, ar2SelectFeature sqrtf fuel image featureMap ts1 ts2 search_size2 occ_size
      max_sim_thresh min_sim_thresh sd_thresh = some (some (coords, num)) →
      coords = [] ∧ num = 0) ∧
    (image.xsize = featureMap.xsize ∧ image.ysize = featureMap.ysize → occ_size ≠ 0 →
      max_sim_thresh ≤ 1 →
      ∃ fuel, ar2SelectFeature sqrtf fuel image featureMap ts1 ts2 search_size2 occ_size
        max_sim_thresh min_sim_thresh sd_thresh = some (some ([], 0))) := by
  have hres : ∀ fuel coords num, ar2SelectFeature sqrtf fuel image featureMap ts1 ts2
      search_size2 occ_size max_sim_thresh min_sim_thresh sd_thresh = some (some (coords, num)) →
      coords = [] ∧ num = 0 := by
    intro fuel coords num h
    obtain ⟨st, hl, hc, hn⟩ := ar2SelectFeature_some sqrtf fuel image featureMap ts1 ts2
      search_size2 occ_size max_sim_thresh min_sim_thresh sd_thresh coords num h
    have hinv := selectLoop_inv sqrtf image ts1 ts2 search_size2 occ_size max_sim_thresh
      min_sim_thresh sd_thresh (fun s => s.coord = [] ∧ s.num = 0)
      (fun s s1 hP hs => by
        obtain ⟨e1, e2⟩ := selectStep_zero_image sqrtf image hz ts1 ts2 search_size2 occ_size
          max_sim_thresh min_sim_thresh sd_thresh s s1 hs
        exact ⟨by rw [e1]; exact hP.1, by rw [e2]; exact hP.2⟩)
      fuel (selectInit image featureMap) st ⟨rfl, rfl⟩ hl
    rw [← hc, ← hn]
    exact hinv
  refine ⟨fun cx cy sd template => make_template_zero_image sqrtf image.imgBW hz _ _ _ _ _ _ _ _,
    hres, fun hdim hocc hmax => ?_⟩
  obtain ⟨fuel, coords, num, h⟩ := ar2SelectFeature_returns sqrtf image featureMap ts1 ts2
    search_size2 occ_size max_sim_thresh min_sim_thresh sd_thresh hdim hocc hmax
  obtain ⟨e1, e2⟩ := hres fuel coords num h
  rw [e1, e2] at h
  exact ⟨fuel, h⟩

end SelectZeroImage

/-- C11, counterexample: on the all-zero 1×1 image with map value `1/2`,
`ts1 = ts2 = 0`, `occ_size = 1` and `max_sim_thresh = 3/2` the call of
`ar2SelectFeature` never returns: the only cell is selected and rejected in
every iteration, the `1.0f` written to it staying below the threshold. -/
theorem select_zero_image_diverges :
    ¬ ∃ fuel, (ar2SelectFeature (fun x : ℚ => x) fuel ⟨1, 1, 72, fun _ => 0⟩ ⟨[1 / 2], 1, 1⟩
      0 0 0 1 (3 / 2) 0 0).isSome = true := by
  have hloop := selectLoop_none (fun x : ℚ => x) ⟨1, 1, 72, fun _ => 0⟩ 0 0 0 1 (3 / 2) 0 0
    (fun s => s.num = 0 ∧ s.fimage2 0 < 3 / 2)
    (fun s hP => by
      have hmt : make_template (fun x : ℚ => x) (fun _ => 0) 1 1 0 0 0 0 0 s.template = none :=
        make_template_zero_image _ _ (fun _ => rfl) _ _ _ _ _ _ _ _
      unfold selectStep
      rw [if_neg (by rw [hP.1]; decide)]
      dsimp only
      rw [selectScan_one_by_one s.fimage2 (3 / 2) hP.2]
      dsimp only
      rw [if_neg (by decide), hmt]
      refine ⟨_, rfl, hP.1, ?_⟩
      dsimp only
      have e : (0 : Int) * 1 + 0 = 0 := by norm_num
      rw [e, Function.update_same]
      norm_num)
  rintro ⟨fuel, h⟩
  unfold ar2SelectFeature at h
  rw [if_neg (by decide), if_neg (by decide),
    hloop fuel _ ⟨rfl, by simp [selectInit, copyMap]; norm_num⟩] at h
  cases h

/-- C11, witness: the all-zero 2×2 image with the sample map. -/
theorem select_zero_image_no_feature_witness :
    (∀ (cx cy : Int) (sd : ℚ) (template : Int → ℚ),
      make_template (fun x : ℚ => x) (fun _ => 0) 2 2 cx cy 0 1 sd template = none) ∧
    (∀ fuel coords num, ar2SelectFeature (fun x : ℚ => x) fuel ⟨2, 2, 72, fun _ => 0⟩ sampleMap
      0 1 1 1 (9 / 10) (3 / 10) 0 = some (some (coords, num)) → coords = [] ∧ num = 0) ∧
    ((2 : Int) = sampleMap.xsize ∧ (2 : Int) = sampleMap.ysize → (1 : Int) ≠ 0 →
      (9 / 10 : ℚ) ≤ 1 →
      ∃ fuel, ar2SelectFeature (fun x : ℚ => x) fuel ⟨2, 2, 72, fun _ => 0⟩ sampleMap
        0 1 1 1 (9 / 10) (3 / 10) 0 = some (some ([], 0))) :=
  select_zero_image_no_feature (fun x : ℚ => x) ⟨2, 2, 72, fun _ => 0⟩ sampleMap 0 1 1 1
    (9 / 10) (3 / 10) 0 (fun _ => rfl)

section ContrastCheck

variable {K : Type} [LinearOrderedField K]

/-- A patch with non-zero `vlen1` has a positive side. -/
theorem patchSide_pos_of_sqDev (imageBW : Int → Nat) (xsize cx cy ts1 ts2 : Int)
    (h : patchSqDev imageBW xsize cx cy ts1 ts2 ≠ (0 : K)) : 0 < ts1 + ts2 + 1 := by
  by_contra hcon
  apply h
  unfold patchSqDev
  have : (ts1 + ts2 + 1).toNat = 0 := by omega
  rw [this]
  simp

/-- With the exact square root and `sd_thresh ≥ 0`, dividing the norm by the
side and comparing with `sd_thresh` is the same test as dividing `vlen1` by
the squared side and comparing with `sd_thresh²`. -/
theorem contrast_test_iff (sqrtf : K → K) (v sd : K) (n : Int)
    (hsqrt : ∀ x : K, 0 ≤ x → 0 ≤ sqrtf x ∧ sqrtf x * sqrtf x = x)
    (hv : 0 ≤ v) (hsd : 0 ≤ sd) (hn : 0 < n) :
    sqrtf v / ((n : Int) : K) < sd ↔ v / (((n * n : Int)) : K) < sd * sd := by
  obtain ⟨hs0, hs1⟩ := hsqrt v hv
  have hnK : (0 : K) < ((n : Int) : K) := by exact_mod_cast hn
  have e : v / (((n * n : Int)) : K) = (sqrtf v / ((n : Int) : K)) * (sqrtf v / ((n : Int) : K)) := by
    rw [Int.cast_mul, div_mul_div_comm, hs1]
  rw [e]
  have hq : 0 ≤ sqrtf v / ((n : Int) : K) := div_nonneg hs0 hnK.le
  constructor
  · intro h
    exact mul_self_lt_mul_self hq h
  · intro h
    by_contra hcon
    exact absurd h (not_lt.mpr (mul_self_le_mul_self hsd (not_lt.mp hcon)))

/-- C20, as amended: over exact arithmetic (`sqrtf` the exact square root) and
for `sd_thresh ≥ 0`, the map-generation test (`make_template` called with
`sd_thresh` succeeds) accepts a patch if and only if the feature-selection
test (`make_template` called with threshold `0` succeeds and
`vlen/(ts1+ts2+1) ≥ sd_thresh`) accepts it. -/
theorem contrast_checks_agree (sqrtf : K → K) (imageBW : Int → Nat)
    (xsize ysize cx cy ts1 ts2 : Int) (sd_thresh : K) (template : Int → K)
    (hsqrt : ∀ x : K, 0 ≤ x → 0 ≤ sqrtf x ∧ sqrtf x * sqrtf x = x)
    (hsd : 0 ≤ sd_thresh) :
    (make_template sqrtf imageBW xsize ysize cx cy ts1 ts2 sd_thresh template).isSome = true ↔
      ∃ tp vlen, make_template sqrtf imageBW xsize ysize cx cy ts1 ts2 0 template
          = some (tp, vlen) ∧
        ¬ vlen / ((ts1 + ts2 + 1 : Int) : K) < sd_thresh := by
  rw [make_template_eq, make_template_eq]
  by_cases h1 : patchOutside xsize ysize cx cy ts1 ts2
  · rw [if_pos h1, if_pos h1]
    simp
  · rw [if_neg h1, if_neg h1]
    by_cases h2 : patchSqDev imageBW xsize cx cy ts1 ts2 = (0 : K)
    · rw [if_pos h2, if_pos h2]
      simp
    · rw [if_neg h2, if_neg h2]
      have hw := patchSide_pos_of_sqDev imageBW xsize cx cy ts1 ts2 h2
      have hv : (0 : K) ≤ patchSqDev imageBW xsize cx cy ts1 ts2 :=
        patchSqDev_nonneg imageBW xsize cx cy ts1 ts2
      have hz : ¬ patchSqDev imageBW xsize cx cy ts1 ts2
          / (((ts1 + ts2 + 1) * (ts1 + ts2 + 1) : Int) : K) < 0 * 0 := by
        rw [mul_zero, not_lt]
        refine div_nonneg hv ?_
        have : (0 : Int) ≤ (ts1 + ts2 + 1) * (ts1 + ts2 + 1) := mul_self_nonneg _
        exact_mod_cast this
      rw [if_neg hz]
      have hiff := contrast_test_iff sqrtf (patchSqDev imageBW xsize cx cy ts1 ts2) sd_thresh
        (ts1 + ts2 + 1) hsqrt hv hsd hw
      by_cases h3 : patchSqDev imageBW xsize cx cy ts1 ts2
          / (((ts1 + ts2 + 1) * (ts1 + ts2 + 1) : Int) : K) < sd_thresh * sd_thresh
      · rw [if_pos h3]
        constructor
        · intro h; cases h
        · rintro ⟨tp, vlen, he, hn⟩
          have hvl : sqrtf (patchSqDev imageBW xsize cx cy ts1 ts2) = vlen :=
            congrArg Prod.snd (Option.some.inj he)
          rw [← hvl] at hn
          exact absurd (hiff.mpr h3) hn
      · rw [if_neg h3]
        refine ⟨fun _ => ⟨_, _, rfl, fun hlt => h3 (hiff.mp hlt)⟩, fun _ => rfl⟩

end ContrastCheck

/-- C20, counterexample: over the reals with `Real.sqrt`, on the 2×2 sample
patch (`vlen1 = 12`, side `2`) with `sd_thresh = -2` the map-generation test
rejects (`12/4 < (-2)²`) while the feature-selection test accepts
(`sqrt(12)/2 ≥ -2`). -/
theorem contrast_checks_differ_negative :
    (make_template Real.sqrt sampleImage 2 2 0 0 0 1 (-2) (fun _ => 0)).isSome = false ∧
    ∃ tp vlen, make_template Real.sqrt sampleImage 2 2 0 0 0 1 0 (fun _ => 0) = some (tp, vlen) ∧
      ¬ vlen / (((0 : Int) + 1 + 1 : Int) : ℝ) < -2 := by
  constructor
  · rw [make_template_eq, if_neg (by decide), sample_patchSqDev, if_neg (by norm_num),
      if_pos (by norm_num)]
    rfl
  · rw [make_template_eq, if_neg (by decide), sample_patchSqDev, if_neg (by norm_num),
      if_neg (by norm_num)]
    refine ⟨_, _, rfl, ?_⟩
    rw [not_lt]
    have h0 : (0 : ℝ) ≤ Real.sqrt 12 := Real.sqrt_nonneg 12
    have h1 : (0 : ℝ) ≤ Real.sqrt 12 / (((0 : Int) + 1 + 1 : Int) : ℝ) :=
      div_nonneg h0 (by norm_num)
    linarith

/-- C20, witness: over the reals with `Real.sqrt`, the 2×2 sample patch with
`sd_thresh = 1`. -/
theorem contrast_checks_agree_witness :
    (make_template Real.sqrt sampleImage 2 2 0 0 0 1 1 (fun _ => 0)).isSome = true ↔
      ∃ tp vlen, make_template Real.sqrt sampleImage 2 2 0 0 0 1 0 (fun _ => 0)
          = some (tp, vlen) ∧
        ¬ vlen / (((0 : Int) + 1 + 1 : Int) : ℝ) < 1 :=
  contrast_checks_agree Real.sqrt sampleImage 2 2 0 0 0 1 1 (fun _ => 0)
    (fun x hx => ⟨Real.sqrt_nonneg x, Real.mul_self_sqrt hx⟩) (by norm_num)

section LegacyLemmas

variable {K : Type} [LinearOrderedField K]

/-- The first pass of the legacy branch computes the sum of the patch
pixels. -/
theorem legacySum_eq (imageBW : Int → Nat) (xsize cx cy ts1 ts2 : Int) :
    (legacySum imageBW xsize cx cy ts1 ts2 : K)
      = ∑ r ∈ Finset.range (ts1 + ts2 + 1).toNat, ∑ c ∈ Finset.range (ts1 + ts2 + 1).toNat,
          (patchPixel imageBW xsize cx cy ts1 r c : K) := by
  unfold legacySum
  refine forLoop_inv _
    (fun R (s : K) => s = ∑ r ∈ Finset.range R, ∑ c ∈ Finset.range (ts1 + ts2 + 1).toNat,
      (patchPixel imageBW xsize cx cy ts1 r c : K))
    (ts1 + ts2 + 1).toNat (-ts1) ts2 0 (by congr 1; ring) (by simp) ?_
  intro R t _ ht
  beta_reduce
  have hin := forLoop_inv
    (fun (_ : Int) (s : Int × K) => (s.1 + 1, s.2 + (imageBW s.1 : K)))
    (fun C s => s = ((cy + (-ts1 + (R : Int))) * xsize + (cx - ts1) + (C : Int),
      t + ∑ c ∈ Finset.range C, (patchPixel imageBW xsize cx cy ts1 R c : K)))
    (ts1 + ts2 + 1).toNat (-ts1) ts2 ((cy + (-ts1 + (R : Int))) * xsize + (cx - ts1), t)
    (by congr 1; ring) (by simp) ?_
  · rw [hin, Finset.sum_range_succ, ht]
  · intro C q _ hq
    rw [hq]
    dsimp only
    rw [Finset.sum_range_succ]
    have hp : imageBW ((cy + (-ts1 + (R : Int))) * xsize + (cx - ts1) + (C : Int))
        = patchPixel imageBW xsize cx cy ts1 R C := by
      unfold patchPixel
      congr 1
      ring
    rw [hp]
    refine Prod.ext ?_ ?_
    · dsimp only; push_cast; ring
    · dsimp only; ring

/-- The second pass of the legacy branch computes the covariance sum and the
sum of the squared deviations over the patch. -/
theorem legacyPass_eq (imageBW : Int → Nat) (xsize : Int) (template : Int → K) (ave2 : K)
    (ts1 ts2 cx cy : Int) :
    (legacyPass imageBW xsize template ave2 ts1 ts2 cx cy).2 =
      (∑ r ∈ Finset.range (ts1 + ts2 + 1).toNat, ∑ c ∈ Finset.range (ts1 + ts2 + 1).toNat,
          template ((c : Int) + r * (ts1 + ts2 + 1))
            * ((patchPixel imageBW xsize cx cy ts1 r c : K) - ave2),
       ∑ r ∈ Finset.range (ts1 + ts2 + 1).toNat, ∑ c ∈ Finset.range (ts1 + ts2 + 1).toNat,
          ((patchPixel imageBW xsize cx cy ts1 r c : K) - ave2)
            * ((patchPixel imageBW xsize cx cy ts1 r c : K) - ave2)) := by
  unfold legacyPass
  have h := forLoop_inv
    (fun j (s : Int × K × K) =>
      (forLoop (-ts1) ts2
        (fun (_ : Int) (q : Int × Int × K × K) =>
          (q.1 + 1, q.2.1 + 1,
            q.2.2.1 + template q.2.1 * ((imageBW q.1 : K) - ave2),
            q.2.2.2 + ((imageBW q.1 : K) - ave2) * ((imageBW q.1 : K) - ave2)))
        ((cy + j) * xsize + (cx - ts1), s)).2)
    (fun R (s : Int × K × K) => s =
      ((R : Int) * (ts1 + ts2 + 1),
       ∑ r ∈ Finset.range R, ∑ c ∈ Finset.range (ts1 + ts2 + 1).toNat,
          template ((c : Int) + r * (ts1 + ts2 + 1))
            * ((patchPixel imageBW xsize cx cy ts1 r c : K) - ave2),
       ∑ r ∈ Finset.range R, ∑ c ∈ Finset.range (ts1 + ts2 + 1).toNat,
          ((patchPixel imageBW xsize cx cy ts1 r c : K) - ave2)
            * ((patchPixel imageBW xsize cx cy ts1 r c : K) - ave2)))
    (ts1 + ts2 + 1).toNat (-ts1) ts2 (0, 0, 0) (by congr 1; ring) (by simp) ?_
  · rw [h]
  · intro R t hR ht
    beta_reduce
    have hw : ((ts1 + ts2 + 1).toNat : Int) = ts1 + ts2 + 1 := by omega
    have hin := forLoop_inv
      (fun (_ : Int) (q : Int × Int × K × K) =>
        (q.1 + 1, q.2.1 + 1,
          q.2.2.1 + template q.2.1 * ((imageBW q.1 : K) - ave2),
          q.2.2.2 + ((imageBW q.1 : K) - ave2) * ((imageBW q.1 : K) - ave2)))
      (fun C q => q = ((cy + (-ts1 + (R : Int))) * xsize + (cx - ts1) + (C : Int),
        t.1 + (C : Int),
        t.2.1 + ∑ c ∈ Finset.range C, template ((c : Int) + R * (ts1 + ts2 + 1))
            * ((patchPixel imageBW xsize cx cy ts1 R c : K) - ave2),
        t.2.2 + ∑ c ∈ Finset.range C, ((patchPixel imageBW xsize cx cy ts1 R c : K) - ave2)
            * ((patchPixel imageBW xsize cx cy ts1 R c : K) - ave2)))
      (ts1 + ts2 + 1).toNat (-ts1) ts2 ((cy + (-ts1 + (R : Int))) * xsize + (cx - ts1), t)
      (by congr 1; ring) (by simp) ?_
    · rw [hin, ht]
      dsimp only
      simp only [Finset.sum_range_succ]
      refine Prod.ext ?_ rfl
      dsimp only
      rw [hw]
      push_cast
      ring
    · intro C q _ hq
      rw [hq]
      dsimp only
      simp only [Finset.sum_range_succ]
      have hp : imageBW ((cy + (-ts1 + (R : Int))) * xsize + (cx - ts1) + (C : Int))
          = patchPixel imageBW xsize cx cy ts1 R C := by
        unfold patchPixel
        congr 1
        ring
      have htp : t.1 + (C : Int) = (C : Int) + R * (ts1 + ts2 + 1) := by
        rw [ht]
        dsimp only
        ring
      rw [hp]
      refine Prod.ext ?_ (Prod.ext ?_ (Prod.ext ?_ ?_))
      · dsimp only; push_cast; ring
      · dsimp only; push_cast; ring
      · dsimp only; rw [htp]; ring
      · dsimp only; ring

end LegacyLemmas

section LegacyTheorems

variable {K : Type} [LinearOrderedField K]

/-- The variance-based quantity of the active branch, `sxx - sx*sx/N`, is the
sum of the squared deviations from the patch mean. -/
theorem patchSqDev_eq_sums (imageBW : Int → Nat) (xsize cx cy ts1 ts2 : Int)
    (hw : 0 < ts1 + ts2 + 1) :
    (∑ r ∈ Finset.range (ts1 + ts2 + 1).toNat, ∑ c ∈ Finset.range (ts1 + ts2 + 1).toNat,
        (patchPixel imageBW xsize cx cy ts1 r c : K) * (patchPixel imageBW xsize cx cy ts1 r c : K))
      - (∑ r ∈ Finset.range (ts1 + ts2 + 1).toNat, ∑ c ∈ Finset.range (ts1 + ts2 + 1).toNat,
          (patchPixel imageBW xsize cx cy ts1 r c : K))
        * (∑ r ∈ Finset.range (ts1 + ts2 + 1).toNat, ∑ c ∈ Finset.range (ts1 + ts2 + 1).toNat,
          (patchPixel imageBW xsize cx cy ts1 r c : K))
        / (((ts1 + ts2 + 1) * (ts1 + ts2 + 1) : Int) : K)
      = patchSqDev imageBW xsize cx cy ts1 ts2 := by
  unfold patchSqDev patchMean
  rw [patchSide_cast ts1 ts2 hw.le]
  have hwne : ((ts1 + ts2 + 1).toNat : K) ≠ 0 := by
    have : (ts1 + ts2 + 1).toNat ≠ 0 := by omega
    exact_mod_cast this
  have hexp : ∀ (m : K) (r c : Nat),
      ((patchPixel imageBW xsize cx cy ts1 r c : K) - m)
        * ((patchPixel imageBW xsize cx cy ts1 r c : K) - m)
      = (patchPixel imageBW xsize cx cy ts1 r c : K) * (patchPixel imageBW xsize cx cy ts1 r c : K)
        - 2 * m * (patchPixel imageBW xsize cx cy ts1 r c : K) + m * m := by
    intro m r c
    ring
  simp only [hexp, Finset.sum_add_distrib, Finset.sum_sub_distrib, ← Finset.mul_sum,
    Finset.sum_const, Finset.card_range, nsmul_eq_mul]
  field_simp
  ring

/-- Against a template whose entries sum to zero, the covariance sum with the
mean-subtracted pixels is the plain sum `sxy`. -/
theorem patchCov_eq_sums (imageBW : Int → Nat) (xsize cx cy ts1 ts2 : Int)
    (template : Int → K) (m : K)
    (hsum : (∑ r ∈ Finset.range (ts1 + ts2 + 1).toNat, ∑ c ∈ Finset.range (ts1 + ts2 + 1).toNat,
      template ((c : Int) + r * (ts1 + ts2 + 1))) = 0) :
    (∑ r ∈ Finset.range (ts1 + ts2 + 1).toNat, ∑ c ∈ Finset.range (ts1 + ts2 + 1).toNat,
        template ((c : Int) + r * (ts1 + ts2 + 1))
          * ((patchPixel imageBW xsize cx cy ts1 r c : K) - m))
      = ∑ r ∈ Finset.range (ts1 + ts2 + 1).toNat, ∑ c ∈ Finset.range (ts1 + ts2 + 1).toNat,
        (patchPixel imageBW xsize cx cy ts1 r c : K)
          * template ((c : Int) + r * (ts1 + ts2 + 1)) := by
  have hexp : ∀ (r c : Nat), template ((c : Int) + r * (ts1 + ts2 + 1))
        * ((patchPixel imageBW xsize cx cy ts1 r c : K) - m)
      = (patchPixel imageBW xsize cx cy ts1 r c : K) * template ((c : Int) + r * (ts1 + ts2 + 1))
        - m * template ((c : Int) + r * (ts1 + ts2 + 1)) := by
    intro r c
    ring
  simp only [hexp, Finset.sum_sub_distrib, ← Finset.mul_sum, hsum, mul_zero, sub_zero]

/-- C15: for every in-bounds anchor and every template whose entries sum to
zero with norm `vlen > 0`, the legacy covariance branch of `get_similarity`
and the active running-sums branch fail on exactly the same inputs, those
whose target patch has zero variance, and otherwise return the same value,
`sum(t_i * (x_i - mean_x)) / (vlen * sqrt(sum((x_i - mean_x)^2)))`
`= sxy / (vlen * sqrt(sxx - sx*sx/N))`. -/
theorem legacy_similarity_agrees (sqrtf : K → K) (imageBW : Int → Nat) (xsize ysize : Int)
    (template : Int → K) (vlen : K) (ts1 ts2 cx cy : Int)
    (hin : ¬ patchOutside xsize ysize cx cy ts1 ts2)
    (hT : templateNormal template vlen ts1 ts2) :
    (get_similarity_legacy sqrtf imageBW xsize ysize template vlen ts1 ts2 cx cy = none ↔
      (get_similarity sqrtf imageBW xsize ysize template vlen ts1 ts2 cx cy).1 = -1) ∧
    (get_similarity_legacy sqrtf imageBW xsize ysize template vlen ts1 ts2 cx cy = none ↔
      patchSqDev imageBW xsize cx cy ts1 ts2 = (0 : K)) ∧
    (patchSqDev imageBW xsize cx cy ts1 ts2 ≠ (0 : K) →
      get_similarity sqrtf imageBW xsize ysize template vlen ts1 ts2 cx cy
        = (0, (simSums imageBW xsize template ts1 ts2 cx cy).2.2
            / (vlen * sqrtf ((simSums imageBW xsize template ts1 ts2 cx cy).2.1
              - (simSums imageBW xsize template ts1 ts2 cx cy).1
                * (simSums imageBW xsize template ts1 ts2 cx cy).1
                / (((ts1 + ts2 + 1) * (ts1 + ts2 + 1) : Int) : K)))) ∧
      get_similarity_legacy sqrtf imageBW xsize ysize template vlen ts1 ts2 cx cy
        = some ((∑ r ∈ Finset.range (ts1 + ts2 + 1).toNat,
            ∑ c ∈ Finset.range (ts1 + ts2 + 1).toNat,
              template ((c : Int) + r * (ts1 + ts2 + 1))
                * ((patchPixel imageBW xsize cx cy ts1 r c : K)
                  - patchMean imageBW xsize cx cy ts1 ts2))
          / (vlen * sqrtf (patchSqDev imageBW xsize cx cy ts1 ts2))) ∧
      get_similarity_legacy sqrtf imageBW xsize ysize template vlen ts1 ts2 cx cy
        = some (get_similarity sqrtf imageBW xsize ysize template vlen ts1 ts2 cx cy).2) := by
  obtain ⟨hw, hsum, _, _⟩ := hT
  have hleg : get_similarity_legacy sqrtf imageBW xsize ysize template vlen ts1 ts2 cx cy
      = if patchSqDev imageBW xsize cx cy ts1 ts2 = (0 : K) then none
        else some ((∑ r ∈ Finset.range (ts1 + ts2 + 1).toNat,
            ∑ c ∈ Finset.range (ts1 + ts2 + 1).toNat,
              template ((c : Int) + r * (ts1 + ts2 + 1))
                * ((patchPixel imageBW xsize cx cy ts1 r c : K)
                  - patchMean imageBW xsize cx cy ts1 ts2))
          / (vlen * sqrtf (patchSqDev imageBW xsize cx cy ts1 ts2))) := by
    unfold get_similarity_legacy
    rw [if_neg hin]
    dsimp only
    rw [legacyPass_eq, legacySum_eq]
    rfl
  have hact : get_similarity sqrtf imageBW xsize ysize template vlen ts1 ts2 cx cy
      = if patchSqDev imageBW xsize cx cy ts1 ts2 = (0 : K) then (-1, -1)
        else (0, (∑ r ∈ Finset.range (ts1 + ts2 + 1).toNat,
            ∑ c ∈ Finset.range (ts1 + ts2 + 1).toNat,
              template ((c : Int) + r * (ts1 + ts2 + 1))
                * ((patchPixel imageBW xsize cx cy ts1 r c : K)
                  - patchMean imageBW xsize cx cy ts1 ts2))
          / (vlen * sqrtf (patchSqDev imageBW xsize cx cy ts1 ts2))) := by
    unfold get_similarity
    rw [if_neg hin]
    dsimp only
    rw [simSums_eq]
    dsimp only
    rw [patchSqDev_eq_sums imageBW xsize cx cy ts1 ts2 hw,
      patchCov_eq_sums imageBW xsize cx cy ts1 ts2 template _ hsum]
  have hsim : (simSums imageBW xsize template ts1 ts2 cx cy).2.1
      - (simSums imageBW xsize template ts1 ts2 cx cy).1
        * (simSums imageBW xsize template ts1 ts2 cx cy).1
        / (((ts1 + ts2 + 1) * (ts1 + ts2 + 1) : Int) : K)
      = patchSqDev imageBW xsize cx cy ts1 ts2 := by
    rw [simSums_eq]
    exact patchSqDev_eq_sums imageBW xsize cx cy ts1 ts2 hw
  refine ⟨?_, ?_, fun hne => ⟨?_, ?_, ?_⟩⟩
  · rw [hleg, hact]
    by_cases h0 : patchSqDev imageBW xsize cx cy ts1 ts2 = (0 : K)
    · rw [if_pos h0, if_pos h0]
      simp
    · rw [if_neg h0, if_neg h0]
      simp
  · rw [hleg]
    by_cases h0 : patchSqDev imageBW xsize cx cy ts1 ts2 = (0 : K)
    · rw [if_pos h0]
      simp [h0]
    · rw [if_neg h0]
      simp [h0]
  · unfold get_similarity
    rw [if_neg hin]
    dsimp only
    rw [if_neg (by rw [hsim]; exact hne)]
  · rw [hleg, if_neg hne]
  · rw [hleg, hact, if_neg hne, if_neg hne]

end LegacyTheorems

/-- C15, witness: the 2×2 sample image with `ts1 = 0`, `ts2 = 1`, anchor
`(0,0)` and the template `(1, -1, 1, -1)` of norm `2`. -/
theorem legacy_similarity_agrees_witness :
    get_similarity_legacy (fun x : ℚ => x) sampleImage 2 2
        (fun i => if i % 2 = 0 then 1 else -1) 2 0 1 0 0 = none ↔
      (get_similarity (fun x : ℚ => x) sampleImage 2 2
        (fun i => if i % 2 = 0 then 1 else -1) 2 0 1 0 0).1 = -1 :=
  (legacy_similarity_agrees (fun x : ℚ => x) sampleImage 2 2
    (fun i => if i % 2 = 0 then 1 else -1) 2 0 1 0 0 (by decide)
    ⟨by decide, by simp [Finset.sum_range_succ]; norm_num, by norm_num,
      by simp [Finset.sum_range_succ]; norm_num⟩).1

section GenThreshLemmas

variable {K : Type} [LinearOrderedField K]

theorem histTop_succ (hist : Int → Int) (n i : Nat) (h : i ≤ n) :
    histTop hist (n + 1) i = histTop hist n i + hist (n : Int) := by
  unfold histTop
  rw [Finset.sum_Ico_succ_top h]

/-- What the threshold loop returns: the largest index `k` below `n` at which
the running sum `j + hist[n-1] + ... + hist[k]`, divided by `total`, reaches
`0.02`; `-1` when there is none. -/
theorem genThreshLoop_spec (hist : Int → Int) (total : K) :
    ∀ (n : Nat) (j : Int),
      (genThreshLoop hist total n j = -1 ∧
        ∀ i : Nat, i < n → ¬ (((j + histTop hist n i : Int) : K) / total ≥ 2 / 100)) ∨
      (∃ k : Nat, genThreshLoop hist total n j = (k : Int) ∧ k < n ∧
        ((j + histTop hist n k : Int) : K) / total ≥ 2 / 100 ∧
        ∀ i : Nat, k < i → i < n → ¬ (((j + histTop hist n i : Int) : K) / total ≥ 2 / 100)) := by
  intro n
  induction n with
  | zero =>
      intro j
      exact Or.inl ⟨rfl, fun i hi => absurd hi (Nat.not_lt_zero i)⟩
  | succ m ih =>
      intro j
      rw [genThreshLoop]
      have hm : histTop hist (m + 1) m = hist (m : Int) := by
        unfold histTop
        simp
      by_cases hc : ((j + hist (m : Int) : Int) : K) / total ≥ 2 / 100
      · rw [if_pos hc]
        refine Or.inr ⟨m, rfl, Nat.lt_succ_self m, by rw [hm]; exact hc, fun i h1 h2 => ?_⟩
        omega
      · rw [if_neg hc]
        have hre : ∀ i : Nat, i ≤ m →
            j + hist (m : Int) + histTop hist m i = j + histTop hist (m + 1) i := by
          intro i hi
          rw [histTop_succ hist m i hi]
          ring
        have htop : ∀ i : Nat, i < m + 1 → ¬ i < m →
            ¬ (((j + histTop hist (m + 1) i : Int) : K) / total ≥ 2 / 100) := by
          intro i h1 h2
          have : i = m := by omega
          rw [this, hm]
          exact hc
        rcases ih (j + hist (m : Int)) with ⟨h1, h2⟩ | ⟨k, h1, h2, h3, h4⟩
        · refine Or.inl ⟨h1, fun i hi => ?_⟩
          by_cases him : i < m
          · rw [← hre i him.le]
            exact h2 i him
          · exact htop i hi him
        · refine Or.inr ⟨k, h1, by omega, by rw [← hre k h2.le]; exact h3, fun i hk hi => ?_⟩
          by_cases him : i < m
          · rw [← hre i him.le]
            exact h4 i hk him
          · exact htop i hi him

end GenThreshLemmas

section GenHistLemmas

variable {K : Type} [LinearOrderedField K] [FloorRing K]

theorem histBucket_range (x : K) : 0 ≤ histBucket x ∧ histBucket x ≤ 999 := by
  unfold histBucket
  split_ifs with h1 h2
  · exact ⟨by norm_num, le_refl _⟩
  · exact ⟨le_refl _, by norm_num⟩
  · exact ⟨by omega, by omega⟩

/-- What the histogram pass leaves in `hist[b]`: the number of interior pixels
that are strict maxima among their four neighbours and fall in bucket `b`. -/
theorem genHist_spec (fimage2 : Int → K) (xsize ysize : Int) (hx : 2 ≤ xsize) (b : Int) :
    genHist fimage2 xsize ysize b
      = ∑ r ∈ Finset.range (ysize - 2).toNat, ∑ c ∈ Finset.range (xsize - 2).toNat,
          if localMax fimage2 xsize (((r : Int) + 1) * xsize + ((c : Int) + 1))
            ∧ histBucket (fimage2 (((r : Int) + 1) * xsize + ((c : Int) + 1))) = b
          then 1 else 0 := by
  unfold genHist
  have h := forLoop_inv
    (fun (_ : Int) (s : HistState) =>
      ({ hist := (forLoop 1 (xsize - 2) (fun _ s => histPixel fimage2 xsize s) s).hist,
         fp2 := (forLoop 1 (xsize - 2) (fun _ s => histPixel fimage2 xsize s) s).fp2 + 2 }
        : HistState))
    (fun R s => s.fp2 = ((R : Int) + 1) * xsize + 1 ∧ ∀ b : Int, s.hist b =
      ∑ r ∈ Finset.range R, ∑ c ∈ Finset.range (xsize - 2).toNat,
        if localMax fimage2 xsize (((r : Int) + 1) * xsize + ((c : Int) + 1))
          ∧ histBucket (fimage2 (((r : Int) + 1) * xsize + ((c : Int) + 1))) = b
        then 1 else 0)
    (ysize - 2).toNat 1 (ysize - 2) ({ hist := fun _ => 0, fp2 := xsize + 1 } : HistState)
    (by congr 1; ring) ⟨by simp, fun b => by simp⟩ ?_
  · exact h.2 b
  · intro R t _ ht
    beta_reduce
    have hin := forLoop_inv
      (fun (_ : Int) (s : HistState) => histPixel fimage2 xsize s)
      (fun C s => s.fp2 = ((R : Int) + 1) * xsize + 1 + (C : Int) ∧ ∀ b : Int, s.hist b =
        t.hist b + ∑ c ∈ Finset.range C,
          if localMax fimage2 xsize (((R : Int) + 1) * xsize + ((c : Int) + 1))
            ∧ histBucket (fimage2 (((R : Int) + 1) * xsize + ((c : Int) + 1))) = b
          then 1 else 0)
      (xsize - 2).toNat 1 (xsize - 2) t (by congr 1; ring)
      ⟨by rw [ht.1]; simp, fun b => by simp⟩ ?_
    · refine ⟨?_, fun b => ?_⟩
      · dsimp only
        rw [hin.1, Int.toNat_of_nonneg (by omega)]
        push_cast
        ring
      · dsimp only
        rw [hin.2 b, ht.2 b, Finset.sum_range_succ]
    · intro C q _ hq
      have hp : q.fp2 = ((R : Int) + 1) * xsize + ((C : Int) + 1) := by
        rw [hq.1]; ring
      beta_reduce
      unfold histPixel
      by_cases hl : localMax fimage2 xsize q.fp2
      · have hl2 : fimage2 q.fp2 > fimage2 (q.fp2 - 1) ∧ fimage2 q.fp2 > fimage2 (q.fp2 + 1)
            ∧ fimage2 q.fp2 > fimage2 (q.fp2 - xsize) ∧ fimage2 q.fp2 > fimage2 (q.fp2 + xsize) := hl
        rw [if_pos hl2]
        refine ⟨by dsimp only; rw [hq.1]; push_cast; ring, fun b => ?_⟩
        dsimp only
        rw [Finset.sum_range_succ, ← hp]
        by_cases hb : histBucket (fimage2 q.fp2) = b
        · rw [if_pos ⟨hl, hb⟩, hb, Function.update_same, hq.2 b]
          ring
        · rw [Function.update_noteq (Ne.symm hb), if_neg (fun h => hb h.2), hq.2 b]
          ring
      · have hl2 : ¬ (fimage2 q.fp2 > fimage2 (q.fp2 - 1) ∧ fimage2 q.fp2 > fimage2 (q.fp2 + 1)
            ∧ fimage2 q.fp2 > fimage2 (q.fp2 - xsize) ∧ fimage2 q.fp2 > fimage2 (q.fp2 + xsize)) := hl
        rw [if_neg hl2]
        refine ⟨by dsimp only; rw [hq.1]; push_cast; ring, fun b => ?_⟩
        dsimp only
        rw [Finset.sum_range_succ, ← hp, if_neg (fun h => hl h.1), hq.2 b]
        ring

/-- The sum of the buckets `i .. 999` of the histogram is the number of
histogrammed pixels whose bucket is at least `i`. -/
theorem histTop_genHist (fimage2 : Int → K) (xsize ysize : Int) (hx : 2 ≤ xsize) (i : Nat) :
    histTop (genHist fimage2 xsize ysize) 1000 i = histCount fimage2 xsize ysize (i : Int) := by
  unfold histTop histCount
  simp only [genHist_spec fimage2 xsize ysize hx]
  rw [Finset.sum_comm]
  refine Finset.sum_congr rfl (fun r _ => ?_)
  rw [Finset.sum_comm]
  refine Finset.sum_congr rfl (fun c _ => ?_)
  obtain ⟨h0, h1⟩ := histBucket_range (fimage2 (((r : Int) + 1) * xsize + ((c : Int) + 1)))
  by_cases hl : localMax fimage2 xsize (((r : Int) + 1) * xsize + ((c : Int) + 1))
  · by_cases hi : (i : Int) ≤ histBucket (fimage2 (((r : Int) + 1) * xsize + ((c : Int) + 1)))
    · rw [if_pos ⟨hl, hi⟩]
      rw [Finset.sum_eq_single_of_mem
        (histBucket (fimage2 (((r : Int) + 1) * xsize + ((c : Int) + 1)))).toNat
        (by rw [Finset.mem_Ico]; omega)
        (fun b _ hb => if_neg (fun h => hb (by omega)))]
      rw [if_pos ⟨hl, by omega⟩]
    · rw [if_neg (fun h => hi h.2)]
      refine Finset.sum_eq_zero (fun b hb => if_neg (fun h => hi ?_))
      rw [Finset.mem_Ico] at hb
      omega
  · rw [if_neg (fun h => hl h.1)]
    exact Finset.sum_eq_zero (fun b _ => if_neg (fun h => hl h.1))

end GenHistLemmas

section GenThreshTheorems

variable {K : Type} [LinearOrderedField K] [FloorRing K]

/-- C16, as amended: in `ar2GenFeatureMap` (image at least two pixels wide)
the magnitude threshold `k` is the largest bucket index in `0..999` such that
the number of histogrammed pixels whose magnitude bucket is at least `k`,
divided by the total pixel count `xsize*ysize`, is at least `0.02`; it is `-1`
when no index qualifies. -/
theorem gen_threshold_largest (sqrtf : K → K) (image : AR2ImageT K) (hx : 2 ≤ image.xsize) :
    (genK sqrtf image = -1 ∧
      ∀ i : Nat, i ≤ 999 →
        ¬ (((histCount (genGradient sqrtf image.imgBW image.xsize image.ysize)
            image.xsize image.ysize (i : Int) : Int) : K)
          / ((image.xsize * image.ysize : Int) : K) ≥ 2 / 100)) ∨
    (0 ≤ genK sqrtf image ∧ genK sqrtf image ≤ 999 ∧
      ((histCount (genGradient sqrtf image.imgBW image.xsize image.ysize)
          image.xsize image.ysize (genK sqrtf image) : Int) : K)
        / ((image.xsize * image.ysize : Int) : K) ≥ 2 / 100 ∧
      ∀ i : Nat, genK sqrtf image < (i : Int) → i ≤ 999 →
        ¬ (((histCount (genGradient sqrtf image.imgBW image.xsize image.ysize)
            image.xsize image.ysize (i : Int) : Int) : K)
          / ((image.xsize * image.ysize : Int) : K) ≥ 2 / 100)) := by
  have htop := histTop_genHist (genGradient sqrtf image.imgBW image.xsize image.ysize)
    image.xsize image.ysize hx
  unfold genK genThreshold
  rcases genThreshLoop_spec
      (genHist (genGradient sqrtf image.imgBW image.xsize image.ysize) image.xsize image.ysize)
      (((image.xsize * image.ysize : Int)) : K) 1000 0 with ⟨h1, h2⟩ | ⟨k, h1, h2, h3, h4⟩
  · refine Or.inl ⟨h1, fun i hi => ?_⟩
    have := h2 i (by omega)
    rw [zero_add, htop i] at this
    exact this
  · refine Or.inr ⟨by rw [h1]; omega, by rw [h1]; omega, ?_, fun i hk hi => ?_⟩
    · rw [h1]
      rw [zero_add, htop k] at h3
      exact h3
    · rw [h1] at hk
      have := h4 i (by omega) (by omega)
      rw [zero_add, htop i] at this
      exact this

end GenThreshTheorems

/-- The gradient field of the 3×3 sample: `255/768` at the centre, `-1` at its
four neighbours. -/
theorem edge_gradient :
    genGradient Real.sqrt edgeImage 3 3 4 = 255 / 768 ∧
    genGradient Real.sqrt edgeImage 3 3 1 = -1 ∧ genGradient Real.sqrt edgeImage 3 3 3 = -1 ∧
    genGradient Real.sqrt edgeImage 3 3 5 = -1 ∧ genGradient Real.sqrt edgeImage 3 3 7 = -1 := by
  have g4 := genGradient_spec Real.sqrt edgeImage 3 3 (by norm_num) (by norm_num) 1 1
    (by norm_num) (by norm_num) (by norm_num) (by norm_num)
  have g1 := genGradient_spec Real.sqrt edgeImage 3 3 (by norm_num) (by norm_num) 1 0
    (by norm_num) (by norm_num) (by norm_num) (by norm_num)
  have g3 := genGradient_spec Real.sqrt edgeImage 3 3 (by norm_num) (by norm_num) 0 1
    (by norm_num) (by norm_num) (by norm_num) (by norm_num)
  have g5 := genGradient_spec Real.sqrt edgeImage 3 3 (by norm_num) (by norm_num) 2 1
    (by norm_num) (by norm_num) (by norm_num) (by norm_num)
  have g7 := genGradient_spec Real.sqrt edgeImage 3 3 (by norm_num) (by norm_num) 1 2
    (by norm_num) (by norm_num) (by norm_num) (by norm_num)
  rw [show (1 : Int) * 3 + 1 = 4 from by norm_num] at g4
  rw [show (0 : Int) * 3 + 1 = 1 from by norm_num] at g1
  rw [show (1 : Int) * 3 + 0 = 3 from by norm_num] at g3
  rw [show (1 : Int) * 3 + 2 = 5 from by norm_num] at g5
  rw [show (2 : Int) * 3 + 1 = 7 from by norm_num] at g7
  refine ⟨?_, ?_, ?_, ?_, ?_⟩
  · rw [g4]
    unfold gradMag
    rw [if_neg (by norm_num)]
    have hv : gradientAt Real.sqrt edgeImage 3 (1 * 3 + 1) = Real.sqrt ((255 / 768) ^ 2) := by
      simp [gradientAt, edgeImage]
      congr 1
      norm_num
    rw [hv, Real.sqrt_sq (by norm_num)]
  · rw [g1]; simp [gradMag]
  · rw [g3]; simp [gradMag]
  · rw [g5]; simp [gradMag]
  · rw [g7]; simp [gradMag]

theorem edge_truncInt : truncInt ((255 / 768 : ℝ) * 1000) = 332 := by
  unfold truncInt
  rw [if_pos (by norm_num), Int.floor_eq_iff]
  constructor <;> norm_num

theorem edge_histBucket : histBucket (255 / 768 : ℝ) = 332 := by
  unfold histBucket
  rw [edge_truncInt]
  norm_num

theorem edge_localMax : localMax (genGradient Real.sqrt edgeImage 3 3) 3 4 := by
  obtain ⟨h4, h1, h3, h5, h7⟩ := edge_gradient
  unfold localMax
  have a1 : (4 : Int) - 1 = 3 := by norm_num
  have a2 : (4 : Int) + 1 = 5 := by norm_num
  have a3 : (4 : Int) - 3 = 1 := by norm_num
  have a4 : (4 : Int) + 3 = 7 := by norm_num
  rw [a1, a2, a3, a4, h4, h1, h3, h5, h7]
  norm_num

/-- The histogram of the 3×3 sample counts its centre pixel, in bucket 332. -/
theorem edge_histCount (lo : Int) :
    histCount (genGradient Real.sqrt edgeImage 3 3) 3 3 lo = if lo ≤ 332 then 1 else 0 := by
  unfold histCount
  have e : ((0 : Nat) + 1 : Int) * 3 + (((0 : Nat) : Int) + 1) = 4 := by norm_num
  simp only [show ((3 : Int) - 2).toNat = 1 from rfl, Finset.sum_range_one, e]
  rw [edge_gradient.1, edge_histBucket]
  have hl := edge_localMax
  by_cases h : lo ≤ 332
  · rw [if_pos ⟨hl, h⟩, if_pos h]
  · rw [if_neg (fun hc => h hc.2), if_neg h]

theorem edge_genK : genK Real.sqrt ⟨3, 3, 72, edgeImage⟩ = 332 := by
  have htop := histTop_genHist (genGradient Real.sqrt edgeImage 3 3) 3 3 (by norm_num)
  unfold genK genThreshold
  dsimp only
  have hq : ∀ i : Nat, ((((0 : Int) + histTop (genHist (genGradient Real.sqrt edgeImage 3 3) 3 3)
      1000 i : Int) : ℝ) / (((3 : Int) * 3 : Int) : ℝ) ≥ 2 / 100) ↔ i ≤ 332 := by
    intro i
    rw [zero_add, htop i, edge_histCount]
    by_cases h : (i : Int) ≤ 332
    · rw [if_pos h]
      constructor
      · intro _; omega
      · intro _; norm_num
    · rw [if_neg h]
      constructor
      · intro hc; norm_num at hc
      · intro hc; omega
  rcases genThreshLoop_spec (genHist (genGradient Real.sqrt edgeImage 3 3) 3 3)
      ((((3 : Int) * 3 : Int)) : ℝ) 1000 0 with ⟨_, h2⟩ | ⟨k, h1, h2, h3, h4⟩
  · exact absurd ((hq 332).mpr (le_refl _)) (h2 332 (by norm_num))
  · rw [h1]
    have hk : k ≤ 332 := (hq k).mp h3
    by_contra hne
    have hlt : k < 332 := by
      rcases Nat.lt_or_ge k 332 with h | h
      · exact h
      · exfalso
        apply hne
        have : k = 332 := by omega
        rw [this]
        rfl
    exact absurd ((hq 332).mpr (le_refl _)) (h4 332 hlt (by norm_num))

/-- C16, counterexample: on the 3×3 image whose only bright pixel is the
corner `(2, 2)` the threshold is `k = 332`, the bucket of the one histogrammed
pixel, while the index `0` also satisfies the condition (`1/9 ≥ 0.02`): `k` is
not the smallest qualifying index. -/
theorem gen_threshold_not_smallest :
    genK Real.sqrt ⟨3, 3, 72, edgeImage⟩ = 332 ∧
    ((histCount (genGradient Real.sqrt edgeImage 3 3) 3 3 0 : Int) : ℝ)
      / (((3 : Int) * 3 : Int) : ℝ) ≥ 2 / 100 := by
  refine ⟨edge_genK, ?_⟩
  rw [edge_histCount, if_pos (by norm_num)]
  norm_num

/-- C16, witness: the 2×2 sample image. -/
theorem gen_threshold_largest_witness :
    (genK (fun x : ℚ => x) sampleImageT = -1 ∧
      ∀ i : Nat, i ≤ 999 →
        ¬ (((histCount (genGradient (fun x : ℚ => x) sampleImageT.imgBW sampleImageT.xsize
            sampleImageT.ysize) sampleImageT.xsize sampleImageT.ysize (i : Int) : Int) : ℚ)
          / ((sampleImageT.xsize * sampleImageT.ysize : Int) : ℚ) ≥ 2 / 100)) ∨
    (0 ≤ genK (fun x : ℚ => x) sampleImageT ∧ genK (fun x : ℚ => x) sampleImageT ≤ 999 ∧
      ((histCount (genGradient (fun x : ℚ => x) sampleImageT.imgBW sampleImageT.xsize
          sampleImageT.ysize) sampleImageT.xsize sampleImageT.ysize
          (genK (fun x : ℚ => x) sampleImageT) : Int) : ℚ)
        / ((sampleImageT.xsize * sampleImageT.ysize : Int) : ℚ) ≥ 2 / 100 ∧
      ∀ i : Nat, genK (fun x : ℚ => x) sampleImageT < (i : Int) → i ≤ 999 →
        ¬ (((histCount (genGradient (fun x : ℚ => x) sampleImageT.imgBW sampleImageT.xsize
            sampleImageT.ysize) sampleImageT.xsize sampleImageT.ysize (i : Int) : Int) : ℚ)
          / ((sampleImageT.xsize * sampleImageT.ysize : Int) : ℚ) ≥ 2 / 100)) :=
  gen_threshold_largest (fun x : ℚ => x) sampleImageT (by decide)

section GenWindowLemmas

variable {K : Type} [LinearOrderedField K]

/-- The fold of the slots of `tile_storage` into `max`, from slot position
`lo` on: `max` does not decrease, the result is the old `max` or one of the
slots, and unless it exceeds `max_sim_thresh` it is at least every slot. -/
theorem genMaxLoop_scan (tile : Int → K) (max_sim_thresh : K) (ii ii_iter : Int) :
    ∀ (n : Nat) (lo : Int) (max : K), (ii_iter - lo).toNat ≤ n →
      max ≤ forBreak lo (ii_iter - 1)
          (fun abc max =>
            if tile (abc - ii) > max then
              (tile (abc - ii), decide (tile (abc - ii) > max_sim_thresh))
            else (max, false)) max ∧
      (forBreak lo (ii_iter - 1)
          (fun abc max =>
            if tile (abc - ii) > max then
              (tile (abc - ii), decide (tile (abc - ii) > max_sim_thresh))
            else (max, false)) max = max ∨
        ∃ abc, lo ≤ abc ∧ abc < ii_iter ∧
          forBreak lo (ii_iter - 1)
            (fun abc max =>
              if tile (abc - ii) > max then
                (tile (abc - ii), decide (tile (abc - ii) > max_sim_thresh))
              else (max, false)) max = tile (abc - ii)) ∧
      (forBreak lo (ii_iter - 1)
          (fun abc max =>
            if tile (abc - ii) > max then
              (tile (abc - ii), decide (tile (abc - ii) > max_sim_thresh))
            else (max, false)) max ≤ max_sim_thresh →
        ∀ abc, lo ≤ abc → abc < ii_iter → tile (abc - ii) ≤
          forBreak lo (ii_iter - 1)
            (fun abc max =>
              if tile (abc - ii) > max then
                (tile (abc - ii), decide (tile (abc - ii) > max_sim_thresh))
              else (max, false)) max) := by
  intro n
  induction n with
  | zero =>
      intro lo max hn
      rw [forBreak, if_neg (by omega)]
      exact ⟨le_refl _, Or.inl rfl, fun _ abc h1 h2 => by omega⟩
  | succ m ih =>
      intro lo max hn
      rw [forBreak]
      by_cases hlo : lo ≤ ii_iter - 1
      · rw [if_pos hlo]
        by_cases ht : tile (lo - ii) > max
        · simp only [if_pos ht]
          by_cases hb : tile (lo - ii) > max_sim_thresh
          · simp only [decide_eq_true hb, if_true]
            exact ⟨ht.le, Or.inr ⟨lo, le_refl _, by omega, rfl⟩,
              fun hle => absurd hle (not_le.mpr hb)⟩
          · simp only [decide_eq_false hb, Bool.false_eq_true, if_false]
            obtain ⟨h1, h2, h3⟩ := ih (lo + 1) (tile (lo - ii)) (by omega)
            refine ⟨le_trans ht.le h1, ?_, fun hle abc ha1 ha2 => ?_⟩
            · rcases h2 with h2 | ⟨abc, ha1, ha2, ha3⟩
              · exact Or.inr ⟨lo, le_refl _, by omega, h2⟩
              · exact Or.inr ⟨abc, by omega, ha2, ha3⟩
            · by_cases hab : abc = lo
              · rw [hab]; exact h1
              · exact h3 hle abc (by omega) ha2
        · simp only [if_neg ht, Bool.false_eq_true, if_false]
          obtain ⟨h1, h2, h3⟩ := ih (lo + 1) max (by omega)
          refine ⟨h1, ?_, fun hle abc ha1 ha2 => ?_⟩
          · rcases h2 with h2 | ⟨abc, ha1, ha2, ha3⟩
            · exact Or.inl h2
            · exact Or.inr ⟨abc, by omega, ha2, ha3⟩
          · by_cases hab : abc = lo
            · rw [hab]; exact le_trans (not_lt.mp ht) h1
            · exact h3 hle abc (by omega) ha2
      · rw [if_neg hlo]
        exact ⟨le_refl _, Or.inl rfl, fun _ abc h1 h2 => by omega⟩

/-- One tile call over the run `ii .. ii_iter - 1` of the row `jj`: `max`
does not decrease, the new `max` is the old one or the similarity at an
offset of the run, and unless it exceeds `max_sim_thresh` it is at least the
similarity at every offset of the run. -/
theorem genTile_scan (sqrtf : K → K) (img : Int → Nat) (xsize : Int) (template : Int → K)
    (vlen : K) (ts1 ts2 : Int) (max_sim_thresh : K) (i j jj ii ii_iter : Int)
    (s : K × (Int → K)) (hrun : ii < ii_iter) :
    s.1 ≤ (genTile sqrtf img xsize template vlen ts1 ts2 max_sim_thresh i j jj ii ii_iter s).1 ∧
    ((genTile sqrtf img xsize template vlen ts1 ts2 max_sim_thresh i j jj ii ii_iter s).1 = s.1 ∨
      ∃ x, ii ≤ x ∧ x < ii_iter ∧
        (genTile sqrtf img xsize template vlen ts1 ts2 max_sim_thresh i j jj ii ii_iter s).1
          = tileValue sqrtf img xsize template vlen ts1 ts2 (i + x) (j + jj)) ∧
    ((genTile sqrtf img xsize template vlen ts1 ts2 max_sim_thresh i j jj ii ii_iter s).1
        ≤ max_sim_thresh →
      ∀ x, ii ≤ x → x < ii_iter →
        tileValue sqrtf img xsize template vlen ts1 ts2 (i + x) (j + jj)
          ≤ (genTile sqrtf img xsize template vlen ts1 ts2 max_sim_thresh i j jj ii ii_iter s).1) := by
  have habs : |ii - ii_iter| = ii_iter - ii := by
    rw [abs_sub_comm, abs_of_nonneg (by omega)]
  have hslot : ∀ x, ii ≤ x → x < ii_iter →
      get_similarity_tile sqrtf img xsize template vlen ts1 ts2 (i + ii) (j + jj) s.2
        |ii - ii_iter| (x - ii)
      = tileValue sqrtf img xsize template vlen ts1 ts2 (i + x) (j + jj) := by
    intro x h1 h2
    rw [get_similarity_tile_slot, if_pos ⟨by omega, by rw [habs]; omega⟩]
    congr 1
    ring
  obtain ⟨h1, h2, h3⟩ := genMaxLoop_scan
    (get_similarity_tile sqrtf img xsize template vlen ts1 ts2 (i + ii) (j + jj) s.2
      |ii - ii_iter|) max_sim_thresh ii ii_iter _ ii s.1 (le_refl _)
  unfold genTile genMaxLoop
  dsimp only
  refine ⟨h1, ?_, fun hle x hx1 hx2 => ?_⟩
  · rcases h2 with h2 | ⟨abc, ha1, ha2, ha3⟩
    · exact Or.inl h2
    · exact Or.inr ⟨abc, ha1, ha2, by rw [ha3, hslot abc ha1 ha2]⟩
  · rw [← hslot x hx1 hx2]
    exact h3 hle x hx1 hx2

/-- Where the run detection stops: at a position beyond the window or the
tile, inside the exclusion disk, or whose patch crosses the image bounds. -/
theorem genRun_stop (xsize ysize i j ts1 ts2 search_size1 search_size2 jj ii : Int) :
    ∀ (n : Nat) (it : Int), (512 + ii - it).toNat ≤ n →
      ¬ (genRun xsize ysize i j ts1 ts2 search_size1 search_size2 jj ii it ≤ search_size1 ∧
          genRun xsize ysize i j ts1 ts2 search_size1 search_size2 jj ii it < 512 + ii) ∨
      genRun xsize ysize i j ts1 ts2 search_size1 search_size2 jj ii it
          * genRun xsize ysize i j ts1 ts2 search_size1 search_size2 jj ii it + jj * jj
        ≤ search_size2 * search_size2 ∨
      patchOutside xsize ysize
        (i + genRun xsize ysize i j ts1 ts2 search_size1 search_size2 jj ii it) (j + jj) ts1 ts2 := by
  intro n
  induction n with
  | zero =>
      intro it hn
      rw [genRun, dif_neg (by omega)]
      exact Or.inl (by omega)
  | succ m ih =>
      intro it hn
      rw [genRun]
      by_cases hc : it ≤ search_size1 ∧ it < 512 + ii
      · rw [dif_pos hc]
        by_cases hd : it * it + jj * jj ≤ search_size2 * search_size2
        · rw [if_pos hd]
          exact Or.inr (Or.inl hd)
        · rw [if_neg hd]
          by_cases ho : patchOutside xsize ysize (i + it) (j + jj) ts1 ts2
          · rw [if_pos ho]
            exact Or.inr (Or.inr ho)
          · rw [if_neg ho]
            exact ih (it + 1) (by omega)
      · rw [dif_neg hc]
        exact Or.inl hc

end GenWindowLemmas

section GenWindowRow

variable {K : Type} [LinearOrderedField K]

/-- The loop over `ii` of the window scan for the row `jj`, entered at `ii`,
when it ends: `max` has not decreased; the final `max` is the old one or the
similarity at an offset of the row that lies in the window, outside the
exclusion disk, with its patch inside the image; and unless the final `max`
exceeds `max_sim_thresh` it is at least the similarity at every such offset
from `ii` on. -/
theorem genScanRow_scan (sqrtf : K → K) (img : Int → Nat) (xsize ysize : Int)
    (template : Int → K) (vlen : K) (ts1 ts2 search_size1 search_size2 : Int)
    (max_sim_thresh : K) (i j jj : Int) :
    ∀ (fuel : Nat) (ii : Int) (s r : K × (Int → K)),
      genScanRow sqrtf img xsize ysize template vlen ts1 ts2 search_size1 search_size2
        max_sim_thresh i j jj fuel ii s = some r →
      -search_size1 ≤ ii →
      (ii ≤ search_size1 → 0 < ii → ¬ (ii * ii + jj * jj ≤ search_size2 * search_size2)) →
      (ii ≤ 0 → ii = -search_size1 ∨
        ¬ ((ii - 1) * (ii - 1) + jj * jj ≤ search_size2 * search_size2)) →
        s.1 ≤ r.1 ∧
        (r.1 = s.1 ∨ ∃ x, -search_size1 ≤ x ∧ x ≤ search_size1 ∧
          ¬ (x * x + jj * jj ≤ search_size2 * search_size2) ∧
          ¬ patchOutside xsize ysize (i + x) (j + jj) ts1 ts2 ∧
          r.1 = tileValue sqrtf img xsize template vlen ts1 ts2 (i + x) (j + jj)) ∧
        (r.1 ≤ max_sim_thresh → ∀ x, ii ≤ x → x ≤ search_size1 →
          ¬ (x * x + jj * jj ≤ search_size2 * search_size2) →
          ¬ patchOutside xsize ysize (i + x) (j + jj) ts1 ts2 →
          tileValue sqrtf img xsize template vlen ts1 ts2 (i + x) (j + jj) ≤ r.1) := by
  intro fuel
  induction fuel with
  | zero => intro ii s r h; simp [genScanRow] at h
  | succ m ih =>
      intro ii s r hres hlow hpos hneg
      obtain ⟨ii1, hii1⟩ : ∃ x : Int,
          x = if ii * ii + jj * jj ≤ search_size2 * search_size2 then -ii + 1 else ii := ⟨_, rfl⟩
      rw [genScanRow_succ sqrtf img xsize ysize template vlen ts1 ts2 search_size1 search_size2
        max_sim_thresh i j jj m ii s ii1 hii1] at hres
      by_cases hcond : ii ≤ search_size1
      · rw [if_neg (not_not.mpr hcond)] at hres
        obtain ⟨hr1, hr2⟩ := genRun_spec xsize ysize i j ts1 ts2 search_size1 search_size2 jj
          ii1 _ ii1 (le_refl _)
        have hstop := genRun_stop xsize ysize i j ts1 ts2 search_size1 search_size2 jj
          ii1 _ ii1 (le_refl _)
        obtain ⟨hn1, hn2, hn3⟩ := genScan_next search_size1 search_size2 jj ii ii1 _ hii1 hcond
          (hpos hcond) hneg hr1 (fun x h1 h2 => (hr2 x h1 h2).1) _ rfl
        -- the offsets the jump over the disk skips are inside the disk
        have hskip : ii ≤ ii1 ∧ ∀ x, ii ≤ x → x < ii1 →
            x * x + jj * jj ≤ search_size2 * search_size2 := by
          by_cases hd : ii * ii + jj * jj ≤ search_size2 * search_size2
          · rw [if_pos hd] at hii1
            have hii : ii ≤ 0 := by
              by_contra hc
              exact hpos hcond (by omega) hd
            refine ⟨by omega, fun x h1 h2 => ?_⟩
            by_contra hx
            refine disk_mono jj _ x ii ?_ hx hd
            rw [abs_of_nonpos hii]
            exact abs_le.mpr ⟨by omega, by omega⟩
          · rw [if_neg hd] at hii1
            exact ⟨by omega, fun x h1 h2 => by omega⟩
        by_cases hrun : genRun xsize ysize i j ts1 ts2 search_size1 search_size2 jj ii1 ii1 = ii1
        · rw [if_pos hrun] at hres
          rw [if_pos hrun] at hn1 hn2 hn3
          rw [hrun] at hstop
          obtain ⟨ha, hb, hc⟩ := ih (ii1 + 1) s r hres (by omega) hn2 hn3
          refine ⟨ha, hb, fun hle x hx1 hx2 hx3 hx4 => ?_⟩
          by_cases hlt : x < ii1
          · exact absurd (hskip.2 x hx1 hlt) hx3
          · by_cases heq : x = ii1
            · exfalso
              rw [heq] at hx2 hx3 hx4
              rcases hstop with h | h | h
              · exact h ⟨hx2, by omega⟩
              · exact hx3 h
              · exact hx4 h
            · exact hc hle x (by omega) hx2 hx3 hx4
        · rw [if_neg hrun] at hres
          rw [if_neg hrun] at hn1 hn2 hn3
          have hlt : ii1 < genRun xsize ysize i j ts1 ts2 search_size1 search_size2 jj ii1 ii1 := by
            omega
          obtain ⟨ht1, ht2, ht3⟩ := genTile_scan sqrtf img xsize template vlen ts1 ts2
            max_sim_thresh i j jj ii1 _ s hlt
          have ht2b : (genTile sqrtf img xsize template vlen ts1 ts2 max_sim_thresh i j jj ii1
                (genRun xsize ysize i j ts1 ts2 search_size1 search_size2 jj ii1 ii1) s).1 = s.1 ∨
              ∃ x, -search_size1 ≤ x ∧ x ≤ search_size1 ∧
                ¬ (x * x + jj * jj ≤ search_size2 * search_size2) ∧
                ¬ patchOutside xsize ysize (i + x) (j + jj) ts1 ts2 ∧
                (genTile sqrtf img xsize template vlen ts1 ts2 max_sim_thresh i j jj ii1
                  (genRun xsize ysize i j ts1 ts2 search_size1 search_size2 jj ii1 ii1) s).1
                  = tileValue sqrtf img xsize template vlen ts1 ts2 (i + x) (j + jj) := by
            rcases ht2 with h | ⟨x, hx1, hx2, hx3⟩
            · exact Or.inl h
            · obtain ⟨q1, q2, q3, _⟩ := hr2 x hx1 hx2
              exact Or.inr ⟨x, by omega, q3, q1, q2, hx3⟩
          by_cases hbrk : (genTile sqrtf img xsize template vlen ts1 ts2 max_sim_thresh i j jj ii1
              (genRun xsize ysize i j ts1 ts2 search_size1 search_size2 jj ii1 ii1) s).1
              > max_sim_thresh
          · rw [if_pos hbrk] at hres
            rw [← Option.some.inj hres]
            exact ⟨ht1, ht2b, fun hle => absurd hle (not_le.mpr hbrk)⟩
          · rw [if_neg hbrk] at hres
            obtain ⟨ha, hb, hc⟩ := ih
              (genRun xsize ysize i j ts1 ts2 search_size1 search_size2 jj ii1 ii1)
              (genTile sqrtf img xsize template vlen ts1 ts2 max_sim_thresh i j jj ii1
                (genRun xsize ysize i j ts1 ts2 search_size1 search_size2 jj ii1 ii1) s)
              r hres (by omega) hn2 hn3
            refine ⟨le_trans ht1 ha, ?_, fun hle x hx1 hx2 hx3 hx4 => ?_⟩
            · rcases hb with h | h
              · rcases ht2b with h2 | ⟨x, q⟩
                · exact Or.inl (by rw [h, h2])
                · exact Or.inr ⟨x, q.1, q.2.1, q.2.2.1, q.2.2.2.1, by rw [h]; exact q.2.2.2.2⟩
              · exact Or.inr h
            · by_cases hlt1 : x < ii1
              · exact absurd (hskip.2 x hx1 hlt1) hx3
              · by_cases hlt2 : x < genRun xsize ysize i j ts1 ts2 search_size1 search_size2 jj
                    ii1 ii1
                · exact le_trans (ht3 (not_lt.mp hbrk) x (by omega) hlt2) ha
                · exact hc hle x (by omega) hx2 hx3 hx4
      · rw [if_pos hcond] at hres
        rw [← Option.some.inj hres]
        exact ⟨le_refl _, Or.inl rfl, fun _ x h1 h2 => by omega⟩

end GenWindowRow

section GenWindowSearch

variable {K : Type} [LinearOrderedField K]

/-- The loop over `jj` of the window scan from the row `lo` on, when it ends:
`max` has not decreased, the final `max` is the old one or the similarity at
an offset of the window outside the exclusion disk with its patch inside the
image, and unless the final `max` exceeds `max_sim_thresh` it is at least the
similarity at every such offset of the rows `lo .. search_size1`. -/
theorem genSearch_rows (sqrtf : K → K) (img : Int → Nat) (xsize ysize : Int)
    (template : Int → K) (vlen : K) (ts1 ts2 search_size1 search_size2 : Int)
    (max_sim_thresh : K) (fuel : Nat) (i j : Int) :
    ∀ (n : Nat) (lo : Int) (s r : K × (Int → K)), -search_size1 ≤ lo →
      (search_size1 + 1 - lo).toNat ≤ n →
      forBreak lo search_size1
          (fun jj (s : Option (K × (Int → K))) =>
            match s with
            | none => ((none : Option (K × (Int → K))), true)
            | some s =>
                match genScanRow sqrtf img xsize ysize template vlen ts1 ts2 search_size1
                    search_size2 max_sim_thresh i j jj fuel (-search_size1) s with
                | none => (none, true)
                | some s1 => (some s1, decide (s1.1 > max_sim_thresh)))
          (some s) = some r →
        s.1 ≤ r.1 ∧
        (r.1 = s.1 ∨ ∃ x y, -search_size1 ≤ x ∧ x ≤ search_size1 ∧ -search_size1 ≤ y ∧
          y ≤ search_size1 ∧ ¬ (x * x + y * y ≤ search_size2 * search_size2) ∧
          ¬ patchOutside xsize ysize (i + x) (j + y) ts1 ts2 ∧
          r.1 = tileValue sqrtf img xsize template vlen ts1 ts2 (i + x) (j + y)) ∧
        (r.1 ≤ max_sim_thresh → ∀ x y, -search_size1 ≤ x → x ≤ search_size1 → lo ≤ y →
          y ≤ search_size1 → ¬ (x * x + y * y ≤ search_size2 * search_size2) →
          ¬ patchOutside xsize ysize (i + x) (j + y) ts1 ts2 →
          tileValue sqrtf img xsize template vlen ts1 ts2 (i + x) (j + y) ≤ r.1) := by
  intro n
  induction n with
  | zero =>
      intro lo s r _ hn hres
      rw [forBreak, if_neg (by omega)] at hres
      rw [← Option.some.inj hres]
      exact ⟨le_refl _, Or.inl rfl, fun _ x y _ _ h1 h2 => by omega⟩
  | succ m ih =>
      intro lo s r hlo hn hres
      rw [forBreak] at hres
      by_cases hc : lo ≤ search_size1
      · rw [if_pos hc] at hres
        dsimp only at hres
        cases hs1 : genScanRow sqrtf img xsize ysize template vlen ts1 ts2 search_size1
            search_size2 max_sim_thresh i j lo fuel (-search_size1) s with
        | none =>
            rw [hs1] at hres
            dsimp only at hres
            rw [if_pos rfl] at hres
            cases hres
        | some s1 =>
            rw [hs1] at hres
            dsimp only at hres
            obtain ⟨ha, hb, hcov⟩ := genScanRow_scan sqrtf img xsize ysize template vlen ts1
              ts2 search_size1 search_size2 max_sim_thresh i j lo fuel (-search_size1) s s1 hs1
              (le_refl _) (fun h1 h2 => by omega) (fun _ => Or.inl rfl)
            have hb2 : s1.1 = s.1 ∨ ∃ x y, -search_size1 ≤ x ∧ x ≤ search_size1 ∧
                -search_size1 ≤ y ∧ y ≤ search_size1 ∧
                ¬ (x * x + y * y ≤ search_size2 * search_size2) ∧
                ¬ patchOutside xsize ysize (i + x) (j + y) ts1 ts2 ∧
                s1.1 = tileValue sqrtf img xsize template vlen ts1 ts2 (i + x) (j + y) := by
              rcases hb with h | ⟨x, q1, q2, q3, q4, q5⟩
              · exact Or.inl h
              · exact Or.inr ⟨x, lo, q1, q2, hlo, hc, q3, q4, q5⟩
            by_cases hbrk : s1.1 > max_sim_thresh
            · rw [if_pos (by rw [decide_eq_true hbrk])] at hres
              rw [← Option.some.inj hres]
              exact ⟨ha, hb2, fun hle => absurd hle (not_le.mpr hbrk)⟩
            · rw [if_neg (by rw [decide_eq_false hbrk]; exact Bool.false_ne_true)] at hres
              obtain ⟨ra, rb, rc⟩ := ih (lo + 1) s1 r (by omega) (by omega) hres
              refine ⟨le_trans ha ra, ?_, fun hle x y hx1 hx2 hy1 hy2 hd ho => ?_⟩
              · rcases rb with h | h
                · rcases hb2 with h2 | ⟨x, y, q⟩
                  · exact Or.inl (by rw [h, h2])
                  · exact Or.inr ⟨x, y, q.1, q.2.1, q.2.2.1, q.2.2.2.1, q.2.2.2.2.1,
                      q.2.2.2.2.2.1, by rw [h]; exact q.2.2.2.2.2.2⟩
                · exact Or.inr h
              · by_cases hy : y = lo
                · rw [hy] at hd ho ⊢
                  exact le_trans (hcov (not_lt.mp hbrk) x hx1 hx2 hd ho) ra
                · exact rc hle x y hx1 hx2 (by omega) hy2 hd ho
      · rw [if_neg hc] at hres
        rw [← Option.some.inj hres]
        exact ⟨le_refl _, Or.inl rfl, fun _ x y _ _ h1 h2 => by omega⟩

/-- The window scan of a candidate pixel, when it ends: the final `max` is
`-1` or, above `-1`, the similarity at an offset of the window outside the
exclusion disk with its patch inside the image; and unless it exceeds
`max_sim_thresh` it is at least the similarity at every such offset. -/
theorem genSearch_scan (sqrtf : K → K) (img : Int → Nat) (xsize ysize : Int)
    (template : Int → K) (vlen : K) (ts1 ts2 search_size1 search_size2 : Int)
    (max_sim_thresh : K) (fuel : Nat) (i j : Int) (tile : Int → K) (r : K × (Int → K))
    (h : genSearch sqrtf img xsize ysize template vlen ts1 ts2 search_size1 search_size2
      max_sim_thresh fuel i j tile = some r) :
    (r.1 = -1 ∨ (-1 < r.1 ∧ ∃ x y, -search_size1 ≤ x ∧ x ≤ search_size1 ∧
      -search_size1 ≤ y ∧ y ≤ search_size1 ∧
      ¬ (x * x + y * y ≤ search_size2 * search_size2) ∧
      ¬ patchOutside xsize ysize (i + x) (j + y) ts1 ts2 ∧
      r.1 = tileValue sqrtf img xsize template vlen ts1 ts2 (i + x) (j + y))) ∧
    (r.1 ≤ max_sim_thresh → ∀ x y, -search_size1 ≤ x → x ≤ search_size1 →
      -search_size1 ≤ y → y ≤ search_size1 →
      ¬ (x * x + y * y ≤ search_size2 * search_size2) →
      ¬ patchOutside xsize ysize (i + x) (j + y) ts1 ts2 →
      tileValue sqrtf img xsize template vlen ts1 ts2 (i + x) (j + y) ≤ r.1) := by
  obtain ⟨ha, hb, hc⟩ := genSearch_rows sqrtf img xsize ysize template vlen ts1 ts2
    search_size1 search_size2 max_sim_thresh fuel i j _ (-search_size1) (-1, tile) r
    (le_refl _) (le_refl _) h
  refine ⟨?_, hc⟩
  by_cases h1 : r.1 = -1
  · exact Or.inl h1
  · rcases hb with h | h
    · exact absurd h h1
    · exact Or.inr ⟨lt_of_le_of_ne ha (Ne.symm h1), h⟩

end GenWindowSearch

section GenCandidateLemmas

variable {K : Type} [LinearOrderedField K] [FloorRing K]

/-- The value the scoring pass stores for a candidate pixel (a strict maximum
among its four neighbours, with `(int)(magnitude*1000) ≥ k` and a valid
template): the final `max` of its window scan. -/
theorem genPixel_candidate (sqrtf : K → K) (img : Int → Nat) (xsize ysize : Int)
    (ts1 ts2 search_size1 search_size2 : Int) (max_sim_thresh sd_thresh : K) (fuel : Nat)
    (fimage2 : Int → K) (k : Int) (j i : Int) (s s1 : GenState K)
    (h : genPixel sqrtf img xsize ysize ts1 ts2 search_size1 search_size2 max_sim_thresh sd_thresh
      fuel fimage2 k j i s = some s1)
    (hlm : localMax fimage2 xsize s.fp2)
    (hk : ¬ truncInt (fimage2 s.fp2 * 1000) < k)
    (hmt : ∃ t, (make_template sqrtf img xsize ysize i j ts1 ts2 sd_thresh t).isSome = true) :
    ∃ tp vlen v, make_template sqrtf img xsize ysize i j ts1 ts2 sd_thresh s.template
        = some (tp, vlen) ∧
      s1.fimage = Function.update s.fimage s.fp v ∧
      (v = -1 ∨ (-1 < v ∧ ∃ x y, -search_size1 ≤ x ∧ x ≤ search_size1 ∧
        -search_size1 ≤ y ∧ y ≤ search_size1 ∧
        ¬ (x * x + y * y ≤ search_size2 * search_size2) ∧
        ¬ patchOutside xsize ysize (i + x) (j + y) ts1 ts2 ∧
        v = tileValue sqrtf img xsize tp vlen ts1 ts2 (i + x) (j + y))) ∧
      (v ≤ max_sim_thresh → ∀ x y, -search_size1 ≤ x → x ≤ search_size1 →
        -search_size1 ≤ y → y ≤ search_size1 →
        ¬ (x * x + y * y ≤ search_size2 * search_size2) →
        ¬ patchOutside xsize ysize (i + x) (j + y) ts1 ts2 →
        tileValue sqrtf img xsize tp vlen ts1 ts2 (i + x) (j + y) ≤ v) := by
  obtain ⟨_, _, hcase⟩ := genPixel_some sqrtf img xsize ysize ts1 ts2 search_size1 search_size2
    max_sim_thresh sd_thresh fuel fimage2 k j i s s1 h
  rcases hcase with ⟨hnon, _⟩ | ⟨_, _, tp, vlen, r, hm, hsearch, hv⟩
  · exfalso
    rcases hnon with hl | hl | hl
    · unfold localMax at hlm
      rcases hl with h1 | h1 | h1 | h1
      · exact absurd hlm.1 (not_lt.mpr h1)
      · exact absurd hlm.2.1 (not_lt.mpr h1)
      · exact absurd hlm.2.2.1 (not_lt.mpr h1)
      · exact absurd hlm.2.2.2 (not_lt.mpr h1)
    · exact hk hl
    · obtain ⟨t, ht⟩ := hmt
      rw [make_template_none_indep sqrtf img xsize ysize i j ts1 ts2 sd_thresh s.template t hl]
        at ht
      cases ht
  · obtain ⟨ha, hb⟩ := genSearch_scan sqrtf img xsize ysize tp vlen ts1 ts2 search_size1
      search_size2 max_sim_thresh fuel i j s.tile r hsearch
    exact ⟨tp, vlen, r.1, hm, hv, ha, hb⟩

end GenCandidateLemmas

section GenLocalMax

variable {K : Type} [LinearOrderedField K]

/-- The strict-maximum test on the gradient block at an interior pixel, in
terms of the gradient magnitude field. -/
theorem localMax_gradMag (sqrtf : K → K) (img : Int → Nat) (xsize ysize : Int)
    (hx : 2 ≤ xsize) (hy : 2 ≤ ysize) (i j : Int) (hi1 : 1 ≤ i) (hi2 : i ≤ xsize - 2)
    (hj1 : 1 ≤ j) (hj2 : j ≤ ysize - 2) :
    localMax (genGradient sqrtf img xsize ysize) xsize (j * xsize + i) ↔
      (gradMag sqrtf img xsize ysize i j > gradMag sqrtf img xsize ysize (i - 1) j ∧
        gradMag sqrtf img xsize ysize i j > gradMag sqrtf img xsize ysize (i + 1) j ∧
        gradMag sqrtf img xsize ysize i j > gradMag sqrtf img xsize ysize i (j - 1) ∧
        gradMag sqrtf img xsize ysize i j > gradMag sqrtf img xsize ysize i (j + 1)) := by
  have g0 := genGradient_spec sqrtf img xsize ysize hx hy i j
    (by omega) (by omega) (by omega) (by omega)
  have gl := genGradient_spec sqrtf img xsize ysize hx hy (i - 1) j
    (by omega) (by omega) (by omega) (by omega)
  have gr := genGradient_spec sqrtf img xsize ysize hx hy (i + 1) j
    (by omega) (by omega) (by omega) (by omega)
  have gu := genGradient_spec sqrtf img xsize ysize hx hy i (j - 1)
    (by omega) (by omega) (by omega) (by omega)
  have gd := genGradient_spec sqrtf img xsize ysize hx hy i (j + 1)
    (by omega) (by omega) (by omega) (by omega)
  rw [show j * xsize + (i - 1) = j * xsize + i - 1 by ring] at gl
  rw [show j * xsize + (i + 1) = j * xsize + i + 1 by ring] at gr
  rw [show (j - 1) * xsize + i = j * xsize + i - xsize by ring] at gu
  rw [show (j + 1) * xsize + i = j * xsize + i + xsize by ring] at gd
  unfold localMax
  rw [g0, gl, gr, gu, gd]

end GenLocalMax

section GenCandidateTheorems

variable {K : Type} [LinearOrderedField K] [FloorRing K]

/-- C17, as amended: for an image with `xsize ≥ 2` and `ysize ≥ 2`,
`ar2GenFeatureMap` returns a map, and for every candidate pixel (interior,
strict maximum of the gradient magnitude among its four neighbours,
`(int)(magnitude*1000) ≥ k`, valid template) the stored map value is the final
`max` of the window scan: it is `-1.0` when the window yields no similarity
above `-1`, and otherwise it is the similarity, above `-1`, at an offset of
the window outside the exclusion disk whose patch lies inside the image; and
unless the stored value exceeds `max_sim_thresh` (where the scan stops early)
it is the maximum: at least the similarity at every such offset. -/
theorem gen_map_candidate_value (sqrtf : K → K) (image : AR2ImageT K)
    (ts1 ts2 search_size1 search_size2 : Int) (max_sim_thresh sd_thresh : K)
    (hx : 2 ≤ image.xsize) (hy : 2 ≤ image.ysize) :
    (∃ fuel fm, ar2GenFeatureMap sqrtf fuel image ts1 ts2 search_size1 search_size2
      max_sim_thresh sd_thresh = some fm) ∧
    ∀ fuel fm, ar2GenFeatureMap sqrtf fuel image ts1 ts2 search_size1 search_size2
      max_sim_thresh sd_thresh = some fm →
      ∀ i j : Int, 1 ≤ i → i ≤ image.xsize - 2 → 1 ≤ j → j ≤ image.ysize - 2 →
        (gradMag sqrtf image.imgBW image.xsize image.ysize i j
            > gradMag sqrtf image.imgBW image.xsize image.ysize (i - 1) j ∧
          gradMag sqrtf image.imgBW image.xsize image.ysize i j
            > gradMag sqrtf image.imgBW image.xsize image.ysize (i + 1) j ∧
          gradMag sqrtf image.imgBW image.xsize image.ysize i j
            > gradMag sqrtf image.imgBW image.xsize image.ysize i (j - 1) ∧
          gradMag sqrtf image.imgBW image.xsize image.ysize i j
            > gradMag sqrtf image.imgBW image.xsize image.ysize i (j + 1)) →
        ¬ truncInt (gradMag sqrtf image.imgBW image.xsize image.ysize i j * 1000)
            < genK sqrtf image →
        (∃ t, (make_template sqrtf image.imgBW image.xsize image.ysize i j ts1 ts2 sd_thresh
          t).isSome = true) →
        ∃ t tp vlen v,
          make_template sqrtf image.imgBW image.xsize image.ysize i j ts1 ts2 sd_thresh t
            = some (tp, vlen) ∧
          fm.map[(j * image.xsize + i).toNat]? = some v ∧
          (v = -1 ∨ (-1 < v ∧ ∃ x y, -search_size1 ≤ x ∧ x ≤ search_size1 ∧
            -search_size1 ≤ y ∧ y ≤ search_size1 ∧
            ¬ (x * x + y * y ≤ search_size2 * search_size2) ∧
            ¬ patchOutside image.xsize image.ysize (i + x) (j + y) ts1 ts2 ∧
            v = tileValue sqrtf image.imgBW image.xsize tp vlen ts1 ts2 (i + x) (j + y))) ∧
          (v ≤ max_sim_thresh → ∀ x y, -search_size1 ≤ x → x ≤ search_size1 →
            -search_size1 ≤ y → y ≤ search_size1 →
            ¬ (x * x + y * y ≤ search_size2 * search_size2) →
            ¬ patchOutside image.xsize image.ysize (i + x) (j + y) ts1 ts2 →
            tileValue sqrtf image.imgBW image.xsize tp vlen ts1 ts2 (i + x) (j + y) ≤ v) := by
  refine ⟨ar2GenFeatureMap_returns sqrtf image ts1 ts2 search_size1 search_size2 max_sim_thresh
    sd_thresh, ?_⟩
  intro fuel fm h
  obtain ⟨f, hf, hfm⟩ := ar2GenFeatureMap_some sqrtf fuel image ts1 ts2 search_size1 search_size2
    max_sim_thresh sd_thresh fm h
  have hcells := genScore_cells sqrtf image.imgBW image.xsize image.ysize ts1 ts2 search_size1
    search_size2 max_sim_thresh sd_thresh fuel _ _
    (fun i j v =>
      1 ≤ i → i ≤ image.xsize - 2 → 1 ≤ j → j ≤ image.ysize - 2 →
      localMax (genGradient sqrtf image.imgBW image.xsize image.ysize) image.xsize
        (j * image.xsize + i) →
      ¬ truncInt (genGradient sqrtf image.imgBW image.xsize image.ysize (j * image.xsize + i)
          * 1000) < genK sqrtf image →
      (∃ t, (make_template sqrtf image.imgBW image.xsize image.ysize i j ts1 ts2 sd_thresh
        t).isSome = true) →
      ∃ t tp vlen,
        make_template sqrtf image.imgBW image.xsize image.ysize i j ts1 ts2 sd_thresh t
          = some (tp, vlen) ∧
        (v = -1 ∨ (-1 < v ∧ ∃ x y, -search_size1 ≤ x ∧ x ≤ search_size1 ∧
          -search_size1 ≤ y ∧ y ≤ search_size1 ∧
          ¬ (x * x + y * y ≤ search_size2 * search_size2) ∧
          ¬ patchOutside image.xsize image.ysize (i + x) (j + y) ts1 ts2 ∧
          v = tileValue sqrtf image.imgBW image.xsize tp vlen ts1 ts2 (i + x) (j + y))) ∧
        (v ≤ max_sim_thresh → ∀ x y, -search_size1 ≤ x → x ≤ search_size1 →
          -search_size1 ≤ y → y ≤ search_size1 →
          ¬ (x * x + y * y ≤ search_size2 * search_size2) →
          ¬ patchOutside image.xsize image.ysize (i + x) (j + y) ts1 ts2 →
          tileValue sqrtf image.imgBW image.xsize tp vlen ts1 ts2 (i + x) (j + y) ≤ v)) hx hy
    (fun i j _ _ _ _ hb a1 a2 a3 a4 => by omega)
    (fun i j s s1 hi1 hi2 hj1 hj2 hfp hp => by
      by_cases hcand : localMax (genGradient sqrtf image.imgBW image.xsize image.ysize)
            image.xsize (j * image.xsize + i) ∧
          ¬ truncInt (genGradient sqrtf image.imgBW image.xsize image.ysize
            (j * image.xsize + i) * 1000) < genK sqrtf image ∧
          (∃ t, (make_template sqrtf image.imgBW image.xsize image.ysize i j ts1 ts2 sd_thresh
            t).isSome = true)
      · obtain ⟨tp, vlen, v, hm, hv, ha, hb⟩ := genPixel_candidate sqrtf image.imgBW
          image.xsize image.ysize ts1 ts2 search_size1 search_size2 max_sim_thresh sd_thresh
          fuel _ _ j i s s1 hp (by rw [hfp]; exact hcand.1) (by rw [hfp]; exact hcand.2.1)
          hcand.2.2
        exact ⟨v, hv, fun _ _ _ _ _ _ _ => ⟨s.template, tp, vlen, hm, ha, hb⟩⟩
      · obtain ⟨hfp1, _, hcase⟩ := genPixel_some sqrtf image.imgBW image.xsize image.ysize ts1
          ts2 search_size1 search_size2 max_sim_thresh sd_thresh fuel _ _ j i s s1 hp
        rcases hcase with ⟨_, hv⟩ | ⟨_, _, _, _, r, _, _, hv⟩
        · exact ⟨1, hv, fun _ _ _ _ c1 c2 c3 => absurd ⟨c1, c2, c3⟩ hcand⟩
        · exact ⟨r.1, hv, fun _ _ _ _ c1 c2 c3 => absurd ⟨c1, c2, c3⟩ hcand⟩)
    f hf
  intro i j hi1 hi2 hj1 hj2 hlm hk hmt
  have hidx := cell_index_range image.xsize image.ysize i j (by omega) (by omega) (by omega)
    (by omega)
  have g0 := genGradient_spec sqrtf image.imgBW image.xsize image.ysize hx hy i j
    (by omega) (by omega) (by omega) (by omega)
  obtain ⟨t, tp, vlen, hm, ha, hb⟩ := hcells i j (by omega) (by omega) (by omega) (by omega)
    hi1 hi2 hj1 hj2
    ((localMax_gradMag sqrtf image.imgBW image.xsize image.ysize hx hy i j hi1 hi2 hj1
      hj2).mpr hlm)
    (by rw [g0]; exact hk) hmt
  refine ⟨t, tp, vlen, f (j * image.xsize + i), hm, ?_, ha, hb⟩
  rw [hfm]
  dsimp only
  rw [List.getElem?_map, List.getElem?_range (by omega)]
  simp only [Option.map_some']
  rw [Int.toNat_of_nonneg hidx.1]

end GenCandidateTheorems

theorem edge_patchSqDev : patchSqDev edgeImage 3 1 1 1 1 = (57800 : ℝ) := by
  simp [patchSqDev, patchMean, patchPixel, edgeImage, Finset.sum_range_succ]
  norm_num

theorem edge_template (t : Int → ℝ) :
    (make_template Real.sqrt edgeImage 3 3 1 1 1 1 0 t).isSome = true := by
  rw [make_template_eq, if_neg (by decide), edge_patchSqDev, if_neg (by norm_num),
    if_neg (by norm_num)]
  rfl

/-- C17, counterexample: on the 3×3 image whose only bright pixel is the
corner `(2, 2)`, with `ts1 = ts2 = 1` and `search_size1 = search_size2 = 0`,
the centre pixel is a candidate (strict maximum of the gradient field,
`(int)(magnitude*1000) = 332 = k`, valid template) whose window holds no
offset outside the exclusion disk, and the value stored for it is `-1`, not
`1`. -/
theorem gen_map_candidate_stores_minus_one :
    localMax (genGradient Real.sqrt edgeImage 3 3) 3 4 ∧
    ¬ truncInt (genGradient Real.sqrt edgeImage 3 3 4 * 1000)
        < genK Real.sqrt ⟨3, 3, 72, edgeImage⟩ ∧
    (make_template Real.sqrt edgeImage 3 3 1 1 1 1 0 (fun _ => 0)).isSome = true ∧
    ∃ fuel fm, ar2GenFeatureMap Real.sqrt fuel ⟨3, 3, 72, edgeImage⟩ 1 1 0 0 (1 / 2) 0
        = some fm ∧
      fm.map[4]? = some (-1 : ℝ) := by
  have hk : ¬ truncInt (genGradient Real.sqrt edgeImage 3 3 4 * 1000)
      < genK Real.sqrt ⟨3, 3, 72, edgeImage⟩ := by
    rw [edge_gradient.1, edge_truncInt, edge_genK]
    norm_num
  refine ⟨edge_localMax, hk, edge_template _, ?_⟩
  obtain ⟨fuel, fm, h⟩ := ar2GenFeatureMap_returns Real.sqrt ⟨3, 3, 72, edgeImage⟩ 1 1 0 0
    (1 / 2) 0
  refine ⟨fuel, fm, h, ?_⟩
  obtain ⟨f, hf, hfm⟩ := ar2GenFeatureMap_some Real.sqrt fuel ⟨3, 3, 72, edgeImage⟩ 1 1 0 0
    (1 / 2) 0 fm h
  dsimp only at hf hfm
  have hcells := genScore_cells Real.sqrt edgeImage 3 3 1 1 0 0 (1 / 2) 0 fuel _ _
    (fun i j v => i = 1 → j = 1 → v = -1) (by norm_num) (by norm_num)
    (fun i j _ _ _ _ hb a1 a2 => by omega)
    (fun i j s s1 hi1 hi2 hj1 hj2 hfp hp => by
      have hi : i = 1 := by omega
      have hj : j = 1 := by omega
      subst hi
      subst hj
      rw [show (1 : Int) * 3 + 1 = 4 from by norm_num] at hfp
      obtain ⟨tp, vlen, v, _, hv, ha, _⟩ := genPixel_candidate Real.sqrt edgeImage 3 3 1 1 0 0
        (1 / 2) 0 fuel _ _ 1 1 s s1 hp (by rw [hfp]; exact edge_localMax)
        (by rw [hfp]; exact hk) ⟨_, edge_template (fun _ => 0)⟩
      refine ⟨v, hv, fun _ _ => ?_⟩
      rcases ha with ha | ⟨_, x, y, x1, x2, y1, y2, hd, _⟩
      · exact ha
      · exfalso
        have ex : x = 0 := by omega
        have ey : y = 0 := by omega
        rw [ex, ey] at hd
        norm_num at hd)
    f hf
  have hv := hcells 1 1 (by norm_num) (by norm_num) (by norm_num) (by norm_num) rfl rfl
  rw [show (1 : Int) * 3 + 1 = 4 from by norm_num] at hv
  rw [hfm]
  dsimp only
  rw [List.getElem?_map, List.getElem?_range (by decide)]
  simp only [Option.map_some']
  rw [show ((4 : Nat) : Int) = 4 from rfl, hv]

/-- C17, witness: the 3×3 sample image over the reals with `Real.sqrt`,
`ts1 = ts2 = 1`, `search_size1 = 1`, `search_size2 = 0`. -/
theorem gen_map_candidate_value_witness :
    (∃ fuel fm, ar2GenFeatureMap Real.sqrt fuel ⟨3, 3, 72, edgeImage⟩ 1 1 1 0 (1 / 2) 0
      = some fm) ∧
    ∀ fuel fm, ar2GenFeatureMap Real.sqrt fuel ⟨3, 3, 72, edgeImage⟩ 1 1 1 0 (1 / 2) 0
      = some fm →
      ∀ i j : Int, 1 ≤ i → i ≤ (3 : Int) - 2 → 1 ≤ j → j ≤ (3 : Int) - 2 →
        (gradMag Real.sqrt edgeImage 3 3 i j > gradMag Real.sqrt edgeImage 3 3 (i - 1) j ∧
          gradMag Real.sqrt edgeImage 3 3 i j > gradMag Real.sqrt edgeImage 3 3 (i + 1) j ∧
          gradMag Real.sqrt edgeImage 3 3 i j > gradMag Real.sqrt edgeImage 3 3 i (j - 1) ∧
          gradMag Real.sqrt edgeImage 3 3 i j > gradMag Real.sqrt edgeImage 3 3 i (j + 1)) →
        ¬ truncInt (gradMag Real.sqrt edgeImage 3 3 i j * 1000)
            < genK Real.sqrt ⟨3, 3, 72, edgeImage⟩ →
        (∃ t, (make_template Real.sqrt edgeImage 3 3 i j 1 1 0 t).isSome = true) →
        ∃ t tp vlen v,
          make_template Real.sqrt edgeImage 3 3 i j 1 1 0 t = some (tp, vlen) ∧
          fm.map[(j * 3 + i).toNat]? = some v ∧
          (v = -1 ∨ (-1 < v ∧ ∃ x y, -(1 : Int) ≤ x ∧ x ≤ 1 ∧ -(1 : Int) ≤ y ∧ y ≤ 1 ∧
            ¬ (x * x + y * y ≤ (0 : Int) * 0) ∧
            ¬ patchOutside 3 3 (i + x) (j + y) 1 1 ∧
            v = tileValue Real.sqrt edgeImage 3 tp vlen 1 1 (i + x) (j + y))) ∧
          (v ≤ 1 / 2 → ∀ x y, -(1 : Int) ≤ x → x ≤ 1 → -(1 : Int) ≤ y → y ≤ 1 →
            ¬ (x * x + y * y ≤ (0 : Int) * 0) →
            ¬ patchOutside 3 3 (i + x) (j + y) 1 1 →
            tileValue Real.sqrt edgeImage 3 tp vlen 1 1 (i + x) (j + y) ≤ v) :=
  gen_map_candidate_value Real.sqrt ⟨3, 3, 72, edgeImage⟩ 1 1 1 0 (1 / 2) 0 (by norm_num)
    (by norm_num)

section Select2ScanLemmas

variable {K : Type} [LinearOrderedField K]

/-- What the scan of thread `t` leaves: its minimum is at most the threshold
and at most every cell of its rows; its slots are the initial ones, or the
first cell in row-major order among the cells of its rows that holds its
minimum, which is below the threshold. -/
theorem threadScan_spec (fp2 : Int → K) (xsize ysize : Int) (max_sim_thresh : K)
    (owner : Int → Int) (t : Int) :
    (threadScan fp2 xsize ysize max_sim_thresh owner t).min_tab ≤ max_sim_thresh ∧
    ((threadScan fp2 xsize ysize max_sim_thresh owner t).i_tab = -1 →
      (threadScan fp2 xsize ysize max_sim_thresh owner t).min_tab = max_sim_thresh) ∧
    ((threadScan fp2 xsize ysize max_sim_thresh owner t).i_tab ≠ -1 →
      0 ≤ (threadScan fp2 xsize ysize max_sim_thresh owner t).i_tab ∧
      (threadScan fp2 xsize ysize max_sim_thresh owner t).i_tab < xsize ∧
      0 ≤ (threadScan fp2 xsize ysize max_sim_thresh owner t).j_tab ∧
      (threadScan fp2 xsize ysize max_sim_thresh owner t).j_tab < ysize ∧
      owner (threadScan fp2 xsize ysize max_sim_thresh owner t).j_tab = t ∧
      fp2 ((threadScan fp2 xsize ysize max_sim_thresh owner t).i_tab
          + (threadScan fp2 xsize ysize max_sim_thresh owner t).j_tab * xsize)
        = (threadScan fp2 xsize ysize max_sim_thresh owner t).min_tab ∧
      (threadScan fp2 xsize ysize max_sim_thresh owner t).min_tab < max_sim_thresh ∧
      ∀ x y : Int, 0 ≤ x → x < xsize → 0 ≤ y → owner y = t →
        (y < (threadScan fp2 xsize ysize max_sim_thresh owner t).j_tab ∨
          (y = (threadScan fp2 xsize ysize max_sim_thresh owner t).j_tab ∧
            x < (threadScan fp2 xsize ysize max_sim_thresh owner t).i_tab)) →
        (threadScan fp2 xsize ysize max_sim_thresh owner t).min_tab < fp2 (x + y * xsize)) ∧
    (∀ x y : Int, 0 ≤ x → x < xsize → 0 ≤ y → y < ysize → owner y = t →
      (threadScan fp2 xsize ysize max_sim_thresh owner t).min_tab ≤ fp2 (x + y * xsize)) := by
  unfold threadScan
  have hout := forLoop_inv
    (fun j_t (s : ThreadMin K) =>
      if owner j_t = t then
        forLoop 0 (xsize - 1)
          (fun i_t (s : ThreadMin K) =>
            if fp2 (i_t + j_t * xsize) < s.min_tab then
              ({ min_tab := fp2 (i_t + j_t * xsize), i_tab := i_t, j_tab := j_t } : ThreadMin K)
            else s)
          s
      else s)
    (fun R s => s.min_tab ≤ max_sim_thresh ∧ (s.i_tab = -1 → s.min_tab = max_sim_thresh) ∧
      (s.i_tab ≠ -1 → 0 ≤ s.i_tab ∧ s.i_tab < xsize ∧ 0 ≤ s.j_tab ∧ s.j_tab < R ∧
        owner s.j_tab = t ∧ fp2 (s.i_tab + s.j_tab * xsize) = s.min_tab ∧
        s.min_tab < max_sim_thresh ∧
        ∀ x y : Int, 0 ≤ x → x < xsize → 0 ≤ y → owner y = t →
          (y < s.j_tab ∨ (y = s.j_tab ∧ x < s.i_tab)) → s.min_tab < fp2 (x + y * xsize)) ∧
      (∀ x y : Int, 0 ≤ x → x < xsize → 0 ≤ y → y < R → owner y = t →
        s.min_tab ≤ fp2 (x + y * xsize)))
    (ysize - 1 + 1 - 0).toNat 0 (ysize - 1)
    ({ min_tab := max_sim_thresh, i_tab := -1, j_tab := -1 } : ThreadMin K) rfl
    ⟨le_refl _, fun _ => rfl, fun h => absurd rfl h, fun x y _ _ h1 h2 _ => by omega⟩ ?_
  · obtain ⟨h1, h2, h3, h4⟩ := hout
    refine ⟨h1, h2, fun hne => ?_, fun x y a1 a2 a3 a4 a5 => h4 x y a1 a2 a3 (by omega) a5⟩
    obtain ⟨b1, b2, b3, b4, b5⟩ := h3 hne
    exact ⟨b1, b2, b3, by omega, b5⟩
  · intro R s hR hs
    beta_reduce
    by_cases hown : owner (0 + (R : Int)) = t
    · rw [if_pos hown]
      have hin := forLoop_inv
        (fun i_t (s : ThreadMin K) =>
          if fp2 (i_t + (0 + (R : Int)) * xsize) < s.min_tab then
            ({ min_tab := fp2 (i_t + (0 + (R : Int)) * xsize), i_tab := i_t,
               j_tab := 0 + (R : Int) } : ThreadMin K)
          else s)
        (fun C q => q.min_tab ≤ max_sim_thresh ∧ (q.i_tab = -1 → q.min_tab = max_sim_thresh) ∧
          (q.i_tab ≠ -1 → 0 ≤ q.i_tab ∧ q.i_tab < xsize ∧ 0 ≤ q.j_tab ∧
            (q.j_tab < R ∨ (q.j_tab = R ∧ q.i_tab < C)) ∧
            owner q.j_tab = t ∧ fp2 (q.i_tab + q.j_tab * xsize) = q.min_tab ∧
            q.min_tab < max_sim_thresh ∧
            ∀ x y : Int, 0 ≤ x → x < xsize → 0 ≤ y → owner y = t →
              (y < q.j_tab ∨ (y = q.j_tab ∧ x < q.i_tab)) → q.min_tab < fp2 (x + y * xsize)) ∧
          (∀ x y : Int, 0 ≤ x → x < xsize → 0 ≤ y → (y < R ∨ (y = R ∧ x < C)) → owner y = t →
            q.min_tab ≤ fp2 (x + y * xsize)))
        (xsize - 1 + 1 - 0).toNat 0 (xsize - 1) s rfl
        ⟨hs.1, hs.2.1, fun hne => by
            obtain ⟨b1, b2, b3, b4, b5⟩ := hs.2.2.1 hne
            exact ⟨b1, b2, b3, Or.inl b4, b5⟩,
          fun x y a1 a2 a3 a4 a5 => hs.2.2.2 x y a1 a2 a3 (by omega) a5⟩ ?_
      · obtain ⟨h1, h2, h3, h4⟩ := hin
        refine ⟨h1, h2, fun hne => ?_, fun x y a1 a2 a3 a4 a5 => h4 x y a1 a2 a3 ?_ a5⟩
        · obtain ⟨b1, b2, b3, b4, b5⟩ := h3 hne
          exact ⟨b1, b2, b3, by push_cast; omega, b5⟩
        · push_cast at a4
          omega
      · intro C q hC hq
        beta_reduce
        have hCx : (C : Int) < xsize := by omega
        by_cases hlt : fp2 (0 + (C : Int) + (0 + (R : Int)) * xsize) < q.min_tab
        · rw [if_pos hlt]
          dsimp only
          refine ⟨le_trans hlt.le hq.1, fun h => by omega, fun _ => ?_, ?_⟩
          · refine ⟨by omega, by omega, by omega, Or.inr ⟨by omega, by push_cast; omega⟩, hown,
              rfl, lt_of_lt_of_le hlt hq.1, fun x y a1 a2 a3 a4 a5 => ?_⟩
            exact lt_of_lt_of_le hlt (hq.2.2.2 x y a1 a2 a3 (by omega) a4)
          · intro x y a1 a2 a3 a4 a5
            by_cases hcell : y = R ∧ x = C
            · rw [hcell.1, hcell.2]
              apply le_of_eq
              congr 1
              ring
            · exact le_trans hlt.le (hq.2.2.2 x y a1 a2 a3 (by push_cast at a4; omega) a5)
        · rw [if_neg hlt]
          refine ⟨hq.1, hq.2.1, fun hne => ?_, ?_⟩
          · obtain ⟨b1, b2, b3, b4, b5⟩ := hq.2.2.1 hne
            exact ⟨b1, b2, b3, by push_cast; omega, b5⟩
          · intro x y a1 a2 a3 a4 a5
            by_cases hcell : y = R ∧ x = C
            · rw [hcell.1, hcell.2]
              have := not_lt.mp hlt
              rw [show (0 : Int) + (C : Int) + (0 + (R : Int)) * xsize = (C : Int) + (R : Int) * xsize
                by ring] at this
              exact this
            · exact hq.2.2.2 x y a1 a2 a3 (by push_cast at a4; omega) a5
    · rw [if_neg hown]
      refine ⟨hs.1, hs.2.1, fun hne => ?_, fun x y a1 a2 a3 a4 a5 => ?_⟩
      · obtain ⟨b1, b2, b3, b4, b5⟩ := hs.2.2.1 hne
        exact ⟨b1, b2, b3, by push_cast; omega, b5⟩
      · by_cases hy : y = R
        · exfalso
          apply hown
          rw [zero_add, ← hy]
          exact a5
        · exact hs.2.2.2 x y a1 a2 a3 (by push_cast at a4; omega) a5

/-- The reduction picks a thread in `0..3` whose minimum is at most every
thread's and strictly below the minimum of every lower-numbered thread. -/
theorem minThread_spec (tab : Int → ThreadMin K) :
    0 ≤ minThread tab ∧ minThread tab ≤ 3 ∧
    ∀ t : Int, 0 ≤ t → t ≤ 3 →
      (tab (minThread tab)).min_tab ≤ (tab t).min_tab ∧
      (t < minThread tab → (tab (minThread tab)).min_tab < (tab t).min_tab) := by
  unfold minThread
  have h := forLoop_inv
    (fun nthread min_thread =>
      if (tab nthread).min_tab < (tab min_thread).min_tab then nthread else min_thread)
    (fun n mt => 0 ≤ mt ∧ (mt < n ∨ mt = 0) ∧ ∀ t : Int, 0 ≤ t → t < n →
      (tab mt).min_tab ≤ (tab t).min_tab ∧ (t < mt → (tab mt).min_tab < (tab t).min_tab))
    4 0 3 0 rfl ⟨le_refl _, Or.inr rfl, fun t h1 h2 => by omega⟩ ?_
  · obtain ⟨h1, h2, h3⟩ := h
    exact ⟨h1, by omega, fun t a1 a2 => h3 t a1 (by omega)⟩
  · intro n mt hn hmt
    beta_reduce
    by_cases hlt : (tab (0 + (n : Int))).min_tab < (tab mt).min_tab
    · rw [if_pos hlt]
      refine ⟨by omega, Or.inl (by push_cast; omega), fun t a1 a2 => ?_⟩
      by_cases ht : t = 0 + (n : Int)
      · rw [ht]
        exact ⟨le_refl _, fun h => absurd h (lt_irrefl _)⟩
      · have := (hmt.2.2 t a1 (by push_cast at a2; omega)).1
        exact ⟨le_trans hlt.le this, fun _ => lt_of_lt_of_le hlt this⟩
    · rw [if_neg hlt]
      refine ⟨hmt.1, ?_, fun t a1 a2 => ?_⟩
      · rcases hmt.2.1 with h | h
        · exact Or.inl (by push_cast; omega)
        · exact Or.inr h
      · by_cases ht : t = 0 + (n : Int)
        · rw [ht]
          refine ⟨not_lt.mp hlt, fun h => ?_⟩
          exfalso
          rcases hmt.2.1 with h2 | h2 <;> omega
        · exact hmt.2.2 t a1 (by push_cast at a2; omega)

/-- The cell the minimum search of `ar2SelectFeature2` selects: none
(`cx = -1`), or a cell of the grid whose value is the minimum found, below
`max_sim_thresh`. -/
theorem select2Scan_spec (fp2 : Int → K) (xsize ysize : Int) (max_sim_thresh : K)
    (owner : Int → Int) :
    (select2Scan fp2 xsize ysize max_sim_thresh owner).i_tab = -1 ∨
    (0 ≤ (select2Scan fp2 xsize ysize max_sim_thresh owner).i_tab ∧
      (select2Scan fp2 xsize ysize max_sim_thresh owner).i_tab < xsize ∧
      0 ≤ (select2Scan fp2 xsize ysize max_sim_thresh owner).j_tab ∧
      (select2Scan fp2 xsize ysize max_sim_thresh owner).j_tab < ysize ∧
      fp2 ((select2Scan fp2 xsize ysize max_sim_thresh owner).j_tab * xsize
          + (select2Scan fp2 xsize ysize max_sim_thresh owner).i_tab)
        = (select2Scan fp2 xsize ysize max_sim_thresh owner).min_tab ∧
      (select2Scan fp2 xsize ysize max_sim_thresh owner).min_tab < max_sim_thresh) := by
  unfold select2Scan
  obtain ⟨_, _, h3, _⟩ := threadScan_spec fp2 xsize ysize max_sim_thresh owner
    (minThread (threadScan fp2 xsize ysize max_sim_thresh owner))
  by_cases hne : (threadScan fp2 xsize ysize max_sim_thresh owner
      (minThread (threadScan fp2 xsize ysize max_sim_thresh owner))).i_tab = -1
  · exact Or.inl hne
  · obtain ⟨b1, b2, b3, b4, _, b6, b7, _⟩ := h3 hne
    refine Or.inr ⟨b1, b2, b3, b4, ?_, b7⟩
    rw [← b6]
    congr 1
    ring

end Select2ScanLemmas

section Select2StepLemmas

variable {K : Type} [LinearOrderedField K]

/-- The two ways an iteration of the `while` loop of `ar2SelectFeature2`
continues: a rejection sets the selected cell to `1.0f` and leaves `coord` and
`*num`; an acceptance appends one record at the selected cell, increments
`*num` and runs the occlusion loops. -/
theorem select2Step_some (sqrtf : K → K) (owner : Int → Int) (image : AR2ImageT K)
    (ts1 ts2 search_size2 occ_size : Int) (max_sim_thresh min_sim_thresh sd_thresh : K)
    (st st1 : SelectState K × (Int → K))
    (h : select2Step sqrtf owner image ts1 ts2 search_size2 occ_size max_sim_thresh
      min_sim_thresh sd_thresh st = some st1) :
    st.1.num < maxFeatureNum2 image.xsize image.ysize occ_size ts1 ts2 ∧
    (select2Scan st.1.fimage2 image.xsize image.ysize max_sim_thresh owner).i_tab ≠ -1 ∧
    ((st1.1.fimage2 = Function.update st.1.fimage2
          ((select2Scan st.1.fimage2 image.xsize image.ysize max_sim_thresh owner).j_tab
              * image.xsize
            + (select2Scan st.1.fimage2 image.xsize image.ysize max_sim_thresh owner).i_tab) 1 ∧
        st1.1.coord = st.1.coord ∧ st1.1.num = st.1.num) ∨
      (st1.1.fimage2 = occlude st.1.fimage2 image.xsize image.ysize
          (select2Scan st.1.fimage2 image.xsize image.ysize max_sim_thresh owner).i_tab
          (select2Scan st.1.fimage2 image.xsize image.ysize max_sim_thresh owner).j_tab occ_size ∧
        (∃ c : AR2FeatureCoordT K,
          c.x = (select2Scan st.1.fimage2 image.xsize image.ysize max_sim_thresh owner).i_tab ∧
          c.y = (select2Scan st.1.fimage2 image.xsize image.ysize max_sim_thresh owner).j_tab ∧
          c.maxSim
            = (select2Scan st.1.fimage2 image.xsize image.ysize max_sim_thresh owner).min_tab ∧
          st1.1.coord = st.1.coord ++ [c]) ∧
        st1.1.num = st.1.num + 1)) := by
  unfold select2Step at h
  by_cases h1 : st.1.num < maxFeatureNum2 image.xsize image.ysize occ_size ts1 ts2
  · rw [if_neg (not_not.mpr h1)] at h
    dsimp only at h
    by_cases h2 : (select2Scan st.1.fimage2 image.xsize image.ysize max_sim_thresh owner).i_tab
        = -1
    · rw [if_pos h2] at h
      cases h
    · rw [if_neg h2] at h
      refine ⟨h1, h2, ?_⟩
      split at h
      · have := Option.some.inj h
        subst this
        exact Or.inl ⟨rfl, rfl, rfl⟩
      · split_ifs at h with h3 h4
        · have := Option.some.inj h
          subst this
          exact Or.inl ⟨rfl, rfl, rfl⟩
        · have := Option.some.inj h
          subst this
          exact Or.inl ⟨rfl, rfl, rfl⟩
        · have := Option.some.inj h
          subst this
          exact Or.inr ⟨rfl, ⟨_, rfl, rfl, rfl, rfl⟩, rfl⟩
  · rw [if_pos h1] at h
    cases h

/-- With `max_sim_thresh ≤ 1` every iteration of `ar2SelectFeature2` that
continues the loop lowers
`(max_feature_num - *num) + (number of cells below max_sim_thresh)`. -/
theorem select2Step_measure (sqrtf : K → K) (owner : Int → Int) (image : AR2ImageT K)
    (ts1 ts2 search_size2 occ_size : Int) (max_sim_thresh min_sim_thresh sd_thresh : K)
    (hmax : max_sim_thresh ≤ 1) (st st1 : SelectState K × (Int → K))
    (h : select2Step sqrtf owner image ts1 ts2 search_size2 occ_size max_sim_thresh
      min_sim_thresh sd_thresh st = some st1) :
    (maxFeatureNum2 image.xsize image.ysize occ_size ts1 ts2 - st1.1.num).toNat
        + belowCount st1.1.fimage2 image.xsize image.ysize max_sim_thresh
      < (maxFeatureNum2 image.xsize image.ysize occ_size ts1 ts2 - st.1.num).toNat
        + belowCount st.1.fimage2 image.xsize image.ysize max_sim_thresh := by
  obtain ⟨hnum, hcx, hcase⟩ := select2Step_some sqrtf owner image ts1 ts2 search_size2 occ_size
    max_sim_thresh min_sim_thresh sd_thresh st st1 h
  rcases select2Scan_spec st.1.fimage2 image.xsize image.ysize max_sim_thresh owner with hsc | hsc
  · exact absurd hsc hcx
  · obtain ⟨hx0, hx1, hy0, hy1, hval, hlt⟩ := hsc
    have hrange := cell_index_range image.xsize image.ysize _ _ hx0 hx1 hy0 hy1
    rcases hcase with ⟨hf, _, hn⟩ | ⟨hf, _, hn⟩
    · have := belowCount_lt st.1.fimage2 st1.1.fimage2 image.xsize image.ysize max_sim_thresh
        hmax (fun idx => by rw [hf]; exact update_one_or _ _ _) _ hrange.1 hrange.2
        (by rw [hval]; exact hlt) (by rw [hf, Function.update_same])
      rw [hn]
      omega
    · have := belowCount_le st.1.fimage2 st1.1.fimage2 image.xsize image.ysize max_sim_thresh
        hmax (fun idx => by rw [hf]; exact (occlude_spec _ _ _ _ _ _).1 idx)
      rw [hn]
      omega

/-- With `max_sim_thresh ≤ 1` the `while` loop of `ar2SelectFeature2` is left
after finitely many iterations. -/
theorem select2Loop_terminates (sqrtf : K → K) (owner : Int → Int) (image : AR2ImageT K)
    (ts1 ts2 search_size2 occ_size : Int) (max_sim_thresh min_sim_thresh sd_thresh : K)
    (hmax : max_sim_thresh ≤ 1) :
    ∀ (fuel : Nat) (st : SelectState K × (Int → K)),
      (maxFeatureNum2 image.xsize image.ysize occ_size ts1 ts2 - st.1.num).toNat
        + belowCount st.1.fimage2 image.xsize image.ysize max_sim_thresh < fuel →
      ∃ st1, select2Loop sqrtf owner image ts1 ts2 search_size2 occ_size max_sim_thresh
        min_sim_thresh sd_thresh fuel st = some st1 := by
  intro fuel
  induction fuel with
  | zero => intro st h; exact absurd h (Nat.not_lt_zero _)
  | succ m ih =>
      intro st hm
      rw [select2Loop]
      cases hstep : select2Step sqrtf owner image ts1 ts2 search_size2 occ_size max_sim_thresh
          min_sim_thresh sd_thresh st with
      | none => exact ⟨st, rfl⟩
      | some st1 =>
          have := select2Step_measure sqrtf owner image ts1 ts2 search_size2 occ_size
            max_sim_thresh min_sim_thresh sd_thresh hmax st st1 hstep
          exact ih st1 (by omega)

/-- A property kept by every iteration holds in the state in which the loop
of `ar2SelectFeature2` is left. -/
theorem select2Loop_inv (sqrtf : K → K) (owner : Int → Int) (image : AR2ImageT K)
    (ts1 ts2 search_size2 occ_size : Int) (max_sim_thresh min_sim_thresh sd_thresh : K)
    (P : SelectState K × (Int → K) → Prop)
    (hstep : ∀ s s1, P s → select2Step sqrtf owner image ts1 ts2 search_size2 occ_size
      max_sim_thresh min_sim_thresh sd_thresh s = some s1 → P s1) :
    ∀ (fuel : Nat) (st st1 : SelectState K × (Int → K)), P st →
      select2Loop sqrtf owner image ts1 ts2 search_size2 occ_size max_sim_thresh min_sim_thresh
        sd_thresh fuel st = some st1 → P st1 := by
  intro fuel
  induction fuel with
  | zero => intro st st1 _ h; simp [select2Loop] at h
  | succ m ih =>
      intro st st1 hP h
      rw [select2Loop] at h
      cases hs : select2Step sqrtf owner image ts1 ts2 search_size2 occ_size max_sim_thresh
          min_sim_thresh sd_thresh st with
      | none =>
          rw [hs] at h
          have := Option.some.inj h
          rw [← this]
          exact hP
      | some s1 =>
          rw [hs] at h
          exact ih s1 st1 (hstep st s1 hP hs) h

/-- The occlusion loops of `ar2SelectFeature2` keep every recorded coordinate
surrounded by cells holding `1.0f` and more than `occ_size` (the doubled
value) away from the other records. -/
theorem select2Separated_step (sqrtf : K → K) (owner : Int → Int) (image : AR2ImageT K)
    (ts1 ts2 search_size2 occ_size : Int) (max_sim_thresh min_sim_thresh sd_thresh : K)
    (hmax : max_sim_thresh ≤ 1) (st st1 : SelectState K × (Int → K))
    (hP : selectSeparated image.xsize image.ysize occ_size st.1)
    (h : select2Step sqrtf owner image ts1 ts2 search_size2 occ_size max_sim_thresh
      min_sim_thresh sd_thresh st = some st1) :
    selectSeparated image.xsize image.ysize occ_size st1.1 := by
  obtain ⟨_, hcx, hcase⟩ := select2Step_some sqrtf owner image ts1 ts2 search_size2 occ_size
    max_sim_thresh min_sim_thresh sd_thresh st st1 h
  rcases select2Scan_spec st.1.fimage2 image.xsize image.ysize max_sim_thresh owner with hsc | hsc
  · exact absurd hsc hcx
  · obtain ⟨hx0, hx1, hy0, hy1, hval, hlt⟩ := hsc
    rcases hcase with ⟨hf, hc, _⟩ | ⟨hf, ⟨c, hcx2, hcy2, _, hc⟩, _⟩
    · refine ⟨fun c hcm x y a1 a2 a3 a4 a5 a6 => ?_, by rw [hc]; exact hP.2⟩
      rw [hc] at hcm
      rw [hf]
      rcases update_one_or st.1.fimage2 _ (y * image.xsize + x) with h1 | h1
      · exact h1
      · rw [h1]; exact hP.1 c hcm x y a1 a2 a3 a4 a5 a6
    · refine ⟨fun c2 hcm x y a1 a2 a3 a4 a5 a6 => ?_, ?_⟩
      · rw [hf]
        rw [hc, List.mem_append, List.mem_singleton] at hcm
        rcases hcm with hcm | hcm
        · rcases (occlude_spec st.1.fimage2 image.xsize image.ysize _ _ occ_size).1
            (y * image.xsize + x) with h1 | h1
          · exact h1
          · rw [h1]; exact hP.1 c2 hcm x y a1 a2 a3 a4 a5 a6
        · rw [hcm, hcx2] at a5
          rw [hcm, hcy2] at a6
          exact (occlude_spec st.1.fimage2 image.xsize image.ysize _ _ occ_size).2 x y a1 a2 a3
            a4 a5 a6
      · rw [hc, List.pairwise_append]
        refine ⟨hP.2, List.pairwise_singleton _ _, fun a ha b hb => ?_⟩
        rw [List.mem_singleton] at hb
        by_contra hnot
        have hle : chebyshev a b ≤ occ_size := not_lt.mp hnot
        unfold chebyshev at hle
        rw [hb, hcx2, hcy2] at hle
        have h1 := hP.1 a ha _ _ hx0 hx1 hy0 hy1
          (by rw [abs_sub_comm]; exact le_trans (le_max_left _ _) hle)
          (by rw [abs_sub_comm]; exact le_trans (le_max_right _ _) hle)
        rw [hval] at h1
        rw [h1] at hlt
        exact absurd (lt_of_lt_of_le hlt hmax) (lt_irrefl _)

/-- The result of `ar2SelectFeature2`, when there is one and it is not
`NULL`, is read off the state in which the loop is left. -/
theorem ar2SelectFeature2_some (sqrtf : K → K) (owner : Int → Int) (fuel : Nat)
    (image : AR2ImageT K) (featureMap : AR2FeatureMapT K) (ts1 ts2 search_size2 occ_size : Int)
    (max_sim_thresh min_sim_thresh sd_thresh : K) (coords : List (AR2FeatureCoordT K)) (num : Int)
    (h : ar2SelectFeature2 sqrtf owner fuel image featureMap ts1 ts2 search_size2 occ_size
      max_sim_thresh min_sim_thresh sd_thresh = some (some (coords, num))) :
    ∃ st, select2Loop sqrtf owner image ts1 ts2 search_size2 (occ_size * 2) max_sim_thresh
        min_sim_thresh sd_thresh fuel (selectInit image featureMap, fun _ => 0) = some st ∧
      st.1.coord = coords ∧ st.1.num = num := by
  unfold ar2SelectFeature2 at h
  split_ifs at h with h1 h2
  · cases h
  · cases hl : select2Loop sqrtf owner image ts1 ts2 search_size2 (occ_size * 2) max_sim_thresh
      min_sim_thresh sd_thresh fuel (selectInit image featureMap, fun _ => 0) with
    | none => rw [hl] at h; cases h
    | some st =>
        rw [hl] at h
        have h3 := Option.some.inj (Option.some.inj h)
        exact ⟨st, rfl, congrArg Prod.fst h3, congrArg Prod.snd h3⟩

/-- With matching dimensions, `occ_size ≠ 0`, `ts1 + ts2 + 1 ≠ 0` and
`max_sim_thresh ≤ 1` the call of `ar2SelectFeature2` returns a block. -/
theorem ar2SelectFeature2_returns (sqrtf : K → K) (owner : Int → Int) (image : AR2ImageT K)
    (featureMap : AR2FeatureMapT K) (ts1 ts2 search_size2 occ_size : Int)
    (max_sim_thresh min_sim_thresh sd_thresh : K)
    (hdim : image.xsize = featureMap.xsize ∧ image.ysize = featureMap.ysize)
    (hocc : occ_size ≠ 0) (hts : ts1 + ts2 + 1 ≠ 0) (hmax : max_sim_thresh ≤ 1) :
    ∃ fuel coords num, ar2SelectFeature2 sqrtf owner fuel image featureMap ts1 ts2 search_size2
      occ_size max_sim_thresh min_sim_thresh sd_thresh = some (some (coords, num)) := by
  obtain ⟨st, hst⟩ := select2Loop_terminates sqrtf owner image ts1 ts2 search_size2
    (occ_size * 2) max_sim_thresh min_sim_thresh sd_thresh hmax _
    (selectInit image featureMap, fun _ => 0) (Nat.lt_succ_self _)
  refine ⟨((maxFeatureNum2 image.xsize image.ysize (occ_size * 2) ts1 ts2
      - (selectInit image featureMap).num).toNat
    + belowCount (selectInit image featureMap).fimage2 image.xsize image.ysize
      max_sim_thresh).succ, st.1.coord, st.1.num, ?_⟩
  unfold ar2SelectFeature2
  rw [if_neg (by rw [not_or, not_not, not_not]; exact hdim), if_neg (by omega), hst]
  rfl

end Select2StepLemmas

section Select2Theorems

variable {K : Type} [LinearOrderedField K]

/-- C13: for an image and a feature map of matching dimensions, `occ_size ≥ 1`
and `max_sim_thresh ≤ 1` (whatever rows the threads of the minimum search are
given), any two distinct entries of the sequence returned by
`ar2SelectFeature2` satisfy `max(|x1 - x2|, |y1 - y2|) > 2*occ_size`,
`occ_size` being the value passed by the caller; and the call does return a
sequence when `ts1 + ts2 + 1 ≠ 0`. -/
theorem select2_coords_separated (sqrtf : K → K) (owner : Int → Int) (image : AR2ImageT K)
    (featureMap : AR2FeatureMapT K) (ts1 ts2 search_size2 occ_size : Int)
    (max_sim_thresh min_sim_thresh sd_thresh : K)
    (hdim : image.xsize = featureMap.xsize ∧ image.ysize = featureMap.ysize)
    (hocc : 1 ≤ occ_size) (hmax : max_sim_thresh ≤ 1) :
    (ts1 + ts2 + 1 ≠ 0 →
      ∃ fuel coords num, ar2SelectFeature2 sqrtf owner fuel image featureMap ts1 ts2 search_size2
        occ_size max_sim_thresh min_sim_thresh sd_thresh = some (some (coords, num))) ∧
    ∀ fuel coords num, ar2SelectFeature2 sqrtf owner fuel image featureMap ts1 ts2 search_size2
      occ_size max_sim_thresh min_sim_thresh sd_thresh = some (some (coords, num)) →
      ∀ (i j : Nat) (hi : i < coords.length) (hj : j < coords.length), i ≠ j →
        2 * occ_size < max |(coords[i]).x - (coords[j]).x| |(coords[i]).y - (coords[j]).y| := by
  refine ⟨fun hts => ar2SelectFeature2_returns sqrtf owner image featureMap ts1 ts2 search_size2
    occ_size max_sim_thresh min_sim_thresh sd_thresh hdim (by omega) hts hmax, ?_⟩
  intro fuel coords num h i j hi hj hij
  obtain ⟨st, hl, hc, _⟩ := ar2SelectFeature2_some sqrtf owner fuel image featureMap ts1 ts2
    search_size2 occ_size max_sim_thresh min_sim_thresh sd_thresh coords num h
  have hinv := select2Loop_inv sqrtf owner image ts1 ts2 search_size2 (occ_size * 2)
    max_sim_thresh min_sim_thresh sd_thresh
    (fun s => selectSeparated image.xsize image.ysize (occ_size * 2) s.1)
    (fun s s1 hP hs => select2Separated_step sqrtf owner image ts1 ts2 search_size2
      (occ_size * 2) max_sim_thresh min_sim_thresh sd_thresh hmax s s1 hP hs)
    fuel (selectInit image featureMap, fun _ => 0) st
    ⟨fun c hc => absurd hc (List.not_mem_nil c), List.Pairwise.nil⟩ hl
  have hpw := hinv.2
  rw [hc, List.pairwise_iff_getElem] at hpw
  rw [mul_comm]
  rcases Nat.lt_or_gt_of_ne hij with hlt | hgt
  · exact hpw i j hi hj hlt
  · have := hpw j i hj hi hgt
    unfold chebyshev at this
    rw [abs_sub_comm (coords[i]).x, abs_sub_comm (coords[i]).y]
    exact this

end Select2Theorems

section ScanAgreeLemmas

variable {K : Type} [LinearOrderedField K]

/-- When the sequential scan finds no cell, `cy` is still `-1`. -/
theorem selectScan_cy_none (fimage2 : Int → K) (xsize ysize : Int) (max_sim_thresh : K)
    (h : (selectScan fimage2 xsize ysize max_sim_thresh).cx = -1) :
    (selectScan fimage2 xsize ysize max_sim_thresh).cy = -1 := by
  unfold selectScan at h ⊢
  have hinv := forLoop_inv
    (fun j (s : ScanState K) => forLoop 0 (xsize - 1)
      (fun i s =>
        if fimage2 s.fp2 < s.min_sim then
          ({ fp2 := s.fp2 + 1, min_sim := fimage2 s.fp2, cx := i, cy := j } : ScanState K)
        else { s with fp2 := s.fp2 + 1 })
      s)
    (fun _ s => s.cx = -1 → s.cy = -1)
    (ysize - 1 + 1 - 0).toNat 0 (ysize - 1)
    ({ fp2 := 0, min_sim := max_sim_thresh, cx := -1, cy := -1 } : ScanState K) rfl
    (fun _ => rfl) ?_
  · exact hinv h
  · intro R s _ hs
    beta_reduce
    refine forLoop_inv
      (fun i (s : ScanState K) =>
        if fimage2 s.fp2 < s.min_sim then
          ({ fp2 := s.fp2 + 1, min_sim := fimage2 s.fp2, cx := i, cy := 0 + (R : Int) }
            : ScanState K)
        else { s with fp2 := s.fp2 + 1 })
      (fun _ q => q.cx = -1 → q.cy = -1)
      (xsize - 1 + 1 - 0).toNat 0 (xsize - 1) s rfl hs ?_
    intro C q _ hq
    beta_reduce
    split_ifs with hlt
    · intro hc
      dsimp only at hc
      omega
    · exact hq

/-- When the scan of a thread finds no cell, its `j_tab` is still `-1`. -/
theorem threadScan_j_none (fp2 : Int → K) (xsize ysize : Int) (max_sim_thresh : K)
    (owner : Int → Int) (t : Int)
    (h : (threadScan fp2 xsize ysize max_sim_thresh owner t).i_tab = -1) :
    (threadScan fp2 xsize ysize max_sim_thresh owner t).j_tab = -1 := by
  unfold threadScan at h ⊢
  have hinv := forLoop_inv
    (fun j_t (s : ThreadMin K) =>
      if owner j_t = t then
        forLoop 0 (xsize - 1)
          (fun i_t (s : ThreadMin K) =>
            if fp2 (i_t + j_t * xsize) < s.min_tab then
              ({ min_tab := fp2 (i_t + j_t * xsize), i_tab := i_t, j_tab := j_t } : ThreadMin K)
            else s)
          s
      else s)
    (fun _ s => s.i_tab = -1 → s.j_tab = -1)
    (ysize - 1 + 1 - 0).toNat 0 (ysize - 1)
    ({ min_tab := max_sim_thresh, i_tab := -1, j_tab := -1 } : ThreadMin K) rfl
    (fun _ => rfl) ?_
  · exact hinv h
  · intro R s _ hs
    beta_reduce
    split_ifs with hown
    · refine forLoop_inv
        (fun i_t (s : ThreadMin K) =>
          if fp2 (i_t + (0 + (R : Int)) * xsize) < s.min_tab then
            ({ min_tab := fp2 (i_t + (0 + (R : Int)) * xsize), i_tab := i_t,
               j_tab := 0 + (R : Int) } : ThreadMin K)
          else s)
        (fun _ q => q.i_tab = -1 → q.j_tab = -1)
        (xsize - 1 + 1 - 0).toNat 0 (xsize - 1) s rfl hs ?_
      intro C q _ hq
      beta_reduce
      split_ifs with hlt
      · intro hc
        dsimp only at hc
        omega
      · exact hq
    · exact hs

/-- With the rows given to the threads `0..3` in contiguous blocks of
increasing row order, the minimum search of `ar2SelectFeature2` returns the
`(min_sim, cx, cy)` of the sequential scan of `ar2SelectFeature`. -/
theorem select2Scan_eq_selectScan (fp2 : Int → K) (xsize ysize : Int) (max_sim_thresh : K)
    (owner : Int → Int) (hown : ∀ j, 0 ≤ owner j ∧ owner j ≤ 3)
    (hmono : ∀ j j2, j ≤ j2 → owner j ≤ owner j2) :
    (select2Scan fp2 xsize ysize max_sim_thresh owner).min_tab
        = (selectScan fp2 xsize ysize max_sim_thresh).min_sim ∧
    (select2Scan fp2 xsize ysize max_sim_thresh owner).i_tab
        = (selectScan fp2 xsize ysize max_sim_thresh).cx ∧
    (select2Scan fp2 xsize ysize max_sim_thresh owner).j_tab
        = (selectScan fp2 xsize ysize max_sim_thresh).cy := by
  have hS : threadScan fp2 xsize ysize max_sim_thresh owner
      (minThread (threadScan fp2 xsize ysize max_sim_thresh owner))
      = select2Scan fp2 xsize ysize max_sim_thresh owner := rfl
  obtain ⟨m0, m3, hm⟩ := minThread_spec (threadScan fp2 xsize ysize max_sim_thresh owner)
  rw [hS] at hm
  have hall : ∀ x y : Int, 0 ≤ x → x < xsize → 0 ≤ y → y < ysize →
      (select2Scan fp2 xsize ysize max_sim_thresh owner).min_tab ≤ fp2 (y * xsize + x) := by
    intro x y a1 a2 a3 a4
    have h1 := (threadScan_spec fp2 xsize ysize max_sim_thresh owner (owner y)).2.2.2 x y a1 a2
      a3 a4 rfl
    rw [add_comm] at h1
    exact le_trans (hm (owner y) (hown y).1 (hown y).2).1 h1
  have hspec := threadScan_spec fp2 xsize ysize max_sim_thresh owner
    (minThread (threadScan fp2 xsize ysize max_sim_thresh owner))
  rw [hS] at hspec
  obtain ⟨t1, t2, t3, _⟩ := hspec
  have smin := selectScan_min fp2 xsize ysize max_sim_thresh
  have slin := selectScan_linear fp2 xsize ysize max_sim_thresh
  by_cases hb : (select2Scan fp2 xsize ysize max_sim_thresh owner).i_tab = -1
  · have hbm : (select2Scan fp2 xsize ysize max_sim_thresh owner).min_tab = max_sim_thresh :=
      t2 hb
    have hbj : (select2Scan fp2 xsize ysize max_sim_thresh owner).j_tab = -1 :=
      threadScan_j_none fp2 xsize ysize max_sim_thresh owner _ hb
    have ha : (selectScan fp2 xsize ysize max_sim_thresh).cx = -1 := by
      rcases selectScan_spec fp2 xsize ysize max_sim_thresh with h | ⟨a1, a2, a3, a4, a5, a6⟩
      · exact h
      · exfalso
        have := hall _ _ a1 a2 a3 a4
        rw [a5, hbm] at this
        exact absurd a6 (not_lt.mpr this)
    refine ⟨by rw [hbm, slin.2.1 ha], by rw [hb, ha], ?_⟩
    rw [selectScan_cy_none fp2 xsize ysize max_sim_thresh ha]
    exact hbj
  · obtain ⟨b1, b2, b3, b4, b5, b6, b7, b8⟩ := t3 hb
    have b6c : fp2 ((select2Scan fp2 xsize ysize max_sim_thresh owner).j_tab * xsize
        + (select2Scan fp2 xsize ysize max_sim_thresh owner).i_tab)
        = (select2Scan fp2 xsize ysize max_sim_thresh owner).min_tab := by
      rw [add_comm]
      exact b6
    have ha : (selectScan fp2 xsize ysize max_sim_thresh).cx ≠ -1 := by
      intro hc
      have := smin.1 hc _ _ b1 b2 b3 b4
      rw [b6c] at this
      exact this b7
    rcases selectScan_spec fp2 xsize ysize max_sim_thresh with h | ⟨a1, a2, a3, a4, a5, a6⟩
    · exact absurd h ha
    · have hmin_eq : (select2Scan fp2 xsize ysize max_sim_thresh owner).min_tab
          = (selectScan fp2 xsize ysize max_sim_thresh).min_sim := by
        apply le_antisymm
        · have := hall _ _ a1 a2 a3 a4
          rw [a5] at this
          exact this
        · have := (smin.2 ha _ _ b1 b2 b3 b4).1
          rw [b6c] at this
          exact this
      -- the cell of the parallel search is strictly below every earlier cell
      have hfirst : ∀ x y : Int, 0 ≤ x → x < xsize → 0 ≤ y → y < ysize →
          (y < (select2Scan fp2 xsize ysize max_sim_thresh owner).j_tab ∨
            (y = (select2Scan fp2 xsize ysize max_sim_thresh owner).j_tab ∧
              x < (select2Scan fp2 xsize ysize max_sim_thresh owner).i_tab)) →
          (select2Scan fp2 xsize ysize max_sim_thresh owner).min_tab < fp2 (y * xsize + x) := by
        intro x y c1 c2 c3 c4 hearly
        rw [add_comm]
        have hle : owner y ≤ minThread (threadScan fp2 xsize ysize max_sim_thresh owner) := by
          have := hmono y (select2Scan fp2 xsize ysize max_sim_thresh owner).j_tab (by omega)
          rw [show owner (select2Scan fp2 xsize ysize max_sim_thresh owner).j_tab
            = minThread (threadScan fp2 xsize ysize max_sim_thresh owner) from b5] at this
          exact this
        rcases lt_or_eq_of_le hle with hlt | heq
        · have h1 := (threadScan_spec fp2 xsize ysize max_sim_thresh owner (owner y)).2.2.2 x y
            c1 c2 c3 c4 rfl
          exact lt_of_lt_of_le ((hm (owner y) (hown y).1 (hown y).2).2 hlt) h1
        · exact b8 x y c1 c2 c3 heq hearly
      have hpos : (select2Scan fp2 xsize ysize max_sim_thresh owner).j_tab
            = (selectScan fp2 xsize ysize max_sim_thresh).cy ∧
          (select2Scan fp2 xsize ysize max_sim_thresh owner).i_tab
            = (selectScan fp2 xsize ysize max_sim_thresh).cx := by
        by_contra hne
        rcases (show ((selectScan fp2 xsize ysize max_sim_thresh).cy
              < (select2Scan fp2 xsize ysize max_sim_thresh owner).j_tab ∨
            ((selectScan fp2 xsize ysize max_sim_thresh).cy
                = (select2Scan fp2 xsize ysize max_sim_thresh owner).j_tab ∧
              (selectScan fp2 xsize ysize max_sim_thresh).cx
                < (select2Scan fp2 xsize ysize max_sim_thresh owner).i_tab)) ∨
            ((select2Scan fp2 xsize ysize max_sim_thresh owner).j_tab
              < (selectScan fp2 xsize ysize max_sim_thresh).cy ∨
            ((select2Scan fp2 xsize ysize max_sim_thresh owner).j_tab
                = (selectScan fp2 xsize ysize max_sim_thresh).cy ∧
              (select2Scan fp2 xsize ysize max_sim_thresh owner).i_tab
                < (selectScan fp2 xsize ysize max_sim_thresh).cx)) by omega) with h | h
        · have := hfirst _ _ a1 a2 a3 a4 h
          rw [a5, hmin_eq] at this
          exact absurd this (lt_irrefl _)
        · have := (smin.2 ha _ _ b1 b2 b3 b4).2 h
          rw [b6c, hmin_eq] at this
          exact absurd this (lt_irrefl _)
      exact ⟨hmin_eq, hpos.2, hpos.1⟩

end ScanAgreeLemmas

section VerifyZeroLemmas

variable {K : Type} [LinearOrderedField K]

/-- With `search_size2 = 0` the re-verification of `ar2SelectFeature` has no
offset to examine. -/
theorem selectVerify_zero (sqrtf : K → K) (imageBW : Int → Nat) (xsize ysize : Int)
    (template : Int → K) (vlen : K) (ts1 ts2 cx cy : Int) (min_sim_thresh min_sim : K) :
    selectVerify sqrtf imageBW xsize ysize template vlen ts1 ts2 0 cx cy min_sim_thresh min_sim
      = (1, -1) := by
  unfold selectVerify
  have hin : forBreak (-0) 0
      (verifyBody sqrtf imageBW xsize ysize template vlen ts1 ts2 0 cx cy min_sim_thresh min_sim
        (-0)) ((1 : K), (-1 : K)) = (1, -1) := by
    rw [forBreak, if_pos (by norm_num)]
    have hb : verifyBody sqrtf imageBW xsize ysize template vlen ts1 ts2 0 cx cy min_sim_thresh
        min_sim (-0) (-0) ((1 : K), (-1 : K)) = ((1, -1), false) := by
      unfold verifyBody
      rw [if_neg (by norm_num), if_pos (by norm_num)]
    rw [hb]
    dsimp only
    rw [if_neg (by decide), forBreak, if_neg (by norm_num)]
  rw [forBreak, if_pos (by norm_num)]
  dsimp only
  rw [hin]
  by_cases hv : verifyStop min_sim_thresh min_sim ((1 : K), (-1 : K)) = true
  · rw [if_pos hv]
  · rw [if_neg hv, forBreak, if_neg (by norm_num)]

/-- With `search_size2 = 0` the re-verification of `ar2SelectFeature2` has no
offset to examine. -/
theorem selectVerify2_zero (sqrtf : K → K) (imageBW : Int → Nat) (xsize ysize : Int)
    (template : Int → K) (vlen : K) (ts1 ts2 cx cy : Int) (min_sim_thresh min_sim : K)
    (tile : Int → K) :
    (selectVerify2 sqrtf imageBW xsize ysize template vlen ts1 ts2 0 cx cy min_sim_thresh min_sim
      tile).1 = (1, -1) := by
  unfold selectVerify2
  have hrun : verifyRun xsize ysize cx cy ts1 ts2 0 (-0) (-0) (-0) = -0 := by
    rw [verifyRun, dif_pos (by norm_num), if_neg (by norm_num), if_pos (by norm_num)]
  have hrow : verifyRow2 sqrtf imageBW xsize ysize template vlen ts1 ts2 0 cx cy min_sim_thresh
      min_sim (-0) (-0) (((1 : K), (-1 : K)), tile) = ((1, -1), tile) := by
    rw [verifyRow2, dif_pos (by norm_num), if_pos hrun, verifyRow2, dif_neg (by norm_num)]
  rw [forBreak, if_pos (by norm_num)]
  dsimp only
  rw [hrow]
  by_cases hv : verifyStop min_sim_thresh min_sim ((1 : K), (-1 : K)) = true
  · rw [if_pos hv]
  · rw [if_neg hv, forBreak, if_neg (by norm_num)]

end VerifyZeroLemmas

section SelectFullLemmas

variable {K : Type} [LinearOrderedField K]

/-- An iteration whose minimum scan finds no cell leaves the loop. -/
theorem selectStep_none_of_full (sqrtf : K → K) (image : AR2ImageT K)
    (ts1 ts2 search_size2 occ_size : Int) (max_sim_thresh min_sim_thresh sd_thresh : K)
    (st : SelectState K)
    (hfull : ∀ x y : Int, 0 ≤ x → x < image.xsize → 0 ≤ y → y < image.ysize →
      ¬ st.fimage2 (y * image.xsize + x) < max_sim_thresh) :
    selectStep sqrtf image ts1 ts2 search_size2 occ_size max_sim_thresh min_sim_thresh sd_thresh
      st = none := by
  have hcx : (selectScan st.fimage2 image.xsize image.ysize max_sim_thresh).cx = -1 := by
    rcases selectScan_spec st.fimage2 image.xsize image.ysize max_sim_thresh with
      h | ⟨a1, a2, a3, a4, a5, a6⟩
    · exact h
    · exfalso
      apply hfull _ _ a1 a2 a3 a4
      rw [a5]
      exact a6
  unfold selectStep
  by_cases h1 : st.num < maxFeatureNum image.xsize image.ysize occ_size
  · rw [if_neg (not_not.mpr h1)]
    dsimp only
    rw [if_pos hcx]
  · rw [if_pos h1]

end SelectFullLemmas

/-- The first iteration of `ar2SelectFeature` on the 2×2 sample with
`occ_size = 2`: the origin is accepted and the whole map occluded. -/
theorem sample_select_accepts_two :
    ∃ st1, selectStep (fun x : ℚ => x) sampleImageT 0 1 1 2 (9 / 10) (3 / 10) 0
        (selectInit sampleImageT sampleMap) = some st1 ∧
      st1.num = 1 ∧ st1.coord.map (fun c => (c.x, c.y)) = [(0, 0)] ∧
      st1.fimage2 = occlude (copyMap sampleMap.map 2 2) 2 2 0 0 2 := by
  have hmt : make_template (fun x : ℚ => x) sampleImage 2 2 0 0 0 1 0 (fun _ => 0)
      = some ((templateFill sampleImage 2 0 0 0 1 (patchMean sampleImage 2 0 0 0 1)
          (fun _ => (0 : ℚ))).1, 12) := by
    rw [make_template_eq, if_neg (by decide), sample_patchSqDev_rat, if_neg (by norm_num),
      if_neg (by norm_num)]
  unfold selectStep
  rw [if_neg (by simp [selectInit, maxFeatureNum, sampleImageT])]
  have hs : selectScan (selectInit sampleImageT sampleMap).fimage2 sampleImageT.xsize
      sampleImageT.ysize (9 / 10 : ℚ) = { fp2 := 4, min_sim := 1 / 2, cx := 0, cy := 0 } :=
    sample_select_scan
  dsimp only
  rw [hs]
  dsimp only
  rw [if_neg (by decide)]
  have hmt2 : make_template (fun x : ℚ => x) sampleImageT.imgBW sampleImageT.xsize
      sampleImageT.ysize 0 0 0 1 0 (selectInit sampleImageT sampleMap).template
      = some ((templateFill sampleImage 2 0 0 0 1 (patchMean sampleImage 2 0 0 0 1)
          (fun _ => (0 : ℚ))).1, 12) := hmt
  rw [hmt2]
  dsimp only
  rw [if_neg (by norm_num)]
  have hv := sample_select_verify (templateFill sampleImage 2 0 0 0 1
    (patchMean sampleImage 2 0 0 0 1) (fun _ => (0 : ℚ))).1 12
  have hv2 : selectVerify (fun x : ℚ => x) sampleImageT.imgBW sampleImageT.xsize
      sampleImageT.ysize (templateFill sampleImage 2 0 0 0 1 (patchMean sampleImage 2 0 0 0 1)
        (fun _ => (0 : ℚ))).1 12 0 1 1 0 0 (3 / 10) (1 / 2) = (1, -1) := hv
  rw [hv2, if_neg (by simp [verifyStop]; norm_num)]
  exact ⟨_, rfl, rfl, rfl, rfl⟩

section SelectBelowLemmas

variable {K : Type} [LinearOrderedField K]

/-- With `max_sim_thresh ≤ 1` and `occ_size ≥ 0` an iteration that continues
the loop overwrites cells with `1.0f` only, the selected cell among them, and
so lowers the number of cells below `max_sim_thresh`. -/
theorem selectStep_below (sqrtf : K → K) (image : AR2ImageT K)
    (ts1 ts2 search_size2 occ_size : Int) (max_sim_thresh min_sim_thresh sd_thresh : K)
    (hocc : 0 ≤ occ_size) (hmax : max_sim_thresh ≤ 1) (st st1 : SelectState K)
    (h : selectStep sqrtf image ts1 ts2 search_size2 occ_size max_sim_thresh min_sim_thresh
      sd_thresh st = some st1) :
    (∀ idx : Int, st1.fimage2 idx = 1 ∨ st1.fimage2 idx = st.fimage2 idx) ∧
    st1.fimage2 ((selectScan st.fimage2 image.xsize image.ysize max_sim_thresh).cy * image.xsize
      + (selectScan st.fimage2 image.xsize image.ysize max_sim_thresh).cx) = 1 ∧
    belowCount st1.fimage2 image.xsize image.ysize max_sim_thresh
      < belowCount st.fimage2 image.xsize image.ysize max_sim_thresh := by
  obtain ⟨_, hcx, hcase⟩ := selectStep_some sqrtf image ts1 ts2 search_size2 occ_size
    max_sim_thresh min_sim_thresh sd_thresh st st1 h
  rcases selectScan_spec st.fimage2 image.xsize image.ysize max_sim_thresh with hsc | hsc
  · exact absurd hsc hcx
  · obtain ⟨hx0, hx1, hy0, hy1, hval, hlt⟩ := hsc
    have hrange := cell_index_range image.xsize image.ysize _ _ hx0 hx1 hy0 hy1
    have hall : ∀ idx : Int, st1.fimage2 idx = 1 ∨ st1.fimage2 idx = st.fimage2 idx := by
      intro idx
      rcases hcase with ⟨hf, _, _⟩ | ⟨hf, _, _⟩
      · rw [hf]; exact update_one_or _ _ _
      · rw [hf]; exact (occlude_spec _ _ _ _ _ _).1 idx
    have hsel : st1.fimage2
        ((selectScan st.fimage2 image.xsize image.ysize max_sim_thresh).cy * image.xsize
          + (selectScan st.fimage2 image.xsize image.ysize max_sim_thresh).cx) = 1 := by
      rcases hcase with ⟨hf, _, _⟩ | ⟨hf, _, _⟩
      · rw [hf, Function.update_same]
      · rw [hf]
        exact (occlude_spec st.fimage2 image.xsize image.ysize _ _ occ_size).2 _ _ hx0 hx1 hy0 hy1
          (by rw [sub_self, abs_zero]; exact hocc) (by rw [sub_self, abs_zero]; exact hocc)
    exact ⟨hall, hsel, belowCount_lt st.fimage2 st1.fimage2 image.xsize image.ysize
      max_sim_thresh hmax hall _ hrange.1 hrange.2 (by rw [hval]; exact hlt) hsel⟩

/-- With `max_sim_thresh ≤ 1` and `occ_size ≥ 0` the loop is left within
(number of cells below `max_sim_thresh`) + 1 iterations. -/
theorem selectLoop_within (sqrtf : K → K) (image : AR2ImageT K)
    (ts1 ts2 search_size2 occ_size : Int) (max_sim_thresh min_sim_thresh sd_thresh : K)
    (hocc : 0 ≤ occ_size) (hmax : max_sim_thresh ≤ 1) :
    ∀ (fuel : Nat) (st : SelectState K),
      belowCount st.fimage2 image.xsize image.ysize max_sim_thresh < fuel →
      ∃ st1, selectLoop sqrtf image ts1 ts2 search_size2 occ_size max_sim_thresh min_sim_thresh
        sd_thresh fuel st = some st1 := by
  intro fuel
  induction fuel with
  | zero => intro st h; exact absurd h (Nat.not_lt_zero _)
  | succ m ih =>
      intro st hm
      rw [selectLoop]
      cases hstep : selectStep sqrtf image ts1 ts2 search_size2 occ_size max_sim_thresh
          min_sim_thresh sd_thresh st with
      | none => exact ⟨st, rfl⟩
      | some st1 =>
          have := (selectStep_below sqrtf image ts1 ts2 search_size2 occ_size max_sim_thresh
            min_sim_thresh sd_thresh hocc hmax st st1 hstep).2.2
          exact ih st1 (by omega)

/-- C26: if `max_sim_thresh ≤ 1` and `occ_size ≥ 1`, every iteration of the
loop of `ar2SelectFeature` that does not exit overwrites working-map cells
with `1.0` only, overwrites the selected cell, and strictly decreases the
number of working-map cells below `max_sim_thresh`; hence `n` completed
iterations leave at most (number of input-map cells below the threshold)
`- n` such cells, and the loop is left within that number `+ 1` iterations. -/
theorem select_iterations_bounded (sqrtf : K → K) (image : AR2ImageT K)
    (featureMap : AR2FeatureMapT K) (ts1 ts2 search_size2 occ_size : Int)
    (max_sim_thresh min_sim_thresh sd_thresh : K) (hocc : 1 ≤ occ_size)
    (hmax : max_sim_thresh ≤ 1) :
    (∀ st st1, selectStep sqrtf image ts1 ts2 search_size2 occ_size max_sim_thresh min_sim_thresh
        sd_thresh st = some st1 →
      (∀ idx : Int, st1.fimage2 idx = 1 ∨ st1.fimage2 idx = st.fimage2 idx) ∧
      st1.fimage2 ((selectScan st.fimage2 image.xsize image.ysize max_sim_thresh).cy * image.xsize
        + (selectScan st.fimage2 image.xsize image.ysize max_sim_thresh).cx) = 1 ∧
      belowCount st1.fimage2 image.xsize image.ysize max_sim_thresh
        < belowCount st.fimage2 image.xsize image.ysize max_sim_thresh) ∧
    (∀ n st, selectIter sqrtf image ts1 ts2 search_size2 occ_size max_sim_thresh min_sim_thresh
        sd_thresh n (selectInit image featureMap) = some st →
      n + belowCount st.fimage2 image.xsize image.ysize max_sim_thresh
        ≤ belowCount (selectInit image featureMap).fimage2 image.xsize image.ysize
          max_sim_thresh) ∧
    (∃ st, selectLoop sqrtf image ts1 ts2 search_size2 occ_size max_sim_thresh min_sim_thresh
      sd_thresh
      (belowCount (selectInit image featureMap).fimage2 image.xsize image.ysize max_sim_thresh + 1)
      (selectInit image featureMap) = some st) := by
  have hocc0 : 0 ≤ occ_size := by omega
  refine ⟨fun st st1 h => selectStep_below sqrtf image ts1 ts2 search_size2 occ_size
    max_sim_thresh min_sim_thresh sd_thresh hocc0 hmax st st1 h, ?_,
    selectLoop_within sqrtf image ts1 ts2 search_size2 occ_size max_sim_thresh min_sim_thresh
      sd_thresh hocc0 hmax _ _ (Nat.lt_succ_self _)⟩
  intro n
  induction n with
  | zero =>
      intro st h
      have := Option.some.inj h
      rw [← this]
      omega
  | succ m ih =>
      intro st h
      rw [selectIter] at h
      cases hs : selectIter sqrtf image ts1 ts2 search_size2 occ_size max_sim_thresh
          min_sim_thresh sd_thresh m (selectInit image featureMap) with
      | none => rw [hs] at h; simp at h
      | some s1 =>
          rw [hs] at h
          have h1 := ih s1 hs
          have h2 := (selectStep_below sqrtf image ts1 ts2 search_size2 occ_size max_sim_thresh
            min_sim_thresh sd_thresh hocc0 hmax s1 st h).2.2
          omega

end SelectBelowLemmas

/-- C26, witness: the 2×2 sample image and map with `occ_size = 1` and
`max_sim_thresh = 9/10`. -/
theorem select_iterations_bounded_witness :
    (∀ st st1, selectStep (fun x : ℚ => x) sampleImageT 0 1 1 1 (9 / 10) (3 / 10) 0 st = some st1 →
      (∀ idx : Int, st1.fimage2 idx = 1 ∨ st1.fimage2 idx = st.fimage2 idx) ∧
      st1.fimage2 ((selectScan st.fimage2 sampleImageT.xsize sampleImageT.ysize (9 / 10)).cy
          * sampleImageT.xsize
        + (selectScan st.fimage2 sampleImageT.xsize sampleImageT.ysize (9 / 10)).cx) = 1 ∧
      belowCount st1.fimage2 sampleImageT.xsize sampleImageT.ysize (9 / 10)
        < belowCount st.fimage2 sampleImageT.xsize sampleImageT.ysize (9 / 10)) ∧
    (∀ n st, selectIter (fun x : ℚ => x) sampleImageT 0 1 1 1 (9 / 10) (3 / 10) 0 n
        (selectInit sampleImageT sampleMap) = some st →
      n + belowCount st.fimage2 sampleImageT.xsize sampleImageT.ysize (9 / 10)
        ≤ belowCount (selectInit sampleImageT sampleMap).fimage2 sampleImageT.xsize
          sampleImageT.ysize (9 / 10)) ∧
    (∃ st, selectLoop (fun x : ℚ => x) sampleImageT 0 1 1 1 (9 / 10) (3 / 10) 0
      (belowCount (selectInit sampleImageT sampleMap).fimage2 sampleImageT.xsize
        sampleImageT.ysize (9 / 10) + 1)
      (selectInit sampleImageT sampleMap) = some st) :=
  select_iterations_bounded (fun x : ℚ => x) sampleImageT sampleMap 0 1 1 1 (9 / 10) (3 / 10) 0
    (by decide) (by norm_num)

section ParallelSearch

variable {K : Type} [LinearOrderedField K]

/-- The scan of a thread depends on the assignment of the rows
`0 .. ysize-1` only. -/
theorem threadScan_congr (fp2 : Int → K) (xsize ysize : Int) (max_sim_thresh : K)
    (owner owner2 : Int → Int) (h : ∀ j, 0 ≤ j → j < ysize → owner j = owner2 j) (t : Int) :
    threadScan fp2 xsize ysize max_sim_thresh owner t
      = threadScan fp2 xsize ysize max_sim_thresh owner2 t := by
  unfold threadScan
  refine forLoop_congr 0 (ysize - 1) _ _ _ (fun v s h0 h1 => ?_)
  beta_reduce
  rw [h v h0 (by omega)]

/-- C24: when the rows `0 .. ysize-1` are split into contiguous blocks given
to the workers `0..3` in increasing row order, the minimum search of
`ar2SelectFeature2` (per-worker scans followed by the reduction) returns the
`(min_sim, cx, cy)` of the sequential row-major scan of `ar2SelectFeature` on
the same working map; when no cell is below `max_sim_thresh` both return
`(cx, cy) = (-1, -1)` with `min_sim = max_sim_thresh`. -/
theorem parallel_search_eq_sequential (fp2 : Int → K) (xsize ysize : Int) (max_sim_thresh : K)
    (owner : Int → Int)
    (hown : ∀ j, 0 ≤ j → j < ysize → 0 ≤ owner j ∧ owner j ≤ 3)
    (hmono : ∀ j j2, 0 ≤ j → j ≤ j2 → j2 < ysize → owner j ≤ owner j2) :
    ((select2Scan fp2 xsize ysize max_sim_thresh owner).min_tab
        = (selectScan fp2 xsize ysize max_sim_thresh).min_sim ∧
      (select2Scan fp2 xsize ysize max_sim_thresh owner).i_tab
        = (selectScan fp2 xsize ysize max_sim_thresh).cx ∧
      (select2Scan fp2 xsize ysize max_sim_thresh owner).j_tab
        = (selectScan fp2 xsize ysize max_sim_thresh).cy) ∧
    ((∀ x y : Int, 0 ≤ x → x < xsize → 0 ≤ y → y < ysize →
        ¬ fp2 (y * xsize + x) < max_sim_thresh) →
      (select2Scan fp2 xsize ysize max_sim_thresh owner).min_tab = max_sim_thresh ∧
      (select2Scan fp2 xsize ysize max_sim_thresh owner).i_tab = -1 ∧
      (select2Scan fp2 xsize ysize max_sim_thresh owner).j_tab = -1) := by
  -- an assignment of all rows that agrees with `owner` on `0 .. ysize-1`
  obtain ⟨owner2, hag, hown2, hmono2⟩ : ∃ owner2 : Int → Int,
      (∀ j, 0 ≤ j → j < ysize → owner j = owner2 j) ∧
      (∀ j, 0 ≤ owner2 j ∧ owner2 j ≤ 3) ∧ (∀ j j2, j ≤ j2 → owner2 j ≤ owner2 j2) := by
    by_cases hy : 0 < ysize
    · refine ⟨fun j => owner (max 0 (min j (ysize - 1))), fun j h0 h1 => ?_, fun j => ?_,
        fun j j2 h => ?_⟩
      · dsimp only
        rw [min_eq_left (by omega), max_eq_right h0]
      · exact hown _ (le_max_left _ _) (by
          have := min_le_right j (ysize - 1)
          rcases max_choice 0 (min j (ysize - 1)) with h | h <;> omega)
      · refine hmono _ _ (le_max_left _ _)
          (max_le_max (le_refl _) (min_le_min h (le_refl _))) ?_
        have := min_le_right j2 (ysize - 1)
        rcases max_choice 0 (min j2 (ysize - 1)) with h | h <;> omega
    · exact ⟨fun _ => 0, fun j h0 h1 => by omega, fun _ => ⟨le_refl _, by norm_num⟩,
        fun _ _ _ => le_refl _⟩
  have hscan : select2Scan fp2 xsize ysize max_sim_thresh owner
      = select2Scan fp2 xsize ysize max_sim_thresh owner2 := by
    unfold select2Scan
    have htab : threadScan fp2 xsize ysize max_sim_thresh owner
        = threadScan fp2 xsize ysize max_sim_thresh owner2 :=
      funext (fun t => threadScan_congr fp2 xsize ysize max_sim_thresh owner owner2 hag t)
    rw [htab]
  have heq := select2Scan_eq_selectScan fp2 xsize ysize max_sim_thresh owner2 hown2 hmono2
  rw [← hscan] at heq
  refine ⟨heq, fun hnone => ?_⟩
  have hcx : (selectScan fp2 xsize ysize max_sim_thresh).cx = -1 := by
    rcases selectScan_spec fp2 xsize ysize max_sim_thresh with h | ⟨a1, a2, a3, a4, a5, a6⟩
    · exact h
    · exfalso
      apply hnone _ _ a1 a2 a3 a4
      rw [a5]
      exact a6
  rw [heq.1, heq.2.1, heq.2.2]
  exact ⟨(selectScan_linear fp2 xsize ysize max_sim_thresh).2.1 hcx, hcx,
    selectScan_cy_none fp2 xsize ysize max_sim_thresh hcx⟩

end ParallelSearch

/-- C24, witness: the working copy of the 2×2 sample map, row `0` given to
worker `0` and row `1` to worker `1`. -/
theorem parallel_search_eq_sequential_witness :
    ((select2Scan (copyMap sampleMap.map 2 2) 2 2 (9 / 10 : ℚ) (fun j => j)).min_tab
        = (selectScan (copyMap sampleMap.map 2 2) 2 2 (9 / 10 : ℚ)).min_sim ∧
      (select2Scan (copyMap sampleMap.map 2 2) 2 2 (9 / 10 : ℚ) (fun j => j)).i_tab
        = (selectScan (copyMap sampleMap.map 2 2) 2 2 (9 / 10 : ℚ)).cx ∧
      (select2Scan (copyMap sampleMap.map 2 2) 2 2 (9 / 10 : ℚ) (fun j => j)).j_tab
        = (selectScan (copyMap sampleMap.map 2 2) 2 2 (9 / 10 : ℚ)).cy) ∧
    ((∀ x y : Int, 0 ≤ x → x < 2 → 0 ≤ y → y < 2 →
        ¬ copyMap sampleMap.map 2 2 (y * 2 + x) < (9 / 10 : ℚ)) →
      (select2Scan (copyMap sampleMap.map 2 2) 2 2 (9 / 10 : ℚ) (fun j => j)).min_tab = 9 / 10 ∧
      (select2Scan (copyMap sampleMap.map 2 2) 2 2 (9 / 10 : ℚ) (fun j => j)).i_tab = -1 ∧
      (select2Scan (copyMap sampleMap.map 2 2) 2 2 (9 / 10 : ℚ) (fun j => j)).j_tab = -1) :=
  parallel_search_eq_sequential (copyMap sampleMap.map 2 2) 2 2 (9 / 10) (fun j => j)
    (fun j h0 h1 => ⟨h0, by dsimp only; omega⟩) (fun j j2 _ h _ => h)

section TileCallLemmas

/-- What the run detection of `ar2SelectFeature2` returns: a position not
before the start, every position of the run being inside the disk, not the
centre, with its patch inside the image, within the window and the tile. -/
theorem verifyRun_spec (xsize ysize cx cy ts1 ts2 search_size2 j i : Int) :
    ∀ (n : Nat) (it : Int), (512 + i - it).toNat ≤ n →
      it ≤ verifyRun xsize ysize cx cy ts1 ts2 search_size2 j i it ∧
      (∀ x, it ≤ x → x < verifyRun xsize ysize cx cy ts1 ts2 search_size2 j i it →
        ¬ (x * x + j * j > search_size2 * search_size2) ∧ ¬ (x = 0 ∧ j = 0) ∧
        ¬ patchOutside xsize ysize (cx + x) (cy + j) ts1 ts2 ∧ x ≤ search_size2 ∧
        x < 512 + i) := by
  intro n
  induction n with
  | zero =>
      intro it hn
      rw [verifyRun, dif_neg (by omega)]
      exact ⟨le_refl _, fun x h1 h2 => by omega⟩
  | succ m ih =>
      intro it hn
      rw [verifyRun]
      by_cases hc : it ≤ search_size2 ∧ it < 512 + i
      · rw [dif_pos hc]
        by_cases hd : it * it + j * j > search_size2 * search_size2
        · rw [if_pos hd]
          exact ⟨le_refl _, fun x h1 h2 => by omega⟩
        · rw [if_neg hd]
          by_cases hz : it = 0 ∧ j = 0
          · rw [if_pos hz]
            exact ⟨le_refl _, fun x h1 h2 => by omega⟩
          · rw [if_neg hz]
            by_cases ho : patchOutside xsize ysize (cx + it) (cy + j) ts1 ts2
            · rw [if_pos ho]
              exact ⟨le_refl _, fun x h1 h2 => by omega⟩
            · rw [if_neg ho]
              obtain ⟨h1, h2⟩ := ih (it + 1) (by omega)
              refine ⟨by omega, fun x hx1 hx2 => ?_⟩
              by_cases hx : x = it
              · rw [hx]
                exact ⟨hd, hz, ho, hc.1, hc.2⟩
              · exact h2 x (by omega) hx2
      · rw [dif_neg hc]
        exact ⟨le_refl _, fun x h1 h2 => by omega⟩

/-- Where the run detection of `ar2SelectFeature2` stops: at a position
beyond the window or the tile, outside the disk, at the centre, or whose patch
crosses the image bounds. -/
theorem verifyRun_stop (xsize ysize cx cy ts1 ts2 search_size2 j i : Int) :
    ∀ (n : Nat) (it : Int), (512 + i - it).toNat ≤ n →
      ¬ (verifyRun xsize ysize cx cy ts1 ts2 search_size2 j i it ≤ search_size2 ∧
          verifyRun xsize ysize cx cy ts1 ts2 search_size2 j i it < 512 + i) ∨
      verifyRun xsize ysize cx cy ts1 ts2 search_size2 j i it
          * verifyRun xsize ysize cx cy ts1 ts2 search_size2 j i it + j * j
        > search_size2 * search_size2 ∨
      (verifyRun xsize ysize cx cy ts1 ts2 search_size2 j i it = 0 ∧ j = 0) ∨
      patchOutside xsize ysize
        (cx + verifyRun xsize ysize cx cy ts1 ts2 search_size2 j i it) (cy + j) ts1 ts2 := by
  intro n
  induction n with
  | zero =>
      intro it hn
      rw [verifyRun, dif_neg (by omega)]
      exact Or.inl (by omega)
  | succ m ih =>
      intro it hn
      rw [verifyRun]
      by_cases hc : it ≤ search_size2 ∧ it < 512 + i
      · rw [dif_pos hc]
        by_cases hd : it * it + j * j > search_size2 * search_size2
        · rw [if_pos hd]
          exact Or.inr (Or.inl hd)
        · rw [if_neg hd]
          by_cases hz : it = 0 ∧ j = 0
          · rw [if_pos hz]
            exact Or.inr (Or.inr (Or.inl hz))
          · rw [if_neg hz]
            by_cases ho : patchOutside xsize ysize (cx + it) (cy + j) ts1 ts2
            · rw [if_pos ho]
              exact Or.inr (Or.inr (Or.inr ho))
            · rw [if_neg ho]
              exact ih (it + 1) (by omega)
      · rw [dif_neg hc]
        exact Or.inl hc

/-- The pixel indices `get_similarity_tile` reads for an anchor whose patch
lies inside the image are indices of the image block, and the template
indices are indices of the template block. -/
theorem tile_indices_in_range (xsize ysize ccx cy ts1 ts2 : Int)
    (hin : ¬ patchOutside xsize ysize ccx cy ts1 ts2) (j i : Int)
    (hj0 : 0 ≤ j) (hj1 : j ≤ ts1 + ts2) (hi0 : 0 ≤ i) (hi1 : i ≤ ts1 + ts2) :
    (0 ≤ (cy + j - ts1) * xsize + (ccx - ts1) + i ∧
      (cy + j - ts1) * xsize + (ccx - ts1) + i < xsize * ysize) ∧
    (0 ≤ i + j * (ts1 + ts2 + 1) ∧
      i + j * (ts1 + ts2 + 1) < (ts1 + ts2 + 1) * (ts1 + ts2 + 1)) := by
  unfold patchOutside at hin
  constructor
  · have := cell_index_range xsize ysize (ccx - ts1 + i) (cy + j - ts1) (by omega) (by omega)
      (by omega) (by omega)
    rw [show (cy + j - ts1) * xsize + (ccx - ts1) + i
      = (cy + j - ts1) * xsize + (ccx - ts1 + i) by ring]
    exact this
  · have := cell_index_range (ts1 + ts2 + 1) (ts1 + ts2 + 1) i j hi0 (by omega) hj0 (by omega)
    rw [add_comm i]
    exact this

end TileCallLemmas

/-- C23: every call of `get_similarity_tile` made by `ar2GenFeatureMap` (in
`genTile`, when the run `ii .. ii_iter-1` found by `genRun` is not empty) and
by `ar2SelectFeature2` (in `verifyRow2`, when the run found by `verifyRun` is
not empty) passes a run length `size_sim = abs(ii - ii_iter)` with
`1 ≤ size_sim ≤ 512`, and each of the `size_sim` anchors `(cx+t, cy)` has its
whole patch inside the image; for such an anchor every image index and every
template index the function computes is in range. -/
theorem tile_calls_in_bounds (xsize ysize ts1 ts2 : Int) :
    (∀ i j search_size1 search_size2 jj ii : Int,
      genRun xsize ysize i j ts1 ts2 search_size1 search_size2 jj ii ii ≠ ii →
      1 ≤ |ii - genRun xsize ysize i j ts1 ts2 search_size1 search_size2 jj ii ii| ∧
      |ii - genRun xsize ysize i j ts1 ts2 search_size1 search_size2 jj ii ii| ≤ 512 ∧
      ∀ t : Int, 0 ≤ t →
        t < |ii - genRun xsize ysize i j ts1 ts2 search_size1 search_size2 jj ii ii| →
        ¬ patchOutside xsize ysize (i + ii + t) (j + jj) ts1 ts2) ∧
    (∀ cx cy search_size2 j i : Int,
      verifyRun xsize ysize cx cy ts1 ts2 search_size2 j i i ≠ i →
      1 ≤ |i - verifyRun xsize ysize cx cy ts1 ts2 search_size2 j i i| ∧
      |i - verifyRun xsize ysize cx cy ts1 ts2 search_size2 j i i| ≤ 512 ∧
      ∀ t : Int, 0 ≤ t → t < |i - verifyRun xsize ysize cx cy ts1 ts2 search_size2 j i i| →
        ¬ patchOutside xsize ysize (cx + i + t) (cy + j) ts1 ts2) ∧
    (∀ ccx cy : Int, ¬ patchOutside xsize ysize ccx cy ts1 ts2 →
      ∀ j i : Int, 0 ≤ j → j ≤ ts1 + ts2 → 0 ≤ i → i ≤ ts1 + ts2 →
        (0 ≤ (cy + j - ts1) * xsize + (ccx - ts1) + i ∧
          (cy + j - ts1) * xsize + (ccx - ts1) + i < xsize * ysize) ∧
        (0 ≤ i + j * (ts1 + ts2 + 1) ∧
          i + j * (ts1 + ts2 + 1) < (ts1 + ts2 + 1) * (ts1 + ts2 + 1))) := by
  refine ⟨fun i j search_size1 search_size2 jj ii hne => ?_,
    fun cx cy search_size2 j i hne => ?_,
    fun ccx cy hin j i hj0 hj1 hi0 hi1 =>
      tile_indices_in_range xsize ysize ccx cy ts1 ts2 hin j i hj0 hj1 hi0 hi1⟩
  · obtain ⟨h1, h2⟩ := genRun_spec xsize ysize i j ts1 ts2 search_size1 search_size2 jj ii _ ii
      (le_refl _)
    have hlt : ii < genRun xsize ysize i j ts1 ts2 search_size1 search_size2 jj ii ii := by
      omega
    have hlast := (h2 (genRun xsize ysize i j ts1 ts2 search_size1 search_size2 jj ii ii - 1)
      (by omega) (by omega)).2.2.2
    have habs : |ii - genRun xsize ysize i j ts1 ts2 search_size1 search_size2 jj ii ii|
        = genRun xsize ysize i j ts1 ts2 search_size1 search_size2 jj ii ii - ii := by
      rw [abs_sub_comm, abs_of_nonneg (by omega)]
    rw [habs]
    refine ⟨by omega, by omega, fun t ht0 ht1 => ?_⟩
    have := (h2 (ii + t) (by omega) (by omega)).2.1
    rw [← add_assoc] at this
    exact this
  · obtain ⟨h1, h2⟩ := verifyRun_spec xsize ysize cx cy ts1 ts2 search_size2 j i _ i
      (le_refl _)
    have hlt : i < verifyRun xsize ysize cx cy ts1 ts2 search_size2 j i i := by
      omega
    have hlast := (h2 (verifyRun xsize ysize cx cy ts1 ts2 search_size2 j i i - 1)
      (by omega) (by omega)).2.2.2.2
    have habs : |i - verifyRun xsize ysize cx cy ts1 ts2 search_size2 j i i|
        = verifyRun xsize ysize cx cy ts1 ts2 search_size2 j i i - i := by
      rw [abs_sub_comm, abs_of_nonneg (by omega)]
    rw [habs]
    refine ⟨by omega, by omega, fun t ht0 ht1 => ?_⟩
    have := (h2 (i + t) (by omega) (by omega)).2.2.1
    rw [← add_assoc] at this
    exact this

/-- The run the window scan of `ar2GenFeatureMap` finds at offset `ii = 1` of
the row `jj = 0` around the centre of a 5×5 image, `ts1 = ts2 = 1`,
`search_size1 = 1`, `search_size2 = 0`: the one offset `1`. -/
theorem sample_genRun : genRun 5 5 2 2 1 1 1 0 0 1 1 = 2 := by
  rw [genRun, dif_pos (by norm_num), if_neg (by norm_num), if_neg (by decide), genRun,
    dif_neg (by norm_num)]
  norm_num

/-- C23, witness: a call made for a 5×5 image, of run length `1`. -/
theorem tile_calls_in_bounds_witness :
    genRun 5 5 2 2 1 1 1 0 0 1 1 ≠ 1 ∧
    (1 ≤ |1 - genRun 5 5 2 2 1 1 1 0 0 1 1| ∧ |1 - genRun 5 5 2 2 1 1 1 0 0 1 1| ≤ 512 ∧
      ∀ t : Int, 0 ≤ t → t < |1 - genRun 5 5 2 2 1 1 1 0 0 1 1| →
        ¬ patchOutside 5 5 (2 + 1 + t) (2 + 0) 1 1) :=
  ⟨by rw [sample_genRun]; decide,
    (tile_calls_in_bounds 5 5 1 1).1 2 2 1 0 0 1 (by rw [sample_genRun]; decide)⟩

section MinMaxLemmas

variable {K : Type} [LinearOrderedField K]

/-- A loop with `break` that maintains a pair `(min, max)` (read from the state
by `p`): if every pass lowers `min` and raises `max`, takes new values only
from `src`, leaves by `break` only when `stop` holds and otherwise covers its
position, then so does the whole loop: its result either satisfies `stop` or
covers every position of the range. The passes are those at positions from
`lo0` on. -/
theorem forBreak_minmax {σ : Type} (p : σ → K × K) (stop : K × K → Prop) (src : K → Prop)
    (cov : Int → K × K → Prop) (lo0 hi : Int) (body : Int → σ → σ × Bool)
    (hcov : ∀ x a b, cov x a → b.1 ≤ a.1 → a.2 ≤ b.2 → cov x b)
    (hbody : ∀ x s, lo0 ≤ x → x ≤ hi →
      (p (body x s).1).1 ≤ (p s).1 ∧ (p s).2 ≤ (p (body x s).1).2 ∧
      ((p (body x s).1).1 = (p s).1 ∨ src (p (body x s).1).1) ∧
      ((p (body x s).1).2 = (p s).2 ∨ src (p (body x s).1).2) ∧
      ((body x s).2 = true → stop (p (body x s).1)) ∧
      ((body x s).2 = false → cov x (p (body x s).1))) :
    ∀ (n : Nat) (lo : Int) (s : σ), (hi + 1 - lo).toNat ≤ n → lo0 ≤ lo →
      (p (forBreak lo hi body s)).1 ≤ (p s).1 ∧ (p s).2 ≤ (p (forBreak lo hi body s)).2 ∧
      ((p (forBreak lo hi body s)).1 = (p s).1 ∨ src (p (forBreak lo hi body s)).1) ∧
      ((p (forBreak lo hi body s)).2 = (p s).2 ∨ src (p (forBreak lo hi body s)).2) ∧
      (stop (p (forBreak lo hi body s)) ∨
        ∀ x, lo ≤ x → x ≤ hi → cov x (p (forBreak lo hi body s))) := by
  intro n
  induction n with
  | zero =>
      intro lo s hn hl
      rw [forBreak, if_neg (by omega)]
      exact ⟨le_refl _, le_refl _, Or.inl rfl, Or.inl rfl, Or.inr (fun x h1 h2 => by omega)⟩
  | succ n ih =>
      intro lo s hn hl
      rw [forBreak]
      by_cases hlo : lo ≤ hi
      · rw [if_pos hlo]
        obtain ⟨b1, b2, b3, b4, b5, b6⟩ := hbody lo s hl hlo
        by_cases hb : (body lo s).2 = true
        · rw [if_pos hb]
          exact ⟨b1, b2, b3, b4, Or.inl (b5 hb)⟩
        · rw [if_neg hb]
          obtain ⟨r1, r2, r3, r4, r5⟩ := ih (lo + 1) (body lo s).1 (by omega) (by omega)
          refine ⟨le_trans r1 b1, le_trans b2 r2, ?_, ?_, ?_⟩
          · rcases r3 with r3 | r3
            · rcases b3 with b3 | b3
              · exact Or.inl (r3.trans b3)
              · exact Or.inr (by rw [r3]; exact b3)
            · exact Or.inr r3
          · rcases r4 with r4 | r4
            · rcases b4 with b4 | b4
              · exact Or.inl (r4.trans b4)
              · exact Or.inr (by rw [r4]; exact b4)
            · exact Or.inr r4
          · rcases r5 with r5 | r5
            · exact Or.inl r5
            · refine Or.inr (fun x h1 h2 => ?_)
              by_cases hx : x = lo
              · rw [hx]
                exact hcov lo _ _ (b6 (by simpa using hb)) r1 r2
              · exact r5 x (by omega) h2
      · rw [if_neg hlo]
        exact ⟨le_refl _, le_refl _, Or.inl rfl, Or.inl rfl, Or.inr (fun x h1 h2 => by omega)⟩

/-- One pass of the inner re-verification loop of `ar2SelectFeature`: an
offset outside the disk, the centre, or one at which `get_similarity` fails
leaves `(min, max)` as it is; otherwise `min` and `max` take in the similarity,
and the pass leaves the loop only when the exit test holds. -/
theorem verifyBody_spec (sqrtf : K → K) (imageBW : Int → Nat) (xsize ysize : Int)
    (template : Int → K) (vlen : K) (ts1 ts2 search_size2 cx cy : Int)
    (min_sim_thresh min_sim : K) (j i : Int) (mm : K × K) :
    (verifyBody sqrtf imageBW xsize ysize template vlen ts1 ts2 search_size2 cx cy
        min_sim_thresh min_sim j i mm).1.1 ≤ mm.1 ∧
    mm.2 ≤ (verifyBody sqrtf imageBW xsize ysize template vlen ts1 ts2 search_size2 cx cy
        min_sim_thresh min_sim j i mm).1.2 ∧
    ((verifyBody sqrtf imageBW xsize ysize template vlen ts1 ts2 search_size2 cx cy
        min_sim_thresh min_sim j i mm).1.1 = mm.1 ∨
      (i * i + j * j ≤ search_size2 * search_size2 ∧ ¬ (i = 0 ∧ j = 0) ∧
        (get_similarity sqrtf imageBW xsize ysize template vlen ts1 ts2 (cx + i) (cy + j)).1 = 0 ∧
        (verifyBody sqrtf imageBW xsize ysize template vlen ts1 ts2 search_size2 cx cy
          min_sim_thresh min_sim j i mm).1.1
          = (get_similarity sqrtf imageBW xsize ysize template vlen ts1 ts2
              (cx + i) (cy + j)).2)) ∧
    ((verifyBody sqrtf imageBW xsize ysize template vlen ts1 ts2 search_size2 cx cy
        min_sim_thresh min_sim j i mm).1.2 = mm.2 ∨
      (i * i + j * j ≤ search_size2 * search_size2 ∧ ¬ (i = 0 ∧ j = 0) ∧
        (get_similarity sqrtf imageBW xsize ysize template vlen ts1 ts2 (cx + i) (cy + j)).1 = 0 ∧
        (verifyBody sqrtf imageBW xsize ysize template vlen ts1 ts2 search_size2 cx cy
          min_sim_thresh min_sim j i mm).1.2
          = (get_similarity sqrtf imageBW xsize ysize template vlen ts1 ts2
              (cx + i) (cy + j)).2)) ∧
    ((verifyBody sqrtf imageBW xsize ysize template vlen ts1 ts2 search_size2 cx cy
        min_sim_thresh min_sim j i mm).2 = true →
      verifyStop min_sim_thresh min_sim
        (verifyBody sqrtf imageBW xsize ysize template vlen ts1 ts2 search_size2 cx cy
          min_sim_thresh min_sim j i mm).1 = true) ∧
    ((verifyBody sqrtf imageBW xsize ysize template vlen ts1 ts2 search_size2 cx cy
        min_sim_thresh min_sim j i mm).2 = false →
      i * i + j * j ≤ search_size2 * search_size2 → ¬ (i = 0 ∧ j = 0) →
      (get_similarity sqrtf imageBW xsize ysize template vlen ts1 ts2 (cx + i) (cy + j)).1 = 0 →
      (verifyBody sqrtf imageBW xsize ysize template vlen ts1 ts2 search_size2 cx cy
          min_sim_thresh min_sim j i mm).1.1
        ≤ (get_similarity sqrtf imageBW xsize ysize template vlen ts1 ts2 (cx + i) (cy + j)).2 ∧
      (get_similarity sqrtf imageBW xsize ysize template vlen ts1 ts2 (cx + i) (cy + j)).2
        ≤ (verifyBody sqrtf imageBW xsize ysize template vlen ts1 ts2 search_size2 cx cy
          min_sim_thresh min_sim j i mm).1.2) := by
  have hgs : (get_similarity sqrtf imageBW xsize ysize template vlen ts1 ts2 (cx + i) (cy + j)).1
      = 0 ∨ (get_similarity sqrtf imageBW xsize ysize template vlen ts1 ts2
        (cx + i) (cy + j)).1 = -1 := by
    unfold get_similarity
    dsimp only
    split_ifs <;> simp
  generalize hg : get_similarity sqrtf imageBW xsize ysize template vlen ts1 ts2 (cx + i) (cy + j)
    = g at hgs
  unfold verifyBody
  rw [hg]
  by_cases h1 : i * i + j * j > search_size2 * search_size2
  · rw [if_pos h1]
    exact ⟨le_refl _, le_refl _, Or.inl rfl, Or.inl rfl, fun h => absurd h (by simp),
      fun _ h => absurd h (not_le.mpr h1)⟩
  rw [if_neg h1]
  by_cases h2 : i = 0 ∧ j = 0
  · rw [if_pos h2]
    exact ⟨le_refl _, le_refl _, Or.inl rfl, Or.inl rfl, fun h => absurd h (by simp),
      fun _ _ h => absurd h2 h⟩
  rw [if_neg h2]
  by_cases h3 : g.1 < 0
  · rw [if_pos h3]
    exact ⟨le_refl _, le_refl _, Or.inl rfl, Or.inl rfl, fun h => absurd h (by simp),
      fun _ _ _ h => by omega⟩
  rw [if_neg h3]
  have h30 : g.1 = 0 := by omega
  have h1le : i * i + j * j ≤ search_size2 * search_size2 := not_lt.mp h1
  dsimp only
  by_cases h4 : g.2 < mm.1 ∧
      ((if g.2 < mm.1 then g.2 else mm.1) < min_sim_thresh ∧
        (if g.2 < mm.1 then g.2 else mm.1) < min_sim)
  · rw [if_pos h4]
    dsimp only
    rw [if_pos h4.1] at h4 ⊢
    refine ⟨le_of_lt h4.1, le_refl _, Or.inr ⟨h1le, h2, h30, rfl⟩, Or.inl rfl, fun _ => ?_,
      fun h => absurd h (by simp)⟩
    unfold verifyStop
    exact decide_eq_true (Or.inl h4.2)
  rw [if_neg h4]
  by_cases h5 : g.2 > mm.2 ∧ (if g.2 > mm.2 then g.2 else mm.2) > 99 / 100
  · rw [if_pos h5]
    dsimp only
    rw [if_pos h5.1] at h5 ⊢
    refine ⟨?_, le_of_lt h5.1, ?_, Or.inr ⟨h1le, h2, h30, rfl⟩, fun _ => ?_,
      fun h => absurd h (by simp)⟩
    · split_ifs with h6
      · exact le_of_lt h6
      · exact le_refl _
    · by_cases h6 : g.2 < mm.1
      · rw [if_pos h6]
        exact Or.inr ⟨h1le, h2, h30, rfl⟩
      · rw [if_neg h6]
        exact Or.inl rfl
    · unfold verifyStop
      exact decide_eq_true (Or.inr h5.2)
  rw [if_neg h5]
  dsimp only
  refine ⟨?_, ?_, ?_, ?_, fun h => absurd h (by simp), fun _ _ _ _ => ⟨?_, ?_⟩⟩
  · split_ifs with h6
    · exact le_of_lt h6
    · exact le_refl _
  · split_ifs with h6
    · exact le_of_lt h6
    · exact le_refl _
  · by_cases h6 : g.2 < mm.1
    · rw [if_pos h6]
      exact Or.inr ⟨h1le, h2, h30, rfl⟩
    · rw [if_neg h6]
      exact Or.inl rfl
  · by_cases h6 : g.2 > mm.2
    · rw [if_pos h6]
      exact Or.inr ⟨h1le, h2, h30, rfl⟩
    · rw [if_neg h6]
      exact Or.inl rfl
  · split_ifs with h6
    · exact le_refl _
    · exact not_lt.mp h6
  · split_ifs with h6
    · exact le_refl _
    · exact not_lt.mp h6

end MinMaxLemmas

section VerifyScanLemmas

variable {K : Type} [LinearOrderedField K]

/-- The inner re-verification loop of `ar2SelectFeature` for one `j`, run over
the whole row: `min` only falls and `max` only rises, a new value is the
similarity at an offset of the row that lies in the disk, is not the centre and
at which `get_similarity` succeeds, and the result either meets the exit test
or bounds the similarity at every such offset of the row. -/
theorem verifyRow_scan (sqrtf : K → K) (imageBW : Int → Nat) (xsize ysize : Int)
    (template : Int → K) (vlen : K) (ts1 ts2 search_size2 cx cy : Int)
    (min_sim_thresh min_sim : K) (j : Int) (mm : K × K) :
    (forBreak (-search_size2) search_size2
        (verifyBody sqrtf imageBW xsize ysize template vlen ts1 ts2 search_size2 cx cy
          min_sim_thresh min_sim j) mm).1 ≤ mm.1 ∧
    mm.2 ≤ (forBreak (-search_size2) search_size2
        (verifyBody sqrtf imageBW xsize ysize template vlen ts1 ts2 search_size2 cx cy
          min_sim_thresh min_sim j) mm).2 ∧
    ((forBreak (-search_size2) search_size2
        (verifyBody sqrtf imageBW xsize ysize template vlen ts1 ts2 search_size2 cx cy
          min_sim_thresh min_sim j) mm).1 = mm.1 ∨
      ∃ i : Int, -search_size2 ≤ i ∧ i ≤ search_size2 ∧
        i * i + j * j ≤ search_size2 * search_size2 ∧ ¬ (i = 0 ∧ j = 0) ∧
        (get_similarity sqrtf imageBW xsize ysize template vlen ts1 ts2 (cx + i) (cy + j)).1 = 0 ∧
        (forBreak (-search_size2) search_size2
          (verifyBody sqrtf imageBW xsize ysize template vlen ts1 ts2 search_size2 cx cy
            min_sim_thresh min_sim j) mm).1
          = (get_similarity sqrtf imageBW xsize ysize template vlen ts1 ts2
              (cx + i) (cy + j)).2) ∧
    ((forBreak (-search_size2) search_size2
        (verifyBody sqrtf imageBW xsize ysize template vlen ts1 ts2 search_size2 cx cy
          min_sim_thresh min_sim j) mm).2 = mm.2 ∨
      ∃ i : Int, -search_size2 ≤ i ∧ i ≤ search_size2 ∧
        i * i + j * j ≤ search_size2 * search_size2 ∧ ¬ (i = 0 ∧ j = 0) ∧
        (get_similarity sqrtf imageBW xsize ysize template vlen ts1 ts2 (cx + i) (cy + j)).1 = 0 ∧
        (forBreak (-search_size2) search_size2
          (verifyBody sqrtf imageBW xsize ysize template vlen ts1 ts2 search_size2 cx cy
            min_sim_thresh min_sim j) mm).2
          = (get_similarity sqrtf imageBW xsize ysize template vlen ts1 ts2
              (cx + i) (cy + j)).2) ∧
    (verifyStop min_sim_thresh min_sim (forBreak (-search_size2) search_size2
        (verifyBody sqrtf imageBW xsize ysize template vlen ts1 ts2 search_size2 cx cy
          min_sim_thresh min_sim j) mm) = true ∨
      ∀ i : Int, -search_size2 ≤ i → i ≤ search_size2 →
        i * i + j * j ≤ search_size2 * search_size2 → ¬ (i = 0 ∧ j = 0) →
        (get_similarity sqrtf imageBW xsize ysize template vlen ts1 ts2 (cx + i) (cy + j)).1
          = 0 →
        (forBreak (-search_size2) search_size2
          (verifyBody sqrtf imageBW xsize ysize template vlen ts1 ts2 search_size2 cx cy
            min_sim_thresh min_sim j) mm).1
          ≤ (get_similarity sqrtf imageBW xsize ysize template vlen ts1 ts2
              (cx + i) (cy + j)).2 ∧
        (get_similarity sqrtf imageBW xsize ysize template vlen ts1 ts2 (cx + i) (cy + j)).2
          ≤ (forBreak (-search_size2) search_size2
          (verifyBody sqrtf imageBW xsize ysize template vlen ts1 ts2 search_size2 cx cy
            min_sim_thresh min_sim j) mm).2) := by
  have h := forBreak_minmax (fun s : K × K => s)
    (fun s => verifyStop min_sim_thresh min_sim s = true)
    (fun v => ∃ i : Int, -search_size2 ≤ i ∧ i ≤ search_size2 ∧
        i * i + j * j ≤ search_size2 * search_size2 ∧ ¬ (i = 0 ∧ j = 0) ∧
        (get_similarity sqrtf imageBW xsize ysize template vlen ts1 ts2 (cx + i) (cy + j)).1 = 0 ∧
        v = (get_similarity sqrtf imageBW xsize ysize template vlen ts1 ts2 (cx + i) (cy + j)).2)
    (fun i s => i * i + j * j ≤ search_size2 * search_size2 → ¬ (i = 0 ∧ j = 0) →
        (get_similarity sqrtf imageBW xsize ysize template vlen ts1 ts2 (cx + i) (cy + j)).1
          = 0 →
        s.1 ≤ (get_similarity sqrtf imageBW xsize ysize template vlen ts1 ts2
              (cx + i) (cy + j)).2 ∧
        (get_similarity sqrtf imageBW xsize ysize template vlen ts1 ts2 (cx + i) (cy + j)).2
          ≤ s.2)
    (-search_size2) search_size2
    (verifyBody sqrtf imageBW xsize ysize template vlen ts1 ts2 search_size2 cx cy
          min_sim_thresh min_sim j)
    (fun x a b hc h1 h2 c1 c2 c3 =>
      ⟨le_trans h1 (hc c1 c2 c3).1, le_trans (hc c1 c2 c3).2 h2⟩)
    (fun x s hx1 hx2 => by
      obtain ⟨b1, b2, b3, b4, b5, b6⟩ := verifyBody_spec sqrtf imageBW xsize ysize template vlen
        ts1 ts2 search_size2 cx cy min_sim_thresh min_sim j x s
      refine ⟨b1, b2, ?_, ?_, b5, b6⟩
      · rcases b3 with b3 | ⟨c1, c2, c3, c4⟩
        · exact Or.inl b3
        · exact Or.inr ⟨x, hx1, hx2, c1, c2, c3, c4⟩
      · rcases b4 with b4 | ⟨c1, c2, c3, c4⟩
        · exact Or.inl b4
        · exact Or.inr ⟨x, hx1, hx2, c1, c2, c3, c4⟩)
    (search_size2 + 1 - -search_size2).toNat (-search_size2) mm (le_refl _) (le_refl _)
  exact h

/-- The re-verification loops of `ar2SelectFeature`: `min` is `1` or the
similarity at an offset of the window that lies in the disk, is not the centre
and at which `get_similarity` succeeds, `max` is `-1` or such a similarity, and
the result either meets the exit test or bounds the similarity at every such
offset. -/
theorem selectVerify_scan (sqrtf : K → K) (imageBW : Int → Nat) (xsize ysize : Int)
    (template : Int → K) (vlen : K) (ts1 ts2 search_size2 cx cy : Int)
    (min_sim_thresh min_sim : K) :
    ((selectVerify sqrtf imageBW xsize ysize template vlen ts1 ts2 search_size2 cx cy
        min_sim_thresh min_sim).1 = 1 ∨
      ∃ i j : Int, (-search_size2 ≤ i ∧ i ≤ search_size2 ∧ -search_size2 ≤ j ∧ j ≤ search_size2) ∧
        i * i + j * j ≤ search_size2 * search_size2 ∧ ¬ (i = 0 ∧ j = 0) ∧
        (get_similarity sqrtf imageBW xsize ysize template vlen ts1 ts2 (cx + i) (cy + j)).1 = 0 ∧
        (selectVerify sqrtf imageBW xsize ysize template vlen ts1 ts2 search_size2 cx cy
          min_sim_thresh min_sim).1
          = (get_similarity sqrtf imageBW xsize ysize template vlen ts1 ts2
              (cx + i) (cy + j)).2) ∧
    ((selectVerify sqrtf imageBW xsize ysize template vlen ts1 ts2 search_size2 cx cy
        min_sim_thresh min_sim).2 = -1 ∨
      ∃ i j : Int, (-search_size2 ≤ i ∧ i ≤ search_size2 ∧ -search_size2 ≤ j ∧ j ≤ search_size2) ∧
        i * i + j * j ≤ search_size2 * search_size2 ∧ ¬ (i = 0 ∧ j = 0) ∧
        (get_similarity sqrtf imageBW xsize ysize template vlen ts1 ts2 (cx + i) (cy + j)).1 = 0 ∧
        (selectVerify sqrtf imageBW xsize ysize template vlen ts1 ts2 search_size2 cx cy
          min_sim_thresh min_sim).2
          = (get_similarity sqrtf imageBW xsize ysize template vlen ts1 ts2
              (cx + i) (cy + j)).2) ∧
    (verifyStop min_sim_thresh min_sim
        (selectVerify sqrtf imageBW xsize ysize template vlen ts1 ts2 search_size2 cx cy
          min_sim_thresh min_sim) = true ∨
      ∀ i j : Int, -search_size2 ≤ i → i ≤ search_size2 → -search_size2 ≤ j → j ≤ search_size2 →
        i * i + j * j ≤ search_size2 * search_size2 → ¬ (i = 0 ∧ j = 0) →
        (get_similarity sqrtf imageBW xsize ysize template vlen ts1 ts2 (cx + i) (cy + j)).1
          = 0 →
        (selectVerify sqrtf imageBW xsize ysize template vlen ts1 ts2 search_size2 cx cy
          min_sim_thresh min_sim).1
          ≤ (get_similarity sqrtf imageBW xsize ysize template vlen ts1 ts2
              (cx + i) (cy + j)).2 ∧
        (get_similarity sqrtf imageBW xsize ysize template vlen ts1 ts2 (cx + i) (cy + j)).2
          ≤ (selectVerify sqrtf imageBW xsize ysize template vlen ts1 ts2 search_size2 cx cy
          min_sim_thresh min_sim).2) := by
  have h := forBreak_minmax (fun s : K × K => s)
    (fun s => verifyStop min_sim_thresh min_sim s = true)
    (fun v => ∃ i j : Int,
        (-search_size2 ≤ i ∧ i ≤ search_size2 ∧ -search_size2 ≤ j ∧ j ≤ search_size2) ∧
        i * i + j * j ≤ search_size2 * search_size2 ∧ ¬ (i = 0 ∧ j = 0) ∧
        (get_similarity sqrtf imageBW xsize ysize template vlen ts1 ts2 (cx + i) (cy + j)).1 = 0 ∧
        v = (get_similarity sqrtf imageBW xsize ysize template vlen ts1 ts2 (cx + i) (cy + j)).2)
    (fun j s => ∀ i : Int, -search_size2 ≤ i → i ≤ search_size2 →
        i * i + j * j ≤ search_size2 * search_size2 → ¬ (i = 0 ∧ j = 0) →
        (get_similarity sqrtf imageBW xsize ysize template vlen ts1 ts2 (cx + i) (cy + j)).1
          = 0 →
        s.1 ≤ (get_similarity sqrtf imageBW xsize ysize template vlen ts1 ts2
              (cx + i) (cy + j)).2 ∧
        (get_similarity sqrtf imageBW xsize ysize template vlen ts1 ts2 (cx + i) (cy + j)).2
          ≤ s.2)
    (-search_size2) search_size2
    (fun j mm =>
      let mm1 := forBreak (-search_size2) search_size2
        (verifyBody sqrtf imageBW xsize ysize template vlen ts1 ts2 search_size2 cx cy
          min_sim_thresh min_sim j) mm
      (mm1, verifyStop min_sim_thresh min_sim mm1))
    (fun x a b hc h1 h2 i c1 c2 c3 c4 c5 =>
      ⟨le_trans h1 (hc i c1 c2 c3 c4 c5).1, le_trans (hc i c1 c2 c3 c4 c5).2 h2⟩)
    (fun x s hx1 hx2 => by
      obtain ⟨b1, b2, b3, b4, b5⟩ := verifyRow_scan sqrtf imageBW xsize ysize template vlen
        ts1 ts2 search_size2 cx cy min_sim_thresh min_sim x s
      dsimp only
      refine ⟨b1, b2, ?_, ?_, fun h => h, fun h => ?_⟩
      · rcases b3 with b3 | ⟨i, c1, c2, c3, c4, c5, c6⟩
        · exact Or.inl b3
        · exact Or.inr ⟨i, x, ⟨c1, c2, hx1, hx2⟩, c3, c4, c5, c6⟩
      · rcases b4 with b4 | ⟨i, c1, c2, c3, c4, c5, c6⟩
        · exact Or.inl b4
        · exact Or.inr ⟨i, x, ⟨c1, c2, hx1, hx2⟩, c3, c4, c5, c6⟩
      · rcases b5 with b5 | b5
        · rw [b5] at h
          cases h
        · exact b5)
    (search_size2 + 1 - -search_size2).toNat (-search_size2) (1, -1) (le_refl _) (le_refl _)
  obtain ⟨_, _, h3, h4, h5⟩ := h
  refine ⟨h3, h4, ?_⟩
  rcases h5 with h5 | h5
  · exact Or.inl h5
  · exact Or.inr (fun i j c1 c2 c3 c4 => h5 j c3 c4 i c1 c2)

end VerifyScanLemmas

section SelectRejectLemmas

variable {K : Type} [LinearOrderedField K]

/-- An offset of the disk of a non-negative radius lies in the window the
re-verification loops run over. -/
theorem disk_in_window (s i j : Int) (hs : 0 ≤ s) (h : i * i + j * j ≤ s * s) :
    -s ≤ i ∧ i ≤ s ∧ -s ≤ j ∧ j ≤ s := by
  refine ⟨?_, ?_, ?_, ?_⟩
  · by_contra hc
    nlinarith [mul_self_nonneg j]
  · by_contra hc
    nlinarith [mul_self_nonneg j]
  · by_contra hc
    nlinarith [mul_self_nonneg i]
  · by_contra hc
    nlinarith [mul_self_nonneg i]

/-- The exit test on the result of the re-verification loops of
`ar2SelectFeature` holds exactly when some offset of the window that lies in
the disk, is not the centre and at which `get_similarity` succeeds has a
similarity below both `min_sim_thresh` and `min_sim` or above `0.99`, provided
the initial `min = 1` does not meet the test. -/
theorem selectVerify_stop_iff (sqrtf : K → K) (imageBW : Int → Nat) (xsize ysize : Int)
    (template : Int → K) (vlen : K) (ts1 ts2 search_size2 cx cy : Int)
    (min_sim_thresh min_sim : K) (hv : min_sim_thresh ≤ 1 ∨ min_sim ≤ 1) :
    verifyStop min_sim_thresh min_sim
        (selectVerify sqrtf imageBW xsize ysize template vlen ts1 ts2 search_size2 cx cy
          min_sim_thresh min_sim) = true ↔
      ∃ i j : Int, (-search_size2 ≤ i ∧ i ≤ search_size2 ∧ -search_size2 ≤ j ∧ j ≤ search_size2) ∧
        i * i + j * j ≤ search_size2 * search_size2 ∧ ¬ (i = 0 ∧ j = 0) ∧
        (get_similarity sqrtf imageBW xsize ysize template vlen ts1 ts2 (cx + i) (cy + j)).1 = 0 ∧
        (((get_similarity sqrtf imageBW xsize ysize template vlen ts1 ts2 (cx + i) (cy + j)).2
            < min_sim_thresh ∧
          (get_similarity sqrtf imageBW xsize ysize template vlen ts1 ts2 (cx + i) (cy + j)).2
            < min_sim) ∨
          (get_similarity sqrtf imageBW xsize ysize template vlen ts1 ts2 (cx + i) (cy + j)).2
            > 99 / 100) := by
  obtain ⟨h1, h2, h3⟩ := selectVerify_scan sqrtf imageBW xsize ysize template vlen ts1 ts2
    search_size2 cx cy min_sim_thresh min_sim
  generalize selectVerify sqrtf imageBW xsize ysize template vlen ts1 ts2 search_size2 cx cy
    min_sim_thresh min_sim = r at h1 h2 h3
  constructor
  · intro hst
    unfold verifyStop at hst
    rcases of_decide_eq_true hst with hm | hm
    · rcases h1 with h1 | ⟨i, j, w, c1, c2, c3, c4⟩
      · rw [h1] at hm
        rcases hv with hv | hv
        · exact absurd hm.1 (not_lt.mpr hv)
        · exact absurd hm.2 (not_lt.mpr hv)
      · rw [c4] at hm
        exact ⟨i, j, w, c1, c2, c3, Or.inl hm⟩
    · rcases h2 with h2 | ⟨i, j, w, c1, c2, c3, c4⟩
      · rw [h2] at hm
        exact absurd hm (by norm_num)
      · rw [c4] at hm
        exact ⟨i, j, w, c1, c2, c3, Or.inr hm⟩
  · rintro ⟨i, j, ⟨w1, w2, w3, w4⟩, c1, c2, c3, c4⟩
    rcases h3 with h3 | h3
    · exact h3
    · obtain ⟨b1, b2⟩ := h3 i j w1 w2 w3 w4 c1 c2 c3
      unfold verifyStop
      apply decide_eq_true
      rcases c4 with c4 | c4
      · exact Or.inl ⟨lt_of_le_of_lt b1 c4.1, lt_of_le_of_lt b1 c4.2⟩
      · exact Or.inr (lt_of_lt_of_le c4 b2)

/-- A candidate of `ar2SelectFeature` that passed the template and contrast
checks: the iteration ends in the rejection or in the acceptance according to
the exit test on the result of the re-verification loops. -/
theorem selectStep_verified (sqrtf : K → K) (image : AR2ImageT K)
    (ts1 ts2 search_size2 occ_size : Int) (max_sim_thresh min_sim_thresh sd_thresh : K)
    (st : SelectState K) (tp : Int → K) (vlen : K)
    (hnum : st.num < maxFeatureNum image.xsize image.ysize occ_size)
    (hcx : (selectScan st.fimage2 image.xsize image.ysize max_sim_thresh).cx ≠ -1)
    (hmt : make_template sqrtf image.imgBW image.xsize image.ysize
      (selectScan st.fimage2 image.xsize image.ysize max_sim_thresh).cx
      (selectScan st.fimage2 image.xsize image.ysize max_sim_thresh).cy ts1 ts2 0 st.template
      = some (tp, vlen))
    (hsd : ¬ vlen / ((ts1 + ts2 + 1 : Int) : K) < sd_thresh) :
    ∃ st1, selectStep sqrtf image ts1 ts2 search_size2 occ_size max_sim_thresh min_sim_thresh
        sd_thresh st = some st1 ∧
      ((verifyStop min_sim_thresh
          (selectScan st.fimage2 image.xsize image.ysize max_sim_thresh).min_sim
          (selectVerify sqrtf image.imgBW image.xsize image.ysize tp vlen ts1 ts2 search_size2
            (selectScan st.fimage2 image.xsize image.ysize max_sim_thresh).cx
            (selectScan st.fimage2 image.xsize image.ysize max_sim_thresh).cy min_sim_thresh
            (selectScan st.fimage2 image.xsize image.ysize max_sim_thresh).min_sim) = true ∧
        st1.fimage2 = Function.update st.fimage2
          ((selectScan st.fimage2 image.xsize image.ysize max_sim_thresh).cy * image.xsize
            + (selectScan st.fimage2 image.xsize image.ysize max_sim_thresh).cx) 1 ∧
        st1.coord = st.coord ∧ st1.num = st.num) ∨
       (¬ verifyStop min_sim_thresh
          (selectScan st.fimage2 image.xsize image.ysize max_sim_thresh).min_sim
          (selectVerify sqrtf image.imgBW image.xsize image.ysize tp vlen ts1 ts2 search_size2
            (selectScan st.fimage2 image.xsize image.ysize max_sim_thresh).cx
            (selectScan st.fimage2 image.xsize image.ysize max_sim_thresh).cy min_sim_thresh
            (selectScan st.fimage2 image.xsize image.ysize max_sim_thresh).min_sim) = true ∧
        st1.num = st.num + 1)) := by
  unfold selectStep
  rw [if_neg (not_not.mpr hnum)]
  dsimp only
  rw [if_neg hcx, hmt]
  dsimp only
  rw [if_neg hsd]
  by_cases h4 : verifyStop min_sim_thresh
      (selectScan st.fimage2 image.xsize image.ysize max_sim_thresh).min_sim
      (selectVerify sqrtf image.imgBW image.xsize image.ysize tp vlen ts1 ts2
        search_size2 (selectScan st.fimage2 image.xsize image.ysize max_sim_thresh).cx
        (selectScan st.fimage2 image.xsize image.ysize max_sim_thresh).cy min_sim_thresh
        (selectScan st.fimage2 image.xsize image.ysize max_sim_thresh).min_sim) = true
  · rw [if_pos h4]
    exact ⟨_, rfl, Or.inl ⟨h4, rfl, rfl, rfl⟩⟩
  · rw [if_neg h4]
    exact ⟨_, rfl, Or.inr ⟨h4, rfl⟩⟩

/-- C22: in `ar2SelectFeature`, a candidate `(cx, cy)` (the cell `sc` the
minimum scan returns, with map value `v = sc.min_sim`) that passed the template
and contrast checks, with `min_sim_thresh ≤ 1` or `v ≤ 1`, is rejected in the
local re-verification (its cell set to `1.0`, nothing recorded) if and only if
there is an offset `(i, j) ≠ (0, 0)` of the scanned window with
`i² + j² ≤ search_size2²` at which `get_similarity` succeeds and returns a
similarity that is either below both `min_sim_thresh` and `v`, or above
`0.99`. For `search_size2 ≥ 0` every offset of the disk lies in the window. -/
theorem select_reject_iff (sqrtf : K → K) (image : AR2ImageT K)
    (ts1 ts2 search_size2 occ_size : Int) (max_sim_thresh min_sim_thresh sd_thresh : K)
    (st : SelectState K) (sc : ScanState K) (tp : Int → K) (vlen : K)
    (hnum : st.num < maxFeatureNum image.xsize image.ysize occ_size)
    (hsc : selectScan st.fimage2 image.xsize image.ysize max_sim_thresh = sc)
    (hcx : sc.cx ≠ -1)
    (hmt : make_template sqrtf image.imgBW image.xsize image.ysize sc.cx sc.cy ts1 ts2 0
      st.template = some (tp, vlen))
    (hsd : ¬ vlen / ((ts1 + ts2 + 1 : Int) : K) < sd_thresh)
    (hv : min_sim_thresh ≤ 1 ∨ sc.min_sim ≤ 1) :
    sc.min_sim = st.fimage2 (sc.cy * image.xsize + sc.cx) ∧
    ((∃ st1, selectStep sqrtf image ts1 ts2 search_size2 occ_size max_sim_thresh min_sim_thresh
          sd_thresh st = some st1 ∧
        st1.fimage2 = Function.update st.fimage2 (sc.cy * image.xsize + sc.cx) 1 ∧
        st1.coord = st.coord ∧ st1.num = st.num) ↔
      ∃ i j : Int, (-search_size2 ≤ i ∧ i ≤ search_size2 ∧ -search_size2 ≤ j ∧ j ≤ search_size2) ∧
        i * i + j * j ≤ search_size2 * search_size2 ∧ ¬ (i = 0 ∧ j = 0) ∧
        (get_similarity sqrtf image.imgBW image.xsize image.ysize tp vlen ts1 ts2
          (sc.cx + i) (sc.cy + j)).1 = 0 ∧
        (((get_similarity sqrtf image.imgBW image.xsize image.ysize tp vlen ts1 ts2
            (sc.cx + i) (sc.cy + j)).2 < min_sim_thresh ∧
          (get_similarity sqrtf image.imgBW image.xsize image.ysize tp vlen ts1 ts2
            (sc.cx + i) (sc.cy + j)).2 < sc.min_sim) ∨
          (get_similarity sqrtf image.imgBW image.xsize image.ysize tp vlen ts1 ts2
            (sc.cx + i) (sc.cy + j)).2 > 99 / 100)) ∧
    (0 ≤ search_size2 → ∀ i j : Int, i * i + j * j ≤ search_size2 * search_size2 →
      -search_size2 ≤ i ∧ i ≤ search_size2 ∧ -search_size2 ≤ j ∧ j ≤ search_size2) := by
  subst hsc
  refine ⟨?_, ?_, fun hs i j h => disk_in_window search_size2 i j hs h⟩
  · rcases selectScan_spec st.fimage2 image.xsize image.ysize max_sim_thresh with h | h
    · exact absurd h hcx
    · exact h.2.2.2.2.1.symm
  · rw [← selectVerify_stop_iff sqrtf image.imgBW image.xsize image.ysize tp vlen ts1 ts2
      search_size2 _ _ min_sim_thresh _ hv]
    obtain ⟨st1, hst, hcase⟩ := selectStep_verified sqrtf image ts1 ts2 search_size2 occ_size
      max_sim_thresh min_sim_thresh sd_thresh st tp vlen hnum hcx hmt hsd
    constructor
    · rintro ⟨st2, h2, _, _, hn⟩
      rw [hst] at h2
      rw [← Option.some.inj h2] at hn
      rcases hcase with hc | hc
      · exact hc.1
      · omega
    · intro hstop
      rcases hcase with hc | hc
      · exact ⟨st1, hst, hc.2⟩
      · exact absurd hstop hc.1

end SelectRejectLemmas

theorem sample_make_template :
    make_template (fun x : ℚ => x) sampleImage 2 2 0 0 0 1 0 (fun _ => 0)
      = some ((templateFill sampleImage 2 0 0 0 1 (patchMean sampleImage 2 0 0 0 1)
          (fun _ => (0 : ℚ))).1, 12) := by
  rw [make_template_eq, if_neg (by decide), sample_patchSqDev_rat, if_neg (by norm_num),
    if_neg (by norm_num)]

/-- C22, witness: the 2×2 sample image and map; the candidate is the origin,
with map value `1/2`. -/
theorem select_reject_iff_witness :
    (1 / 2 : ℚ) = (selectInit sampleImageT sampleMap).fimage2 (0 * sampleImageT.xsize + 0) ∧
    ((∃ st1, selectStep (fun x : ℚ => x) sampleImageT 0 1 1 1 (9 / 10) (3 / 10) 0
          (selectInit sampleImageT sampleMap) = some st1 ∧
        st1.fimage2 = Function.update (selectInit sampleImageT sampleMap).fimage2
          (0 * sampleImageT.xsize + 0) 1 ∧
        st1.coord = (selectInit sampleImageT sampleMap).coord ∧
        st1.num = (selectInit sampleImageT sampleMap).num) ↔
      ∃ i j : Int, (-1 ≤ i ∧ i ≤ 1 ∧ -1 ≤ j ∧ j ≤ 1) ∧
        i * i + j * j ≤ 1 * 1 ∧ ¬ (i = 0 ∧ j = 0) ∧
        (get_similarity (fun x : ℚ => x) sampleImageT.imgBW sampleImageT.xsize sampleImageT.ysize
          (templateFill sampleImage 2 0 0 0 1 (patchMean sampleImage 2 0 0 0 1)
            (fun _ => (0 : ℚ))).1 12 0 1 (0 + i) (0 + j)).1 = 0 ∧
        (((get_similarity (fun x : ℚ => x) sampleImageT.imgBW sampleImageT.xsize
            sampleImageT.ysize
            (templateFill sampleImage 2 0 0 0 1 (patchMean sampleImage 2 0 0 0 1)
              (fun _ => (0 : ℚ))).1 12 0 1 (0 + i) (0 + j)).2 < 3 / 10 ∧
          (get_similarity (fun x : ℚ => x) sampleImageT.imgBW sampleImageT.xsize
            sampleImageT.ysize
            (templateFill sampleImage 2 0 0 0 1 (patchMean sampleImage 2 0 0 0 1)
              (fun _ => (0 : ℚ))).1 12 0 1 (0 + i) (0 + j)).2 < 1 / 2) ∨
          (get_similarity (fun x : ℚ => x) sampleImageT.imgBW sampleImageT.xsize
            sampleImageT.ysize
            (templateFill sampleImage 2 0 0 0 1 (patchMean sampleImage 2 0 0 0 1)
              (fun _ => (0 : ℚ))).1 12 0 1 (0 + i) (0 + j)).2 > 99 / 100)) ∧
    ((0 : Int) ≤ 1 → ∀ i j : Int, i * i + j * j ≤ 1 * 1 → -1 ≤ i ∧ i ≤ 1 ∧ -1 ≤ j ∧ j ≤ 1) :=
  select_reject_iff (fun x : ℚ => x) sampleImageT 0 1 1 1 (9 / 10) (3 / 10) 0
    (selectInit sampleImageT sampleMap) { fp2 := 4, min_sim := 1 / 2, cx := 0, cy := 0 }
    (templateFill sampleImage 2 0 0 0 1 (patchMean sampleImage 2 0 0 0 1) (fun _ => (0 : ℚ))).1 12
    (by simp [selectInit, maxFeatureNum, sampleImageT]) sample_select_scan (by decide)
    sample_make_template (by norm_num) (Or.inl (by norm_num))

/-- C22, counterexample: on the 2×2 sample image with the map value `2` at the
origin, `max_sim_thresh = 3` and `min_sim_thresh = 3`, the candidate `(0, 0)`
passes the template and contrast checks and is rejected in the re-verification
(the initial `min = 1` is below both `min_sim_thresh` and the map value),
although `get_similarity` succeeds at no offset other than the centre. -/
theorem select_reject_without_offset :
    selectScan (selectInit sampleImageT ⟨[2, 3, 3, 3], 2, 2⟩).fimage2 sampleImageT.xsize
        sampleImageT.ysize (3 : ℚ) = { fp2 := 4, min_sim := 2, cx := 0, cy := 0 } ∧
    make_template (fun x : ℚ => x) sampleImageT.imgBW sampleImageT.xsize sampleImageT.ysize
        0 0 0 1 0 (selectInit sampleImageT ⟨[2, 3, 3, 3], 2, 2⟩).template
      = some ((templateFill sampleImage 2 0 0 0 1 (patchMean sampleImage 2 0 0 0 1)
          (fun _ => (0 : ℚ))).1, 12) ∧
    ¬ ((12 : ℚ) / ((0 + 1 + 1 : Int) : ℚ) < 0) ∧
    (∃ st1, selectStep (fun x : ℚ => x) sampleImageT 0 1 1 1 3 3 0
          (selectInit sampleImageT ⟨[2, 3, 3, 3], 2, 2⟩) = some st1 ∧
        st1.fimage2 = Function.update (selectInit sampleImageT ⟨[2, 3, 3, 3], 2, 2⟩).fimage2
          (0 * sampleImageT.xsize + 0) 1 ∧
        st1.coord = [] ∧ st1.num = 0) ∧
    ¬ ∃ (i j : Int) (tp : Int → ℚ) (vlen : ℚ), ¬ (i = 0 ∧ j = 0) ∧ i * i + j * j ≤ 1 * 1 ∧
        (get_similarity (fun x : ℚ => x) sampleImageT.imgBW sampleImageT.xsize sampleImageT.ysize
          tp vlen 0 1 (0 + i) (0 + j)).1 = 0 := by
  have hs : selectScan (selectInit sampleImageT ⟨[2, 3, 3, 3], 2, 2⟩).fimage2 sampleImageT.xsize
        sampleImageT.ysize (3 : ℚ) = { fp2 := 4, min_sim := 2, cx := 0, cy := 0 } := by
    have c0 : (selectInit sampleImageT ⟨[2, 3, 3, 3], 2, 2⟩).fimage2 0 = (2 : ℚ) := by
      simp [selectInit, copyMap, sampleImageT]
    have c1 : (selectInit sampleImageT ⟨[2, 3, 3, 3], 2, 2⟩).fimage2 1 = (3 : ℚ) := by
      simp [selectInit, copyMap, sampleImageT]
    have c2 : (selectInit sampleImageT ⟨[2, 3, 3, 3], 2, 2⟩).fimage2 2 = (3 : ℚ) := by
      simp [selectInit, copyMap, sampleImageT]
    have c3 : (selectInit sampleImageT ⟨[2, 3, 3, 3], 2, 2⟩).fimage2 3 = (3 : ℚ) := by
      simp [selectInit, copyMap, sampleImageT]
    have := selectScan_two_by_two (selectInit sampleImageT ⟨[2, 3, 3, 3], 2, 2⟩).fimage2 3
      (by rw [c0]; norm_num) (by rw [c0, c1]; norm_num) (by rw [c0, c2]; norm_num)
      (by rw [c0, c3]; norm_num)
    rw [c0] at this
    exact this
  have hmt : make_template (fun x : ℚ => x) sampleImageT.imgBW sampleImageT.xsize
      sampleImageT.ysize 0 0 0 1 0 (selectInit sampleImageT ⟨[2, 3, 3, 3], 2, 2⟩).template
      = some ((templateFill sampleImage 2 0 0 0 1 (patchMean sampleImage 2 0 0 0 1)
          (fun _ => (0 : ℚ))).1, 12) := sample_make_template
  have hsd : ¬ ((12 : ℚ) / ((0 + 1 + 1 : Int) : ℚ) < 0) := by norm_num
  refine ⟨hs, hmt, hsd, ?_, ?_⟩
  · have hmt2 : make_template (fun x : ℚ => x) sampleImageT.imgBW sampleImageT.xsize
        sampleImageT.ysize
        (selectScan (selectInit sampleImageT ⟨[2, 3, 3, 3], 2, 2⟩).fimage2 sampleImageT.xsize
          sampleImageT.ysize (3 : ℚ)).cx
        (selectScan (selectInit sampleImageT ⟨[2, 3, 3, 3], 2, 2⟩).fimage2 sampleImageT.xsize
          sampleImageT.ysize (3 : ℚ)).cy 0 1 0
        (selectInit sampleImageT ⟨[2, 3, 3, 3], 2, 2⟩).template
        = some ((templateFill sampleImage 2 0 0 0 1 (patchMean sampleImage 2 0 0 0 1)
            (fun _ => (0 : ℚ))).1, 12) := by
      rw [hs]
      exact hmt
    obtain ⟨st1, hst, hcase⟩ := selectStep_verified (fun x : ℚ => x) sampleImageT 0 1 1 1 3 3 0
      (selectInit sampleImageT ⟨[2, 3, 3, 3], 2, 2⟩) _ 12
      (by simp [selectInit, maxFeatureNum, sampleImageT]) (by rw [hs]; decide) hmt2 hsd
    rw [hs] at hcase
    have hv : selectVerify (fun x : ℚ => x) sampleImageT.imgBW sampleImageT.xsize
        sampleImageT.ysize (templateFill sampleImage 2 0 0 0 1 (patchMean sampleImage 2 0 0 0 1)
          (fun _ => (0 : ℚ))).1 12 0 1 1 0 0 3 2 = (1, -1) := by
      simp [selectVerify, forBreak, verifyBody, verifyStop, get_similarity, patchOutside,
        sampleImageT]
    dsimp only at hcase
    rw [hv] at hcase
    rcases hcase with hc | hc
    · exact ⟨st1, hst, hc.2.1, hc.2.2.1, hc.2.2.2⟩
    · exact absurd (by simp [verifyStop]) hc.1
  · rintro ⟨i, j, tp, vlen, hc, hd, hg⟩
    have ho : patchOutside sampleImageT.xsize sampleImageT.ysize (0 + i) (0 + j) 0 1 := by
      unfold patchOutside
      simp only [sampleImageT]
      omega
    unfold get_similarity at hg
    rw [if_pos ho] at hg
    simp at hg

section FlatPatchLemmas

variable {K : Type} [LinearOrderedField K]

/-- A patch of uniform intensity has the variance term `sxx - sx*sx/N` equal
to zero, so its slot of `get_similarity_tile` receives `-1`. -/
theorem tileValue_uniform (sqrtf : K → K) (imageBW : Int → Nat) (xsize : Int)
    (template : Int → K) (vlen : K) (ts1 ts2 ccx cy : Int) (v : Nat)
    (hu : ∀ r c : Nat, (r : Int) ≤ ts1 + ts2 → (c : Int) ≤ ts1 + ts2 →
      patchPixel imageBW xsize ccx cy ts1 r c = v) :
    tileValue sqrtf imageBW xsize template vlen ts1 ts2 ccx cy = -1 := by
  unfold tileValue
  rw [simSumsTile_eq_simSums, simSums_eq]
  dsimp only
  rw [if_pos]
  by_cases hw : 0 < ts1 + ts2 + 1
  · rw [patchSqDev_eq_sums imageBW xsize ccx cy ts1 ts2 hw]
    exact patchSqDev_uniform imageBW xsize ccx cy ts1 ts2 v hu
  · have h0 : (ts1 + ts2 + 1).toNat = 0 := by omega
    rw [h0]
    simp

/-- At an anchor inside the image whose patch has uniform intensity
`get_similarity` reports failure. -/
theorem get_similarity_uniform (sqrtf : K → K) (imageBW : Int → Nat) (xsize ysize : Int)
    (template : Int → K) (vlen : K) (ts1 ts2 cx cy : Int) (v : Nat)
    (hu : ∀ r c : Nat, (r : Int) ≤ ts1 + ts2 → (c : Int) ≤ ts1 + ts2 →
      patchPixel imageBW xsize cx cy ts1 r c = v) :
    get_similarity sqrtf imageBW xsize ysize template vlen ts1 ts2 cx cy = (-1, -1) := by
  unfold get_similarity
  by_cases ho : patchOutside xsize ysize cx cy ts1 ts2
  · rw [if_pos ho]
  · rw [if_neg ho, simSums_eq]
    dsimp only
    rw [if_pos]
    by_cases hw : 0 < ts1 + ts2 + 1
    · rw [patchSqDev_eq_sums imageBW xsize cx cy ts1 ts2 hw]
      exact patchSqDev_uniform imageBW xsize cx cy ts1 ts2 v hu
    · have h0 : (ts1 + ts2 + 1).toNat = 0 := by omega
      rw [h0]
      simp

/-- The fold of the tile slots of `ar2SelectFeature2` into `(min, max)`:
`min` only falls, `max` only rises, and the result either meets the exit test
or bounds every slot of the run. -/
theorem verifyFold_scan (tile : Int → K) (min_sim_thresh min_sim : K) (i i_iter : Int)
    (mm : K × K) :
    (verifyFold tile min_sim_thresh min_sim i i_iter mm).1 ≤ mm.1 ∧
    mm.2 ≤ (verifyFold tile min_sim_thresh min_sim i i_iter mm).2 ∧
    (verifyStop min_sim_thresh min_sim (verifyFold tile min_sim_thresh min_sim i i_iter mm)
        = true ∨
      ∀ abc : Int, i ≤ abc → abc < i_iter →
        (verifyFold tile min_sim_thresh min_sim i i_iter mm).1 ≤ tile (abc - i) ∧
        tile (abc - i) ≤ (verifyFold tile min_sim_thresh min_sim i i_iter mm).2) := by
  have h := forBreak_minmax (fun s : K × K => s)
    (fun s => verifyStop min_sim_thresh min_sim s = true) (fun _ => True)
    (fun abc s => s.1 ≤ tile (abc - i) ∧ tile (abc - i) ≤ s.2)
    i (i_iter - 1)
    (fun abc mm =>
      let min1 := if tile (abc - i) < mm.1 then tile (abc - i) else mm.1
      if tile (abc - i) < mm.1 ∧ (min1 < min_sim_thresh ∧ min1 < min_sim) then ((min1, mm.2), true)
      else
        let max1 := if tile (abc - i) > mm.2 then tile (abc - i) else mm.2
        if tile (abc - i) > mm.2 ∧ max1 > 99 / 100 then ((min1, max1), true)
        else ((min1, max1), false))
    (fun x a b hc h1 h2 => ⟨le_trans h1 hc.1, le_trans hc.2 h2⟩)
    (fun x s _ _ => by
      dsimp only
      generalize tile (x - i) = g
      by_cases h4 : g < s.1 ∧
          ((if g < s.1 then g else s.1) < min_sim_thresh ∧ (if g < s.1 then g else s.1) < min_sim)
      · rw [if_pos h4]
        dsimp only
        rw [if_pos h4.1] at h4 ⊢
        refine ⟨le_of_lt h4.1, le_refl _, Or.inr trivial, Or.inr trivial, fun _ => ?_,
          fun h => absurd h (by simp)⟩
        unfold verifyStop
        exact decide_eq_true (Or.inl h4.2)
      rw [if_neg h4]
      by_cases h5 : g > s.2 ∧ (if g > s.2 then g else s.2) > 99 / 100
      · rw [if_pos h5]
        dsimp only
        rw [if_pos h5.1] at h5 ⊢
        refine ⟨?_, le_of_lt h5.1, Or.inr trivial, Or.inr trivial, fun _ => ?_,
          fun h => absurd h (by simp)⟩
        · split_ifs with h6
          · exact le_of_lt h6
          · exact le_refl _
        · unfold verifyStop
          exact decide_eq_true (Or.inr h5.2)
      rw [if_neg h5]
      dsimp only
      refine ⟨?_, ?_, Or.inr trivial, Or.inr trivial, fun h => absurd h (by simp),
        fun _ => ⟨?_, ?_⟩⟩
      · split_ifs with h6
        · exact le_of_lt h6
        · exact le_refl _
      · split_ifs with h6
        · exact le_of_lt h6
        · exact le_refl _
      · split_ifs with h6
        · exact le_refl _
        · exact not_lt.mp h6
      · split_ifs with h6
        · exact le_refl _
        · exact not_lt.mp h6)
    (i_iter - 1 + 1 - i).toNat i mm (le_refl _) (le_refl _)
  obtain ⟨h1, h2, _, _, h5⟩ := h
  refine ⟨h1, h2, ?_⟩
  rcases h5 with h5 | h5
  · exact Or.inl h5
  · exact Or.inr (fun abc c1 c2 => h5 abc c1 (by omega))

/-- The loop over `i` of the re-verification of `ar2SelectFeature2` for one
`j`, entered at `i`: `min` only falls, `max` only rises, and the result either
meets the exit test or bounds the tile value at every remaining offset of the
row that lies in the disk, is not the centre and has its patch inside the
image. -/
theorem verifyRow2_scan (sqrtf : K → K) (imageBW : Int → Nat) (xsize ysize : Int)
    (template : Int → K) (vlen : K) (ts1 ts2 search_size2 cx cy : Int)
    (min_sim_thresh min_sim : K) (j : Int) :
    ∀ (n : Nat) (i : Int) (s : (K × K) × (Int → K)), (search_size2 + 1 - i).toNat ≤ n →
      (verifyRow2 sqrtf imageBW xsize ysize template vlen ts1 ts2 search_size2 cx cy
          min_sim_thresh min_sim j i s).1.1 ≤ s.1.1 ∧
      s.1.2 ≤ (verifyRow2 sqrtf imageBW xsize ysize template vlen ts1 ts2 search_size2 cx cy
          min_sim_thresh min_sim j i s).1.2 ∧
      (verifyStop min_sim_thresh min_sim
          (verifyRow2 sqrtf imageBW xsize ysize template vlen ts1 ts2 search_size2 cx cy
            min_sim_thresh min_sim j i s).1 = true ∨
        ∀ x : Int, i ≤ x → x ≤ search_size2 →
          x * x + j * j ≤ search_size2 * search_size2 → ¬ (x = 0 ∧ j = 0) →
          ¬ patchOutside xsize ysize (cx + x) (cy + j) ts1 ts2 →
          (verifyRow2 sqrtf imageBW xsize ysize template vlen ts1 ts2 search_size2 cx cy
              min_sim_thresh min_sim j i s).1.1
            ≤ tileValue sqrtf imageBW xsize template vlen ts1 ts2 (cx + x) (cy + j) ∧
          tileValue sqrtf imageBW xsize template vlen ts1 ts2 (cx + x) (cy + j)
            ≤ (verifyRow2 sqrtf imageBW xsize ysize template vlen ts1 ts2 search_size2 cx cy
              min_sim_thresh min_sim j i s).1.2) := by
  intro n
  induction n with
  | zero =>
      intro i s hn
      rw [verifyRow2, dif_neg (by omega)]
      exact ⟨le_refl _, le_refl _, Or.inr (fun x h1 h2 => by omega)⟩
  | succ m ih =>
      intro i s hn
      rw [verifyRow2]
      by_cases hi : i ≤ search_size2
      · rw [dif_pos hi]
        obtain ⟨hge, hrun⟩ := verifyRun_spec xsize ysize cx cy ts1 ts2 search_size2 j i
          (512 + i - i).toNat i (le_refl _)
        have hstop := verifyRun_stop xsize ysize cx cy ts1 ts2 search_size2 j i
          (512 + i - i).toNat i (le_refl _)
        by_cases hr : verifyRun xsize ysize cx cy ts1 ts2 search_size2 j i i = i
        · rw [if_pos hr]
          rw [hr] at hstop
          obtain ⟨r1, r2, r3⟩ := ih (i + 1) s (by omega)
          refine ⟨r1, r2, ?_⟩
          rcases r3 with r3 | r3
          · exact Or.inl r3
          · refine Or.inr (fun x h1 h2 c1 c2 c3 => ?_)
            by_cases hx : x = i
            · subst hx
              rcases hstop with hs | hs | hs | hs
              · exact absurd ⟨hi, by omega⟩ hs
              · exact absurd c1 (not_le.mpr hs)
              · exact absurd hs c2
              · exact absurd hs c3
            · exact r3 x (by omega) h2 c1 c2 c3
        · rw [if_neg hr]
          have hlt : i < verifyRun xsize ysize cx cy ts1 ts2 search_size2 j i i := by omega
          generalize verifyRun xsize ysize cx cy ts1 ts2 search_size2 j i i = r0 at hrun hlt
          dsimp only
          obtain ⟨f1, f2, f3⟩ := verifyFold_scan
            (get_similarity_tile sqrtf imageBW xsize template vlen ts1 ts2 (cx + i) (cy + j)
              s.2 |i - r0|) min_sim_thresh min_sim i r0 s.1
          by_cases hst : verifyStop min_sim_thresh min_sim
              (verifyFold (get_similarity_tile sqrtf imageBW xsize template vlen ts1 ts2
                (cx + i) (cy + j) s.2 |i - r0|) min_sim_thresh min_sim i r0 s.1) = true
          · rw [if_pos hst]
            exact ⟨f1, f2, Or.inl hst⟩
          · rw [if_neg hst, genAdvance_eq i r0 hlt]
            obtain ⟨r1, r2, r3⟩ := ih r0
              (verifyFold (get_similarity_tile sqrtf imageBW xsize template vlen ts1 ts2
                (cx + i) (cy + j) s.2 |i - r0|) min_sim_thresh min_sim i r0 s.1,
               get_similarity_tile sqrtf imageBW xsize template vlen ts1 ts2 (cx + i) (cy + j)
                s.2 |i - r0|) (by omega)
            refine ⟨le_trans r1 f1, le_trans f2 r2, ?_⟩
            rcases r3 with r3 | r3
            · exact Or.inl r3
            · refine Or.inr (fun x h1 h2 c1 c2 c3 => ?_)
              by_cases hx : x < r0
              · rcases f3 with f3 | f3
                · exact absurd f3 hst
                · obtain ⟨g1, g2⟩ := f3 x h1 hx
                  have habs : |i - r0| = r0 - i := by
                    rw [abs_sub_comm, abs_of_nonneg (by omega)]
                  rw [get_similarity_tile_slot, if_pos ⟨by omega, by rw [habs]; omega⟩,
                    show cx + i + (x - i) = cx + x from by ring] at g1 g2
                  exact ⟨le_trans r1 g1, le_trans g2 r2⟩
              · exact r3 x (by omega) h2 c1 c2 c3
      · rw [dif_neg hi]
        exact ⟨le_refl _, le_refl _, Or.inr (fun x h1 h2 => by omega)⟩

/-- The re-verification loops of `ar2SelectFeature2`: the result either meets
the exit test or bounds the tile value at every offset of the window that lies
in the disk, is not the centre and has its patch inside the image. -/
theorem selectVerify2_scan (sqrtf : K → K) (imageBW : Int → Nat) (xsize ysize : Int)
    (template : Int → K) (vlen : K) (ts1 ts2 search_size2 cx cy : Int)
    (min_sim_thresh min_sim : K) (tile : Int → K) :
    verifyStop min_sim_thresh min_sim
        (selectVerify2 sqrtf imageBW xsize ysize template vlen ts1 ts2 search_size2 cx cy
          min_sim_thresh min_sim tile).1 = true ∨
      ∀ i j : Int, -search_size2 ≤ i → i ≤ search_size2 → -search_size2 ≤ j → j ≤ search_size2 →
        i * i + j * j ≤ search_size2 * search_size2 → ¬ (i = 0 ∧ j = 0) →
        ¬ patchOutside xsize ysize (cx + i) (cy + j) ts1 ts2 →
        (selectVerify2 sqrtf imageBW xsize ysize template vlen ts1 ts2 search_size2 cx cy
            min_sim_thresh min_sim tile).1.1
          ≤ tileValue sqrtf imageBW xsize template vlen ts1 ts2 (cx + i) (cy + j) ∧
        tileValue sqrtf imageBW xsize template vlen ts1 ts2 (cx + i) (cy + j)
          ≤ (selectVerify2 sqrtf imageBW xsize ysize template vlen ts1 ts2 search_size2 cx cy
            min_sim_thresh min_sim tile).1.2 := by
  have h := forBreak_minmax (fun s : (K × K) × (Int → K) => s.1)
    (fun s => verifyStop min_sim_thresh min_sim s = true) (fun _ => True)
    (fun j s => ∀ i : Int, -search_size2 ≤ i → i ≤ search_size2 →
        i * i + j * j ≤ search_size2 * search_size2 → ¬ (i = 0 ∧ j = 0) →
        ¬ patchOutside xsize ysize (cx + i) (cy + j) ts1 ts2 →
        s.1 ≤ tileValue sqrtf imageBW xsize template vlen ts1 ts2 (cx + i) (cy + j) ∧
        tileValue sqrtf imageBW xsize template vlen ts1 ts2 (cx + i) (cy + j) ≤ s.2)
    (-search_size2) search_size2
    (fun j s =>
      let s1 := verifyRow2 sqrtf imageBW xsize ysize template vlen ts1 ts2 search_size2 cx cy
        min_sim_thresh min_sim j (-search_size2) s
      (s1, verifyStop min_sim_thresh min_sim s1.1))
    (fun x a b hc h1 h2 i c1 c2 c3 c4 c5 =>
      ⟨le_trans h1 (hc i c1 c2 c3 c4 c5).1, le_trans (hc i c1 c2 c3 c4 c5).2 h2⟩)
    (fun x s _ _ => by
      obtain ⟨b1, b2, b3⟩ := verifyRow2_scan sqrtf imageBW xsize ysize template vlen
        ts1 ts2 search_size2 cx cy min_sim_thresh min_sim x
        (search_size2 + 1 - -search_size2).toNat (-search_size2) s (le_refl _)
      dsimp only
      refine ⟨b1, b2, Or.inr trivial, Or.inr trivial, fun h => h, fun h => ?_⟩
      rcases b3 with b3 | b3
      · rw [b3] at h
        cases h
      · exact b3)
    (search_size2 + 1 - -search_size2).toNat (-search_size2) ((1, -1), tile) (le_refl _)
    (le_refl _)
  obtain ⟨_, _, _, _, h5⟩ := h
  rcases h5 with h5 | h5
  · exact Or.inl h5
  · exact Or.inr (fun i j c1 c2 c3 c4 => h5 j c3 c4 i c1 c2)

end FlatPatchLemmas

section FlatNeighbour

variable {K : Type} [LinearOrderedField K]

end FlatNeighbour

section BreakLoopLemmas

/-- One unfolding of a loop with `break`. -/
theorem forBreak_unfold {σ : Type} (lo hi : Int) (body : Int → σ → σ × Bool) (s : σ) :
    forBreak lo hi body s
      = if lo ≤ hi then
          if (body lo s).2 then (body lo s).1 else forBreak (lo + 1) hi body (body lo s).1
        else s := by
  rw [forBreak]

/-- Positions at which the body neither changes the state nor leaves the loop
can be dropped from the front of a loop with `break`. -/
theorem forBreak_skip {σ : Type} (body : Int → σ → σ × Bool) (hi lo2 : Int) (s : σ) :
    ∀ (n : Nat) (lo : Int), (lo2 - lo).toNat ≤ n → lo ≤ lo2 →
      (∀ x, lo ≤ x → x < lo2 → x ≤ hi → body x s = (s, false)) →
      forBreak lo hi body s = forBreak lo2 hi body s := by
  intro n
  induction n with
  | zero =>
      intro lo hn hle _
      have : lo = lo2 := by omega
      rw [this]
  | succ m ih =>
      intro lo hn hle hskip
      by_cases heq : lo = lo2
      · rw [heq]
      · by_cases hlo : lo ≤ hi
        · rw [forBreak, if_pos hlo, hskip lo (le_refl _) (by omega) hlo]
          dsimp only
          rw [if_neg (by simp)]
          exact ih (lo + 1) (by omega) (by omega) (fun x h1 h2 h3 => hskip x (by omega) h2 h3)
        · rw [forBreak, if_neg hlo, forBreak, if_neg (by omega)]

/-- A loop with `break` over `lo .. hi` with body `body2`, cut at `mid`: if on
`lo .. mid - 1` the body agrees with `body1` on the states with `P`, leaves
exactly when the new state has `B`, and otherwise keeps `P` (which excludes
`B`), then the loop is the loop of `body1` over `lo .. mid - 1` when that one
ends in `B`, and otherwise continues from `mid` with its result. -/
theorem forBreak_prefix {σ : Type} (body1 body2 : Int → σ → σ × Bool) (P B : σ → Prop)
    (lo0 mid hi : Int) (hmid : mid ≤ hi + 1) (hPB : ∀ s, P s → ¬ B s)
    (hstep : ∀ x s, lo0 ≤ x → x < mid → P s →
      body2 x s = body1 x s ∧ ((body1 x s).2 = true → B (body1 x s).1) ∧
      ((body1 x s).2 = false → P (body1 x s).1)) :
    ∀ (n : Nat) (lo : Int) (s : σ), (mid - lo).toNat ≤ n → lo0 ≤ lo → lo ≤ mid → P s →
      (B (forBreak lo (mid - 1) body1 s) →
        forBreak lo hi body2 s = forBreak lo (mid - 1) body1 s) ∧
      (¬ B (forBreak lo (mid - 1) body1 s) →
        P (forBreak lo (mid - 1) body1 s) ∧
        forBreak lo hi body2 s = forBreak mid hi body2 (forBreak lo (mid - 1) body1 s)) := by
  intro n
  induction n with
  | zero =>
      intro lo s hn hl0 hle hP
      have heq : lo = mid := by omega
      subst heq
      rw [forBreak_unfold lo (lo - 1), if_neg (by omega)]
      exact ⟨fun hB => absurd hB (hPB s hP), fun _ => ⟨hP, rfl⟩⟩
  | succ m ih =>
      intro lo s hn hl0 hle hP
      by_cases heq : lo = mid
      · subst heq
        rw [forBreak_unfold lo (lo - 1), if_neg (by omega)]
        exact ⟨fun hB => absurd hB (hPB s hP), fun _ => ⟨hP, rfl⟩⟩
      · obtain ⟨e1, e2, e3⟩ := hstep lo s hl0 (by omega) hP
        have hl1 : lo ≤ mid - 1 := by omega
        have hl2 : lo ≤ hi := by omega
        rw [forBreak_unfold lo (mid - 1), if_pos hl1, forBreak_unfold lo hi, if_pos hl2, e1]
        by_cases hb : (body1 lo s).2 = true
        · rw [if_pos hb, if_pos hb]
          exact ⟨fun _ => rfl, fun hnB => absurd (e2 hb) hnB⟩
        · rw [if_neg hb, if_neg hb]
          exact ih (lo + 1) (body1 lo s).1 (by omega) (by omega) (by omega)
            (e3 (by simpa using hb))

end BreakLoopLemmas

section NaiveScanLemmas

variable {K : Type} [LinearOrderedField K]

/-- At an anchor whose patch lies inside the image, `get_similarity` fails
exactly when the tile value is the `-1` of a patch of zero variance, and
otherwise returns the tile value. -/
theorem get_similarity_inside (sqrtf : K → K) (imageBW : Int → Nat) (xsize ysize : Int)
    (template : Int → K) (vlen : K) (ts1 ts2 cx cy : Int)
    (hin : ¬ patchOutside xsize ysize cx cy ts1 ts2) :
    ((get_similarity sqrtf imageBW xsize ysize template vlen ts1 ts2 cx cy).1 < 0 →
      tileValue sqrtf imageBW xsize template vlen ts1 ts2 cx cy = -1) ∧
    (¬ (get_similarity sqrtf imageBW xsize ysize template vlen ts1 ts2 cx cy).1 < 0 →
      (get_similarity sqrtf imageBW xsize ysize template vlen ts1 ts2 cx cy).2
        = tileValue sqrtf imageBW xsize template vlen ts1 ts2 cx cy) := by
  unfold get_similarity tileValue
  rw [if_neg hin, simSumsTile_eq_simSums]
  dsimp only
  split_ifs with h
  · exact ⟨fun _ => rfl, fun hc => absurd (by norm_num) hc⟩
  · exact ⟨fun hc => absurd hc (by norm_num), fun _ => rfl⟩

/-- An offset inside the exclusion disk or with its patch out of bounds is
skipped by the naive scan. -/
theorem naiveBody_skip (sqrtf : K → K) (img : Int → Nat) (xsize ysize : Int)
    (template : Int → K) (vlen : K) (ts1 ts2 search_size2 : Int) (max_sim_thresh : K)
    (i j jj ii : Int) (max : K)
    (h : ii * ii + jj * jj ≤ search_size2 * search_size2 ∨
      patchOutside xsize ysize (i + ii) (j + jj) ts1 ts2) :
    naiveBody sqrtf img xsize ysize template vlen ts1 ts2 search_size2 max_sim_thresh i j jj ii
      max = (max, false) := by
  unfold naiveBody
  by_cases hd : ii * ii + jj * jj ≤ search_size2 * search_size2
  · rw [if_pos hd]
  · rw [if_neg hd]
    have ho : patchOutside xsize ysize (i + ii) (j + jj) ts1 ts2 := by
      rcases h with h | h
      · exact absurd h hd
      · exact h
    unfold get_similarity
    rw [if_pos ho, if_pos (by norm_num)]

/-- At an offset outside the exclusion disk with its patch inside the image,
on a maximum between `-1` and `max_sim_thresh`, the naive scan does what the
fold of the tile slot does. -/
theorem naiveBody_tile (sqrtf : K → K) (img : Int → Nat) (xsize ysize : Int)
    (template : Int → K) (vlen : K) (ts1 ts2 search_size2 : Int) (max_sim_thresh : K)
    (i j jj ii : Int) (max : K)
    (hd : ¬ (ii * ii + jj * jj ≤ search_size2 * search_size2))
    (hin : ¬ patchOutside xsize ysize (i + ii) (j + jj) ts1 ts2)
    (h1 : -1 ≤ max) (h2 : max ≤ max_sim_thresh) :
    naiveBody sqrtf img xsize ysize template vlen ts1 ts2 search_size2 max_sim_thresh i j jj ii
        max
      = if tileValue sqrtf img xsize template vlen ts1 ts2 (i + ii) (j + jj) > max then
          (tileValue sqrtf img xsize template vlen ts1 ts2 (i + ii) (j + jj),
            decide (tileValue sqrtf img xsize template vlen ts1 ts2 (i + ii) (j + jj)
              > max_sim_thresh))
        else (max, false) := by
  obtain ⟨g1, g2⟩ := get_similarity_inside sqrtf img xsize ysize template vlen ts1 ts2
    (i + ii) (j + jj) hin
  unfold naiveBody
  rw [if_neg hd]
  by_cases hf : (get_similarity sqrtf img xsize ysize template vlen ts1 ts2 (i + ii)
      (j + jj)).1 < 0
  · rw [if_pos hf, g1 hf, if_neg (not_lt.mpr h1)]
  · rw [if_neg hf]
    dsimp only
    rw [g2 hf]
    by_cases hgt : tileValue sqrtf img xsize template vlen ts1 ts2 (i + ii) (j + jj) > max
    · rw [if_pos hgt, if_pos hgt]
    · rw [if_neg hgt, if_neg hgt]
      exact Prod.ext rfl (decide_eq_false (not_lt.mpr h2))

end NaiveScanLemmas

section NaiveRowLemmas

variable {K : Type} [LinearOrderedField K]

/-- The loop over `ii` of the window scan for the row `jj`, entered at `ii`
with a maximum between `-1` and `max_sim_thresh`, ends with the maximum the
naive scan of the offsets `ii .. search_size1` of the row ends with. -/
theorem genScanRow_naive (sqrtf : K → K) (img : Int → Nat) (xsize ysize : Int)
    (template : Int → K) (vlen : K) (ts1 ts2 search_size1 search_size2 : Int)
    (max_sim_thresh : K) (i j jj : Int) :
    ∀ (fuel : Nat) (ii : Int) (s r : K × (Int → K)),
      genScanRow sqrtf img xsize ysize template vlen ts1 ts2 search_size1 search_size2
        max_sim_thresh i j jj fuel ii s = some r →
      (ii ≤ search_size1 → 0 < ii → ¬ (ii * ii + jj * jj ≤ search_size2 * search_size2)) →
      (ii ≤ 0 → ii = -search_size1 ∨
        ¬ ((ii - 1) * (ii - 1) + jj * jj ≤ search_size2 * search_size2)) →
      -1 ≤ s.1 → s.1 ≤ max_sim_thresh →
      r.1 = forBreak ii search_size1
        (naiveBody sqrtf img xsize ysize template vlen ts1 ts2 search_size2 max_sim_thresh i j jj)
        s.1 := by
  intro fuel
  induction fuel with
  | zero =>
      intro ii s r hres
      rw [genScanRow] at hres
      cases hres
  | succ m ih =>
      intro ii s r hres hpos hneg hs1 hs2
      obtain ⟨ii1, hii1⟩ : ∃ x : Int,
          x = if ii * ii + jj * jj ≤ search_size2 * search_size2 then -ii + 1 else ii := ⟨_, rfl⟩
      rw [genScanRow_succ sqrtf img xsize ysize template vlen ts1 ts2 search_size1 search_size2
        max_sim_thresh i j jj m ii s ii1 hii1] at hres
      by_cases hcond : ii ≤ search_size1
      · rw [if_neg (not_not.mpr hcond)] at hres
        obtain ⟨hr1, hr2⟩ := genRun_spec xsize ysize i j ts1 ts2 search_size1 search_size2 jj
          ii1 _ ii1 (le_refl _)
        have hstop := genRun_stop xsize ysize i j ts1 ts2 search_size1 search_size2 jj
          ii1 _ ii1 (le_refl _)
        obtain ⟨hn1, hn2, hn3⟩ := genScan_next search_size1 search_size2 jj ii ii1 _ hii1 hcond
          (hpos hcond) hneg hr1 (fun x h1 h2 => (hr2 x h1 h2).1) _ rfl
        -- the offsets the jump over the disk skips are inside the disk
        have hskip : ii ≤ ii1 ∧ ∀ x, ii ≤ x → x < ii1 →
            x * x + jj * jj ≤ search_size2 * search_size2 := by
          by_cases hd : ii * ii + jj * jj ≤ search_size2 * search_size2
          · rw [if_pos hd] at hii1
            have hii : ii ≤ 0 := by
              by_contra hc
              exact hpos hcond (by omega) hd
            refine ⟨by omega, fun x h1 h2 => ?_⟩
            by_contra hx
            refine disk_mono jj _ x ii ?_ hx hd
            rw [abs_of_nonpos hii]
            exact abs_le.mpr ⟨by omega, by omega⟩
          · rw [if_neg hd] at hii1
            exact ⟨by omega, fun x h1 h2 => by omega⟩
        have hjump : forBreak ii search_size1
            (naiveBody sqrtf img xsize ysize template vlen ts1 ts2 search_size2 max_sim_thresh
              i j jj) s.1
            = forBreak ii1 search_size1
              (naiveBody sqrtf img xsize ysize template vlen ts1 ts2 search_size2 max_sim_thresh
                i j jj) s.1 :=
          forBreak_skip _ search_size1 ii1 s.1 (ii1 - ii).toNat ii (le_refl _) hskip.1
            (fun x h1 h2 _ => naiveBody_skip sqrtf img xsize ysize template vlen ts1 ts2
              search_size2 max_sim_thresh i j jj x s.1 (Or.inl (hskip.2 x h1 h2)))
        rw [hjump]
        by_cases hrun : genRun xsize ysize i j ts1 ts2 search_size1 search_size2 jj ii1 ii1 = ii1
        · rw [if_pos hrun] at hres
          rw [if_pos hrun] at hn1 hn2 hn3
          rw [hrun] at hstop
          rw [ih (ii1 + 1) s r hres hn2 hn3 hs1 hs2]
          refine (forBreak_skip _ search_size1 (ii1 + 1) s.1 (ii1 + 1 - ii1).toNat ii1 (le_refl _)
            (by omega) (fun x h1 h2 h3 => ?_)).symm
          have hx : x = ii1 := by omega
          subst hx
          rcases hstop with h | h | h
          · exact absurd ⟨h3, by omega⟩ h
          · exact naiveBody_skip sqrtf img xsize ysize template vlen ts1 ts2 search_size2
              max_sim_thresh i j jj x s.1 (Or.inl h)
          · exact naiveBody_skip sqrtf img xsize ysize template vlen ts1 ts2 search_size2
              max_sim_thresh i j jj x s.1 (Or.inr h)
        · rw [if_neg hrun] at hres
          rw [if_neg hrun] at hn1 hn2 hn3
          have hlt : ii1 < genRun xsize ysize i j ts1 ts2 search_size1 search_size2 jj ii1 ii1 := by
            omega
          generalize genRun xsize ysize i j ts1 ts2 search_size1 search_size2 jj ii1 ii1 = r0
            at hres hr1 hr2 hn1 hn2 hn3 hlt
          have hmid : r0 ≤ search_size1 + 1 := by
            have := (hr2 (r0 - 1) (by omega) (by omega)).2.2.1
            omega
          have habs : |ii1 - r0| = r0 - ii1 := by
            rw [abs_sub_comm, abs_of_nonneg (by omega)]
          have hpre := forBreak_prefix
            (fun abc (max : K) =>
              if get_similarity_tile sqrtf img xsize template vlen ts1 ts2 (i + ii1) (j + jj) s.2
                  |ii1 - r0| (abc - ii1) > max then
                (get_similarity_tile sqrtf img xsize template vlen ts1 ts2 (i + ii1) (j + jj) s.2
                  |ii1 - r0| (abc - ii1),
                 decide (get_similarity_tile sqrtf img xsize template vlen ts1 ts2 (i + ii1)
                  (j + jj) s.2 |ii1 - r0| (abc - ii1) > max_sim_thresh))
              else (max, false))
            (naiveBody sqrtf img xsize ysize template vlen ts1 ts2 search_size2 max_sim_thresh
              i j jj)
            (fun m : K => -1 ≤ m ∧ m ≤ max_sim_thresh) (fun m : K => m > max_sim_thresh)
            ii1 r0 search_size1 hmid (fun m hm => not_lt.mpr hm.2)
            (fun x mx hx1 hx2 hP => by
              obtain ⟨q1, q2, _, _⟩ := hr2 x hx1 hx2
              rw [naiveBody_tile sqrtf img xsize ysize template vlen ts1 ts2 search_size2
                max_sim_thresh i j jj x mx q1 q2 hP.1 hP.2]
              dsimp only
              rw [get_similarity_tile_slot,
                if_pos (show 0 ≤ x - ii1 ∧ x - ii1 < |ii1 - r0| from
                  ⟨by omega, by rw [habs]; omega⟩),
                show i + ii1 + (x - ii1) = i + x from by ring]
              refine ⟨rfl, ?_, ?_⟩
              · split_ifs with hgt
                · intro hf
                  exact of_decide_eq_true hf
                · intro hf
                  exact absurd hf (by simp)
              · split_ifs with hgt
                · intro hf
                  exact ⟨le_trans hP.1 (le_of_lt hgt), not_lt.mp (of_decide_eq_false hf)⟩
                · intro _
                  exact hP)
            (r0 - ii1).toNat ii1 s.1 (le_refl _) (le_refl _) (le_of_lt hlt) ⟨hs1, hs2⟩
          have hmax : (genTile sqrtf img xsize template vlen ts1 ts2 max_sim_thresh i j jj ii1 r0
              s).1 = forBreak ii1 (r0 - 1)
                (fun abc (max : K) =>
                  if get_similarity_tile sqrtf img xsize template vlen ts1 ts2 (i + ii1) (j + jj)
                      s.2 |ii1 - r0| (abc - ii1) > max then
                    (get_similarity_tile sqrtf img xsize template vlen ts1 ts2 (i + ii1) (j + jj)
                      s.2 |ii1 - r0| (abc - ii1),
                     decide (get_similarity_tile sqrtf img xsize template vlen ts1 ts2 (i + ii1)
                      (j + jj) s.2 |ii1 - r0| (abc - ii1) > max_sim_thresh))
                  else (max, false)) s.1 := rfl
          rw [← hmax] at hpre
          by_cases hbrk : (genTile sqrtf img xsize template vlen ts1 ts2 max_sim_thresh i j jj ii1
              r0 s).1 > max_sim_thresh
          · rw [if_pos hbrk] at hres
            rw [← Option.some.inj hres]
            exact (hpre.1 hbrk).symm
          · rw [if_neg hbrk] at hres
            obtain ⟨hP, heq⟩ := hpre.2 hbrk
            rw [heq]
            exact ih r0 _ r hres hn2 hn3 hP.1 hP.2
      · rw [if_pos hcond] at hres
        rw [← Option.some.inj hres, forBreak_unfold, if_neg hcond]

end NaiveRowLemmas

section NaiveSearchLemmas

variable {K : Type} [LinearOrderedField K]

/-- The return value of `get_similarity` is `0` or `-1`, and it is `0` only
for an anchor whose patch lies inside the image. -/
theorem get_similarity_fst (sqrtf : K → K) (imageBW : Int → Nat) (xsize ysize : Int)
    (template : Int → K) (vlen : K) (ts1 ts2 cx cy : Int) :
    ((get_similarity sqrtf imageBW xsize ysize template vlen ts1 ts2 cx cy).1 = 0 ∨
      (get_similarity sqrtf imageBW xsize ysize template vlen ts1 ts2 cx cy).1 = -1) ∧
    ((get_similarity sqrtf imageBW xsize ysize template vlen ts1 ts2 cx cy).1 = 0 →
      ¬ patchOutside xsize ysize cx cy ts1 ts2) := by
  unfold get_similarity
  dsimp only
  split_ifs with h1 h2
  · exact ⟨Or.inr rfl, fun h => absurd h (by norm_num)⟩
  · exact ⟨Or.inr rfl, fun h => absurd h (by norm_num)⟩
  · exact ⟨Or.inl rfl, fun _ => h1⟩

/-- The loop over `jj` of the window scan from the row `lo` on, entered with
a maximum between `-1` and `max_sim_thresh`, ends with the maximum the naive
scan of the rows `lo .. search_size1` ends with. -/
theorem genSearch_naive_rows (sqrtf : K → K) (img : Int → Nat) (xsize ysize : Int)
    (template : Int → K) (vlen : K) (ts1 ts2 search_size1 search_size2 : Int)
    (max_sim_thresh : K) (fuel : Nat) (i j : Int) :
    ∀ (n : Nat) (lo : Int) (s r : K × (Int → K)), (search_size1 + 1 - lo).toNat ≤ n →
      -1 ≤ s.1 → s.1 ≤ max_sim_thresh →
      forBreak lo search_size1
          (fun jj (s : Option (K × (Int → K))) =>
            match s with
            | none => ((none : Option (K × (Int → K))), true)
            | some s =>
                match genScanRow sqrtf img xsize ysize template vlen ts1 ts2 search_size1
                    search_size2 max_sim_thresh i j jj fuel (-search_size1) s with
                | none => (none, true)
                | some s1 => (some s1, decide (s1.1 > max_sim_thresh)))
          (some s) = some r →
        r.1 = forBreak lo search_size1
          (fun jj max =>
            let max1 := forBreak (-search_size1) search_size1
              (naiveBody sqrtf img xsize ysize template vlen ts1 ts2 search_size2 max_sim_thresh
                i j jj) max
            (max1, decide (max1 > max_sim_thresh)))
          s.1 := by
  intro n
  induction n with
  | zero =>
      intro lo s r hn _ _ hres
      rw [forBreak, if_neg (by omega)] at hres
      rw [← Option.some.inj hres, forBreak_unfold, if_neg (by omega)]
  | succ m ih =>
      intro lo s r hn hs1 hs2 hres
      rw [forBreak] at hres
      rw [forBreak_unfold]
      by_cases hc : lo ≤ search_size1
      · rw [if_pos hc] at hres
        rw [if_pos hc]
        dsimp only at hres ⊢
        cases hrow : genScanRow sqrtf img xsize ysize template vlen ts1 ts2 search_size1
            search_size2 max_sim_thresh i j lo fuel (-search_size1) s with
        | none =>
            rw [hrow] at hres
            dsimp only at hres
            rw [if_pos rfl] at hres
            cases hres
        | some s1 =>
            rw [hrow] at hres
            dsimp only at hres
            obtain ⟨ha, _, _⟩ := genScanRow_scan sqrtf img xsize ysize template vlen ts1
              ts2 search_size1 search_size2 max_sim_thresh i j lo fuel (-search_size1) s s1 hrow
              (le_refl _) (fun h1 h2 => by omega) (fun _ => Or.inl rfl)
            have e := genScanRow_naive sqrtf img xsize ysize template vlen ts1
              ts2 search_size1 search_size2 max_sim_thresh i j lo fuel (-search_size1) s s1 hrow
              (fun h1 h2 => by omega) (fun _ => Or.inl rfl) hs1 hs2
            rw [← e]
            by_cases hbrk : s1.1 > max_sim_thresh
            · rw [if_pos (by rw [decide_eq_true hbrk])] at hres
              rw [if_pos (by rw [decide_eq_true hbrk])]
              rw [← Option.some.inj hres]
            · rw [if_neg (by rw [decide_eq_false hbrk]; exact Bool.false_ne_true)] at hres
              rw [if_neg (by rw [decide_eq_false hbrk]; exact Bool.false_ne_true)]
              exact ih (lo + 1) s1 r (by omega) (le_trans hs1 ha) (not_lt.mp hbrk) hres
      · rw [if_neg hc] at hres
        rw [if_neg hc, ← Option.some.inj hres]

/-- The window scan of a candidate pixel with `max_sim_thresh ≥ -1`, when it
ends: the final `max` is the result of the naive scan, and it exceeds
`max_sim_thresh` exactly when `get_similarity` succeeds with a similarity above
`max_sim_thresh` at some offset of the window outside the exclusion disk. -/
theorem genSearch_naive (sqrtf : K → K) (img : Int → Nat) (xsize ysize : Int)
    (template : Int → K) (vlen : K) (ts1 ts2 search_size1 search_size2 : Int)
    (max_sim_thresh : K) (hthr : -1 ≤ max_sim_thresh) (fuel : Nat) (i j : Int)
    (tile : Int → K) (r : K × (Int → K))
    (h : genSearch sqrtf img xsize ysize template vlen ts1 ts2 search_size1 search_size2
      max_sim_thresh fuel i j tile = some r) :
    r.1 = naiveScan sqrtf img xsize ysize template vlen ts1 ts2 search_size1 search_size2
      max_sim_thresh i j ∧
    (r.1 > max_sim_thresh ↔
      ∃ x y : Int, (-search_size1 ≤ x ∧ x ≤ search_size1 ∧ -search_size1 ≤ y ∧
          y ≤ search_size1) ∧
        ¬ (x * x + y * y ≤ search_size2 * search_size2) ∧
        (get_similarity sqrtf img xsize ysize template vlen ts1 ts2 (i + x) (j + y)).1 = 0 ∧
        (get_similarity sqrtf img xsize ysize template vlen ts1 ts2 (i + x) (j + y)).2
          > max_sim_thresh) := by
  constructor
  · exact genSearch_naive_rows sqrtf img xsize ysize template vlen ts1 ts2 search_size1
      search_size2 max_sim_thresh fuel i j _ (-search_size1) (-1, tile) r (le_refl _) (le_refl _)
      hthr h
  · obtain ⟨ha, hb⟩ := genSearch_scan sqrtf img xsize ysize template vlen ts1 ts2 search_size1
      search_size2 max_sim_thresh fuel i j tile r h
    constructor
    · intro hgt
      rcases ha with ha | ⟨h1, x, y, x1, x2, y1, y2, hd, ho, hv⟩
      · rw [ha] at hgt
        exact absurd hgt (not_lt.mpr hthr)
      · obtain ⟨g1, g2⟩ := get_similarity_inside sqrtf img xsize ysize template vlen ts1 ts2
          (i + x) (j + y) ho
        have hnf : ¬ (get_similarity sqrtf img xsize ysize template vlen ts1 ts2 (i + x)
            (j + y)).1 < 0 := by
          intro hf
          rw [hv, g1 hf] at h1
          exact absurd h1 (lt_irrefl _)
        refine ⟨x, y, ⟨x1, x2, y1, y2⟩, hd, ?_, ?_⟩
        · rcases (get_similarity_fst sqrtf img xsize ysize template vlen ts1 ts2 (i + x)
            (j + y)).1 with h0 | h0
          · exact h0
          · exact absurd (by rw [h0]; norm_num) hnf
        · rw [g2 hnf, ← hv]
          exact hgt
    · rintro ⟨x, y, ⟨x1, x2, y1, y2⟩, hd, h0, hgt⟩
      by_contra hle
      have ho := (get_similarity_fst sqrtf img xsize ysize template vlen ts1 ts2 (i + x)
        (j + y)).2 h0
      obtain ⟨_, g2⟩ := get_similarity_inside sqrtf img xsize ysize template vlen ts1 ts2
        (i + x) (j + y) ho
      rw [g2 (by rw [h0]; norm_num)] at hgt
      have := hb (not_lt.mp hle) x y x1 x2 y1 y2 hd ho
      exact hle (lt_of_lt_of_le hgt this)

end NaiveSearchLemmas

section GenCandidateRule

variable {K : Type} [LinearOrderedField K] [FloorRing K]

/-- Rule for the value stored for a candidate pixel: a property that the
final `max` of every window scan has holds for the map value of every
candidate pixel (interior, strict maximum of the gradient magnitude among its
four neighbours, `(int)(magnitude*1000) ≥ k`, valid template). -/
theorem gen_candidate_rule (sqrtf : K → K) (image : AR2ImageT K)
    (ts1 ts2 search_size1 search_size2 : Int) (max_sim_thresh sd_thresh : K)
    (hx : 2 ≤ image.xsize) (hy : 2 ≤ image.ysize)
    (Q : Int → Int → (Int → K) → K → K → Prop)
    (hQ : ∀ fuel i j tp vlen tile r,
      genSearch sqrtf image.imgBW image.xsize image.ysize tp vlen ts1 ts2 search_size1
        search_size2 max_sim_thresh fuel i j tile = some r → Q i j tp vlen r.1)
    (fuel : Nat) (fm : AR2FeatureMapT K)
    (h : ar2GenFeatureMap sqrtf fuel image ts1 ts2 search_size1 search_size2
      max_sim_thresh sd_thresh = some fm)
    (i j : Int) (hi1 : 1 ≤ i) (hi2 : i ≤ image.xsize - 2) (hj1 : 1 ≤ j)
    (hj2 : j ≤ image.ysize - 2)
    (hlm : gradMag sqrtf image.imgBW image.xsize image.ysize i j
            > gradMag sqrtf image.imgBW image.xsize image.ysize (i - 1) j ∧
          gradMag sqrtf image.imgBW image.xsize image.ysize i j
            > gradMag sqrtf image.imgBW image.xsize image.ysize (i + 1) j ∧
          gradMag sqrtf image.imgBW image.xsize image.ysize i j
            > gradMag sqrtf image.imgBW image.xsize image.ysize i (j - 1) ∧
          gradMag sqrtf image.imgBW image.xsize image.ysize i j
            > gradMag sqrtf image.imgBW image.xsize image.ysize i (j + 1))
    (hk : ¬ truncInt (gradMag sqrtf image.imgBW image.xsize image.ysize i j * 1000)
            < genK sqrtf image)
    (hmt : ∃ t, (make_template sqrtf image.imgBW image.xsize image.ysize i j ts1 ts2 sd_thresh
          t).isSome = true) :
    ∃ t tp vlen v,
      make_template sqrtf image.imgBW image.xsize image.ysize i j ts1 ts2 sd_thresh t
        = some (tp, vlen) ∧
      fm.map[(j * image.xsize + i).toNat]? = some v ∧ Q i j tp vlen v := by
  obtain ⟨f, hf, hfm⟩ := ar2GenFeatureMap_some sqrtf fuel image ts1 ts2 search_size1 search_size2
    max_sim_thresh sd_thresh fm h
  have hcells := genScore_cells sqrtf image.imgBW image.xsize image.ysize ts1 ts2 search_size1
    search_size2 max_sim_thresh sd_thresh fuel _ _
    (fun i j v =>
      1 ≤ i → i ≤ image.xsize - 2 → 1 ≤ j → j ≤ image.ysize - 2 →
      localMax (genGradient sqrtf image.imgBW image.xsize image.ysize) image.xsize
        (j * image.xsize + i) →
      ¬ truncInt (genGradient sqrtf image.imgBW image.xsize image.ysize (j * image.xsize + i)
          * 1000) < genK sqrtf image →
      (∃ t, (make_template sqrtf image.imgBW image.xsize image.ysize i j ts1 ts2 sd_thresh
        t).isSome = true) →
      ∃ t tp vlen,
        make_template sqrtf image.imgBW image.xsize image.ysize i j ts1 ts2 sd_thresh t
          = some (tp, vlen) ∧ Q i j tp vlen v) hx hy
    (fun i j _ _ _ _ hb a1 a2 a3 a4 => by omega)
    (fun i j s s1 hi1 hi2 hj1 hj2 hfp hp => by
      obtain ⟨_, _, hcase⟩ := genPixel_some sqrtf image.imgBW image.xsize image.ysize ts1
        ts2 search_size1 search_size2 max_sim_thresh sd_thresh fuel _ _ j i s s1 hp
      rcases hcase with ⟨hnon, hv⟩ | ⟨_, _, tp, vlen, r, hm, hsearch, hv⟩
      · refine ⟨1, hv, fun _ _ _ _ c1 c2 c3 => ?_⟩
        exfalso
        rw [← hfp] at c1 c2
        rcases hnon with hl | hl | hl
        · unfold localMax at c1
          rcases hl with h1 | h1 | h1 | h1
          · exact absurd c1.1 (not_lt.mpr h1)
          · exact absurd c1.2.1 (not_lt.mpr h1)
          · exact absurd c1.2.2.1 (not_lt.mpr h1)
          · exact absurd c1.2.2.2 (not_lt.mpr h1)
        · exact c2 hl
        · obtain ⟨t, ht⟩ := c3
          rw [make_template_none_indep sqrtf image.imgBW image.xsize image.ysize i j ts1 ts2
            sd_thresh s.template t hl] at ht
          cases ht
      · exact ⟨r.1, hv, fun _ _ _ _ _ _ _ => ⟨s.template, tp, vlen, hm,
          hQ fuel i j tp vlen s.tile r hsearch⟩⟩)
    f hf
  have hidx := cell_index_range image.xsize image.ysize i j (by omega) (by omega) (by omega)
    (by omega)
  have g0 := genGradient_spec sqrtf image.imgBW image.xsize image.ysize hx hy i j
    (by omega) (by omega) (by omega) (by omega)
  obtain ⟨t, tp, vlen, hm, hq⟩ := hcells i j (by omega) (by omega) (by omega) (by omega)
    hi1 hi2 hj1 hj2
    ((localMax_gradMag sqrtf image.imgBW image.xsize image.ysize hx hy i j hi1 hi2 hj1
      hj2).mpr hlm)
    (by rw [g0]; exact hk) hmt
  refine ⟨t, tp, vlen, f (j * image.xsize + i), hm, ?_, hq⟩
  rw [hfm]
  dsimp only
  rw [List.getElem?_map, List.getElem?_range (by omega)]
  simp only [Option.map_some']
  rw [Int.toNat_of_nonneg hidx.1]

end GenCandidateRule

section NaiveScanTheorems

variable {K : Type} [LinearOrderedField K] [FloorRing K]

/-- C21, as amended: for an image with `xsize ≥ 2` and `ysize ≥ 2` and
`max_sim_thresh ≥ -1`, `ar2GenFeatureMap` returns a map, and for every
candidate pixel `(i, j)` (interior, strict maximum of the gradient magnitude
among its four neighbours, `(int)(magnitude*1000) ≥ k`, valid template) the
value the tile-batched window scan stores is the value of the naive scan that
visits the offsets of `[-search_size1, search_size1]²` row by row, skips those
inside the exclusion disk and those at which `get_similarity` fails (patch out
of bounds or of zero variance), keeps the running maximum from `-1` and stops
at the first offset that makes it exceed `max_sim_thresh`; and the stored value
exceeds `max_sim_thresh` exactly when some such offset has a similarity above
`max_sim_thresh`. -/
theorem gen_scan_eq_naive (sqrtf : K → K) (image : AR2ImageT K)
    (ts1 ts2 search_size1 search_size2 : Int) (max_sim_thresh sd_thresh : K)
    (hx : 2 ≤ image.xsize) (hy : 2 ≤ image.ysize) (hthr : -1 ≤ max_sim_thresh) :
    (∃ fuel fm, ar2GenFeatureMap sqrtf fuel image ts1 ts2 search_size1 search_size2
      max_sim_thresh sd_thresh = some fm) ∧
    ∀ fuel fm, ar2GenFeatureMap sqrtf fuel image ts1 ts2 search_size1 search_size2
      max_sim_thresh sd_thresh = some fm →
      ∀ i j : Int, 1 ≤ i → i ≤ image.xsize - 2 → 1 ≤ j → j ≤ image.ysize - 2 →
        (gradMag sqrtf image.imgBW image.xsize image.ysize i j
            > gradMag sqrtf image.imgBW image.xsize image.ysize (i - 1) j ∧
          gradMag sqrtf image.imgBW image.xsize image.ysize i j
            > gradMag sqrtf image.imgBW image.xsize image.ysize (i + 1) j ∧
          gradMag sqrtf image.imgBW image.xsize image.ysize i j
            > gradMag sqrtf image.imgBW image.xsize image.ysize i (j - 1) ∧
          gradMag sqrtf image.imgBW image.xsize image.ysize i j
            > gradMag sqrtf image.imgBW image.xsize image.ysize i (j + 1)) →
        ¬ truncInt (gradMag sqrtf image.imgBW image.xsize image.ysize i j * 1000)
            < genK sqrtf image →
        (∃ t, (make_template sqrtf image.imgBW image.xsize image.ysize i j ts1 ts2 sd_thresh
          t).isSome = true) →
        ∃ t tp vlen v,
          make_template sqrtf image.imgBW image.xsize image.ysize i j ts1 ts2 sd_thresh t
            = some (tp, vlen) ∧
          fm.map[(j * image.xsize + i).toNat]? = some v ∧
          v = naiveScan sqrtf image.imgBW image.xsize image.ysize tp vlen ts1 ts2 search_size1
            search_size2 max_sim_thresh i j ∧
          (v > max_sim_thresh ↔
            ∃ x y : Int, (-search_size1 ≤ x ∧ x ≤ search_size1 ∧ -search_size1 ≤ y ∧
                y ≤ search_size1) ∧
              ¬ (x * x + y * y ≤ search_size2 * search_size2) ∧
              (get_similarity sqrtf image.imgBW image.xsize image.ysize tp vlen ts1 ts2
                (i + x) (j + y)).1 = 0 ∧
              (get_similarity sqrtf image.imgBW image.xsize image.ysize tp vlen ts1 ts2
                (i + x) (j + y)).2 > max_sim_thresh) := by
  refine ⟨ar2GenFeatureMap_returns sqrtf image ts1 ts2 search_size1 search_size2 max_sim_thresh
    sd_thresh, ?_⟩
  intro fuel fm h i j hi1 hi2 hj1 hj2 hlm hk hmt
  exact gen_candidate_rule sqrtf image ts1 ts2 search_size1 search_size2 max_sim_thresh
    sd_thresh hx hy
    (fun i j tp vlen v =>
      v = naiveScan sqrtf image.imgBW image.xsize image.ysize tp vlen ts1 ts2 search_size1
        search_size2 max_sim_thresh i j ∧
      (v > max_sim_thresh ↔
        ∃ x y : Int, (-search_size1 ≤ x ∧ x ≤ search_size1 ∧ -search_size1 ≤ y ∧
            y ≤ search_size1) ∧
          ¬ (x * x + y * y ≤ search_size2 * search_size2) ∧
          (get_similarity sqrtf image.imgBW image.xsize image.ysize tp vlen ts1 ts2
            (i + x) (j + y)).1 = 0 ∧
          (get_similarity sqrtf image.imgBW image.xsize image.ysize tp vlen ts1 ts2
            (i + x) (j + y)).2 > max_sim_thresh))
    (fun fuel i j tp vlen tile r hs =>
      genSearch_naive sqrtf image.imgBW image.xsize image.ysize tp vlen ts1 ts2 search_size1
        search_size2 max_sim_thresh hthr fuel i j tile r hs)
    fuel fm h i j hi1 hi2 hj1 hj2 hlm hk hmt

end NaiveScanTheorems

/-- C21, counterexample: on the 3×3 image whose only bright pixel is the
corner `(2, 2)`, with `ts1 = ts2 = 1`, `search_size1 = search_size2 = 0` and
`max_sim_thresh = -2`, the centre pixel is a candidate (strict maximum of the
gradient field, `(int)(magnitude*1000) = 332 = k`, valid template) for which
the stored value `-1` exceeds `max_sim_thresh`, although the window holds no
offset outside the exclusion disk. -/
theorem gen_scan_exceeds_without_offset :
    localMax (genGradient Real.sqrt edgeImage 3 3) 3 4 ∧
    ¬ truncInt (genGradient Real.sqrt edgeImage 3 3 4 * 1000)
        < genK Real.sqrt ⟨3, 3, 72, edgeImage⟩ ∧
    (make_template Real.sqrt edgeImage 3 3 1 1 1 1 0 (fun _ => 0)).isSome = true ∧
    (∃ fuel fm, ar2GenFeatureMap Real.sqrt fuel ⟨3, 3, 72, edgeImage⟩ 1 1 0 0 (-2) 0
        = some fm ∧
      fm.map[4]? = some (-1 : ℝ)) ∧
    (-1 : ℝ) > -2 ∧
    ¬ ∃ x y : Int, (-0 ≤ x ∧ x ≤ 0 ∧ -0 ≤ y ∧ y ≤ 0) ∧ ¬ (x * x + y * y ≤ 0 * 0) := by
  have hk : ¬ truncInt (genGradient Real.sqrt edgeImage 3 3 4 * 1000)
      < genK Real.sqrt ⟨3, 3, 72, edgeImage⟩ := by
    rw [edge_gradient.1, edge_truncInt, edge_genK]
    norm_num
  refine ⟨edge_localMax, hk, edge_template _, ?_, by norm_num, ?_⟩
  · obtain ⟨fuel, fm, h⟩ := ar2GenFeatureMap_returns Real.sqrt ⟨3, 3, 72, edgeImage⟩ 1 1 0 0
      (-2) 0
    refine ⟨fuel, fm, h, ?_⟩
    obtain ⟨f, hf, hfm⟩ := ar2GenFeatureMap_some Real.sqrt fuel ⟨3, 3, 72, edgeImage⟩ 1 1 0 0
      (-2) 0 fm h
    dsimp only at hf hfm
    have hcells := genScore_cells Real.sqrt edgeImage 3 3 1 1 0 0 (-2) 0 fuel _ _
      (fun i j v => i = 1 → j = 1 → v = -1) (by norm_num) (by norm_num)
      (fun i j _ _ _ _ hb a1 a2 => by omega)
      (fun i j s s1 hi1 hi2 hj1 hj2 hfp hp => by
        have hi : i = 1 := by omega
        have hj : j = 1 := by omega
        subst hi
        subst hj
        rw [show (1 : Int) * 3 + 1 = 4 from by norm_num] at hfp
        obtain ⟨tp, vlen, v, _, hv, ha, _⟩ := genPixel_candidate Real.sqrt edgeImage 3 3 1 1 0 0
          (-2) 0 fuel _ _ 1 1 s s1 hp (by rw [hfp]; exact edge_localMax)
          (by rw [hfp]; exact hk) ⟨_, edge_template (fun _ => 0)⟩
        refine ⟨v, hv, fun _ _ => ?_⟩
        rcases ha with ha | ⟨_, x, y, x1, x2, y1, y2, hd, _⟩
        · exact ha
        · exfalso
          have ex : x = 0 := by omega
          have ey : y = 0 := by omega
          rw [ex, ey] at hd
          norm_num at hd)
      f hf
    have hv := hcells 1 1 (by norm_num) (by norm_num) (by norm_num) (by norm_num) rfl rfl
    rw [show (1 : Int) * 3 + 1 = 4 from by norm_num] at hv
    rw [hfm]
    dsimp only
    rw [List.getElem?_map, List.getElem?_range (by decide)]
    simp only [Option.map_some']
    rw [show ((4 : Nat) : Int) = 4 from rfl, hv]
  · rintro ⟨x, y, ⟨x1, x2, y1, y2⟩, hd⟩
    have ex : x = 0 := by omega
    have ey : y = 0 := by omega
    rw [ex, ey] at hd
    norm_num at hd

/-- C21, witness: the 3×3 sample image over the reals with `Real.sqrt`,
`ts1 = ts2 = 1`, `search_size1 = 1`, `search_size2 = 0` and
`max_sim_thresh = 1/2`. -/
theorem gen_scan_eq_naive_witness :
    (∃ fuel fm, ar2GenFeatureMap Real.sqrt fuel ⟨3, 3, 72, edgeImage⟩ 1 1 1 0 (1 / 2) 0
      = some fm) ∧
    ∀ fuel fm, ar2GenFeatureMap Real.sqrt fuel ⟨3, 3, 72, edgeImage⟩ 1 1 1 0 (1 / 2) 0
      = some fm →
      ∀ i j : Int, 1 ≤ i → i ≤ (3 : Int) - 2 → 1 ≤ j → j ≤ (3 : Int) - 2 →
        (gradMag Real.sqrt edgeImage 3 3 i j > gradMag Real.sqrt edgeImage 3 3 (i - 1) j ∧
          gradMag Real.sqrt edgeImage 3 3 i j > gradMag Real.sqrt edgeImage 3 3 (i + 1) j ∧
          gradMag Real.sqrt edgeImage 3 3 i j > gradMag Real.sqrt edgeImage 3 3 i (j - 1) ∧
          gradMag Real.sqrt edgeImage 3 3 i j > gradMag Real.sqrt edgeImage 3 3 i (j + 1)) →
        ¬ truncInt (gradMag Real.sqrt edgeImage 3 3 i j * 1000)
            < genK Real.sqrt ⟨3, 3, 72, edgeImage⟩ →
        (∃ t, (make_template Real.sqrt edgeImage 3 3 i j 1 1 0 t).isSome = true) →
        ∃ t tp vlen v,
          make_template Real.sqrt edgeImage 3 3 i j 1 1 0 t = some (tp, vlen) ∧
          fm.map[(j * 3 + i).toNat]? = some v ∧
          v = naiveScan Real.sqrt edgeImage 3 3 tp vlen 1 1 1 0 (1 / 2) i j ∧
          (v > 1 / 2 ↔
            ∃ x y : Int, (-(1 : Int) ≤ x ∧ x ≤ 1 ∧ -(1 : Int) ≤ y ∧ y ≤ 1) ∧
              ¬ (x * x + y * y ≤ (0 : Int) * 0) ∧
              (get_similarity Real.sqrt edgeImage 3 3 tp vlen 1 1 (i + x) (j + y)).1 = 0 ∧
              (get_similarity Real.sqrt edgeImage 3 3 tp vlen 1 1 (i + x) (j + y)).2 > 1 / 2) :=
  gen_scan_eq_naive Real.sqrt ⟨3, 3, 72, edgeImage⟩ 1 1 1 0 (1 / 2) 0 (by norm_num)
    (by norm_num) (by norm_num)

section OccludeFarLemmas

variable {K : Type} [LinearOrderedField K]

/-- The occlusion loops leave every cell of the grid that is more than
`occ_size` away from `(cx, cy)` in one direction as it was. -/
theorem occlude_far (fimage2 : Int → K) (xsize ysize cx cy occ_size : Int) :
    ∀ x y : Int, 0 ≤ x → x < xsize → 0 ≤ y → y < ysize →
      (occ_size < |x - cx| ∨ occ_size < |y - cy|) →
      occlude fimage2 xsize ysize cx cy occ_size (y * xsize + x) = fimage2 (y * xsize + x) := by
  have hinv := forLoop_inv
    (fun j (f : Int → K) => forLoop (-occ_size) occ_size
      (fun i f =>
        if cy + j < 0 ∨ cy + j ≥ ysize ∨ cx + i < 0 ∨ cx + i ≥ xsize then f
        else Function.update f ((cy + j) * xsize + (cx + i)) 1)
      f)
    (fun _ g => ∀ x y : Int, 0 ≤ x → x < xsize → 0 ≤ y → y < ysize →
      (occ_size < |x - cx| ∨ occ_size < |y - cy|) → g (y * xsize + x) = fimage2 (y * xsize + x))
    (occ_size + 1 - -occ_size).toNat (-occ_size) occ_size fimage2 rfl
    (fun x y _ _ _ _ _ => rfl) ?_
  · exact hinv
  · intro J g hJ hg
    beta_reduce
    refine forLoop_inv
      (fun i (f : Int → K) =>
        if cy + (-occ_size + (J : Int)) < 0 ∨ cy + (-occ_size + (J : Int)) ≥ ysize ∨ cx + i < 0
            ∨ cx + i ≥ xsize then f
        else Function.update f ((cy + (-occ_size + (J : Int))) * xsize + (cx + i)) 1)
      (fun _ h => ∀ x y : Int, 0 ≤ x → x < xsize → 0 ≤ y → y < ysize →
        (occ_size < |x - cx| ∨ occ_size < |y - cy|) → h (y * xsize + x) = fimage2 (y * xsize + x))
      (occ_size + 1 - -occ_size).toNat (-occ_size) occ_size g rfl hg ?_
    intro C h hC hh
    beta_reduce
    split_ifs with hout
    · exact hh
    · intro x y hx0 hx1 hy0 hy1 hfar
      have hne : y * xsize + x
          ≠ (cy + (-occ_size + (J : Int))) * xsize + (cx + (-occ_size + (C : Int))) := by
        intro heq
        have hcell : x = cx + (-occ_size + (C : Int)) ∧ y = cy + (-occ_size + (J : Int)) := by
          by_contra hcon
          rcases lt_trichotomy y (cy + (-occ_size + (J : Int))) with h1 | h1 | h1
          · have := cell_index_lt xsize x y (cx + (-occ_size + (C : Int)))
              (cy + (-occ_size + (J : Int))) hx0 hx1 (by omega) (Or.inl h1)
            omega
          · rcases lt_trichotomy x (cx + (-occ_size + (C : Int))) with h2 | h2 | h2
            · have := cell_index_lt xsize x y (cx + (-occ_size + (C : Int)))
                (cy + (-occ_size + (J : Int))) hx0 hx1 (by omega) (Or.inr ⟨h1, h2⟩)
              omega
            · exact hcon ⟨h2, h1⟩
            · have := cell_index_lt xsize (cx + (-occ_size + (C : Int)))
                (cy + (-occ_size + (J : Int))) x y (by omega) (by omega) hx0
                (Or.inr ⟨h1.symm, h2⟩)
              omega
          · have := cell_index_lt xsize (cx + (-occ_size + (C : Int)))
              (cy + (-occ_size + (J : Int))) x y (by omega) (by omega) hx0 (Or.inl h1)
            omega
        have hC2 : (C : Int) < occ_size + 1 - -occ_size := by omega
        have hJ2 : (J : Int) < occ_size + 1 - -occ_size := by omega
        rcases hfar with hf | hf
        · rw [hcell.1, show cx + (-occ_size + (C : Int)) - cx = -occ_size + (C : Int) from by ring]
            at hf
          have := abs_le.mpr (⟨by omega, by omega⟩ :
            -occ_size ≤ -occ_size + (C : Int) ∧ -occ_size + (C : Int) ≤ occ_size)
          omega
        · rw [hcell.2, show cy + (-occ_size + (J : Int)) - cy = -occ_size + (J : Int) from by ring]
            at hf
          have := abs_le.mpr (⟨by omega, by omega⟩ :
            -occ_size ≤ -occ_size + (J : Int) ∧ -occ_size + (J : Int) ≤ occ_size)
          omega
      rw [Function.update_noteq hne]
      exact hh x y hx0 hx1 hy0 hy1 hfar

end OccludeFarLemmas

section FirstMinLemmas

variable {K : Type} [LinearOrderedField K]

/-- The minimum scan returns the first cell in row-major order that holds the
minimum of the grid, when that minimum is below `max_sim_thresh`. -/
theorem selectScan_first_min (fimage2 : Int → K) (xsize ysize : Int) (max_sim_thresh : K)
    (x0 y0 : Int) (hx0 : 0 ≤ x0) (hx1 : x0 < xsize) (hy0 : 0 ≤ y0) (hy1 : y0 < ysize)
    (hlt : fimage2 (y0 * xsize + x0) < max_sim_thresh)
    (hmin : ∀ x y : Int, 0 ≤ x → x < xsize → 0 ≤ y → y < ysize →
      fimage2 (y0 * xsize + x0) ≤ fimage2 (y * xsize + x))
    (hfirst : ∀ x y : Int, 0 ≤ x → x < xsize → 0 ≤ y → y < ysize →
      (y < y0 ∨ (y = y0 ∧ x < x0)) → fimage2 (y0 * xsize + x0) < fimage2 (y * xsize + x)) :
    (selectScan fimage2 xsize ysize max_sim_thresh).cx = x0 ∧
    (selectScan fimage2 xsize ysize max_sim_thresh).cy = y0 ∧
    (selectScan fimage2 xsize ysize max_sim_thresh).min_sim = fimage2 (y0 * xsize + x0) := by
  have smin := selectScan_min fimage2 xsize ysize max_sim_thresh
  have hc : (selectScan fimage2 xsize ysize max_sim_thresh).cx ≠ -1 :=
    fun h => smin.1 h x0 y0 hx0 hx1 hy0 hy1 hlt
  rcases selectScan_spec fimage2 xsize ysize max_sim_thresh with h | ⟨a1, a2, a3, a4, a5, _⟩
  · exact absurd h hc
  · have heq : (selectScan fimage2 xsize ysize max_sim_thresh).min_sim
        = fimage2 (y0 * xsize + x0) := by
      apply le_antisymm
      · exact (smin.2 hc x0 y0 hx0 hx1 hy0 hy1).1
      · have := hmin _ _ a1 a2 a3 a4
        rw [a5] at this
        exact this
    have hpos : (selectScan fimage2 xsize ysize max_sim_thresh).cy = y0 ∧
        (selectScan fimage2 xsize ysize max_sim_thresh).cx = x0 := by
      by_contra hne
      rcases (show ((selectScan fimage2 xsize ysize max_sim_thresh).cy < y0 ∨
            ((selectScan fimage2 xsize ysize max_sim_thresh).cy = y0 ∧
              (selectScan fimage2 xsize ysize max_sim_thresh).cx < x0)) ∨
          (y0 < (selectScan fimage2 xsize ysize max_sim_thresh).cy ∨
            (y0 = (selectScan fimage2 xsize ysize max_sim_thresh).cy ∧
              x0 < (selectScan fimage2 xsize ysize max_sim_thresh).cx)) by omega) with h | h
      · have := hfirst _ _ a1 a2 a3 a4 h
        rw [a5, heq] at this
        exact absurd this (lt_irrefl _)
      · have := (smin.2 hc x0 y0 hx0 hx1 hy0 hy1).2 h
        rw [heq] at this
        exact absurd this (lt_irrefl _)
    exact ⟨hpos.2, hpos.1, heq⟩

/-- An iteration of `ar2SelectFeature` below the cap whose selected cell
passes the template, contrast and re-verification tests: the state it
leaves. -/
theorem selectStep_accept_at (sqrtf : K → K) (image : AR2ImageT K)
    (ts1 ts2 search_size2 occ_size : Int) (max_sim_thresh min_sim_thresh sd_thresh : K)
    (st : SelectState K) (cx cy : Int) (v : K) (tp : Int → K) (vlen : K)
    (hnum : st.num < maxFeatureNum image.xsize image.ysize occ_size)
    (hsc : (selectScan st.fimage2 image.xsize image.ysize max_sim_thresh).cx = cx ∧
      (selectScan st.fimage2 image.xsize image.ysize max_sim_thresh).cy = cy ∧
      (selectScan st.fimage2 image.xsize image.ysize max_sim_thresh).min_sim = v)
    (hcx : cx ≠ -1)
    (hmt : make_template sqrtf image.imgBW image.xsize image.ysize cx cy ts1 ts2 0 st.template
      = some (tp, vlen))
    (hsd : ¬ vlen / ((ts1 + ts2 + 1 : Int) : K) < sd_thresh)
    (hver : verifyStop min_sim_thresh v
      (selectVerify sqrtf image.imgBW image.xsize image.ysize tp vlen ts1 ts2 search_size2 cx cy
        min_sim_thresh v) = false) :
    selectStep sqrtf image ts1 ts2 search_size2 occ_size max_sim_thresh min_sim_thresh sd_thresh st
      = some { fimage2 := occlude st.fimage2 image.xsize image.ysize cx cy occ_size,
               template := tp,
               coord := st.coord ++ [{ x := cx, y := cy,
                                       mx := (cx : K) / image.dpi * (254 / 10),
                                       my := ((image.ysize - cy : Int) : K) / image.dpi
                                         * (254 / 10),
                                       maxSim := v }],
               num := st.num + 1 } := by
  unfold selectStep
  rw [if_neg (not_not.mpr hnum)]
  dsimp only
  rw [hsc.1, hsc.2.1, hsc.2.2, if_neg hcx, hmt]
  dsimp only
  rw [if_neg hsd, hver, if_neg (by decide)]

end FirstMinLemmas

section VerifySoundLemmas

variable {K : Type} [LinearOrderedField K]

/-- The fold of the tile slots of `ar2SelectFeature2` into `(min, max)`: a
new `min` or `max` is the value of a slot of the run. -/
theorem verifyFold_sound (tile : Int → K) (min_sim_thresh min_sim : K) (i i_iter : Int)
    (mm : K × K) :
    ((verifyFold tile min_sim_thresh min_sim i i_iter mm).1 = mm.1 ∨
      ∃ abc : Int, i ≤ abc ∧ abc < i_iter ∧
        (verifyFold tile min_sim_thresh min_sim i i_iter mm).1 = tile (abc - i)) ∧
    ((verifyFold tile min_sim_thresh min_sim i i_iter mm).2 = mm.2 ∨
      ∃ abc : Int, i ≤ abc ∧ abc < i_iter ∧
        (verifyFold tile min_sim_thresh min_sim i i_iter mm).2 = tile (abc - i)) := by
  have h := forBreak_minmax (fun s : K × K => s)
    (fun _ => True) (fun v => ∃ abc : Int, i ≤ abc ∧ abc < i_iter ∧ v = tile (abc - i))
    (fun _ _ => True)
    i (i_iter - 1)
    (fun abc mm =>
      let min1 := if tile (abc - i) < mm.1 then tile (abc - i) else mm.1
      if tile (abc - i) < mm.1 ∧ (min1 < min_sim_thresh ∧ min1 < min_sim) then ((min1, mm.2), true)
      else
        let max1 := if tile (abc - i) > mm.2 then tile (abc - i) else mm.2
        if tile (abc - i) > mm.2 ∧ max1 > 99 / 100 then ((min1, max1), true)
        else ((min1, max1), false))
    (fun _ _ _ _ _ _ => trivial)
    (fun x s hx1 hx2 => by
      dsimp only
      have hsrc : ∃ abc : Int, i ≤ abc ∧ abc < i_iter ∧ tile (x - i) = tile (abc - i) :=
        ⟨x, hx1, by omega, rfl⟩
      generalize tile (x - i) = g at hsrc
      have hmin : (if g < s.1 then g else s.1) ≤ s.1 ∧
          ((if g < s.1 then g else s.1) = s.1 ∨
            ∃ abc : Int, i ≤ abc ∧ abc < i_iter ∧ (if g < s.1 then g else s.1) = tile (abc - i)) := by
        by_cases h6 : g < s.1
        · rw [if_pos h6]
          exact ⟨le_of_lt h6, Or.inr hsrc⟩
        · rw [if_neg h6]
          exact ⟨le_refl _, Or.inl rfl⟩
      have hmax : s.2 ≤ (if g > s.2 then g else s.2) ∧
          ((if g > s.2 then g else s.2) = s.2 ∨
            ∃ abc : Int, i ≤ abc ∧ abc < i_iter ∧ (if g > s.2 then g else s.2) = tile (abc - i)) := by
        by_cases h6 : g > s.2
        · rw [if_pos h6]
          exact ⟨le_of_lt h6, Or.inr hsrc⟩
        · rw [if_neg h6]
          exact ⟨le_refl _, Or.inl rfl⟩
      by_cases h4 : g < s.1 ∧
          ((if g < s.1 then g else s.1) < min_sim_thresh ∧ (if g < s.1 then g else s.1) < min_sim)
      · rw [if_pos h4]
        exact ⟨hmin.1, le_refl _, hmin.2, Or.inl rfl, fun _ => trivial, fun _ => trivial⟩
      rw [if_neg h4]
      by_cases h5 : g > s.2 ∧ (if g > s.2 then g else s.2) > 99 / 100
      · rw [if_pos h5]
        exact ⟨hmin.1, hmax.1, hmin.2, hmax.2, fun _ => trivial, fun _ => trivial⟩
      rw [if_neg h5]
      exact ⟨hmin.1, hmax.1, hmin.2, hmax.2, fun _ => trivial, fun _ => trivial⟩)
    (i_iter - 1 + 1 - i).toNat i mm (le_refl _) (le_refl _)
  obtain ⟨_, _, h3, h4, _⟩ := h
  exact ⟨h3, h4⟩

/-- The loop over `i` of the re-verification of `ar2SelectFeature2` for one
`j`, entered at `i`: a new `min` or `max` is the tile value at an offset of
the row from `i` on that lies in the disk, is not the centre and has its patch
inside the image. -/
theorem verifyRow2_sound (sqrtf : K → K) (imageBW : Int → Nat) (xsize ysize : Int)
    (template : Int → K) (vlen : K) (ts1 ts2 search_size2 cx cy : Int)
    (min_sim_thresh min_sim : K) (j : Int) :
    ∀ (n : Nat) (i : Int) (s : (K × K) × (Int → K)), (search_size2 + 1 - i).toNat ≤ n →
      ((verifyRow2 sqrtf imageBW xsize ysize template vlen ts1 ts2 search_size2 cx cy
          min_sim_thresh min_sim j i s).1.1 = s.1.1 ∨
        ∃ x : Int, i ≤ x ∧ x ≤ search_size2 ∧
          x * x + j * j ≤ search_size2 * search_size2 ∧ ¬ (x = 0 ∧ j = 0) ∧
          ¬ patchOutside xsize ysize (cx + x) (cy + j) ts1 ts2 ∧
          (verifyRow2 sqrtf imageBW xsize ysize template vlen ts1 ts2 search_size2 cx cy
              min_sim_thresh min_sim j i s).1.1
            = tileValue sqrtf imageBW xsize template vlen ts1 ts2 (cx + x) (cy + j)) ∧
      ((verifyRow2 sqrtf imageBW xsize ysize template vlen ts1 ts2 search_size2 cx cy
          min_sim_thresh min_sim j i s).1.2 = s.1.2 ∨
        ∃ x : Int, i ≤ x ∧ x ≤ search_size2 ∧
          x * x + j * j ≤ search_size2 * search_size2 ∧ ¬ (x = 0 ∧ j = 0) ∧
          ¬ patchOutside xsize ysize (cx + x) (cy + j) ts1 ts2 ∧
          (verifyRow2 sqrtf imageBW xsize ysize template vlen ts1 ts2 search_size2 cx cy
              min_sim_thresh min_sim j i s).1.2
            = tileValue sqrtf imageBW xsize template vlen ts1 ts2 (cx + x) (cy + j)) := by
  intro n
  induction n with
  | zero =>
      intro i s hn
      rw [verifyRow2, dif_neg (by omega)]
      exact ⟨Or.inl rfl, Or.inl rfl⟩
  | succ m ih =>
      intro i s hn
      rw [verifyRow2]
      by_cases hi : i ≤ search_size2
      · rw [dif_pos hi]
        obtain ⟨hge, hrun⟩ := verifyRun_spec xsize ysize cx cy ts1 ts2 search_size2 j i
          (512 + i - i).toNat i (le_refl _)
        by_cases hr : verifyRun xsize ysize cx cy ts1 ts2 search_size2 j i i = i
        · rw [if_pos hr]
          obtain ⟨r1, r2⟩ := ih (i + 1) s (by omega)
          constructor
          · rcases r1 with r1 | ⟨x, c1, c2, c3, c4, c5, c6⟩
            · exact Or.inl r1
            · exact Or.inr ⟨x, by omega, c2, c3, c4, c5, c6⟩
          · rcases r2 with r2 | ⟨x, c1, c2, c3, c4, c5, c6⟩
            · exact Or.inl r2
            · exact Or.inr ⟨x, by omega, c2, c3, c4, c5, c6⟩
        · rw [if_neg hr]
          have hlt : i < verifyRun xsize ysize cx cy ts1 ts2 search_size2 j i i := by omega
          generalize verifyRun xsize ysize cx cy ts1 ts2 search_size2 j i i = r0 at hrun hlt
          dsimp only
          have habs : |i - r0| = r0 - i := by
            rw [abs_sub_comm, abs_of_nonneg (by omega)]
          obtain ⟨f1, f2⟩ := verifyFold_sound
            (get_similarity_tile sqrtf imageBW xsize template vlen ts1 ts2 (cx + i) (cy + j)
              s.2 |i - r0|) min_sim_thresh min_sim i r0 s.1
          -- a slot of the run holds the tile value of a valid offset
          have hslot : ∀ abc : Int, i ≤ abc → abc < r0 →
              get_similarity_tile sqrtf imageBW xsize template vlen ts1 ts2 (cx + i) (cy + j)
                  s.2 |i - r0| (abc - i)
                = tileValue sqrtf imageBW xsize template vlen ts1 ts2 (cx + abc) (cy + j) := by
            intro abc a1 a2
            have hc : 0 ≤ abc - i ∧ abc - i < |i - r0| := ⟨by omega, by rw [habs]; omega⟩
            rw [get_similarity_tile_slot, if_pos hc,
              show cx + i + (abc - i) = cx + abc from by ring]
          by_cases hst : verifyStop min_sim_thresh min_sim
              (verifyFold (get_similarity_tile sqrtf imageBW xsize template vlen ts1 ts2
                (cx + i) (cy + j) s.2 |i - r0|) min_sim_thresh min_sim i r0 s.1) = true
          · rw [if_pos hst]
            dsimp only
            constructor
            · rcases f1 with f1 | ⟨abc, a1, a2, a3⟩
              · exact Or.inl f1
              · obtain ⟨d1, d2, d3, d4, _⟩ := hrun abc a1 a2
                exact Or.inr ⟨abc, a1, d4, not_lt.mp d1, d2, d3, by rw [a3, hslot abc a1 a2]⟩
            · rcases f2 with f2 | ⟨abc, a1, a2, a3⟩
              · exact Or.inl f2
              · obtain ⟨d1, d2, d3, d4, _⟩ := hrun abc a1 a2
                exact Or.inr ⟨abc, a1, d4, not_lt.mp d1, d2, d3, by rw [a3, hslot abc a1 a2]⟩
          · rw [if_neg hst, genAdvance_eq i r0 hlt]
            obtain ⟨r1, r2⟩ := ih r0
              (verifyFold (get_similarity_tile sqrtf imageBW xsize template vlen ts1 ts2
                (cx + i) (cy + j) s.2 |i - r0|) min_sim_thresh min_sim i r0 s.1,
               get_similarity_tile sqrtf imageBW xsize template vlen ts1 ts2 (cx + i) (cy + j)
                s.2 |i - r0|) (by omega)
            constructor
            · rcases r1 with r1 | ⟨x, c1, c2, c3, c4, c5, c6⟩
              · rcases f1 with f1 | ⟨abc, a1, a2, a3⟩
                · exact Or.inl (r1.trans f1)
                · obtain ⟨d1, d2, d3, d4, _⟩ := hrun abc a1 a2
                  exact Or.inr ⟨abc, a1, d4, not_lt.mp d1, d2, d3,
                    by rw [r1]; dsimp only; rw [a3, hslot abc a1 a2]⟩
              · exact Or.inr ⟨x, by omega, c2, c3, c4, c5, c6⟩
            · rcases r2 with r2 | ⟨x, c1, c2, c3, c4, c5, c6⟩
              · rcases f2 with f2 | ⟨abc, a1, a2, a3⟩
                · exact Or.inl (r2.trans f2)
                · obtain ⟨d1, d2, d3, d4, _⟩ := hrun abc a1 a2
                  exact Or.inr ⟨abc, a1, d4, not_lt.mp d1, d2, d3,
                    by rw [r2]; dsimp only; rw [a3, hslot abc a1 a2]⟩
              · exact Or.inr ⟨x, by omega, c2, c3, c4, c5, c6⟩
      · rw [dif_neg hi]
        exact ⟨Or.inl rfl, Or.inl rfl⟩

end VerifySoundLemmas

section VerifyAgreeLemmas

variable {K : Type} [LinearOrderedField K]

/-- The re-verification loops of `ar2SelectFeature2`: `min` is `1` or the
tile value at an offset of the window that lies in the disk, is not the centre
and has its patch inside the image, and `max` is `-1` or such a value. -/
theorem selectVerify2_sound (sqrtf : K → K) (imageBW : Int → Nat) (xsize ysize : Int)
    (template : Int → K) (vlen : K) (ts1 ts2 search_size2 cx cy : Int)
    (min_sim_thresh min_sim : K) (tile : Int → K) :
    ((selectVerify2 sqrtf imageBW xsize ysize template vlen ts1 ts2 search_size2 cx cy
        min_sim_thresh min_sim tile).1.1 = 1 ∨
      ∃ i j : Int, (-search_size2 ≤ i ∧ i ≤ search_size2 ∧ -search_size2 ≤ j ∧ j ≤ search_size2) ∧
        i * i + j * j ≤ search_size2 * search_size2 ∧ ¬ (i = 0 ∧ j = 0) ∧
        ¬ patchOutside xsize ysize (cx + i) (cy + j) ts1 ts2 ∧
        (selectVerify2 sqrtf imageBW xsize ysize template vlen ts1 ts2 search_size2 cx cy
          min_sim_thresh min_sim tile).1.1
          = tileValue sqrtf imageBW xsize template vlen ts1 ts2 (cx + i) (cy + j)) ∧
    ((selectVerify2 sqrtf imageBW xsize ysize template vlen ts1 ts2 search_size2 cx cy
        min_sim_thresh min_sim tile).1.2 = -1 ∨
      ∃ i j : Int, (-search_size2 ≤ i ∧ i ≤ search_size2 ∧ -search_size2 ≤ j ∧ j ≤ search_size2) ∧
        i * i + j * j ≤ search_size2 * search_size2 ∧ ¬ (i = 0 ∧ j = 0) ∧
        ¬ patchOutside xsize ysize (cx + i) (cy + j) ts1 ts2 ∧
        (selectVerify2 sqrtf imageBW xsize ysize template vlen ts1 ts2 search_size2 cx cy
          min_sim_thresh min_sim tile).1.2
          = tileValue sqrtf imageBW xsize template vlen ts1 ts2 (cx + i) (cy + j)) := by
  have h := forBreak_minmax (fun s : (K × K) × (Int → K) => s.1)
    (fun _ => True)
    (fun v => ∃ i j : Int,
      (-search_size2 ≤ i ∧ i ≤ search_size2 ∧ -search_size2 ≤ j ∧ j ≤ search_size2) ∧
      i * i + j * j ≤ search_size2 * search_size2 ∧ ¬ (i = 0 ∧ j = 0) ∧
      ¬ patchOutside xsize ysize (cx + i) (cy + j) ts1 ts2 ∧
      v = tileValue sqrtf imageBW xsize template vlen ts1 ts2 (cx + i) (cy + j))
    (fun _ _ => True)
    (-search_size2) search_size2
    (fun j s =>
      let s1 := verifyRow2 sqrtf imageBW xsize ysize template vlen ts1 ts2 search_size2 cx cy
        min_sim_thresh min_sim j (-search_size2) s
      (s1, verifyStop min_sim_thresh min_sim s1.1))
    (fun _ _ _ _ _ _ => trivial)
    (fun x s hx1 hx2 => by
      obtain ⟨b1, b2, _⟩ := verifyRow2_scan sqrtf imageBW xsize ysize template vlen
        ts1 ts2 search_size2 cx cy min_sim_thresh min_sim x
        (search_size2 + 1 - -search_size2).toNat (-search_size2) s (le_refl _)
      obtain ⟨c1, c2⟩ := verifyRow2_sound sqrtf imageBW xsize ysize template vlen
        ts1 ts2 search_size2 cx cy min_sim_thresh min_sim x
        (search_size2 + 1 - -search_size2).toNat (-search_size2) s (le_refl _)
      dsimp only
      refine ⟨b1, b2, ?_, ?_, fun _ => trivial, fun _ => trivial⟩
      · rcases c1 with c1 | ⟨i, d1, d2, d3, d4, d5, d6⟩
        · exact Or.inl c1
        · exact Or.inr ⟨i, x, ⟨d1, d2, hx1, hx2⟩, d3, d4, d5, d6⟩
      · rcases c2 with c2 | ⟨i, d1, d2, d3, d4, d5, d6⟩
        · exact Or.inl c2
        · exact Or.inr ⟨i, x, ⟨d1, d2, hx1, hx2⟩, d3, d4, d5, d6⟩)
    (search_size2 + 1 - -search_size2).toNat (-search_size2) ((1, -1), tile) (le_refl _)
    (le_refl _)
  obtain ⟨_, _, h3, h4, _⟩ := h
  exact ⟨h3, h4⟩

/-- The exit test on the result of the re-verification loops of
`ar2SelectFeature2` holds exactly when some offset of the window that lies in
the disk, is not the centre and has its patch inside the image has a tile
value below both `min_sim_thresh` and `min_sim` or above `0.99`, provided the
initial `min = 1` does not meet the test. -/
theorem selectVerify2_stop_iff (sqrtf : K → K) (imageBW : Int → Nat) (xsize ysize : Int)
    (template : Int → K) (vlen : K) (ts1 ts2 search_size2 cx cy : Int)
    (min_sim_thresh min_sim : K) (tile : Int → K) (hv : min_sim_thresh ≤ 1 ∨ min_sim ≤ 1) :
    verifyStop min_sim_thresh min_sim
        (selectVerify2 sqrtf imageBW xsize ysize template vlen ts1 ts2 search_size2 cx cy
          min_sim_thresh min_sim tile).1 = true ↔
      ∃ i j : Int, (-search_size2 ≤ i ∧ i ≤ search_size2 ∧ -search_size2 ≤ j ∧ j ≤ search_size2) ∧
        i * i + j * j ≤ search_size2 * search_size2 ∧ ¬ (i = 0 ∧ j = 0) ∧
        ¬ patchOutside xsize ysize (cx + i) (cy + j) ts1 ts2 ∧
        ((tileValue sqrtf imageBW xsize template vlen ts1 ts2 (cx + i) (cy + j) < min_sim_thresh ∧
          tileValue sqrtf imageBW xsize template vlen ts1 ts2 (cx + i) (cy + j) < min_sim) ∨
          tileValue sqrtf imageBW xsize template vlen ts1 ts2 (cx + i) (cy + j) > 99 / 100) := by
  obtain ⟨h1, h2⟩ := selectVerify2_sound sqrtf imageBW xsize ysize template vlen ts1 ts2
    search_size2 cx cy min_sim_thresh min_sim tile
  have h3 := selectVerify2_scan sqrtf imageBW xsize ysize template vlen ts1 ts2
    search_size2 cx cy min_sim_thresh min_sim tile
  generalize (selectVerify2 sqrtf imageBW xsize ysize template vlen ts1 ts2 search_size2 cx cy
    min_sim_thresh min_sim tile).1 = r at h1 h2 h3
  constructor
  · intro hst
    unfold verifyStop at hst
    rcases of_decide_eq_true hst with hm | hm
    · rcases h1 with h1 | ⟨i, j, w, c1, c2, c3, c4⟩
      · rw [h1] at hm
        rcases hv with hv | hv
        · exact absurd hm.1 (not_lt.mpr hv)
        · exact absurd hm.2 (not_lt.mpr hv)
      · rw [c4] at hm
        exact ⟨i, j, w, c1, c2, c3, Or.inl hm⟩
    · rcases h2 with h2 | ⟨i, j, w, c1, c2, c3, c4⟩
      · rw [h2] at hm
        exact absurd hm (by norm_num)
      · rw [c4] at hm
        exact ⟨i, j, w, c1, c2, c3, Or.inr hm⟩
  · rintro ⟨i, j, ⟨w1, w2, w3, w4⟩, c1, c2, c3, c4⟩
    rcases h3 with h3 | h3
    · exact h3
    · obtain ⟨b1, b2⟩ := h3 i j w1 w2 w3 w4 c1 c2 c3
      unfold verifyStop
      apply decide_eq_true
      rcases c4 with c4 | c4
      · exact Or.inl ⟨lt_of_le_of_lt b1 c4.1, lt_of_le_of_lt b1 c4.2⟩
      · exact Or.inr (lt_of_lt_of_le c4 b2)

/-- The two re-verifications reach the same decision at a candidate none of
whose neighbouring patches (the offsets of the window that lie in the disk,
are not the centre and have their patch inside the image) has zero variance,
whatever `tile_storage` holds on entry; the initial `min = 1` is taken not to
meet the exit test. -/
theorem verify_decisions_agree (sqrtf : K → K) (imageBW : Int → Nat) (xsize ysize : Int)
    (template : Int → K) (vlen : K) (ts1 ts2 search_size2 cx cy : Int)
    (min_sim_thresh min_sim : K) (tile : Int → K) (hv : min_sim_thresh ≤ 1 ∨ min_sim ≤ 1)
    (hnf : ∀ i j : Int, -search_size2 ≤ i → i ≤ search_size2 → -search_size2 ≤ j →
      j ≤ search_size2 → i * i + j * j ≤ search_size2 * search_size2 → ¬ (i = 0 ∧ j = 0) →
      ¬ patchOutside xsize ysize (cx + i) (cy + j) ts1 ts2 →
      (get_similarity sqrtf imageBW xsize ysize template vlen ts1 ts2 (cx + i) (cy + j)).1 = 0) :
    verifyStop min_sim_thresh min_sim
        (selectVerify2 sqrtf imageBW xsize ysize template vlen ts1 ts2 search_size2 cx cy
          min_sim_thresh min_sim tile).1
      = verifyStop min_sim_thresh min_sim
        (selectVerify sqrtf imageBW xsize ysize template vlen ts1 ts2 search_size2 cx cy
          min_sim_thresh min_sim) := by
  rw [Bool.eq_iff_iff, selectVerify2_stop_iff sqrtf imageBW xsize ysize template vlen ts1 ts2
    search_size2 cx cy min_sim_thresh min_sim tile hv,
    selectVerify_stop_iff sqrtf imageBW xsize ysize template vlen ts1 ts2
    search_size2 cx cy min_sim_thresh min_sim hv]
  constructor
  · rintro ⟨i, j, w, c1, c2, c3, c4⟩
    have hg := hnf i j w.1 w.2.1 w.2.2.1 w.2.2.2 c1 c2 c3
    have he := (get_similarity_inside sqrtf imageBW xsize ysize template vlen ts1 ts2
      (cx + i) (cy + j) c3).2 (by rw [hg]; norm_num)
    rw [← he] at c4
    exact ⟨i, j, w, c1, c2, hg, c4⟩
  · rintro ⟨i, j, w, c1, c2, c3, c4⟩
    have hin := (get_similarity_fst sqrtf imageBW xsize ysize template vlen ts1 ts2
      (cx + i) (cy + j)).2 c3
    have he := (get_similarity_inside sqrtf imageBW xsize ysize template vlen ts1 ts2
      (cx + i) (cy + j) hin).2 (by rw [c3]; norm_num)
    rw [he] at c4
    exact ⟨i, j, w, c1, c2, hin, c4⟩

end VerifyAgreeLemmas

section RangeMapLemmas

variable {K : Type} [LinearOrderedField K]

/-- The working copy of a map given by a function on the cell numbers reads
that function inside the grid. -/
theorem copyMap_range (g : Nat → K) (n : Nat) (xsize ysize x y : Int)
    (hn : xsize * ysize = n) (hx0 : 0 ≤ x) (hx1 : x < xsize) (hy0 : 0 ≤ y) (hy1 : y < ysize) :
    copyMap ((List.range n).map g) xsize ysize (y * xsize + x) = g (y * xsize + x).toNat := by
  obtain ⟨h0, h1⟩ := cell_index_range xsize ysize x y hx0 hx1 hy0 hy1
  have hlt : (y * xsize + x).toNat < n := by omega
  unfold copyMap
  rw [if_pos ⟨h0, h1⟩, List.getD_eq_getElem?_getD, List.getElem?_map,
    List.getElem?_range hlt]
  rfl

end RangeMapLemmas

/-- The working copy of `pairMap`. -/
theorem pair_map_cells : pairCells (copyMap pairMap.map 20 2) (1 / 2) (3 / 4) := by
  intro x y hx0 hx1 hy0 hy1
  have h := copyMap_range (fun n : Nat => if n = 1 then (1 / 2 : ℚ) else if n = 5 then 3 / 4 else 1)
    40 20 2 x y (by norm_num) hx0 hx1 hy0 hy1
  have e : pairMap.map = (List.range 40).map
      (fun n : Nat => if n = 1 then (1 / 2 : ℚ) else if n = 5 then 3 / 4 else 1) := rfl
  rw [e, h]
  dsimp only
  by_cases h1 : x = 1 ∧ y = 0
  · rw [if_pos h1, if_pos (by omega)]
  · rw [if_neg h1, if_neg (by omega)]
    by_cases h2 : x = 5 ∧ y = 0
    · rw [if_pos h2, if_pos (by omega)]
    · rw [if_neg h2, if_neg (by omega)]

/-- The patch of a candidate of `pairImage`: a bright top row over a dark
bottom row. -/
theorem pair_patch (cx : Int) (hcx : cx = 1 ∨ cx = 5) :
    patchPixel pairImage 20 cx 0 0 0 0 = 1 ∧ patchPixel pairImage 20 cx 0 0 0 1 = 1 ∧
    patchPixel pairImage 20 cx 0 0 1 0 = 0 ∧ patchPixel pairImage 20 cx 0 0 1 1 = 0 := by
  rcases hcx with h | h <;> subst h <;> decide

/-- The patches to the left and to the right of a candidate of `pairImage`
hold one bright pixel in their top row. -/
theorem pair_patch_left (cx : Int) (hcx : cx = 1 ∨ cx = 5) :
    patchPixel pairImage 20 (cx + -1) (0 + 0) 0 0 0 = 0 ∧
    patchPixel pairImage 20 (cx + -1) (0 + 0) 0 0 1 = 1 ∧
    patchPixel pairImage 20 (cx + -1) (0 + 0) 0 1 0 = 0 ∧
    patchPixel pairImage 20 (cx + -1) (0 + 0) 0 1 1 = 0 := by
  rcases hcx with h | h <;> subst h <;> decide

theorem pair_patch_right (cx : Int) (hcx : cx = 1 ∨ cx = 5) :
    patchPixel pairImage 20 (cx + 1) (0 + 0) 0 0 0 = 1 ∧
    patchPixel pairImage 20 (cx + 1) (0 + 0) 0 0 1 = 0 ∧
    patchPixel pairImage 20 (cx + 1) (0 + 0) 0 1 0 = 0 ∧
    patchPixel pairImage 20 (cx + 1) (0 + 0) 0 1 1 = 0 := by
  rcases hcx with h | h <;> subst h <;> decide

theorem pair_patchMean (cx : Int) (hcx : cx = 1 ∨ cx = 5) :
    patchMean pairImage 20 cx 0 0 1 = (1 / 2 : ℚ) := by
  obtain ⟨p1, p2, p3, p4⟩ := pair_patch cx hcx
  have e : ((0 : Int) + 1 + 1).toNat = 2 := rfl
  unfold patchMean
  rw [e]
  simp only [Finset.sum_range_succ, Finset.sum_range_zero, p1, p2, p3, p4]
  norm_num

theorem pair_patchSqDev (cx : Int) (hcx : cx = 1 ∨ cx = 5) :
    patchSqDev pairImage 20 cx 0 0 1 = (1 : ℚ) := by
  obtain ⟨p1, p2, p3, p4⟩ := pair_patch cx hcx
  have e : ((0 : Int) + 1 + 1).toNat = 2 := rfl
  unfold patchSqDev
  rw [e, pair_patchMean cx hcx]
  simp only [Finset.sum_range_succ, Finset.sum_range_zero, p1, p2, p3, p4]
  norm_num

/-- The template of the two candidates of `pairImage`: `make_template`
succeeds with `vlen1 = 1` and the entries `1/2, 1/2, -1/2, -1/2`, whatever the
buffer holds on entry. -/
theorem pair_make_template (cx : Int) (hcx : cx = 1 ∨ cx = 5) (t : Int → ℚ) :
    ∃ tp, make_template (fun x : ℚ => x) pairImage 20 2 cx 0 0 1 0 t = some (tp, 1) ∧
      tp 0 = 1 / 2 ∧ tp 1 = 1 / 2 ∧ tp 2 = -1 / 2 ∧ tp 3 = -1 / 2 := by
  have hmt : make_template (fun x : ℚ => x) pairImage 20 2 cx 0 0 1 0 t
      = some ((templateFill pairImage 20 cx 0 0 1 (patchMean pairImage 20 cx 0 0 1) t).1, 1) := by
    rw [make_template_eq, if_neg (by unfold patchOutside; omega), pair_patchSqDev cx hcx,
      if_neg (by norm_num), if_neg (by norm_num)]
  generalize (templateFill pairImage 20 cx 0 0 1 (patchMean pairImage 20 cx 0 0 1) t).1 = tp
    at hmt
  obtain ⟨_, _, _, hentry⟩ := make_template_some (fun x : ℚ => x) pairImage 20 2 cx 0 0 1 0 t _ _
    hmt
  obtain ⟨p1, p2, p3, p4⟩ := pair_patch cx hcx
  refine ⟨tp, hmt, ?_, ?_, ?_, ?_⟩
  · have := hentry 0 0 (by decide) (by decide)
    rw [pair_patchMean cx hcx, p1] at this
    norm_num at this
    rw [this]
  · have := hentry 0 1 (by decide) (by decide)
    rw [pair_patchMean cx hcx, p2] at this
    norm_num at this
    rw [this]
  · have := hentry 1 0 (by decide) (by decide)
    rw [pair_patchMean cx hcx, p3] at this
    norm_num at this
    rw [this]
    norm_num
  · have := hentry 1 1 (by decide) (by decide)
    rw [pair_patchMean cx hcx, p4] at this
    norm_num at this
    rw [this]
    norm_num

/-- The similarity of the template of a candidate of `pairImage` at its left
and right neighbours: `get_similarity` succeeds with the value `2/3`. -/
theorem pair_similarity (cx : Int) (hcx : cx = 1 ∨ cx = 5) (i : Int) (hi : i = -1 ∨ i = 1)
    (tp : Int → ℚ) (h0 : tp 0 = 1 / 2) (h1 : tp 1 = 1 / 2) (h2 : tp 2 = -1 / 2)
    (h3 : tp 3 = -1 / 2) :
    get_similarity (fun x : ℚ => x) pairImage 20 2 tp 1 0 1 (cx + i) (0 + 0) = (0, 2 / 3) := by
  have e : ((0 : Int) + 1 + 1).toNat = 2 := rfl
  have t0 : tp (((0 : Nat) : Int) + ((0 : Nat) : Int) * (0 + 1 + 1)) = 1 / 2 := by
    rw [← h0]; congr 1
  have t1 : tp (((1 : Nat) : Int) + ((0 : Nat) : Int) * (0 + 1 + 1)) = 1 / 2 := by
    rw [← h1]; congr 1
  have t2 : tp (((0 : Nat) : Int) + ((1 : Nat) : Int) * (0 + 1 + 1)) = -1 / 2 := by
    rw [← h2]; congr 1
  have t3 : tp (((1 : Nat) : Int) + ((1 : Nat) : Int) * (0 + 1 + 1)) = -1 / 2 := by
    rw [← h3]; congr 1
  unfold get_similarity
  rw [if_neg (by unfold patchOutside; omega), simSums_eq, e]
  rcases hi with h | h <;> subst h
  · obtain ⟨p1, p2, p3, p4⟩ := pair_patch_left cx hcx
    simp only [Finset.sum_range_succ, Finset.sum_range_zero, p1, p2, p3, p4, t0, t1, t2, t3]
    norm_num
  · obtain ⟨p1, p2, p3, p4⟩ := pair_patch_right cx hcx
    simp only [Finset.sum_range_succ, Finset.sum_range_zero, p1, p2, p3, p4, t0, t1, t2, t3]
    norm_num

/-- The re-verification of `ar2SelectFeature` passes at a candidate of
`pairImage`: the only offsets at which `get_similarity` succeeds are the left
and right neighbours, with similarity `2/3`. -/
theorem pair_verify (cx : Int) (hcx : cx = 1 ∨ cx = 5) (tp : Int → ℚ) (h0 : tp 0 = 1 / 2)
    (h1 : tp 1 = 1 / 2) (h2 : tp 2 = -1 / 2) (h3 : tp 3 = -1 / 2) (v : ℚ) :
    verifyStop (3 / 10) v
      (selectVerify (fun x : ℚ => x) pairImage 20 2 tp 1 0 1 1 cx 0 (3 / 10) v) = false := by
  rw [Bool.eq_false_iff]
  intro hst
  rw [selectVerify_stop_iff (fun x : ℚ => x) pairImage 20 2 tp 1 0 1 1 cx 0 (3 / 10) v
    (Or.inl (by norm_num))] at hst
  obtain ⟨i, j, ⟨w1, w2, w3, w4⟩, c1, c2, c3, c4⟩ := hst
  by_cases hj : j = 0
  · subst hj
    have hi : i = -1 ∨ i = 1 := by omega
    rw [pair_similarity cx hcx i hi tp h0 h1 h2 h3] at c4
    norm_num at c4
  · have hin := (get_similarity_fst (fun x : ℚ => x) pairImage 20 2 tp 1 0 1 (cx + i)
      (0 + j)).2 c3
    apply hin
    unfold patchOutside
    omega

/-- The two re-verifications reach the same decision at a candidate of
`pairImage`: no neighbouring patch inside the image has zero variance. -/
theorem pair_agree (cx : Int) (hcx : cx = 1 ∨ cx = 5) (tp : Int → ℚ) (h0 : tp 0 = 1 / 2)
    (h1 : tp 1 = 1 / 2) (h2 : tp 2 = -1 / 2) (h3 : tp 3 = -1 / 2) (v : ℚ) (tile : Int → ℚ) :
    verifyStop (3 / 10) v
        (selectVerify2 (fun x : ℚ => x) pairImage 20 2 tp 1 0 1 1 cx 0 (3 / 10) v tile).1
      = verifyStop (3 / 10) v
        (selectVerify (fun x : ℚ => x) pairImage 20 2 tp 1 0 1 1 cx 0 (3 / 10) v) := by
  refine verify_decisions_agree (fun x : ℚ => x) pairImage 20 2 tp 1 0 1 1 cx 0 (3 / 10) v tile
    (Or.inl (by norm_num)) (fun i j w1 w2 w3 w4 c1 c2 c3 => ?_)
  by_cases hj : j = 0
  · subst hj
    have hi : i = -1 ∨ i = 1 := by omega
    rw [pair_similarity cx hcx i hi tp h0 h1 h2 h3]
  · exfalso
    apply c3
    unfold patchOutside
    omega

/-- The occlusion around `(1, 0)` with `occ_size = 2` on the 20×2 grid
consumes the cell `(1, 0)` and leaves `(5, 0)` as it is. -/
theorem pair_occlude_first (f : Int → ℚ) (a b : ℚ) (hf : pairCells f a b) :
    pairCells (occlude f 20 2 1 0 2) 1 b := by
  intro x y hx0 hx1 hy0 hy1
  by_cases hnear : x ≤ 3
  · have h5 : ¬ (x = 5 ∧ y = 0) := by omega
    rw [(occlude_spec f 20 2 1 0 2).2 x y hx0 hx1 hy0 hy1 (by rw [abs_le]; constructor <;> omega)
      (by rw [abs_le]; constructor <;> omega), if_neg h5, ite_self]
  · have h1 : ¬ (x = 1 ∧ y = 0) := by omega
    rw [occlude_far f 20 2 1 0 2 x y hx0 hx1 hy0 hy1
      (Or.inl (by rw [abs_of_nonneg (by omega)]; omega)), hf x y hx0 hx1 hy0 hy1,
      if_neg h1, if_neg h1]

/-- The occlusion around `(5, 0)` with `occ_size = 2` on the 20×2 grid
consumes the cell `(5, 0)` and leaves `(1, 0)` as it is. -/
theorem pair_occlude_second (f : Int → ℚ) (a b : ℚ) (hf : pairCells f a b) :
    pairCells (occlude f 20 2 5 0 2) a 1 := by
  intro x y hx0 hx1 hy0 hy1
  by_cases hnear : 3 ≤ x ∧ x ≤ 7
  · have h1 : ¬ (x = 1 ∧ y = 0) := by omega
    rw [(occlude_spec f 20 2 5 0 2).2 x y hx0 hx1 hy0 hy1
      (by rw [abs_le]; constructor <;> omega) (by rw [abs_le]; constructor <;> omega),
      if_neg h1, ite_self]
  · have h5 : ¬ (x = 5 ∧ y = 0) := by omega
    rw [occlude_far f 20 2 5 0 2 x y hx0 hx1 hy0 hy1
      (Or.inl (by
        by_cases hx : x ≤ 2
        · rw [abs_of_nonpos (by omega)]; omega
        · rw [abs_of_nonneg (by omega)]; omega)), hf x y hx0 hx1 hy0 hy1, if_neg h5, if_neg h5]

/-- The minimum scan of the 20×2 sample on the initial working map finds
`(1, 0)` with the value `1/2`. -/
theorem pair_scan_first (f : Int → ℚ) (hf : pairCells f (1 / 2) (3 / 4)) :
    (selectScan f 20 2 (9 / 10)).cx = 1 ∧ (selectScan f 20 2 (9 / 10)).cy = 0 ∧
    (selectScan f 20 2 (9 / 10)).min_sim = 1 / 2 := by
  have hc : f (0 * 20 + 1) = 1 / 2 := by
    rw [hf 1 0 (by norm_num) (by norm_num) (by norm_num) (by norm_num), if_pos ⟨rfl, rfl⟩]
  have h := selectScan_first_min f 20 2 (9 / 10) 1 0 (by norm_num) (by norm_num) (by norm_num)
    (by norm_num) (by rw [hc]; norm_num)
    (fun x y a1 a2 a3 a4 => by
      rw [hc, hf x y a1 a2 a3 a4]
      split_ifs <;> norm_num)
    (fun x y a1 a2 a3 a4 hb => by
      have h1 : ¬ (x = 1 ∧ y = 0) := by omega
      have h5 : ¬ (x = 5 ∧ y = 0) := by omega
      rw [hc, hf x y a1 a2 a3 a4, if_neg h1, if_neg h5]
      norm_num)
  rw [hc] at h
  exact h

/-- The minimum scan of the 20×2 sample after the first occlusion finds
`(5, 0)` with the value `3/4`. -/
theorem pair_scan_second (f : Int → ℚ) (hf : pairCells f 1 (3 / 4)) :
    (selectScan f 20 2 (9 / 10)).cx = 5 ∧ (selectScan f 20 2 (9 / 10)).cy = 0 ∧
    (selectScan f 20 2 (9 / 10)).min_sim = 3 / 4 := by
  have hc : f (0 * 20 + 5) = 3 / 4 := by
    rw [hf 5 0 (by norm_num) (by norm_num) (by norm_num) (by norm_num), if_neg (by decide),
      if_pos ⟨rfl, rfl⟩]
  have h := selectScan_first_min f 20 2 (9 / 10) 5 0 (by norm_num) (by norm_num) (by norm_num)
    (by norm_num) (by rw [hc]; norm_num)
    (fun x y a1 a2 a3 a4 => by
      rw [hc, hf x y a1 a2 a3 a4]
      split_ifs <;> norm_num)
    (fun x y a1 a2 a3 a4 hb => by
      have h5 : ¬ (x = 5 ∧ y = 0) := by omega
      rw [hc, hf x y a1 a2 a3 a4, if_neg h5, ite_self]
      norm_num)
  rw [hc] at h
  exact h

/-- After the second occlusion the minimum scan of the 20×2 sample finds no
cell. -/
theorem pair_scan_none (f : Int → ℚ) (hf : pairCells f 1 1) :
    ∀ x y : Int, 0 ≤ x → x < 20 → 0 ≤ y → y < 2 → ¬ f (y * 20 + x) < 9 / 10 := by
  intro x y a1 a2 a3 a4
  rw [hf x y a1 a2 a3 a4]
  split_ifs <;> norm_num

/-- An iteration of `ar2SelectFeature` on the 20×2 sample whose minimum scan
finds one of the two candidates accepts it: the template is built, the
contrast test and the re-verification pass. -/
theorem pair_step_accept (occ_size : Int) (st : SelectState ℚ) (cx : Int) (hcx : cx = 1 ∨ cx = 5)
    (v : ℚ) (hn : st.num < maxFeatureNum 20 2 occ_size)
    (hsc : (selectScan st.fimage2 20 2 (9 / 10)).cx = cx ∧
      (selectScan st.fimage2 20 2 (9 / 10)).cy = 0 ∧
      (selectScan st.fimage2 20 2 (9 / 10)).min_sim = v) :
    ∃ st1, selectStep (fun x : ℚ => x) pairImageT 0 1 1 occ_size (9 / 10) (3 / 10) 0 st
        = some st1 ∧
      st1.fimage2 = occlude st.fimage2 20 2 cx 0 occ_size ∧
      st1.coord.map (fun c => (c.x, c.y, c.maxSim))
        = st.coord.map (fun c => (c.x, c.y, c.maxSim)) ++ [(cx, 0, v)] ∧
      st1.num = st.num + 1 := by
  obtain ⟨tp, hmt, h0, h1, h2, h3⟩ := pair_make_template cx hcx st.template
  refine ⟨_, selectStep_accept_at (fun x : ℚ => x) pairImageT 0 1 1 occ_size (9 / 10) (3 / 10) 0
    st cx 0 v tp 1 hn hsc (by omega) hmt (by norm_num) (pair_verify cx hcx tp h0 h1 h2 h3 v),
    rfl, ?_, rfl⟩
  rw [List.map_append]
  rfl

/-- The run of `ar2SelectFeature` on the 20×2 sample with `occ_size = 2`: the
first iteration accepts `(1, 0)` with score `1/2`, the second `(5, 0)` with
score `3/4`, and the third finds no cell below `max_sim_thresh`. -/
theorem pair_selectLoop :
    ∃ st, selectLoop (fun x : ℚ => x) pairImageT 0 1 1 2 (9 / 10) (3 / 10) 0 3
        (selectInit pairImageT pairMap) = some st ∧
      st.num = 2 ∧
      st.coord.map (fun c => (c.x, c.y, c.maxSim)) = [(1, 0, 1 / 2), (5, 0, 3 / 4)] := by
  have hcap : maxFeatureNum 20 2 2 = 10 := by decide
  obtain ⟨s1, hs1, hf1, hc1, hn1⟩ := pair_step_accept 2 (selectInit pairImageT pairMap) 1
    (Or.inl rfl) (1 / 2) (by rw [hcap]; decide) (pair_scan_first _ pair_map_cells)
  have hp1 : pairCells s1.fimage2 1 (3 / 4) := by
    rw [hf1]
    exact pair_occlude_first _ _ _ pair_map_cells
  have hn1' : s1.num = 1 := hn1
  obtain ⟨s2, hs2, hf2, hc2, hn2⟩ := pair_step_accept 2 s1 5 (Or.inr rfl) (3 / 4)
    (by rw [hcap, hn1']; decide) (pair_scan_second _ hp1)
  have hp2 : pairCells s2.fimage2 1 1 := by
    rw [hf2]
    exact pair_occlude_second _ _ _ hp1
  have hs3 := selectStep_none_of_full (fun x : ℚ => x) pairImageT 0 1 1 2 (9 / 10) (3 / 10) 0
    s2 (pair_scan_none _ hp2)
  refine ⟨s2, ?_, ?_, ?_⟩
  · rw [selectLoop, hs1]
    dsimp only
    rw [selectLoop, hs2]
    dsimp only
    rw [selectLoop, hs3]
  · rw [hn2, hn1']
    rfl
  · rw [hc2, hc1]
    rfl

/-- The call of `ar2SelectFeature` on the 20×2 sample with `occ_size = 2`
returns the two records `(1, 0)` and `(5, 0)`, in this order. -/
theorem pair_select_run :
    ∃ coords, ar2SelectFeature (fun x : ℚ => x) 3 pairImageT pairMap 0 1 1 2 (9 / 10) (3 / 10) 0
        = some (some (coords, 2)) ∧
      coords.map (fun c => (c.x, c.y, c.maxSim)) = [(1, 0, 1 / 2), (5, 0, 3 / 4)] := by
  obtain ⟨st, hl, hn, hc⟩ := pair_selectLoop
  refine ⟨st.coord, ?_, hc⟩
  unfold ar2SelectFeature
  rw [if_neg (by decide), if_neg (by decide), hl, Option.map_some', hn]

section Select2Simulation

variable {K : Type} [LinearOrderedField K]

/-- One iteration of `ar2SelectFeature2` is one iteration of
`ar2SelectFeature` with the same (doubled) `occ_size`, when the minimum
searches agree on the working map, the two caps coincide and the two
re-verifications reach the same decision at the candidate of this iteration
(the cell the minimum search returns below the cap, when its template is built
and passes the contrast test). -/
theorem select2Step_sim (sqrtf : K → K) (owner : Int → Int) (image : AR2ImageT K)
    (ts1 ts2 search_size2 occ_size : Int) (max_sim_thresh min_sim_thresh sd_thresh : K)
    (st : SelectState K × (Int → K))
    (hcap : maxFeatureNum2 image.xsize image.ysize occ_size ts1 ts2
      = maxFeatureNum image.xsize image.ysize occ_size)
    (hscan : (select2Scan st.1.fimage2 image.xsize image.ysize max_sim_thresh owner).min_tab
        = (selectScan st.1.fimage2 image.xsize image.ysize max_sim_thresh).min_sim ∧
      (select2Scan st.1.fimage2 image.xsize image.ysize max_sim_thresh owner).i_tab
        = (selectScan st.1.fimage2 image.xsize image.ysize max_sim_thresh).cx ∧
      (select2Scan st.1.fimage2 image.xsize image.ysize max_sim_thresh owner).j_tab
        = (selectScan st.1.fimage2 image.xsize image.ysize max_sim_thresh).cy)
    (hver : ∀ (sc : ThreadMin K) (tp : Int → K) (vlen : K),
      st.1.num < maxFeatureNum2 image.xsize image.ysize occ_size ts1 ts2 →
      select2Scan st.1.fimage2 image.xsize image.ysize max_sim_thresh owner = sc →
      sc.i_tab ≠ -1 →
      make_template sqrtf image.imgBW image.xsize image.ysize sc.i_tab sc.j_tab ts1 ts2 0
        st.1.template = some (tp, vlen) →
      ¬ vlen / ((ts1 + ts2 + 1 : Int) : K) < sd_thresh →
      verifyStop min_sim_thresh sc.min_tab
          (selectVerify2 sqrtf image.imgBW image.xsize image.ysize tp vlen ts1 ts2 search_size2
            sc.i_tab sc.j_tab min_sim_thresh sc.min_tab st.2).1
        = verifyStop min_sim_thresh sc.min_tab
          (selectVerify sqrtf image.imgBW image.xsize image.ysize tp vlen ts1 ts2 search_size2
            sc.i_tab sc.j_tab min_sim_thresh sc.min_tab)) :
    (select2Step sqrtf owner image ts1 ts2 search_size2 occ_size max_sim_thresh min_sim_thresh
        sd_thresh st).map Prod.fst
      = selectStep sqrtf image ts1 ts2 search_size2 occ_size max_sim_thresh min_sim_thresh
        sd_thresh st.1 := by
  unfold select2Step selectStep
  rw [← hcap]
  by_cases h1 : st.1.num < maxFeatureNum2 image.xsize image.ysize occ_size ts1 ts2
  · rw [if_neg (not_not.mpr h1), if_neg (not_not.mpr h1)]
    dsimp only
    rw [← hscan.1, ← hscan.2.1, ← hscan.2.2]
    by_cases h2 : (select2Scan st.1.fimage2 image.xsize image.ysize max_sim_thresh owner).i_tab
        = -1
    · rw [if_pos h2, if_pos h2]
      rfl
    · rw [if_neg h2, if_neg h2]
      cases hm : make_template sqrtf image.imgBW image.xsize image.ysize
          (select2Scan st.1.fimage2 image.xsize image.ysize max_sim_thresh owner).i_tab
          (select2Scan st.1.fimage2 image.xsize image.ysize max_sim_thresh owner).j_tab ts1 ts2 0
          st.1.template with
      | none => rfl
      | some p =>
          obtain ⟨tp, vlen⟩ := p
          dsimp only
          by_cases h3 : vlen / ((ts1 + ts2 + 1 : Int) : K) < sd_thresh
          · rw [if_pos h3, if_pos h3]
            rfl
          · rw [if_neg h3, if_neg h3, hver _ tp vlen h1 rfl h2 hm h3]
            by_cases h4 : verifyStop min_sim_thresh
                (select2Scan st.1.fimage2 image.xsize image.ysize max_sim_thresh owner).min_tab
                (selectVerify sqrtf image.imgBW image.xsize image.ysize tp vlen ts1 ts2
                  search_size2
                  (select2Scan st.1.fimage2 image.xsize image.ysize max_sim_thresh owner).i_tab
                  (select2Scan st.1.fimage2 image.xsize image.ysize max_sim_thresh owner).j_tab
                  min_sim_thresh
                  (select2Scan st.1.fimage2 image.xsize image.ysize max_sim_thresh owner).min_tab)
                = true
            · rw [if_pos h4, if_pos h4]
              rfl
            · rw [if_neg h4, if_neg h4]
              rfl
  · rw [if_pos h1, if_pos h1]
    rfl

/-- The loops of the two variants run in lockstep from a state with the
property `P`, when `P` is kept by the iterations of `ar2SelectFeature2`, the
rows of the minimum search are given to the threads in contiguous blocks of
increasing row order, the two caps coincide and the two re-verifications
reach the same decision at the candidate of every state with `P`. -/
theorem select2Loop_sim (sqrtf : K → K) (owner : Int → Int) (image : AR2ImageT K)
    (ts1 ts2 search_size2 occ_size : Int) (max_sim_thresh min_sim_thresh sd_thresh : K)
    (hown : ∀ j, 0 ≤ owner j ∧ owner j ≤ 3) (hmono : ∀ j j2, j ≤ j2 → owner j ≤ owner j2)
    (hcap : maxFeatureNum2 image.xsize image.ysize occ_size ts1 ts2
      = maxFeatureNum image.xsize image.ysize occ_size)
    (P : SelectState K × (Int → K) → Prop)
    (hP : ∀ st st1, P st →
      select2Step sqrtf owner image ts1 ts2 search_size2 occ_size max_sim_thresh min_sim_thresh
        sd_thresh st = some st1 → P st1)
    (hver : ∀ st, P st → ∀ (sc : ThreadMin K) (tp : Int → K) (vlen : K),
      st.1.num < maxFeatureNum2 image.xsize image.ysize occ_size ts1 ts2 →
      select2Scan st.1.fimage2 image.xsize image.ysize max_sim_thresh owner = sc →
      sc.i_tab ≠ -1 →
      make_template sqrtf image.imgBW image.xsize image.ysize sc.i_tab sc.j_tab ts1 ts2 0
        st.1.template = some (tp, vlen) →
      ¬ vlen / ((ts1 + ts2 + 1 : Int) : K) < sd_thresh →
      verifyStop min_sim_thresh sc.min_tab
          (selectVerify2 sqrtf image.imgBW image.xsize image.ysize tp vlen ts1 ts2 search_size2
            sc.i_tab sc.j_tab min_sim_thresh sc.min_tab st.2).1
        = verifyStop min_sim_thresh sc.min_tab
          (selectVerify sqrtf image.imgBW image.xsize image.ysize tp vlen ts1 ts2 search_size2
            sc.i_tab sc.j_tab min_sim_thresh sc.min_tab)) :
    ∀ (fuel : Nat) (st : SelectState K × (Int → K)), P st →
      (select2Loop sqrtf owner image ts1 ts2 search_size2 occ_size max_sim_thresh min_sim_thresh
          sd_thresh fuel st).map Prod.fst
        = selectLoop sqrtf image ts1 ts2 search_size2 occ_size max_sim_thresh min_sim_thresh
          sd_thresh fuel st.1 := by
  intro fuel
  induction fuel with
  | zero => intro st _; rfl
  | succ m ih =>
      intro st hst
      have hstep := select2Step_sim sqrtf owner image ts1 ts2 search_size2 occ_size
        max_sim_thresh min_sim_thresh sd_thresh st hcap
        (select2Scan_eq_selectScan st.1.fimage2 image.xsize image.ysize max_sim_thresh owner
          hown hmono) (hver st hst)
      rw [select2Loop, selectLoop]
      cases hs : select2Step sqrtf owner image ts1 ts2 search_size2 occ_size max_sim_thresh
          min_sim_thresh sd_thresh st with
      | none =>
          rw [hs] at hstep
          rw [← hstep]
          rfl
      | some st1 =>
          rw [hs] at hstep
          rw [← hstep]
          exact ih st1 (hP st st1 hst hs)

/-- A state reached by the iterations of `ar2SelectFeature2` is followed by a
reached state. -/
theorem select2Iter_step (sqrtf : K → K) (owner : Int → Int) (image : AR2ImageT K)
    (ts1 ts2 search_size2 occ_size : Int) (max_sim_thresh min_sim_thresh sd_thresh : K)
    (s0 st st1 : SelectState K × (Int → K)) (n : Nat)
    (hn : select2Iter sqrtf owner image ts1 ts2 search_size2 occ_size max_sim_thresh
      min_sim_thresh sd_thresh n s0 = some st)
    (hs : select2Step sqrtf owner image ts1 ts2 search_size2 occ_size max_sim_thresh
      min_sim_thresh sd_thresh st = some st1) :
    select2Iter sqrtf owner image ts1 ts2 search_size2 occ_size max_sim_thresh
      min_sim_thresh sd_thresh (n + 1) s0 = some st1 := by
  rw [select2Iter, hn]
  exact hs

/-- C12, as amended: `ar2SelectFeature2` called with `occ_size` returns what
`ar2SelectFeature` returns when called with `2*occ_size` (the same sequence,
the same `*num`, and it returns exactly when the other does), provided the
rows of the minimum search are given to the threads `0..3` in contiguous
blocks of increasing row order, `ts1 + ts2 + 1 ≠ 0`, the two values of
`max_feature_num` coincide and the two re-verifications reach the same
decision at every candidate of the run of `ar2SelectFeature2`: at every state
`st` the loop reaches after some number `n` of iterations, below the cap, with
`sc` the cell its minimum search returns, `(tp, vlen)` the template
`make_template` builds there and the contrast test passed, the exit test on
the result of the tile-based re-verification (run on the `tile_storage` of
that state) equals the exit test on the result of the re-verification of
`ar2SelectFeature`. Then, for matching dimensions, `occ_size ≠ 0` and
`max_sim_thresh ≤ 1`, both calls return. -/
theorem select2_eq_select_doubled (sqrtf : K → K) (owner : Int → Int) (image : AR2ImageT K)
    (featureMap : AR2FeatureMapT K) (ts1 ts2 search_size2 occ_size : Int)
    (max_sim_thresh min_sim_thresh sd_thresh : K)
    (hown : ∀ j, 0 ≤ owner j ∧ owner j ≤ 3) (hmono : ∀ j j2, j ≤ j2 → owner j ≤ owner j2)
    (hts : ts1 + ts2 + 1 ≠ 0)
    (hcap : maxFeatureNum2 image.xsize image.ysize (occ_size * 2) ts1 ts2
      = maxFeatureNum image.xsize image.ysize (occ_size * 2))
    (hver : ∀ (n : Nat) (st : SelectState K × (Int → K)) (sc : ThreadMin K) (tp : Int → K)
        (vlen : K),
      select2Iter sqrtf owner image ts1 ts2 search_size2 (occ_size * 2) max_sim_thresh
        min_sim_thresh sd_thresh n (selectInit image featureMap, fun _ => 0) = some st →
      st.1.num < maxFeatureNum2 image.xsize image.ysize (occ_size * 2) ts1 ts2 →
      select2Scan st.1.fimage2 image.xsize image.ysize max_sim_thresh owner = sc →
      sc.i_tab ≠ -1 →
      make_template sqrtf image.imgBW image.xsize image.ysize sc.i_tab sc.j_tab ts1 ts2 0
        st.1.template = some (tp, vlen) →
      ¬ vlen / ((ts1 + ts2 + 1 : Int) : K) < sd_thresh →
      verifyStop min_sim_thresh sc.min_tab
          (selectVerify2 sqrtf image.imgBW image.xsize image.ysize tp vlen ts1 ts2 search_size2
            sc.i_tab sc.j_tab min_sim_thresh sc.min_tab st.2).1
        = verifyStop min_sim_thresh sc.min_tab
          (selectVerify sqrtf image.imgBW image.xsize image.ysize tp vlen ts1 ts2 search_size2
            sc.i_tab sc.j_tab min_sim_thresh sc.min_tab)) :
    (∀ fuel, ar2SelectFeature2 sqrtf owner fuel image featureMap ts1 ts2 search_size2 occ_size
        max_sim_thresh min_sim_thresh sd_thresh
      = ar2SelectFeature sqrtf fuel image featureMap ts1 ts2 search_size2 (occ_size * 2)
        max_sim_thresh min_sim_thresh sd_thresh) ∧
    (image.xsize = featureMap.xsize ∧ image.ysize = featureMap.ysize → occ_size ≠ 0 →
      max_sim_thresh ≤ 1 →
      ∃ fuel coords num, ar2SelectFeature2 sqrtf owner fuel image featureMap ts1 ts2 search_size2
        occ_size max_sim_thresh min_sim_thresh sd_thresh = some (some (coords, num))) := by
  refine ⟨fun fuel => ?_, fun hdim hocc hmax => ar2SelectFeature2_returns sqrtf owner image
    featureMap ts1 ts2 search_size2 occ_size max_sim_thresh min_sim_thresh sd_thresh hdim hocc
    hts hmax⟩
  have hloop := select2Loop_sim sqrtf owner image ts1 ts2 search_size2 (occ_size * 2)
    max_sim_thresh min_sim_thresh sd_thresh hown hmono hcap
    (fun st => ∃ n, select2Iter sqrtf owner image ts1 ts2 search_size2 (occ_size * 2)
      max_sim_thresh min_sim_thresh sd_thresh n (selectInit image featureMap, fun _ => 0)
      = some st)
    (fun st st1 hst hs => by
      obtain ⟨n, hn⟩ := hst
      exact ⟨n + 1, select2Iter_step sqrtf owner image ts1 ts2 search_size2 (occ_size * 2)
        max_sim_thresh min_sim_thresh sd_thresh _ st st1 n hn hs⟩)
    (fun st hst sc tp vlen h1 h2 h3 h4 h5 => by
      obtain ⟨n, hn⟩ := hst
      exact hver n st sc tp vlen hn h1 h2 h3 h4 h5)
    fuel (selectInit image featureMap, fun _ => 0) ⟨0, rfl⟩
  unfold ar2SelectFeature2 ar2SelectFeature
  by_cases hd : image.xsize ≠ featureMap.xsize ∨ image.ysize ≠ featureMap.ysize
  · rw [if_pos hd, if_pos hd]
  · rw [if_neg hd, if_neg hd]
    by_cases ho : occ_size * 2 = 0
    · rw [if_pos (Or.inl ho), if_pos ho]
    · rw [if_neg (by rw [not_or]; exact ⟨ho, by omega⟩), if_neg ho, ← hloop, Option.map_map]
      rfl

end Select2Simulation

/-- The two re-verifications reach the same decision at the candidate of any
state of the 20×2 sample whose working map holds the initial values, the
values after the first occlusion or the values after the second. -/
theorem pair_agree_at (owner : Int → Int) (hown : ∀ j, 0 ≤ owner j ∧ owner j ≤ 3)
    (hmono : ∀ j j2, j ≤ j2 → owner j ≤ owner j2) (st : SelectState ℚ × (Int → ℚ))
    (hinv : pairCells st.1.fimage2 (1 / 2) (3 / 4) ∨ pairCells st.1.fimage2 1 (3 / 4) ∨
      pairCells st.1.fimage2 1 1)
    (sc : ThreadMin ℚ) (tp : Int → ℚ) (vlen : ℚ)
    (hsc : select2Scan st.1.fimage2 20 2 (9 / 10) owner = sc) (hcx : sc.i_tab ≠ -1)
    (hmt : make_template (fun x : ℚ => x) pairImage 20 2 sc.i_tab sc.j_tab 0 1 0 st.1.template
      = some (tp, vlen)) :
    verifyStop (3 / 10) sc.min_tab
        (selectVerify2 (fun x : ℚ => x) pairImage 20 2 tp vlen 0 1 1 sc.i_tab sc.j_tab (3 / 10)
          sc.min_tab st.2).1
      = verifyStop (3 / 10) sc.min_tab
        (selectVerify (fun x : ℚ => x) pairImage 20 2 tp vlen 0 1 1 sc.i_tab sc.j_tab (3 / 10)
          sc.min_tab) := by
  obtain ⟨_, e2, e3⟩ := select2Scan_eq_selectScan st.1.fimage2 20 2 (9 / 10) owner hown hmono
  rw [hsc] at e2 e3
  have hcand : ∃ cx : Int, (cx = 1 ∨ cx = 5) ∧ sc.i_tab = cx ∧ sc.j_tab = 0 := by
    rcases hinv with h | h | h
    · obtain ⟨a1, a2, _⟩ := pair_scan_first _ h
      exact ⟨1, Or.inl rfl, e2.trans a1, e3.trans a2⟩
    · obtain ⟨a1, a2, _⟩ := pair_scan_second _ h
      exact ⟨5, Or.inr rfl, e2.trans a1, e3.trans a2⟩
    · exfalso
      rcases selectScan_spec st.1.fimage2 20 2 (9 / 10) with hs | ⟨a1, a2, a3, a4, a5, a6⟩
      · exact hcx (e2.trans hs)
      · apply pair_scan_none _ h _ _ a1 a2 a3 a4
        rw [a5]
        exact a6
  obtain ⟨cx, hc, hi, hj⟩ := hcand
  rw [hi, hj] at hmt ⊢
  obtain ⟨tp1, hmt1, h0, h1, h2, h3⟩ := pair_make_template cx hc st.1.template
  rw [hmt1] at hmt
  have he := Option.some.inj hmt
  have ht : tp1 = tp := congrArg Prod.fst he
  have hv : (1 : ℚ) = vlen := congrArg Prod.snd he
  subst ht
  subst hv
  exact pair_agree cx hc tp1 h0 h1 h2 h3 _ st.2

/-- An iteration of `ar2SelectFeature2` on the 20×2 sample with the doubled
`occ_size = 2` takes the working map from its initial values to the values
after the first occlusion, and from these to the values after the second. -/
theorem pair_select2_step (owner : Int → Int) (hown : ∀ j, 0 ≤ owner j ∧ owner j ≤ 3)
    (hmono : ∀ j j2, j ≤ j2 → owner j ≤ owner j2) (occ : Int) (hocc : occ = 2)
    (st st1 : SelectState ℚ × (Int → ℚ))
    (hinv : pairCells st.1.fimage2 (1 / 2) (3 / 4) ∨ pairCells st.1.fimage2 1 (3 / 4) ∨
      pairCells st.1.fimage2 1 1)
    (hs : select2Step (fun x : ℚ => x) owner pairImageT 0 1 1 occ (9 / 10) (3 / 10) 0 st
      = some st1) :
    pairCells st1.1.fimage2 (1 / 2) (3 / 4) ∨ pairCells st1.1.fimage2 1 (3 / 4) ∨
      pairCells st1.1.fimage2 1 1 := by
  subst hocc
  have hsim := select2Step_sim (fun x : ℚ => x) owner pairImageT 0 1 1 2 (9 / 10) (3 / 10) 0 st
    (by decide)
    (select2Scan_eq_selectScan st.1.fimage2 pairImageT.xsize pairImageT.ysize (9 / 10) owner
      hown hmono)
    (fun sc tp vlen _ hsc hcx hmt _ => pair_agree_at owner hown hmono st hinv sc tp vlen hsc hcx
      hmt)
  rw [hs] at hsim
  have hstep : selectStep (fun x : ℚ => x) pairImageT 0 1 1 2 (9 / 10) (3 / 10) 0 st.1
      = some st1.1 := hsim.symm
  obtain ⟨hnum, _, _⟩ := selectStep_some (fun x : ℚ => x) pairImageT 0 1 1 2 (9 / 10) (3 / 10) 0
    st.1 st1.1 hstep
  rcases hinv with h | h | h
  · obtain ⟨s1, hs1, hf1, _, _⟩ := pair_step_accept 2 st.1 1 (Or.inl rfl) (1 / 2) hnum
      (pair_scan_first _ h)
    rw [hs1] at hstep
    rw [← Option.some.inj hstep, hf1]
    exact Or.inr (Or.inl (pair_occlude_first _ _ _ h))
  · obtain ⟨s1, hs1, hf1, _, _⟩ := pair_step_accept 2 st.1 5 (Or.inr rfl) (3 / 4) hnum
      (pair_scan_second _ h)
    rw [hs1] at hstep
    rw [← Option.some.inj hstep, hf1]
    exact Or.inr (Or.inr (pair_occlude_second _ _ _ h))
  · rw [selectStep_none_of_full (fun x : ℚ => x) pairImageT 0 1 1 2 (9 / 10) (3 / 10) 0 st.1
      (pair_scan_none _ h)] at hstep
    cases hstep

/-- Every state the loop of `ar2SelectFeature2` reaches on the 20×2 sample
holds the initial working map, the map after the first occlusion or the map
after the second. -/
theorem pair_select2_reach (owner : Int → Int) (hown : ∀ j, 0 ≤ owner j ∧ owner j ≤ 3)
    (hmono : ∀ j j2, j ≤ j2 → owner j ≤ owner j2) (occ : Int) (hocc : occ = 2) :
    ∀ (n : Nat) (st : SelectState ℚ × (Int → ℚ)),
      select2Iter (fun x : ℚ => x) owner pairImageT 0 1 1 occ (9 / 10) (3 / 10) 0 n
        (selectInit pairImageT pairMap, fun _ => 0) = some st →
      pairCells st.1.fimage2 (1 / 2) (3 / 4) ∨ pairCells st.1.fimage2 1 (3 / 4) ∨
        pairCells st.1.fimage2 1 1 := by
  intro n
  induction n with
  | zero =>
      intro st h
      rw [select2Iter] at h
      rw [← Option.some.inj h]
      exact Or.inl pair_map_cells
  | succ m ih =>
      intro st h
      rw [select2Iter] at h
      obtain ⟨a, ha, hs⟩ := Option.bind_eq_some.mp h
      exact pair_select2_step owner hown hmono occ hocc a st (ih a ha) hs

/-- The call of `ar2SelectFeature2` on the 20×2 sample with `occ_size = 1`
(doubled to `2`), the rows given to the threads in contiguous blocks, returns
the two records `(1, 0)` and `(5, 0)`, in this order. -/
theorem pair_select2_run (owner : Int → Int) (hown : ∀ j, 0 ≤ owner j ∧ owner j ≤ 3)
    (hmono : ∀ j j2, j ≤ j2 → owner j ≤ owner j2) :
    ∃ coords, ar2SelectFeature2 (fun x : ℚ => x) owner 3 pairImageT pairMap 0 1 1 1 (9 / 10)
        (3 / 10) 0 = some (some (coords, 2)) ∧
      coords.map (fun c => (c.x, c.y, c.maxSim)) = [(1, 0, 1 / 2), (5, 0, 3 / 4)] := by
  have hloop := select2Loop_sim (fun x : ℚ => x) owner pairImageT 0 1 1 2 (9 / 10) (3 / 10) 0
    hown hmono (by decide)
    (fun st => pairCells st.1.fimage2 (1 / 2) (3 / 4) ∨ pairCells st.1.fimage2 1 (3 / 4) ∨
      pairCells st.1.fimage2 1 1)
    (fun st st1 hst hs => pair_select2_step owner hown hmono 2 rfl st st1 hst hs)
    (fun st hst sc tp vlen _ hsc hcx hmt _ => pair_agree_at owner hown hmono st hst sc tp vlen
      hsc hcx hmt)
    3 (selectInit pairImageT pairMap, fun _ => 0) (Or.inl pair_map_cells)
  obtain ⟨st, hl, hn, hc⟩ := pair_selectLoop
  rw [hl] at hloop
  cases hl2 : select2Loop (fun x : ℚ => x) owner pairImageT 0 1 1 2 (9 / 10) (3 / 10) 0 3
      (selectInit pairImageT pairMap, fun _ => 0) with
  | none =>
      rw [hl2] at hloop
      cases hloop
  | some st2 =>
      rw [hl2] at hloop
      have he : st2.1 = st := Option.some.inj hloop
      refine ⟨st.coord, ?_, hc⟩
      have hl3 : select2Loop (fun x : ℚ => x) owner pairImageT 0 1 1 (1 * 2) (9 / 10) (3 / 10) 0
          3 (selectInit pairImageT pairMap, fun _ => 0) = some st2 := hl2
      unfold ar2SelectFeature2
      rw [if_neg (by decide), if_neg (by decide), hl3, Option.map_some', he, hn]

section Select2StepCases

variable {K : Type} [LinearOrderedField K]

/-- An iteration of `ar2SelectFeature2` below the cap whose selected cell
passes the template and contrast tests and meets the exit test of the
re-verification: the cell is set to `1.0f` and nothing is recorded. -/
theorem select2Step_reject_at (sqrtf : K → K) (owner : Int → Int) (image : AR2ImageT K)
    (ts1 ts2 search_size2 occ_size : Int) (max_sim_thresh min_sim_thresh sd_thresh : K)
    (st : SelectState K × (Int → K)) (cx cy : Int) (v : K) (tp : Int → K) (vlen : K)
    (hnum : st.1.num < maxFeatureNum2 image.xsize image.ysize occ_size ts1 ts2)
    (hsc : (select2Scan st.1.fimage2 image.xsize image.ysize max_sim_thresh owner).i_tab = cx ∧
      (select2Scan st.1.fimage2 image.xsize image.ysize max_sim_thresh owner).j_tab = cy ∧
      (select2Scan st.1.fimage2 image.xsize image.ysize max_sim_thresh owner).min_tab = v)
    (hcx : cx ≠ -1)
    (hmt : make_template sqrtf image.imgBW image.xsize image.ysize cx cy ts1 ts2 0 st.1.template
      = some (tp, vlen))
    (hsd : ¬ vlen / ((ts1 + ts2 + 1 : Int) : K) < sd_thresh)
    (hver : verifyStop min_sim_thresh v
      (selectVerify2 sqrtf image.imgBW image.xsize image.ysize tp vlen ts1 ts2 search_size2 cx cy
        min_sim_thresh v st.2).1 = true) :
    ∃ st1, select2Step sqrtf owner image ts1 ts2 search_size2 occ_size max_sim_thresh
        min_sim_thresh sd_thresh st = some st1 ∧
      st1.1.fimage2 = Function.update st.1.fimage2 (cy * image.xsize + cx) 1 ∧
      st1.1.coord = st.1.coord ∧ st1.1.num = st.1.num := by
  unfold select2Step
  rw [if_neg (not_not.mpr hnum)]
  dsimp only
  rw [hsc.1, hsc.2.1, hsc.2.2, if_neg hcx, hmt]
  dsimp only
  rw [if_neg hsd, if_pos hver]
  exact ⟨_, rfl, rfl, rfl, rfl⟩

/-- An iteration of `ar2SelectFeature2` whose minimum search finds no cell
leaves the loop (the rows being given to the threads in contiguous blocks). -/
theorem select2Step_none_of_full (sqrtf : K → K) (owner : Int → Int) (image : AR2ImageT K)
    (ts1 ts2 search_size2 occ_size : Int) (max_sim_thresh min_sim_thresh sd_thresh : K)
    (hown : ∀ j, 0 ≤ owner j ∧ owner j ≤ 3) (hmono : ∀ j j2, j ≤ j2 → owner j ≤ owner j2)
    (st : SelectState K × (Int → K))
    (hfull : ∀ x y : Int, 0 ≤ x → x < image.xsize → 0 ≤ y → y < image.ysize →
      ¬ st.1.fimage2 (y * image.xsize + x) < max_sim_thresh) :
    select2Step sqrtf owner image ts1 ts2 search_size2 occ_size max_sim_thresh min_sim_thresh
      sd_thresh st = none := by
  have hcx : (select2Scan st.1.fimage2 image.xsize image.ysize max_sim_thresh owner).i_tab
      = -1 := by
    rw [(select2Scan_eq_selectScan st.1.fimage2 image.xsize image.ysize max_sim_thresh owner
      hown hmono).2.1]
    rcases selectScan_spec st.1.fimage2 image.xsize image.ysize max_sim_thresh with
      h | ⟨a1, a2, a3, a4, a5, a6⟩
    · exact h
    · exfalso
      apply hfull _ _ a1 a2 a3 a4
      rw [a5]
      exact a6
  unfold select2Step
  by_cases h1 : st.1.num < maxFeatureNum2 image.xsize image.ysize occ_size ts1 ts2
  · rw [if_neg (not_not.mpr h1)]
    dsimp only
    rw [if_pos hcx]
  · rw [if_pos h1]

end Select2StepCases

/-- The working copy of `cornerMap`. -/
theorem corner_map_cells : cornerCells (copyMap cornerMap.map 20 2) (1 / 2) := by
  intro x y hx0 hx1 hy0 hy1
  have h := copyMap_range (fun n : Nat => if n = 0 then (1 / 2 : ℚ) else 1)
    40 20 2 x y (by norm_num) hx0 hx1 hy0 hy1
  have e : cornerMap.map = (List.range 40).map
      (fun n : Nat => if n = 0 then (1 / 2 : ℚ) else 1) := rfl
  rw [e, h]
  dsimp only
  by_cases h1 : x = 0 ∧ y = 0
  · rw [if_pos h1, if_pos (by omega)]
  · rw [if_neg h1, if_neg (by omega)]

/-- The minimum scan on the initial working map of the corner sample finds the
origin with the value `1/2`. -/
theorem corner_scan (f : Int → ℚ) (hf : cornerCells f (1 / 2)) :
    (selectScan f 20 2 (9 / 10)).cx = 0 ∧ (selectScan f 20 2 (9 / 10)).cy = 0 ∧
    (selectScan f 20 2 (9 / 10)).min_sim = 1 / 2 := by
  have hc : f (0 * 20 + 0) = 1 / 2 := by
    rw [hf 0 0 (by norm_num) (by norm_num) (by norm_num) (by norm_num), if_pos ⟨rfl, rfl⟩]
  have h := selectScan_first_min f 20 2 (9 / 10) 0 0 (by norm_num) (by norm_num) (by norm_num)
    (by norm_num) (by rw [hc]; norm_num)
    (fun x y a1 a2 a3 a4 => by
      rw [hc, hf x y a1 a2 a3 a4]
      split_ifs <;> norm_num)
    (fun x y a1 a2 a3 a4 hb => by omega)
  rw [hc] at h
  exact h

/-- A working map of the corner sample whose origin holds `1` has no cell
below `max_sim_thresh`. -/
theorem corner_scan_none (f : Int → ℚ) (hf : cornerCells f 1) :
    ∀ x y : Int, 0 ≤ x → x < 20 → 0 ≤ y → y < 2 → ¬ f (y * 20 + x) < 9 / 10 := by
  intro x y a1 a2 a3 a4
  rw [hf x y a1 a2 a3 a4, ite_self]
  norm_num

/-- The template at the origin of the corner sample: `make_template` succeeds
with `vlen1 = 12`, whatever the buffer holds on entry. -/
theorem corner_make_template (t : Int → ℚ) :
    ∃ tp, make_template (fun x : ℚ => x) sampleImage 20 2 0 0 0 1 0 t = some (tp, 12) := by
  have p : patchPixel sampleImage 20 0 0 0 0 0 = 4 ∧ patchPixel sampleImage 20 0 0 0 0 1 = 0 ∧
      patchPixel sampleImage 20 0 0 0 1 0 = 0 ∧ patchPixel sampleImage 20 0 0 0 1 1 = 0 := by
    decide
  obtain ⟨p1, p2, p3, p4⟩ := p
  have e : ((0 : Int) + 1 + 1).toNat = 2 := rfl
  have hm : patchMean sampleImage 20 0 0 0 1 = (1 : ℚ) := by
    unfold patchMean
    rw [e]
    simp only [Finset.sum_range_succ, Finset.sum_range_zero, p1, p2, p3, p4]
    norm_num
  have hd : patchSqDev sampleImage 20 0 0 0 1 = (12 : ℚ) := by
    unfold patchSqDev
    rw [e, hm]
    simp only [Finset.sum_range_succ, Finset.sum_range_zero, p1, p2, p3, p4]
    norm_num
  refine ⟨(templateFill sampleImage 20 0 0 0 1 (patchMean sampleImage 20 0 0 0 1) t).1, ?_⟩
  rw [make_template_eq, if_neg (by decide), hd, if_neg (by norm_num), if_neg (by norm_num)]

/-- The patch to the right of the origin of the corner sample is uniformly
`0`. -/
theorem corner_flat (r c : Nat) : patchPixel sampleImage 20 (0 + 1) (0 + 0) 0 r c = 0 := by
  simp only [patchPixel, sampleImage]
  rw [if_neg (by omega)]

/-- The re-verification of `ar2SelectFeature` passes at the origin of the
corner sample: `get_similarity` succeeds at no offset of the disk. -/
theorem corner_verify (tp : Int → ℚ) (vlen v : ℚ) :
    verifyStop (3 / 10) v
      (selectVerify (fun x : ℚ => x) sampleImage 20 2 tp vlen 0 1 1 0 0 (3 / 10) v) = false := by
  rw [Bool.eq_false_iff]
  intro hst
  rw [selectVerify_stop_iff (fun x : ℚ => x) sampleImage 20 2 tp vlen 0 1 1 0 0 (3 / 10) v
    (Or.inl (by norm_num))] at hst
  obtain ⟨i, j, ⟨w1, w2, w3, w4⟩, c1, c2, c3, c4⟩ := hst
  by_cases hij : i = 1 ∧ j = 0
  · obtain ⟨hi, hj⟩ := hij
    subst hi
    subst hj
    rw [get_similarity_uniform (fun x : ℚ => x) sampleImage 20 2 tp vlen 0 1 (0 + 1) (0 + 0) 0
      (fun r c _ _ => corner_flat r c)] at c3
    norm_num at c3
  · have hin := (get_similarity_fst (fun x : ℚ => x) sampleImage 20 2 tp vlen 0 1 (0 + i)
      (0 + j)).2 c3
    apply hin
    unfold patchOutside
    omega

/-- The re-verification of `ar2SelectFeature2` meets its exit test at the
origin of the corner sample: the patch at offset `(1, 0)` is inside the image
and has zero variance, so its tile slot holds `-1`. -/
theorem corner_verify2 (tp : Int → ℚ) (vlen : ℚ) (tile : Int → ℚ) :
    verifyStop (3 / 10) (1 / 2)
      (selectVerify2 (fun x : ℚ => x) sampleImage 20 2 tp vlen 0 1 1 0 0 (3 / 10) (1 / 2)
        tile).1 = true := by
  rcases selectVerify2_scan (fun x : ℚ => x) sampleImage 20 2 tp vlen 0 1 1 0 0 (3 / 10) (1 / 2)
    tile with h | h
  · exact h
  · obtain ⟨b1, _⟩ := h 1 0 (by norm_num) (by norm_num) (by norm_num) (by norm_num)
      (by norm_num) (by decide) (by decide)
    rw [tileValue_uniform (fun x : ℚ => x) sampleImage 20 tp vlen 0 1 (0 + 1) (0 + 0) 0
      (fun r c _ _ => corner_flat r c)] at b1
    unfold verifyStop
    exact decide_eq_true (Or.inl ⟨lt_of_le_of_lt b1 (by norm_num), lt_of_le_of_lt b1 (by norm_num)⟩)

/-- The assignment of the two rows of a 20×2 grid to the threads `0` and `1`
gives each thread a contiguous block, in increasing row order. -/
theorem rowBlocks :
    (∀ j : Int, 0 ≤ (fun j : Int => if j ≤ 0 then (0 : Int) else 1) j ∧
      (fun j : Int => if j ≤ 0 then (0 : Int) else 1) j ≤ 3) ∧
    ∀ j j2 : Int, j ≤ j2 → (fun j : Int => if j ≤ 0 then (0 : Int) else 1) j
      ≤ (fun j : Int => if j ≤ 0 then (0 : Int) else 1) j2 := by
  constructor
  · intro j
    dsimp only
    split_ifs <;> omega
  · intro j j2 h
    dsimp only
    split_ifs <;> omega

/-- The call of `ar2SelectFeature` on the corner sample with `occ_size = 2`
returns the record of the origin: the flat patch at offset `(1, 0)` is skipped
by the re-verification. -/
theorem corner_select_run :
    ∃ coords, ar2SelectFeature (fun x : ℚ => x) 2 cornerImageT cornerMap 0 1 1 2 (9 / 10)
        (3 / 10) 0 = some (some (coords, 1)) ∧
      coords.map (fun c => (c.x, c.y, c.maxSim)) = [(0, 0, 1 / 2)] := by
  obtain ⟨tp, hmt⟩ := corner_make_template (selectInit cornerImageT cornerMap).template
  obtain ⟨s1, hs1, hf1, hc1, hn1⟩ : ∃ s1 : SelectState ℚ,
      selectStep (fun x : ℚ => x) cornerImageT 0 1 1 2 (9 / 10) (3 / 10) 0
        (selectInit cornerImageT cornerMap) = some s1 ∧
      s1.fimage2 = occlude (copyMap cornerMap.map 20 2) 20 2 0 0 2 ∧
      s1.coord.map (fun c => (c.x, c.y, c.maxSim)) = [(0, 0, 1 / 2)] ∧ s1.num = 1 :=
    ⟨_, selectStep_accept_at (fun x : ℚ => x) cornerImageT 0 1 1 2 (9 / 10) (3 / 10) 0
      (selectInit cornerImageT cornerMap) 0 0 (1 / 2) tp 12 (by decide)
      (corner_scan _ corner_map_cells) (by decide) hmt (by norm_num)
      (corner_verify tp 12 (1 / 2)), rfl, rfl, rfl⟩
  have hcells : cornerCells s1.fimage2 1 := by
    intro x y hx0 hx1 hy0 hy1
    rw [ite_self, hf1]
    by_cases hnear : x ≤ 2
    · exact (occlude_spec (copyMap cornerMap.map 20 2) 20 2 0 0 2).2 x y hx0 hx1 hy0 hy1
        (by rw [abs_le]; constructor <;> omega) (by rw [abs_le]; constructor <;> omega)
    · have h0 : ¬ (x = 0 ∧ y = 0) := by omega
      rw [occlude_far (copyMap cornerMap.map 20 2) 20 2 0 0 2 x y hx0 hx1 hy0 hy1
        (Or.inl (by rw [abs_of_nonneg (by omega)]; omega)),
        corner_map_cells x y hx0 hx1 hy0 hy1, if_neg h0]
  have hs2 := selectStep_none_of_full (fun x : ℚ => x) cornerImageT 0 1 1 2 (9 / 10) (3 / 10) 0
    s1 (corner_scan_none _ hcells)
  refine ⟨s1.coord, ?_, hc1⟩
  unfold ar2SelectFeature
  rw [if_neg (by decide), if_neg (by decide), selectLoop, hs1]
  dsimp only
  rw [selectLoop, hs2]
  dsimp only
  rw [Option.map_some', hn1]

/-- The call of `ar2SelectFeature2` on the corner sample with `occ_size = 1`
returns no record: the flat patch at offset `(1, 0)` is scored `-1` and the
origin is rejected. -/
theorem corner_select2_run (owner : Int → Int) (hown : ∀ j, 0 ≤ owner j ∧ owner j ≤ 3)
    (hmono : ∀ j j2, j ≤ j2 → owner j ≤ owner j2) :
    ar2SelectFeature2 (fun x : ℚ => x) owner 2 cornerImageT cornerMap 0 1 1 1 (9 / 10) (3 / 10) 0
      = some (some ([], 0)) := by
  obtain ⟨tp, hmt⟩ := corner_make_template (selectInit cornerImageT cornerMap).template
  obtain ⟨e1, e2, e3⟩ := select2Scan_eq_selectScan (copyMap cornerMap.map 20 2) 20 2 (9 / 10)
    owner hown hmono
  obtain ⟨a1, a2, a3⟩ := corner_scan _ corner_map_cells
  obtain ⟨st1, hs1, hf1, hc1, hn1⟩ := select2Step_reject_at (fun x : ℚ => x) owner cornerImageT
    0 1 1 (1 * 2) (9 / 10) (3 / 10) 0 (selectInit cornerImageT cornerMap, fun _ => 0) 0 0 (1 / 2)
    tp 12 (by decide) ⟨e2.trans a1, e3.trans a2, e1.trans a3⟩ (by decide) hmt (by norm_num)
    (corner_verify2 tp 12 _)
  have hcells : cornerCells st1.1.fimage2 1 := by
    intro x y hx0 hx1 hy0 hy1
    rw [ite_self, hf1]
    by_cases h0 : x = 0 ∧ y = 0
    · rw [h0.1, h0.2]
      exact Function.update_same _ _ _
    · have hne : y * 20 + x ≠ 0 * cornerImageT.xsize + 0 := by
        have : cornerImageT.xsize = 20 := rfl
        rw [this]
        omega
      rw [Function.update_noteq hne]
      have := corner_map_cells x y hx0 hx1 hy0 hy1
      rw [if_neg h0] at this
      exact this
  have hs2 := select2Step_none_of_full (fun x : ℚ => x) owner cornerImageT 0 1 1 (1 * 2) (9 / 10)
    (3 / 10) 0 hown hmono st1 (corner_scan_none _ hcells)
  unfold ar2SelectFeature2
  rw [if_neg (by decide), if_neg (by decide), select2Loop, hs1]
  dsimp only
  rw [select2Loop, hs2]
  dsimp only
  rw [Option.map_some', hc1, hn1]
  rfl

/-- C12, counterexample. (a) Called with the same inputs the two variants
differ: on the 2×2 sample image and map with `occ_size = 2`, `ts1 = 0`,
`ts2 = 1`, `search_size2 = 1`, `max_sim_thresh = 9/10`, `min_sim_thresh = 3/10`,
`sd_thresh = 0`, `ar2SelectFeature` returns the one coordinate `(0, 0)` while
`ar2SelectFeature2` returns none: its cap `(2/4)*(2/4) + (2/6)*(2/6)` is `0`.
(b) With `occ_size` doubled for `ar2SelectFeature`, the caps equal and the
rows given to the threads in contiguous blocks the two variants still differ
where the re-verifications disagree: on the 20×2 image whose only bright pixel
is the origin, with the map value `1/2` at the origin and `1` elsewhere, both
caps are `10`, `ar2SelectFeature` called with `occ_size = 2` returns the one
record `(0, 0)`, and `ar2SelectFeature2` called with `occ_size = 1` returns
none: the patch at offset `(1, 0)` has zero variance, which `get_similarity`
reports as a failure and `get_similarity_tile` scores `-1`. -/
theorem select_variants_differ :
    ((∃ coords, ar2SelectFeature (fun x : ℚ => x) 2 sampleImageT sampleMap 0 1 1 2 (9 / 10)
          (3 / 10) 0 = some (some (coords, 1)) ∧
        coords.map (fun c => (c.x, c.y)) = [(0, 0)]) ∧
      ar2SelectFeature2 (fun x : ℚ => x) (fun _ => 0) 1 sampleImageT sampleMap 0 1 1 2 (9 / 10)
        (3 / 10) 0 = some (some ([], 0))) ∧
    (maxFeatureNum2 cornerImageT.xsize cornerImageT.ysize (1 * 2) 0 1
        = maxFeatureNum cornerImageT.xsize cornerImageT.ysize (1 * 2) ∧
      (∃ coords, ar2SelectFeature (fun x : ℚ => x) 2 cornerImageT cornerMap 0 1 1 (1 * 2) (9 / 10)
          (3 / 10) 0 = some (some (coords, 1)) ∧
        coords.map (fun c => (c.x, c.y, c.maxSim)) = [(0, 0, 1 / 2)]) ∧
      ar2SelectFeature2 (fun x : ℚ => x) (fun j => if j ≤ 0 then 0 else 1) 2 cornerImageT
        cornerMap 0 1 1 1 (9 / 10) (3 / 10) 0 = some (some ([], 0))) := by
  refine ⟨⟨?_, ?_⟩, by decide, corner_select_run,
    corner_select2_run (fun j => if j ≤ 0 then 0 else 1) rowBlocks.1 rowBlocks.2⟩
  · obtain ⟨st1, hs1, hn, hc, hf⟩ := sample_select_accepts_two
    have hs2 : selectStep (fun x : ℚ => x) sampleImageT 0 1 1 2 (9 / 10) (3 / 10) 0 st1
        = none := by
      refine selectStep_none_of_full _ _ _ _ _ _ _ _ _ st1 (fun x y a1 a2 a3 a4 => ?_)
      have hone := (occlude_spec (copyMap sampleMap.map 2 2) 2 2 0 0 2).2 x y a1 a2 a3 a4
        (by
          have b1 : x < 2 := a2
          rw [abs_le]; constructor <;> omega)
        (by
          have b1 : y < 2 := a4
          rw [abs_le]; constructor <;> omega)
      rw [hf]
      have e : y * sampleImageT.xsize + x = y * 2 + x := rfl
      rw [e, hone]
      norm_num
    refine ⟨st1.coord, ?_, hc⟩
    unfold ar2SelectFeature
    rw [if_neg (by decide), if_neg (by decide), selectLoop, hs1]
    dsimp only
    rw [selectLoop, hs2]
    dsimp only
    rw [Option.map_some', hn]
  · unfold ar2SelectFeature2
    rw [if_neg (by decide), if_neg (by decide), select2Loop]
    have hstep : select2Step (fun x : ℚ => x) (fun _ => 0) sampleImageT 0 1 1 (2 * 2) (9 / 10)
        (3 / 10) 0 (selectInit sampleImageT sampleMap, fun _ => 0) = none := by
      unfold select2Step
      rw [if_pos (by decide)]
    rw [hstep]
    rfl

/-- C13, witness: the 20×2 sample image and map with `occ_size = 1`,
`ts1 = 0`, `ts2 = 1`, `search_size2 = 1`, `max_sim_thresh = 9/10`, the row `0`
given to thread `0` and the row `1` to thread `1`. The call returns the two
records `(1, 0)` and `(5, 0)`, which are `4 > 2*1` apart. -/
theorem select2_coords_separated_witness :
    (((0 : Int) + 1 + 1 ≠ 0 →
        ∃ fuel coords num, ar2SelectFeature2 (fun x : ℚ => x) (fun j => if j ≤ 0 then 0 else 1)
          fuel pairImageT pairMap 0 1 1 1 (9 / 10) (3 / 10) 0 = some (some (coords, num))) ∧
      ∀ fuel coords num, ar2SelectFeature2 (fun x : ℚ => x) (fun j => if j ≤ 0 then 0 else 1)
        fuel pairImageT pairMap 0 1 1 1 (9 / 10) (3 / 10) 0 = some (some (coords, num)) →
        ∀ (i j : Nat) (hi : i < coords.length) (hj : j < coords.length), i ≠ j →
          2 * (1 : Int) < max |(coords[i]).x - (coords[j]).x| |(coords[i]).y - (coords[j]).y|) ∧
    ∃ coords, ar2SelectFeature2 (fun x : ℚ => x) (fun j => if j ≤ 0 then 0 else 1) 3 pairImageT
        pairMap 0 1 1 1 (9 / 10) (3 / 10) 0 = some (some (coords, 2)) ∧
      coords.map (fun c => (c.x, c.y, c.maxSim)) = [(1, 0, 1 / 2), (5, 0, 3 / 4)] ∧
      ∀ (i j : Nat) (hi : i < coords.length) (hj : j < coords.length), i ≠ j →
        2 * (1 : Int) < max |(coords[i]).x - (coords[j]).x| |(coords[i]).y - (coords[j]).y| := by
  have h := select2_coords_separated (fun x : ℚ => x) (fun j => if j ≤ 0 then 0 else 1)
    pairImageT pairMap 0 1 1 1 (9 / 10) (3 / 10) 0 ⟨rfl, rfl⟩ (by decide) (by norm_num)
  obtain ⟨coords, hr, hc⟩ := pair_select2_run (fun j => if j ≤ 0 then 0 else 1) rowBlocks.1
    rowBlocks.2
  exact ⟨h, coords, hr, hc, h.2 3 coords 2 hr⟩

/-- C12, witness: the 20×2 sample image and map with `occ_size = 1` for
`ar2SelectFeature2` and `2` for `ar2SelectFeature`, `ts1 = 0`, `ts2 = 1`,
`search_size2 = 1`, `max_sim_thresh = 9/10`, `min_sim_thresh = 3/10`, the row
`0` given to thread `0` and the row `1` to thread `1`: both caps are `10`, the
candidates of the run are `(1, 0)` and `(5, 0)`, whose neighbouring patches
have non-zero variance (similarity `2/3`), and both calls return the two
records `(1, 0)` and `(5, 0)`. -/
theorem select2_eq_select_doubled_witness :
    ((∀ fuel, ar2SelectFeature2 (fun x : ℚ => x) (fun j => if j ≤ 0 then 0 else 1) fuel
          pairImageT pairMap 0 1 1 1 (9 / 10) (3 / 10) 0
        = ar2SelectFeature (fun x : ℚ => x) fuel pairImageT pairMap 0 1 1 (1 * 2) (9 / 10)
          (3 / 10) 0) ∧
      (pairImageT.xsize = pairMap.xsize ∧ pairImageT.ysize = pairMap.ysize → (1 : Int) ≠ 0 →
        (9 / 10 : ℚ) ≤ 1 →
        ∃ fuel coords num, ar2SelectFeature2 (fun x : ℚ => x) (fun j => if j ≤ 0 then 0 else 1)
          fuel pairImageT pairMap 0 1 1 1 (9 / 10) (3 / 10) 0 = some (some (coords, num)))) ∧
    ∃ coords, ar2SelectFeature (fun x : ℚ => x) 3 pairImageT pairMap 0 1 1 (1 * 2) (9 / 10)
        (3 / 10) 0 = some (some (coords, 2)) ∧
      ar2SelectFeature2 (fun x : ℚ => x) (fun j => if j ≤ 0 then 0 else 1) 3 pairImageT pairMap
        0 1 1 1 (9 / 10) (3 / 10) 0 = some (some (coords, 2)) ∧
      coords.map (fun c => (c.x, c.y, c.maxSim)) = [(1, 0, 1 / 2), (5, 0, 3 / 4)] := by
  have h := select2_eq_select_doubled (fun x : ℚ => x) (fun j => if j ≤ 0 then 0 else 1)
    pairImageT pairMap 0 1 1 1 (9 / 10) (3 / 10) 0 rowBlocks.1 rowBlocks.2 (by decide)
    (by decide)
    (fun n st sc tp vlen hn _ hsc hcx hmt _ =>
      pair_agree_at _ rowBlocks.1 rowBlocks.2 st
        (pair_select2_reach _ rowBlocks.1 rowBlocks.2 (1 * 2) (by norm_num) n st hn) sc tp vlen
        hsc hcx hmt)
  obtain ⟨coords, hr, hc⟩ := pair_select_run
  have hr2 : ar2SelectFeature (fun x : ℚ => x) 3 pairImageT pairMap 0 1 1 (1 * 2) (9 / 10)
      (3 / 10) 0 = some (some (coords, 2)) := hr
  exact ⟨h, coords, hr2, by rw [h.1 3]; exact hr2, hc⟩

/-- C2, witness: the 20×2 sample image and map with `occ_size = 2`,
`ts1 = 0`, `ts2 = 1`, `search_size2 = 1`, `max_sim_thresh = 9/10`. The call
returns the two records `(1, 0)` and `(5, 0)`, which are `4 > 2` apart. -/
theorem select_coords_separated_witness :
    ((∃ fuel coords num, ar2SelectFeature (fun x : ℚ => x) fuel pairImageT pairMap 0 1 1 2
        (9 / 10) (3 / 10) 0 = some (some (coords, num))) ∧
      ∀ fuel coords num, ar2SelectFeature (fun x : ℚ => x) fuel pairImageT pairMap 0 1 1 2
        (9 / 10) (3 / 10) 0 = some (some (coords, num)) →
        ∀ (i j : Nat) (hi : i < coords.length) (hj : j < coords.length), i ≠ j →
          (2 : Int) < max |(coords[i]).x - (coords[j]).x| |(coords[i]).y - (coords[j]).y|) ∧
    ∃ coords, ar2SelectFeature (fun x : ℚ => x) 3 pairImageT pairMap 0 1 1 2 (9 / 10) (3 / 10) 0
        = some (some (coords, 2)) ∧
      coords.map (fun c => (c.x, c.y, c.maxSim)) = [(1, 0, 1 / 2), (5, 0, 3 / 4)] ∧
      ∀ (i j : Nat) (hi : i < coords.length) (hj : j < coords.length), i ≠ j →
        (2 : Int) < max |(coords[i]).x - (coords[j]).x| |(coords[i]).y - (coords[j]).y| := by
  have h := select_coords_separated (fun x : ℚ => x) pairImageT pairMap 0 1 1 2 (9 / 10) (3 / 10)
    0 ⟨rfl, rfl⟩ (by decide) (by norm_num)
  obtain ⟨coords, hr, hc⟩ := pair_select_run
  exact ⟨h, coords, hr, hc, h.2 3 coords 2 hr⟩

/-- C19, witness: the 20×2 sample image and map with `occ_size = 2`,
`ts1 = 0`, `ts2 = 1`, `search_size2 = 1`, `max_sim_thresh = 9/10`. The call
returns the record of `(1, 0)` with score `1/2` before the record of `(5, 0)`
with score `3/4`. -/
theorem select_scores_nondecreasing_witness :
    ((pairImageT.xsize = pairMap.xsize ∧ pairImageT.ysize = pairMap.ysize → (2 : Int) ≠ 0 →
        ∃ fuel coords num, ar2SelectFeature (fun x : ℚ => x) fuel pairImageT pairMap 0 1 1 2
          (9 / 10) (3 / 10) 0 = some (some (coords, num))) ∧
      ∀ fuel coords num, ar2SelectFeature (fun x : ℚ => x) fuel pairImageT pairMap 0 1 1 2
        (9 / 10) (3 / 10) 0 = some (some (coords, num)) →
        ∀ (i j : Nat) (hi : i < coords.length) (hj : j < coords.length), i < j →
          (coords[i]).maxSim ≤ (coords[j]).maxSim) ∧
    ∃ coords, ar2SelectFeature (fun x : ℚ => x) 3 pairImageT pairMap 0 1 1 2 (9 / 10) (3 / 10) 0
        = some (some (coords, 2)) ∧
      coords.map (fun c => (c.x, c.y, c.maxSim)) = [(1, 0, 1 / 2), (5, 0, 3 / 4)] ∧
      ∀ (i j : Nat) (hi : i < coords.length) (hj : j < coords.length), i < j →
        (coords[i]).maxSim ≤ (coords[j]).maxSim := by
  have h := select_scores_nondecreasing (fun x : ℚ => x) pairImageT pairMap 0 1 1 2 (9 / 10)
    (3 / 10) 0 (by norm_num)
  obtain ⟨coords, hr, hc⟩ := pair_select_run
  exact ⟨h, coords, hr, hc, h.2 3 coords 2 hr⟩

end AR2
